import Mathlib

/-!
# k8s-to-drawio: dependency resolution and diagram-model construction

A shallow embedding of `internal/converter/converter.go` (`convertToDiagram`) and
`internal/k8s/parser.go` (`buildDependencies`, `findDependencies` and helpers),
followed by theorems about them.

Modelling conventions

* Go strings are Lean `String`s.  Every separator, marker and replaced character in
  the source is ASCII, so splitting, prefix tests and replacement on characters agree
  with the byte-level Go functions on valid UTF-8 text.
* A Go `map[string]T` that is only read and written by key is an association list in
  which the first binding of a key is the live one (`List.lookup`); writing a key
  conses a new binding in front.
* A Go map that is *ranged over* is a list of entries given in the order in which the
  runtime happens to traverse it.  The order is an explicit input, so a statement
  quantified over it holds for every order the runtime may choose.
* `(value, ok)` result pairs are `Option`s.
* Node geometry (`float64` in Go) only ever holds integers here and is an `Int`.
-/

namespace K8sToDrawio

/-! ## Strings (`strings` package) -/

/-- Go `strings.HasPrefix(s, p)`. -/
def hasPrefix (s p : String) : Bool :=
  p.data.isPrefixOf s.data

/-- Go `strings.TrimPrefix(s, p)`. -/
def trimPrefix (s p : String) : String :=
  if hasPrefix s p then ⟨s.data.drop p.data.length⟩ else s

/-- Go `strings.ReplaceAll(s, old, new)` for one-character `old` and `new`. -/
def replaceAll (s : String) (old new : Char) : String :=
  ⟨s.data.map (fun c => if c = old then new else c)⟩

/-- Splitting of a character list at every occurrence of `sep`; the pieces between
separators are kept, empty ones included, and the empty list gives one empty piece. -/
def splitChars (sep : Char) : List Char → List (List Char)
  | [] => [[]]
  | c :: cs =>
    if c = sep then [] :: splitChars sep cs
    else
      match splitChars sep cs with
      | [] => [[c]]
      | p :: ps => (c :: p) :: ps

/-- Go `strings.Split(s, sep)` for a one-character separator. -/
def split (s : String) (sep : Char) : List String :=
  (splitChars sep s.data).map String.mk

/-- Go `fmt.Sprintf("node-%d", i)` for a non-negative index. -/
def nodeID (i : Nat) : String :=
  "node-" ++ toString i

/-- Go `fmt.Sprintf("%s/%s", kind, name)`. -/
def compositeKey (kind name : String) : String :=
  kind ++ "/" ++ name

/-! ## Data model (`pkg/models/k8s.go`) -/

/-- A decoded JSON/YAML value as held in `unstructured.Unstructured.Object`:
`nil`, `bool`, `int64`, `string`, `[]interface{}`, `map[string]interface{}`
(`float64` scalars are left out).  An object lists its entries in the order a `range`
over it visits them. -/
inductive JVal where
  | null : JVal
  | bool (b : Bool) : JVal
  | int (n : Int) : JVal
  | str (s : String) : JVal
  | arr (xs : List JVal) : JVal
  | obj (kv : List (String × JVal)) : JVal

/-- Record `models.K8sResource`.  `Object` is the `Object` map of the
`*unstructured.Unstructured` that the parser stores in the field. -/
structure K8sResource where
  Object : List (String × JVal)
  Kind : String
  Name : String
  Namespace : String
  Labels : List (String × String)
  Annotations : List (String × String)

/-- Record `models.ResourceCollection`.  `Dependencies` is the Go map from
`kind/name` keys to dependency names, listed in traversal order. -/
structure ResourceCollection where
  Resources : List K8sResource
  Dependencies : List (String × List String)

/-- Record `models.Connection`. -/
structure Connection where
  SourceID : String
  TargetID : String
  Label : String
  Style : String
deriving DecidableEq, Repr

/-- Record `models.DiagramNode`. -/
structure DiagramNode where
  ID : String
  Label : String
  Kind : String
  Namespace : String
  X : Int
  Y : Int
  Width : Int
  Height : Int
  Style : String
  Connections : List Connection
deriving DecidableEq, Repr

/-- Record `models.NamespaceGroup`. -/
structure NamespaceGroup where
  Name : String
  X : Int
  Y : Int
  Width : Int
  Height : Int
  NodeIDs : List String
deriving DecidableEq, Repr

/-- Record `models.Diagram`. -/
structure Diagram where
  Nodes : List DiagramNode
  Connections : List Connection
  Layout : String
  Namespaces : List (String × NamespaceGroup)
deriving DecidableEq, Repr

/-- Record `converter.Config`. -/
structure Config where
  InputDir : String
  OutputFile : String
  UseKustomize : Bool
  Namespace : String
  Layout : String
  NoNamespaces : Bool

/-- Record `converter.Converter`. -/
structure Converter where
  config : Config

/-! ## Field access (`k8s.io/apimachinery` `unstructured` helpers) -/

/-- Walk of `unstructured.NestedFieldNoCopy` from the value `val` along `fields`:
a missing key, or a value that is not a map where a key has to be read, is "not
found". -/
def nestedFieldFrom : JVal → List String → Option JVal
  | val, [] => some val
  | JVal.obj m, field :: rest =>
    match m.lookup field with
    | some val => nestedFieldFrom val rest
    | none => none
  | _, _ :: _ => none

/-- Go `unstructured.NestedFieldNoCopy(obj, fields...)`. -/
def nestedField (obj : List (String × JVal)) (fields : List String) : Option JVal :=
  nestedFieldFrom (JVal.obj obj) fields

/-- Go `unstructured.NestedMap(obj, fields...)`: found only if the value is a map. -/
def nestedMap (obj : List (String × JVal)) (fields : List String) :
    Option (List (String × JVal)) :=
  match nestedField obj fields with
  | some (JVal.obj m) => some m
  | _ => none

/-- Go `unstructured.NestedSlice(obj, fields...)`: found only if the value is a
slice. -/
def nestedSlice (obj : List (String × JVal)) (fields : List String) : Option (List JVal) :=
  match nestedField obj fields with
  | some (JVal.arr xs) => some xs
  | _ => none

/-- Go `unstructured.NestedString(obj, fields...)`: found only if the value is a
string. -/
def nestedString (obj : List (String × JVal)) (fields : List String) : Option String :=
  match nestedField obj fields with
  | some (JVal.str s) => some s
  | _ => none

/-- Conversion of a map to `map[string]string`, failing on the first value that is not
a string. -/
def stringEntries : List (String × JVal) → Option (List (String × String))
  | [] => some []
  | (k, JVal.str s) :: rest =>
    match stringEntries rest with
    | some m => some ((k, s) :: m)
    | none => none
  | _ :: _ => none

/-- Go `unstructured.NestedStringMap(obj, fields...)`. -/
def nestedStringMap (obj : List (String × JVal)) (fields : List String) :
    Option (List (String × String)) :=
  match nestedMap obj fields with
  | some m => stringEntries m
  | none => none

/-- Go `a != b` on two `interface{}` values.  `none` is the run-time panic that Go
raises when both sides hold a map or both hold a slice; values of different dynamic
types are unequal. -/
def ifaceNe : JVal → JVal → Option Bool
  | JVal.null, JVal.null => some false
  | JVal.bool a, JVal.bool b => some (a != b)
  | JVal.int a, JVal.int b => some (a != b)
  | JVal.str a, JVal.str b => some (a != b)
  | JVal.arr _, JVal.arr _ => none
  | JVal.obj _, JVal.obj _ => none
  | _, _ => some true

/-- Go `unicode.IsSpace`. -/
def isSpace (c : Char) : Bool :=
  c == '\t' || c == '\n' || c == '\x0b' || c == '\x0c' || c == '\r' || c == ' ' ||
  c.toNat == 0x85 || c.toNat == 0xA0 || c.toNat == 0x1680 ||
  (0x2000 ≤ c.toNat && c.toNat ≤ 0x200A) || c.toNat == 0x2028 || c.toNat == 0x2029 ||
  c.toNat == 0x202F || c.toNat == 0x205F || c.toNat == 0x3000

/-- Go `strings.TrimSpace`. -/
def trimSpace (s : String) : String :=
  ⟨((s.data.dropWhile isSpace).reverse.dropWhile isSpace).reverse⟩

/-- Go `strings.Contains(s, sub)` for a one-character `sub`. -/
def containsChar (s : String) (c : Char) : Bool :=
  s.data.contains c

/-! ## `Parser` (`internal/k8s/parser.go`) -/

/-- Loop of lines 236-240 of `matchesSelector` over the selector entries: `some true`
when every entry is matched, `some false` at the first entry that is not, `none` when
the comparison panics. -/
def selectorLoop (labels : List (String × JVal)) : List (String × JVal) → Option Bool
  | [] => some true
  | (key, value) :: rest =>
    match labels.lookup key with
    | none => some false
    | some labelValue =>
      match ifaceNe labelValue value with
      | none => none
      | some true => some false
      | some false => selectorLoop labels rest

/-- Function `Parser.matchesSelector`; `none` is a run-time panic. -/
def matchesSelector (resource : K8sResource) (selector : List (String × JVal)) :
    Option Bool :=
  if resource.Kind ≠ "Deployment" ∧ resource.Kind ≠ "StatefulSet" ∧
      resource.Kind ≠ "DaemonSet" then some false
  else
    match nestedMap resource.Object ["spec", "template", "metadata", "labels"] with
    | some labels => selectorLoop labels selector
    | none => some false

/-- Loop of lines 256-260 of `matchesServiceLabels`: the label value is a string, so
the comparison with the selector value cannot panic. -/
def serviceLabelsLoop (labels : List (String × String)) : List (String × JVal) → Bool
  | [] => true
  | (key, value) :: rest =>
    match labels.lookup key with
    | none => false
    | some labelValue =>
      match value with
      | JVal.str s => if labelValue != s then false else serviceLabelsLoop labels rest
      | _ => false

/-- Function `Parser.matchesServiceLabels`; `obj.GetLabels()` is
`NestedStringMap(obj, "metadata", "labels")`, `nil` when not found. -/
def matchesServiceLabels (resource : K8sResource) (selector : List (String × JVal)) :
    Bool :=
  if resource.Kind ≠ "Service" then false
  else
    match nestedStringMap resource.Object ["metadata", "labels"] with
    | some labels => serviceLabelsLoop labels selector
    | none => false

/-- Body of the loop of lines 272-290 of `findVolumeDependencies`. -/
def volumeStep (dependencies : List String) (vol : JVal) : List String :=
  match vol with
  | JVal.obj volMap =>
    let dependencies :=
      match nestedMap volMap ["configMap"] with
      | some configMap =>
        (match nestedString configMap ["name"] with
         | some name => dependencies ++ [name]
         | none => dependencies)
      | none => dependencies
    let dependencies :=
      match nestedMap volMap ["secret"] with
      | some secret =>
        (match nestedString secret ["secretName"] with
         | some name => dependencies ++ [name]
         | none => dependencies)
      | none => dependencies
    match nestedMap volMap ["persistentVolumeClaim"] with
    | some pvc =>
      (match nestedString pvc ["claimName"] with
       | some name => dependencies ++ [name]
       | none => dependencies)
    | none => dependencies
  | _ => dependencies

/-- Function `Parser.findVolumeDependencies`. -/
def findVolumeDependencies (resource : K8sResource) : List String :=
  match nestedSlice resource.Object ["spec", "template", "spec", "volumes"] with
  | some volumes => volumes.foldl volumeStep []
  | none => []

/-- Body of the loop of lines 309-323 of `findEnvDependencies` (one `envFrom`
source). -/
def envFromStep (dependencies : List String) (envSource : JVal) : List String :=
  match envSource with
  | JVal.obj envSourceMap =>
    let dependencies :=
      match nestedMap envSourceMap ["configMapRef"] with
      | some configMapRef =>
        (match nestedString configMapRef ["name"] with
         | some name => dependencies ++ [name]
         | none => dependencies)
      | none => dependencies
    match nestedMap envSourceMap ["secretRef"] with
    | some secretRef =>
      (match nestedString secretRef ["name"] with
       | some name => dependencies ++ [name]
       | none => dependencies)
    | none => dependencies
  | _ => dependencies

/-- Body of the loop of lines 328-343 of `findEnvDependencies` (one `env` entry). -/
def envVarStep (dependencies : List String) (envVar : JVal) : List String :=
  match envVar with
  | JVal.obj envMap =>
    (match nestedMap envMap ["valueFrom"] with
     | some valueFrom =>
       let dependencies :=
         match nestedMap valueFrom ["configMapKeyRef"] with
         | some configMapRef =>
           (match nestedString configMapRef ["name"] with
            | some name => dependencies ++ [name]
            | none => dependencies)
         | none => dependencies
       (match nestedMap valueFrom ["secretKeyRef"] with
        | some secretRef =>
          (match nestedString secretRef ["name"] with
           | some name => dependencies ++ [name]
           | none => dependencies)
        | none => dependencies)
     | none => dependencies)
  | _ => dependencies

/-- Body of the loop of lines 304-346 of `findEnvDependencies` (one container). -/
def containerStep (dependencies : List String) (container : JVal) : List String :=
  match container with
  | JVal.obj containerMap =>
    let dependencies :=
      match nestedSlice containerMap ["envFrom"] with
      | some envFrom => envFrom.foldl envFromStep dependencies
      | none => dependencies
    match nestedSlice containerMap ["env"] with
    | some env => env.foldl envVarStep dependencies
    | none => dependencies
  | _ => dependencies

/-- Function `Parser.findEnvDependencies`. -/
def findEnvDependencies (resource : K8sResource) : List String :=
  match nestedSlice resource.Object ["spec", "template", "spec", "containers"] with
  | some containers => containers.foldl containerStep []
  | none => []

/-- Function `Parser.findServiceAccountDependencies`. -/
def findServiceAccountDependencies (resource : K8sResource) : List String :=
  match nestedString resource.Object ["spec", "template", "spec", "serviceAccountName"] with
  | some serviceAccountName => if serviceAccountName ≠ "" then [serviceAccountName] else []
  | none => []

/-- The `token-auth-mount` case (lines 394-404 and 455-465): the text before the first
colon of a `volume:file` value. -/
def tokenAuthMount (dependencies : List String) (value : String) : List String :=
  if containsChar value ':' then
    let parts := split value ':'
    if parts.length ≥ 1 ∧ parts.headD "" ≠ "" then dependencies ++ [parts.headD ""]
    else dependencies
  else dependencies

/-- Body of the loop of lines 380-406 of `findBankVaultsDependencies`. -/
def bankVaultsStep (dependencies : List String) (keyValue : String × String) :
    List String :=
  let key := keyValue.1
  let value := keyValue.2
  if key = "vault.security.banzaicloud.io/vault-tls-secret" ∧ value ≠ "" then
    dependencies ++ [value]
  else if key = "vault.security.banzaicloud.io/vault-serviceaccount" ∧ value ≠ "" then
    dependencies ++ [value]
  else if key = "vault.security.banzaicloud.io/token-auth-mount" ∧ value ≠ "" then
    tokenAuthMount dependencies value
  else dependencies

/-- Function `Parser.findBankVaultsDependencies`; the annotations are visited in list
order. -/
def findBankVaultsDependencies (resource : K8sResource) : List String :=
  resource.Annotations.foldl bankVaultsStep []

/-- Body of the loop of lines 440-451: one comma-separated Vault path. -/
def vaultPathStep (dependencies : List String) (path : String) : List String :=
  let path := trimSpace path
  if path ≠ "" then
    let cleanPath := trimPrefix path "secret/"
    let virtualSecretName :=
      "vault-secret-" ++ replaceAll (replaceAll cleanPath '/' '-') ':' '-'
    dependencies ++ [virtualSecretName]
  else dependencies

/-- Body of the loop of lines 422-467 of `findBankVaultsTemplateAnnotations`. -/
def bankVaultsTemplateStep (dependencies : List String) (keyValue : String × String) :
    List String :=
  let key := keyValue.1
  let value := keyValue.2
  if key = "vault.security.banzaicloud.io/vault-tls-secret" ∧ value ≠ "" then
    dependencies ++ [value]
  else if key = "vault.security.banzaicloud.io/vault-serviceaccount" ∧ value ≠ "" then
    dependencies ++ [value]
  else if key = "vault.security.banzaicloud.io/vault-env-from-path" ∧ value ≠ "" then
    (split value ',').foldl vaultPathStep dependencies
  else if key = "vault.security.banzaicloud.io/token-auth-mount" ∧ value ≠ "" then
    tokenAuthMount dependencies value
  else dependencies

/-- Function `Parser.findBankVaultsTemplateAnnotations`; the pod-template annotations
are visited in list order. -/
def findBankVaultsTemplateAnnotations (resource : K8sResource) : List String :=
  match nestedStringMap resource.Object ["spec", "template", "metadata", "annotations"] with
  | some annotations => annotations.foldl bankVaultsTemplateStep []
  | none => []

/-- Body of the loop of lines 482-490 of `findRoleBindingDependencies`. -/
def subjectStep (dependencies : List String) (subject : JVal) : List String :=
  match subject with
  | JVal.obj subjectMap =>
    (match nestedString subjectMap ["kind"] with
     | some kind =>
       if kind = "ServiceAccount" then
         (match nestedString subjectMap ["name"] with
          | some name => dependencies ++ [name]
          | none => dependencies)
       else dependencies
     | none => dependencies)
  | _ => dependencies

/-- Function `Parser.findRoleBindingDependencies`. -/
def findRoleBindingDependencies (resource : K8sResource) : List String :=
  let dependencies :=
    match nestedSlice resource.Object ["subjects"] with
    | some subjects => subjects.foldl subjectStep []
    | none => []
  match nestedMap resource.Object ["roleRef"] with
  | some roleRef =>
    (match nestedString roleRef ["name"] with
     | some name => dependencies ++ [name]
     | none => dependencies)
  | none => dependencies

/-- Body of the loop of lines 509-532 of `findServiceAccountUsers`. -/
def serviceAccountUserStep (serviceAccount : K8sResource) (dependencies : List String)
    (resource : K8sResource) : List String :=
  if resource.Kind = "Deployment" ∨ resource.Kind = "StatefulSet" ∨
      resource.Kind = "DaemonSet" ∨ resource.Kind = "Job" ∨ resource.Kind = "CronJob" then
    let found :=
      if resource.Kind = "CronJob" then
        nestedString resource.Object
          ["spec", "jobTemplate", "spec", "template", "spec", "serviceAccountName"]
      else if resource.Kind = "Job" then
        nestedString resource.Object ["spec", "template", "spec", "serviceAccountName"]
      else
        nestedString resource.Object ["spec", "template", "spec", "serviceAccountName"]
    match found with
    | some serviceAccountName =>
      if serviceAccountName = serviceAccount.Name then dependencies ++ [resource.Name]
      else dependencies
    | none => dependencies
  else dependencies

/-- Function `Parser.findServiceAccountUsers`. -/
def findServiceAccountUsers (serviceAccount : K8sResource)
    (allResources : List K8sResource) : List String :=
  allResources.foldl (serviceAccountUserStep serviceAccount) []

/-- Body of the loop of lines 132-138 (the `Service` case); `none` is a panic of
`matchesSelector`. -/
def serviceStep (selector : List (String × JVal)) (dependencies : Option (List String))
    (other : K8sResource) : Option (List String) :=
  match dependencies with
  | none => none
  | some dependencies =>
    match matchesSelector other selector with
    | none => none
    | some true => some (dependencies ++ [other.Name])
    | some false => some dependencies

/-- Body of the loop of lines 150-160 (one path of an `Ingress` rule). -/
def ingressPathStep (dependencies : List String) (path : JVal) : List String :=
  match path with
  | JVal.obj pathMap =>
    (match nestedMap pathMap ["backend"] with
     | some backend =>
       (match nestedMap backend ["service"] with
        | some service =>
          (match nestedString service ["name"] with
           | some serviceName => dependencies ++ [serviceName]
           | none => dependencies)
        | none => dependencies)
     | none => dependencies)
  | _ => dependencies

/-- Body of the loop of lines 146-164 (one `Ingress` rule). -/
def ingressRuleStep (dependencies : List String) (rule : JVal) : List String :=
  match rule with
  | JVal.obj ruleMap =>
    (match nestedMap ruleMap ["http"] with
     | some http =>
       (match nestedSlice http ["paths"] with
        | some paths => paths.foldl ingressPathStep dependencies
        | none => dependencies)
     | none => dependencies)
  | _ => dependencies

/-- Body of the loop of lines 185-189 (the `ServiceMonitor` case). -/
def serviceMonitorStep (matchLabels : List (String × JVal)) (dependencies : List String)
    (other : K8sResource) : List String :=
  if other.Kind = "Service" ∧ matchesServiceLabels other matchLabels = true then
    dependencies ++ [other.Name]
  else dependencies

/-- Function `Parser.findDependencies`; `none` is a run-time panic (only the `Service`
case can raise one). -/
def findDependencies (resource : K8sResource) (allResources : List K8sResource) :
    Option (List String) :=
  if resource.Kind = "Service" then
    match nestedMap resource.Object ["spec", "selector"] with
    | some selector => allResources.foldl (serviceStep selector) (some [])
    | none => some []
  else if resource.Kind = "Ingress" then
    match nestedSlice resource.Object ["spec", "rules"] with
    | some rules => some (rules.foldl ingressRuleStep [])
    | none => some []
  else if resource.Kind = "Route" then
    match nestedMap resource.Object ["spec", "to"] with
    | some toMap =>
      (match nestedString toMap ["kind"] with
       | some kind =>
         if kind = "Service" then
           (match nestedString toMap ["name"] with
            | some serviceName => some [serviceName]
            | none => some [])
         else some []
       | none => some [])
    | none => some []
  else if resource.Kind = "ServiceMonitor" then
    match nestedMap resource.Object ["spec", "selector"] with
    | some selector =>
      (match nestedMap selector ["matchLabels"] with
       | some matchLabels => some (allResources.foldl (serviceMonitorStep matchLabels) [])
       | none => some [])
    | none => some []
  else if resource.Kind = "Deployment" ∨ resource.Kind = "StatefulSet" ∨
      resource.Kind = "DaemonSet" then
    let volumeDeps := findVolumeDependencies resource
    let envDeps := findEnvDependencies resource
    let serviceAccountDeps := findServiceAccountDependencies resource
    let bankVaultsDeps := findBankVaultsDependencies resource
    let bankVaultsTemplateDeps := findBankVaultsTemplateAnnotations resource
    some (volumeDeps ++ envDeps ++ serviceAccountDeps ++ bankVaultsDeps ++
      bankVaultsTemplateDeps)
  else if resource.Kind = "RoleBinding" ∨ resource.Kind = "ClusterRoleBinding" then
    some (findRoleBindingDependencies resource)
  else if resource.Kind = "ServiceAccount" then
    some (findServiceAccountUsers resource allResources)
  else some []

/-- Go `m[key] = value` on a map whose entries are listed in traversal order: an
existing key keeps its place and gets the new value, a new key is added. -/
def mapSet (m : List (String × List String)) (key : String) (value : List String) :
    List (String × List String) :=
  if m.any (fun e => e.1 == key) then
    m.map (fun e => if e.1 == key then (key, value) else e)
  else m ++ [(key, value)]

/-- Body of the loop of lines 112-119 of `buildDependencies`; `none` is a panic. -/
def buildDependenciesStep (allResources : List K8sResource)
    (dependencies : Option (List (String × List String))) (resource : K8sResource) :
    Option (List (String × List String)) :=
  match dependencies with
  | none => none
  | some dependencies =>
    match findDependencies resource allResources with
    | none => none
    | some deps =>
      if deps.length > 0 then
        some (mapSet dependencies (compositeKey resource.Kind resource.Name) deps)
      else some dependencies

/-- Function `Parser.buildDependencies` on a collection whose `Dependencies` map is the
one the parser has just made (empty); `none` is a run-time panic.  The traversal order
given to the resulting map is the order of first insertion. -/
def buildDependencies (collection : ResourceCollection) : Option ResourceCollection :=
  match collection.Resources.foldl (buildDependenciesStep collection.Resources)
      (some collection.Dependencies) with
  | some dependencies => some { collection with Dependencies := dependencies }
  | none => none

/-! ## `Converter.convertToDiagram` (`internal/converter/converter.go`) -/

/-- Kinds that are containers or metadata and get no node (lines 120 and 182). -/
def isContainerKind (kind : String) : Bool :=
  kind == "Namespace" || kind == "Kustomization"

/-- Kinds that win a plain-name collision (line 193). -/
def isWorkloadKind (kind : String) : Bool :=
  kind == "Deployment" || kind == "StatefulSet" || kind == "DaemonSet"

/-- Lines 124-133: the node made for a record. -/
def resourceNode (nodeIndex : Nat) (resource : K8sResource) : DiagramNode :=
  { ID := nodeID nodeIndex, Label := resource.Name, Kind := resource.Kind,
    Namespace := resource.Namespace, X := 0, Y := 0, Width := 120, Height := 60,
    Style := "", Connections := [] }

/-- Body of the loop of lines 118-136 on the state `(diagram.Nodes, nodeIndex)`. -/
def realNodeStep (st : List DiagramNode × Nat) (resource : K8sResource) :
    List DiagramNode × Nat :=
  if isContainerKind resource.Kind then st
  else (st.1 ++ [resourceNode st.2 resource], st.2 + 1)

/-- Loops of lines 140-146: the key set of `virtualVaultSecrets`, in first-insertion
order and without repetition. -/
def virtualVaultSecrets (dependencies : List (String × List String)) : List String :=
  dependencies.foldl
    (fun set entry =>
      entry.2.foldl
        (fun set depName =>
          if hasPrefix depName "vault-secret-" then
            (if depName ∈ set then set else set ++ [depName])
          else set)
        set)
    []

/-- Lines 153-158: the label of a virtual node, rebuilt from its identifier. -/
def vaultLabel (vaultSecretName : String) : String :=
  let originalPath := trimPrefix vaultSecretName "vault-secret-"
  let originalPath := replaceAll originalPath '-' '/'
  if !hasPrefix originalPath "secret/" then "secret/" ++ originalPath else originalPath

/-- Lines 160-169: the node made for a virtual Vault secret. -/
def vaultNode (nodeIndex : Nat) (vaultSecretName : String) : DiagramNode :=
  { ID := nodeID nodeIndex, Label := vaultLabel vaultSecretName, Kind := "VaultSecret",
    Namespace := "vaultstore", X := 0, Y := 0, Width := 140, Height := 80,
    Style := "", Connections := [] }

/-- Body of the loop of lines 150-172 on the state `(diagram.Nodes, nodeIndex)`. -/
def vaultNodeStep (st : List DiagramNode × Nat) (vaultSecretName : String) :
    List DiagramNode × Nat :=
  (st.1 ++ [vaultNode st.2 vaultSecretName], st.2 + 1)

/-- State of the indexing loops of lines 175-213. -/
structure IndexState where
  nodeMap : List (String × String)
  resourceMap : List (String × String)
  nodeIndex : Nat

/-- Body of the loop of lines 180-202. -/
def realIndexStep (st : IndexState) (resource : K8sResource) : IndexState :=
  if isContainerKind resource.Kind then st
  else
    let nodeId := nodeID st.nodeIndex
    let key := compositeKey resource.Kind resource.Name
    let nodeMap :=
      match st.nodeMap.lookup resource.Name with
      | some _ =>
        if isWorkloadKind resource.Kind then (resource.Name, nodeId) :: st.nodeMap
        else st.nodeMap
      | none => (resource.Name, nodeId) :: st.nodeMap
    { nodeMap := nodeMap, resourceMap := (key, nodeId) :: st.resourceMap,
      nodeIndex := st.nodeIndex + 1 }

/-- Body of the loop of lines 207-213 (`nodeIndex` plays `vaultNodeIndex`). -/
def vaultIndexStep (st : IndexState) (vaultSecretName : String) : IndexState :=
  let nodeId := nodeID st.nodeIndex
  { nodeMap := (vaultSecretName, nodeId) :: st.nodeMap,
    resourceMap := (compositeKey "VaultSecret" vaultSecretName, nodeId) :: st.resourceMap,
    nodeIndex := st.nodeIndex + 1 }

/-- Lines 226-252: the kind-specific lookup of `Service/<depName>`. -/
def serviceLookup (resourceMap : List (String × String)) (resourceKey depName : String) :
    Option String :=
  let resourceParts := split resourceKey '/'
  if resourceParts.length = 2 then
    let resourceKind := resourceParts.headD ""
    if resourceKind = "Route" then resourceMap.lookup (compositeKey "Service" depName)
    else if resourceKind = "ServiceMonitor" then
      resourceMap.lookup (compositeKey "Service" depName)
    else if resourceKind = "Ingress" then
      resourceMap.lookup (compositeKey "Service" depName)
    else none
  else none

/-- Lines 222-257: the node id a dependency name resolves to (`sourceID`,
`sourceExists`). -/
def resolveDependency (nodeMap resourceMap : List (String × String))
    (resourceKey depName : String) : Option String :=
  match serviceLookup resourceMap resourceKey depName with
  | some serviceNodeID => some serviceNodeID
  | none => nodeMap.lookup depName

/-- Body of the inner loop of lines 221-275 on `diagram.Connections`. -/
def dependencyStep (nodeMap resourceMap : List (String × String))
    (resourceKey targetID : String) (connections : List Connection) (depName : String) :
    List Connection :=
  match resolveDependency nodeMap resourceMap resourceKey depName with
  | none => connections
  | some sourceID =>
    if sourceID = targetID then connections
    else connections ++
      [{ SourceID := targetID, TargetID := sourceID, Label := "uses", Style := "default" }]

/-- Body of the outer loop of lines 215-276 on `diagram.Connections`. -/
def entryStep (nodeMap resourceMap : List (String × String))
    (connections : List Connection) (entry : String × List String) : List Connection :=
  match resourceMap.lookup entry.1 with
  | none => connections
  | some targetID =>
    entry.2.foldl (dependencyStep nodeMap resourceMap entry.1 targetID) connections

/-- Orders in which the Go runtime traverses the map `virtualVaultSecrets`: once to
create the virtual nodes (line 150) and once to index them (line 207). -/
structure VaultOrder where
  create : List String
  index : List String

/-- Both traversals visit exactly the keys of `virtualVaultSecrets`, each once. -/
def VaultOrder.Valid (o : VaultOrder) (collection : ResourceCollection) : Prop :=
  o.create.Perm (virtualVaultSecrets collection.Dependencies) ∧
  o.index.Perm (virtualVaultSecrets collection.Dependencies)

/-- Lines 116-172: the node sequence. -/
def buildNodes (collection : ResourceCollection) (o : VaultOrder) : List DiagramNode :=
  let st := collection.Resources.foldl realNodeStep ([], 0)
  (o.create.foldl vaultNodeStep st).1

/-- Lines 175-213: the plain-name index and the kind/name index. -/
def buildIndex (collection : ResourceCollection) (o : VaultOrder) : IndexState :=
  let st := collection.Resources.foldl realIndexStep
    { nodeMap := [], resourceMap := [], nodeIndex := 0 }
  o.index.foldl vaultIndexStep st

/-- Function `Converter.convertToDiagram`; it never returns an error.  The traversal
order of `collection.Dependencies` in the loop of line 215 is the order of the list. -/
def convertToDiagram (c : Converter) (collection : ResourceCollection) (o : VaultOrder) :
    Diagram :=
  let idx := buildIndex collection o
  { Nodes := buildNodes collection o,
    Connections := collection.Dependencies.foldl (entryStep idx.nodeMap idx.resourceMap) [],
    Layout := c.config.Layout,
    Namespaces := [] }

/-! ## `Layout` (`internal/drawio/layout.go`)

The `float64` coordinates are integers here: every value the layouts compute is a sum
of small integer constants.  The loops over the map `namespaceNodes` take the order in
which the keys are visited as an input. -/

/-- Record `drawio.Layout`. -/
structure Layout where
  algorithm : String
  noNamespaces : Bool

/-- Function `NewLayout`. -/
def NewLayout (algorithm : String) (noNamespaces : Bool) : Layout :=
  { algorithm := algorithm, noNamespaces := noNamespaces }

/-- Search of `ceilSqrt`: the first `c` at or after the candidate with `c * c ≥ n`. -/
def ceilSqrtFrom (n : Nat) : Nat → Nat → Nat
  | 0, c => c
  | fuel + 1, c => if n ≤ c * c then c else ceilSqrtFrom n fuel (c + 1)

/-- Go `int(math.Ceil(math.Sqrt(float64(n))))` (line 152).  The two library functions
are taken at their mathematical value, the ceiling of the square root; the `float64`
computation gives that value for every length below `2^52`. -/
def ceilSqrt (n : Nat) : Nat :=
  ceilSqrtFrom n n 0

/-- Go `m[key] = value` on a map whose entries are listed in order of first insertion:
an existing key keeps its place and gets the new value, a new key is added. -/
def mapPut {β : Type} (m : List (String × β)) (key : String) (value : β) :
    List (String × β) :=
  if m.any (fun e => e.1 == key) then
    m.map (fun e => if e.1 == key then (key, value) else e)
  else m ++ [(key, value)]

/-- The four assignments `diagram.Nodes[nodeIdx].X = x`, `.Y = y`, `.Width = 140`,
`.Height = 80`.  The indices the layouts use come from ranging over `diagram.Nodes`, so
they are in range; an index out of range changes nothing here. -/
def placeNode (diagram : Diagram) (nodeIdx : Nat) (x y : Int) : Diagram :=
  { diagram with
    Nodes := diagram.Nodes.modify
      (fun node => { node with X := x, Y := y, Width := 140, Height := 80 }) nodeIdx }

/-- The read `diagram.Nodes[nodeIdx].Height`. -/
def heightAt (diagram : Diagram) (nodeIdx : Nat) : Int :=
  match diagram.Nodes[nodeIdx]? with
  | some node => node.Height
  | none => 0

/-- Lines 42-45 and 177-180: the partition key of a node, `default` for a node that
has no namespace. -/
def partitionKey (node : DiagramNode) : String :=
  if node.Namespace = "" then "default" else node.Namespace

/-- Body of the loop of lines 41-47 (and 176-182):
`namespaceNodes[ns] = append(namespaceNodes[ns], i)`. -/
def namespaceNodesStep (namespaceNodes : List (String × List Nat))
    (entry : Nat × DiagramNode) : List (String × List Nat) :=
  let ns := partitionKey entry.2
  mapPut namespaceNodes ns ((namespaceNodes.lookup ns).getD [] ++ [entry.1])

/-- The map `namespaceNodes` of lines 40-47 (and 175-182), its entries in order of first
insertion. -/
def namespaceNodes (diagram : Diagram) : List (String × List Nat) :=
  diagram.Nodes.enum.foldl namespaceNodesStep []

/-- Function `Layout.topologicalSort`. -/
def topologicalSort (_l : Layout) (nodeIndices : List Nat) (_diagram : Diagram) :
    List Nat :=
  nodeIndices

/-- Function `Layout.groupIntoLevels`. -/
def groupIntoLevels (_l : Layout) (nodeIndices : List Nat) (_diagram : Diagram) :
    List (List Nat) :=
  let levels : List (List Nat) := []
  if nodeIndices.length > 0 then levels ++ [nodeIndices] else levels

/-- Function `Layout.getNodeIDs`. -/
def getNodeIDs (_l : Layout) (nodeIndices : List Nat) (diagram : Diagram) : List String :=
  nodeIndices.map (fun idx =>
    match diagram.Nodes[idx]? with
    | some node => node.ID
    | none => "")

/-- Function `Layout.findNodeIndex`. -/
def findNodeIndex (_l : Layout) (nodeID : String) (diagram : Diagram) : Int :=
  match diagram.Nodes.findIdx? (fun node => node.ID == nodeID) with
  | some i => (i : Int)
  | none => -1

/-- Variables of the loop of lines 69-82 over the nodes of one level. -/
structure RowState where
  diagram : Diagram
  levelX : Int
  maxLevelHeight : Int
  maxX : Int

/-- Body of the loop of lines 69-82. -/
def hierarchicalNodeStep (levelY : Int) (st : RowState) (nodeIdx : Nat) : RowState :=
  let diagram := placeNode st.diagram nodeIdx st.levelX levelY
  let levelX := st.levelX + 220
  let maxLevelHeight :=
    if heightAt diagram nodeIdx > st.maxLevelHeight then heightAt diagram nodeIdx
    else st.maxLevelHeight
  let maxX := if levelX > st.maxX then levelX else st.maxX
  { diagram := diagram, levelX := levelX, maxLevelHeight := maxLevelHeight, maxX := maxX }

/-- Variables of the loop of lines 65-87 over the levels of one partition. -/
structure LevelState where
  diagram : Diagram
  levelY : Int
  maxX : Int
  maxY : Int

/-- Body of the loop of lines 65-87. -/
def hierarchicalLevelStep (nsX : Int) (st : LevelState) (level : List Nat) : LevelState :=
  let row := level.foldl (hierarchicalNodeStep st.levelY)
    { diagram := st.diagram, levelX := nsX + 80, maxLevelHeight := 0, maxX := st.maxX }
  let levelY := st.levelY + (row.maxLevelHeight + 80)
  { diagram := row.diagram, levelY := levelY, maxX := row.maxX,
    maxY := if levelY > st.maxY then levelY else st.maxY }

/-- Variables of the loops over the partitions: the diagram and `currentY` (line 50) or
`currentX` (line 185). -/
structure PartitionState where
  diagram : Diagram
  current : Int

/-- Body of the loop of lines 52-103 for the entry `ns, nodeIndices`. -/
def hierarchicalPartitionStep (l : Layout) (st : PartitionState)
    (entry : String × List Nat) : PartitionState :=
  let ns := entry.1
  let nodeIndices := entry.2
  let nsX : Int := 80
  let nsY := st.current
  let sortedIndices := topologicalSort l nodeIndices st.diagram
  let levels := groupIntoLevels l sortedIndices st.diagram
  let ls := levels.foldl (hierarchicalLevelStep nsX)
    { diagram := st.diagram, levelY := nsY + 80, maxX := nsX, maxY := nsY }
  let nsWidth := ls.maxX - nsX + 80
  let nsHeight := ls.maxY - nsY + 80
  { diagram :=
      { ls.diagram with
        Namespaces := mapPut ls.diagram.Namespaces ns
          { Name := ns, X := nsX, Y := nsY, Width := nsWidth, Height := nsHeight,
            NodeIDs := getNodeIDs l nodeIndices ls.diagram } },
    current := ls.maxY + 150 }

/-- Variables of the loop of lines 134-144. -/
structure FlatRowState where
  diagram : Diagram
  levelX : Int
  maxLevelHeight : Int

/-- Body of the loop of lines 134-144. -/
def flatNodeStep (levelY : Int) (st : FlatRowState) (nodeIdx : Nat) : FlatRowState :=
  let diagram := placeNode st.diagram nodeIdx st.levelX levelY
  let levelX := st.levelX + 220
  let maxLevelHeight :=
    if heightAt diagram nodeIdx > st.maxLevelHeight then heightAt diagram nodeIdx
    else st.maxLevelHeight
  { diagram := diagram, levelX := levelX, maxLevelHeight := maxLevelHeight }

/-- Body of the loop of lines 130-146; the state is the diagram and `levelY`. -/
def flatLevelStep (startX : Int) (st : Diagram × Int) (level : List Nat) : Diagram × Int :=
  let row := level.foldl (flatNodeStep st.2)
    { diagram := st.1, levelX := startX, maxLevelHeight := 0 }
  (row.diagram, st.2 + (row.maxLevelHeight + 80))

/-- Function `Layout.applyFlatHierarchicalLayout`. -/
def applyFlatHierarchicalLayout (l : Layout) (diagram : Diagram) : Diagram :=
  if diagram.Nodes.length = 0 then diagram
  else
    let nodeIndices := List.range diagram.Nodes.length
    let sortedIndices := topologicalSort l nodeIndices diagram
    let levels := groupIntoLevels l sortedIndices diagram
    let startX : Int := 80
    let startY : Int := 80
    (levels.foldl (flatLevelStep startX) (diagram, startY)).1

/-- Function `Layout.applyHierarchicalLayout`; `order` is the order in which the loop of
line 52 visits the keys of `namespaceNodes`. -/
def applyHierarchicalLayout (l : Layout) (order : List String) (diagram : Diagram) :
    Diagram :=
  if l.noNamespaces = true then applyFlatHierarchicalLayout l diagram
  else
    let groups := namespaceNodes diagram
    (order.foldl
      (fun st ns =>
        match groups.lookup ns with
        | some nodeIndices => hierarchicalPartitionStep l st (ns, nodeIndices)
        | none => st)
      { diagram := diagram, current := 80 }).diagram

/-- Body of the loop of lines 156-163. -/
def gridStep (cols : Nat) (diagram : Diagram) (i : Nat) : Diagram :=
  let row := i / cols
  let col := i % cols
  placeNode diagram i ((col : Int) * 220 + 80) ((row : Int) * 150 + 80)

/-- Function `Layout.applyGridLayout`. -/
def applyGridLayout (_l : Layout) (diagram : Diagram) : Diagram :=
  let cols := ceilSqrt diagram.Nodes.length
  (List.range diagram.Nodes.length).foldl (gridStep cols) diagram

/-- Body of the loop of lines 156-163 with the run-time panic of Go's integer division
and remainder by zero made explicit: `none` is the panic. -/
def gridStepChecked (cols : Nat) (diagram : Option Diagram) (i : Nat) : Option Diagram :=
  match diagram with
  | none => none
  | some diagram => if cols = 0 then none else some (gridStep cols diagram i)

/-- Function `Layout.applyGridLayout` with the division panic made explicit. -/
def applyGridLayoutChecked (_l : Layout) (diagram : Diagram) : Option Diagram :=
  let cols := ceilSqrt diagram.Nodes.length
  (List.range diagram.Nodes.length).foldl (gridStepChecked cols) (some diagram)

/-- Variables of the loop of lines 195-205. -/
structure ColumnState where
  diagram : Diagram
  nodeY : Int
  maxY : Int

/-- Body of the loop of lines 195-205. -/
def verticalNodeStep (nsX : Int) (st : ColumnState) (nodeIdx : Nat) : ColumnState :=
  let diagram := placeNode st.diagram nodeIdx (nsX + 80) st.nodeY
  let nodeY := st.nodeY + 160
  { diagram := diagram, nodeY := nodeY,
    maxY := if nodeY > st.maxY then nodeY else st.maxY }

/-- Body of the loop of lines 188-221 for the entry `ns, nodeIndices`. -/
def verticalPartitionStep (l : Layout) (st : PartitionState)
    (entry : String × List Nat) : PartitionState :=
  let ns := entry.1
  let nodeIndices := entry.2
  let namespaceSpacing : Int := 300
  let nsX := st.current
  let nsY : Int := 80
  let column := nodeIndices.foldl (verticalNodeStep nsX)
    { diagram := st.diagram, nodeY := nsY + 80, maxY := nsY }
  let nsWidth : Int := 220
  let nsHeight := column.maxY - nsY + 80
  { diagram :=
      { column.diagram with
        Namespaces := mapPut column.diagram.Namespaces ns
          { Name := ns, X := nsX, Y := nsY, Width := nsWidth, Height := nsHeight,
            NodeIDs := getNodeIDs l nodeIndices column.diagram } },
    current := st.current + namespaceSpacing }

/-- Body of the loop of lines 236-243; the state is the diagram and `nodeY`. -/
def flatVerticalStep (startX : Int) (st : Diagram × Int) (i : Nat) : Diagram × Int :=
  (placeNode st.1 i startX st.2, st.2 + 160)

/-- Function `Layout.applyFlatVerticalLayout`. -/
def applyFlatVerticalLayout (_l : Layout) (diagram : Diagram) : Diagram :=
  if diagram.Nodes.length = 0 then diagram
  else
    let startX : Int := 80
    let startY : Int := 80
    ((List.range diagram.Nodes.length).foldl (flatVerticalStep startX)
      (diagram, startY)).1

/-- Function `Layout.applyVerticalLayout`; `order` is the order in which the loop of
line 188 visits the keys of `namespaceNodes`. -/
def applyVerticalLayout (l : Layout) (order : List String) (diagram : Diagram) :
    Diagram :=
  if l.noNamespaces = true then applyFlatVerticalLayout l diagram
  else
    let groups := namespaceNodes diagram
    (order.foldl
      (fun st ns =>
        match groups.lookup ns with
        | some nodeIndices => verticalPartitionStep l st (ns, nodeIndices)
        | none => st)
      { diagram := diagram, current := 80 }).diagram

/-- Function `Layout.ApplyLayout`; the returned error is always `nil`. -/
def ApplyLayout (l : Layout) (order : List String) (diagram : Diagram) : Diagram :=
  if l.algorithm = "hierarchical" then applyHierarchicalLayout l order diagram
  else if l.algorithm = "grid" then applyGridLayout l diagram
  else if l.algorithm = "vertical" then applyVerticalLayout l order diagram
  else applyHierarchicalLayout l order diagram

/-! ## `Validator` (`internal/k8s/validator.go`)

A Go `error` is an `Option String`: `none` is `nil`, `some msg` is an error whose text
is `msg`. -/

/-- Function `Validator.validateService`. -/
def validateService (_resource : K8sResource) : Option String :=
  none

/-- Function `Validator.validateDeployment`. -/
def validateDeployment (_resource : K8sResource) : Option String :=
  none

/-- Function `Validator.validateIngress`. -/
def validateIngress (_resource : K8sResource) : Option String :=
  none

/-- Function `Validator.validateRoute`. -/
def validateRoute (_resource : K8sResource) : Option String :=
  none

/-- Function `Validator.validateServiceMonitor`. -/
def validateServiceMonitor (_resource : K8sResource) : Option String :=
  none

/-- Function `Validator.validateResource`. -/
def validateResource (resource : K8sResource) : Option String :=
  if resource.Name = "" then some "resource name is required"
  else if resource.Kind = "" then some "resource kind is required"
  else if resource.Kind = "Service" then validateService resource
  else if resource.Kind = "Deployment" then validateDeployment resource
  else if resource.Kind = "Ingress" then validateIngress resource
  else if resource.Kind = "Route" then validateRoute resource
  else if resource.Kind = "ServiceMonitor" then validateServiceMonitor resource
  else none

/-- Function `Validator.validateDependencies`. -/
def validateDependencies (_collection : ResourceCollection) : Option String :=
  none

/-- Loop of lines 15-19 of `Validate`, which returns at the first resource with an
error. -/
def validateLoop : List K8sResource → Option String
  | [] => none
  | resource :: rest =>
    match validateResource resource with
    | some err =>
      some ("validation failed for " ++ resource.Kind ++ "/" ++ resource.Name ++ ": " ++ err)
    | none => validateLoop rest

/-- Function `Validator.Validate`. -/
def Validate (collection : ResourceCollection) : Option String :=
  match validateLoop collection.Resources with
  | some err => some err
  | none =>
    match validateDependencies collection with
    | some err => some ("dependency validation failed: " ++ err)
    | none => none

/-! ## `EscapeXML` (`internal/drawio/templates.go`) -/

/-- Go `strings.ReplaceAll(s, old, new)` for a one-character `old`. -/
def replaceAllWith (s : String) (old : Char) (new : String) : String :=
  ⟨s.data.flatMap (fun c => if c = old then new.data else [c])⟩

/-- Function `EscapeXML`; the double quote is character 34 and the single quote is
character 39. -/
def EscapeXML (s : String) : String :=
  let s := replaceAllWith s '&' "&amp;"
  let s := replaceAllWith s '<' "&lt;"
  let s := replaceAllWith s '>' "&gt;"
  let s := replaceAllWith s (Char.ofNat 34) "&quot;"
  let s := replaceAllWith s (Char.ofNat 39) "&#39;"
  s

/-! ## Vocabulary of the statements -/

/-- The records that get a node, in record order: those whose kind is neither
`Namespace` nor `Kustomization`. -/
def materialized (collection : ResourceCollection) : List K8sResource :=
  collection.Resources.filter (fun r => !isContainerKind r.Kind)

/-- The state of the indexing loops after the records have been indexed (line 202) and
before the virtual secrets are. -/
def realIndex (collection : ResourceCollection) : IndexState :=
  collection.Resources.foldl realIndexStep { nodeMap := [], resourceMap := [], nodeIndex := 0 }

/-- Invariant of the plain-name index while the records are indexed: a name is bound
exactly when a record seen so far carries it, it is bound to the slot of such a record,
and to a workload's slot as soon as one of them is a workload. -/
def NameInv (nodeMap : List (String × String)) (ms : List K8sResource) : Prop :=
  ∀ x : String,
    (nodeMap.lookup x = none → ∀ r ∈ ms, r.Name ≠ x) ∧
    (∀ v, nodeMap.lookup x = some v →
      ∃ i r, v = nodeID i ∧ ms[i]? = some r ∧ r.Name = x ∧
        ((∃ w ∈ ms, w.Name = x ∧ isWorkloadKind w.Kind = true) →
          isWorkloadKind r.Kind = true))

/-- The edge owed to one dependency name `depName` of an entry whose key `resourceKey`
is bound to the node id `targetID`: an edge from `targetID` to the node id the name
resolves to, unless the name does not resolve or resolves to `targetID` itself. -/
def edgeFor (nodeMap resourceMap : List (String × String)) (resourceKey targetID : String)
    (depName : String) : Option Connection :=
  match resolveDependency nodeMap resourceMap resourceKey depName with
  | some sourceID =>
    if sourceID = targetID then none
    else some { SourceID := targetID, TargetID := sourceID, Label := "uses",
                Style := "default" }
  | none => none

/-- The edges owed to one dependency-map entry: none when its key is not in the
kind/name index, otherwise the edges of its names, in list order. -/
def edgesOfEntry (nodeMap resourceMap : List (String × String))
    (entry : String × List String) : List Connection :=
  match resourceMap.lookup entry.1 with
  | none => []
  | some targetID => entry.2.filterMap (edgeFor nodeMap resourceMap entry.1 targetID)

/-! ## Worked inputs -/

/-- A converter configuration. -/
def exampleConverter : Converter :=
  { config := { InputDir := "manifests", OutputFile := "out.drawio", UseKustomize := false,
                Namespace := "", Layout := "hierarchical", NoNamespaces := false } }

/-- A record of the given kind and name with an empty document. -/
def bareRecord (kind name : String) : K8sResource :=
  { Object := [], Kind := kind, Name := name, Namespace := "", Labels := [],
    Annotations := [] }

/-- A collection with a name collision (`api` is a Service and a Deployment), a
namespace record, an Ingress that names a Service, a ConfigMap, an unknown name and a
virtual secret, and entries whose key is a Service and an unknown key. -/
def mixedCollection : ResourceCollection :=
  { Resources := [bareRecord "Service" "api", bareRecord "Namespace" "prod",
                  bareRecord "Deployment" "api", bareRecord "Ingress" "ing",
                  bareRecord "ConfigMap" "cm"],
    Dependencies := [("Ingress/ing", ["api", "cm", "missing", "vault-secret-a-b"]),
                     ("Service/api", ["api"]), ("Job/none", ["api"])] }

/-- The only traversal order of the one virtual secret of `mixedCollection`. -/
def mixedOrder : VaultOrder :=
  { create := ["vault-secret-a-b"], index := ["vault-secret-a-b"] }

/-- An OpenShift Route named `name` whose `spec.to` is the Service `service`. -/
def routeRecord (name service : String) : K8sResource :=
  { Object := [("spec", JVal.obj [("to", JVal.obj [("kind", JVal.str "Service"),
                                                     ("name", JVal.str service)])])],
    Kind := "Route", Name := name, Namespace := "", Labels := [], Annotations := [] }

/-- An Ingress named `name` with one rule and one path whose backend is the Service
`service`. -/
def ingressRecord (name service : String) : K8sResource :=
  { Object := [("spec", JVal.obj [("rules", JVal.arr [JVal.obj [("http", JVal.obj
      [("paths", JVal.arr [JVal.obj [("backend", JVal.obj [("service", JVal.obj
        [("name", JVal.str service)])])]])])]])])],
    Kind := "Ingress", Name := name, Namespace := "", Labels := [], Annotations := [] }

/-- A Route whose name contains a slash, next to a Service and a Deployment that share
the name the Route points at. -/
def slashRouteRecords : List K8sResource :=
  [routeRecord "a/b" "svc", bareRecord "Service" "svc", bareRecord "Deployment" "svc"]

/-- A Route that points at the Service `x/y`, next to that Service and to a later record
of kind `Service/x` named `y`, which has the same kind/name key. -/
def slashTargetRecords : List K8sResource :=
  [routeRecord "r" "x/y", bareRecord "Service" "x/y", bareRecord "Service/x" "y"]

/-- Scenario C: an Ingress whose backend service is `api`, and a ConfigMap named `api`;
no Service is named `api`. -/
def scenarioCRecords : List K8sResource :=
  [ingressRecord "web-ingress" "api", bareRecord "ConfigMap" "api"]

/-- The collection of Scenario C with the dependency map that `buildDependencies`
computes for it. -/
def scenarioCCollection : ResourceCollection :=
  { Resources := scenarioCRecords, Dependencies := [("Ingress/web-ingress", ["api"])] }

/-- The empty traversal order, for a collection without virtual secrets. -/
def noVaultOrder : VaultOrder :=
  { create := [], index := [] }

/-- Scenario A: the Deployment `web` whose pod template carries the label `app=web`. -/
def scenarioAWeb : K8sResource :=
  { Object := [("spec", JVal.obj [("template", JVal.obj [("metadata", JVal.obj
      [("labels", JVal.obj [("app", JVal.str "web")])])])])],
    Kind := "Deployment", Name := "web", Namespace := "", Labels := [], Annotations := [] }

/-- Scenario A: the Service `web-svc` with selector `app=web`. -/
def scenarioAWebSvc : K8sResource :=
  { Object := [("spec", JVal.obj [("selector", JVal.obj [("app", JVal.str "web")])])],
    Kind := "Service", Name := "web-svc", Namespace := "", Labels := [], Annotations := [] }

/-- A Deployment `web` that mounts the ConfigMap `cfg` as a volume and also reads it
through `envFrom`. -/
def twiceConfiguredWeb : K8sResource :=
  { Object := [("spec", JVal.obj [("template", JVal.obj [("spec", JVal.obj
      [("volumes", JVal.arr [JVal.obj [("name", JVal.str "config"),
          ("configMap", JVal.obj [("name", JVal.str "cfg")])]]),
       ("containers", JVal.arr [JVal.obj [("name", JVal.str "app"),
          ("envFrom", JVal.arr [JVal.obj
            [("configMapRef", JVal.obj [("name", JVal.str "cfg")])]])]])])])])],
    Kind := "Deployment", Name := "web", Namespace := "", Labels := [], Annotations := [] }

/-- The collection of `twiceConfiguredWeb` and its ConfigMap, with the dependency map
that `buildDependencies` computes for it. -/
def twiceConfiguredCollection : ResourceCollection :=
  { Resources := [twiceConfiguredWeb, bareRecord "ConfigMap" "cfg"],
    Dependencies := [("Deployment/web", ["cfg", "cfg"])] }

/-- A Service whose `spec.selector` is present and has no keys. -/
def emptySelectorService : K8sResource :=
  { Object := [("spec", JVal.obj [("selector", JVal.obj [])])],
    Kind := "Service", Name := "any-svc", Namespace := "", Labels := [], Annotations := [] }

/-- A ServiceMonitor whose `spec.selector.matchLabels` is present and has no keys. -/
def emptySelectorMonitor : K8sResource :=
  { Object := [("spec", JVal.obj [("selector", JVal.obj [("matchLabels", JVal.obj [])])])],
    Kind := "ServiceMonitor", Name := "any-monitor", Namespace := "", Labels := [],
    Annotations := [] }

/-- A Service `labelled-svc` with the metadata label `team=a`. -/
def labelledService : K8sResource :=
  { Object := [("metadata", JVal.obj [("labels", JVal.obj [("team", JVal.str "a")])])],
    Kind := "Service", Name := "labelled-svc", Namespace := "",
    Labels := [("team", "a")], Annotations := [] }

/-- A record that an empty Service selector matches: a Deployment, StatefulSet or
DaemonSet whose `spec.template.metadata.labels` is a map. -/
def hasTemplateLabels (resource : K8sResource) : Bool :=
  isWorkloadKind resource.Kind &&
    (nestedMap resource.Object ["spec", "template", "metadata", "labels"]).isSome

/-- A record that an empty `matchLabels` matches: a Service whose `metadata.labels` is a
map of strings. -/
def hasServiceLabels (resource : K8sResource) : Bool :=
  resource.Kind == "Service" &&
    (nestedStringMap resource.Object ["metadata", "labels"]).isSome

/-- Value of a decimal digit character. -/
def digitValue (c : Char) : Nat :=
  c.toNat - 48

/-- Value of a decimal numeral read left to right. -/
def decimalValue (ds : List Char) : Nat :=
  ds.foldl (fun a c => 10 * a + digitValue c) 0

/-! ## Vocabulary of the resolver statements -/

/-- The name, if any, read at `m[field][nameField]`: one name when `field` holds a map
whose `nameField` is a string, nothing otherwise. -/
def refName (m : List (String × JVal)) (field nameField : String) : List String :=
  match nestedMap m [field] with
  | some inner =>
    (match nestedString inner [nameField] with
     | some name => [name]
     | none => [])
  | none => []

/-- The slice held at `m[field]`, empty when there is none. -/
def sliceAt (m : List (String × JVal)) (field : String) : List JVal :=
  (nestedSlice m [field]).getD []

/-- The references of one `volumes` entry: `configMap.name`, `secret.secretName`,
`persistentVolumeClaim.claimName`, in this order. -/
def volumeRefs (vol : JVal) : List String :=
  match vol with
  | JVal.obj volMap =>
    refName volMap "configMap" "name" ++ refName volMap "secret" "secretName" ++
      refName volMap "persistentVolumeClaim" "claimName"
  | _ => []

/-- The references of one `envFrom` source: `configMapRef.name`, `secretRef.name`. -/
def envFromRefs (envSource : JVal) : List String :=
  match envSource with
  | JVal.obj envSourceMap =>
    refName envSourceMap "configMapRef" "name" ++ refName envSourceMap "secretRef" "name"
  | _ => []

/-- The references of one `env` entry: `valueFrom.configMapKeyRef.name`,
`valueFrom.secretKeyRef.name`. -/
def envVarRefs (envVar : JVal) : List String :=
  match envVar with
  | JVal.obj envMap =>
    (match nestedMap envMap ["valueFrom"] with
     | some valueFrom =>
       refName valueFrom "configMapKeyRef" "name" ++ refName valueFrom "secretKeyRef" "name"
     | none => [])
  | _ => []

/-- The references of one container: those of its `envFrom` sources, then those of its
`env` entries. -/
def containerRefs (container : JVal) : List String :=
  match container with
  | JVal.obj containerMap =>
    (sliceAt containerMap "envFrom").flatMap envFromRefs ++
      (sliceAt containerMap "env").flatMap envVarRefs
  | _ => []

/-- The entries of `spec.template.spec.volumes`. -/
def podVolumes (resource : K8sResource) : List JVal :=
  (nestedSlice resource.Object ["spec", "template", "spec", "volumes"]).getD []

/-- The entries of `spec.template.spec.containers`. -/
def podContainers (resource : K8sResource) : List JVal :=
  (nestedSlice resource.Object ["spec", "template", "spec", "containers"]).getD []

/-- The non-empty `spec.template.spec.serviceAccountName`, if any. -/
def podAccount (resource : K8sResource) : List String :=
  match nestedString resource.Object ["spec", "template", "spec", "serviceAccountName"] with
  | some name => if name = "" then [] else [name]
  | none => []

/-- A record that uses the service account `account`: a Deployment, StatefulSet,
DaemonSet or Job whose `spec.template.spec.serviceAccountName` is the account's name, or
a CronJob whose `spec.jobTemplate.spec.template.spec.serviceAccountName` is. -/
def usesAccount (account resource : K8sResource) : Bool :=
  ((resource.Kind == "Deployment" || resource.Kind == "StatefulSet" ||
      resource.Kind == "DaemonSet" || resource.Kind == "Job") &&
    decide (nestedString resource.Object ["spec", "template", "spec", "serviceAccountName"] =
      some account.Name)) ||
  (resource.Kind == "CronJob" &&
    decide (nestedString resource.Object
      ["spec", "jobTemplate", "spec", "template", "spec", "serviceAccountName"] =
        some account.Name))

/-- The reference of one `subjects` entry: its `name` when its `kind` is
`ServiceAccount`. -/
def subjectRef (subject : JVal) : List String :=
  match subject with
  | JVal.obj subjectMap =>
    if nestedString subjectMap ["kind"] = some "ServiceAccount" then
      (match nestedString subjectMap ["name"] with
       | some name => [name]
       | none => [])
    else []
  | _ => []

/-- A scalar value: `nil`, a boolean, a number or a string (not a list, not a map). -/
def isScalar : JVal → Bool
  | JVal.arr _ => false
  | JVal.obj _ => false
  | _ => true

/-- Equality of a value with a scalar value: same type and same content. -/
def equalValue : JVal → JVal → Bool
  | JVal.null, JVal.null => true
  | JVal.bool a, JVal.bool b => a == b
  | JVal.int a, JVal.int b => a == b
  | JVal.str a, JVal.str b => a == b
  | _, _ => false

/-- The label map `labels` contains every key of `selector` with an equal value. -/
def labelsContain (labels selector : List (String × JVal)) : Bool :=
  selector.all (fun kv =>
    match labels.lookup kv.1 with
    | some labelValue => equalValue labelValue kv.2
    | none => false)

/-- A record that the selector selects: a Deployment, StatefulSet or DaemonSet whose
`spec.template.metadata.labels` is a map that contains every key of the selector with
an equal value. -/
def selectedBy (selector : List (String × JVal)) (resource : K8sResource) : Bool :=
  isWorkloadKind resource.Kind &&
    (match nestedMap resource.Object ["spec", "template", "metadata", "labels"] with
     | some labels => labelsContain labels selector
     | none => false)

/-- The pod-template annotation that lists external secret paths. -/
def envFromPathKey : String :=
  "vault.security.banzaicloud.io/vault-env-from-path"

/-- A path with one leading `secret/` removed, if present. -/
def stripSecret : List Char → List Char
  | 's' :: 'e' :: 'c' :: 'r' :: 'e' :: 't' :: '/' :: rest => rest
  | p => p

/-- Replacement of `/` and `:` by `-`. -/
def dash (c : Char) : Char :=
  if c = '/' ∨ c = ':' then '-' else c

/-- The virtual identifier of a trimmed path: the marker followed by the path with one
leading `secret/` removed and every remaining `/` and `:` replaced by `-`. -/
def virtualIdentifier (p : String) : String :=
  "vault-secret-" ++ String.mk ((stripSecret p.data).map dash)

/-- The string has no whitespace at its start or at its end. -/
def NoOuterSpace (p : String) : Prop :=
  (∀ c, p.data.head? = some c → isSpace c = false) ∧
  (∀ c, p.data.getLast? = some c → isSpace c = false)

/-- The dependency names that carry the virtual marker, over all dependency lists, with
repetitions. -/
def markerNames (dependencies : List (String × List String)) : List String :=
  (dependencies.flatMap (fun entry => entry.2)).filter
    (fun depName => hasPrefix depName "vault-secret-")

/-! ## Worked inputs of the resolver statements -/

/-- A Service whose selector value under `app` is a map, not a string. -/
def nestedSelectorService : K8sResource :=
  { Object := [("spec", JVal.obj [("selector", JVal.obj
      [("app", JVal.obj [("name", JVal.str "web")])])])],
    Kind := "Service", Name := "web-svc", Namespace := "", Labels := [], Annotations := [] }

/-- A Deployment whose pod-template label value under `app` is a map, not a string. -/
def nestedLabelsWeb : K8sResource :=
  { Object := [("spec", JVal.obj [("template", JVal.obj [("metadata", JVal.obj
      [("labels", JVal.obj [("app", JVal.obj [("name", JVal.str "web")])])])])])],
    Kind := "Deployment", Name := "web", Namespace := "", Labels := [], Annotations := [] }

/-- A Deployment named `name` whose pod template carries the external-secret-path
annotation with the value `paths`. -/
def vaultDeployment (name paths : String) : K8sResource :=
  { Object := [("spec", JVal.obj [("template", JVal.obj [("metadata", JVal.obj
      [("annotations", JVal.obj [(envFromPathKey, JVal.str paths)])])])])],
    Kind := "Deployment", Name := name, Namespace := "", Labels := [], Annotations := [] }

/-- Two Deployments whose external-secret paths `secret/a-b/c` and `secret/a/b-c`
differ and have the same virtual identifier `vault-secret-a-b-c`. -/
def collidingPathRecords : List K8sResource :=
  [vaultDeployment "web-a" "secret/a-b/c", vaultDeployment "web-b" "secret/a/b-c"]

/-- Two Deployments with the external-secret paths `secret/a` and `secret/b`. -/
def twoSecretRecords : List K8sResource :=
  [vaultDeployment "web-a" "secret/a", vaultDeployment "web-b" "secret/b"]

/-- The collection of `twoSecretRecords` with the dependency map that
`buildDependencies` computes for it. -/
def twoSecretCollection : ResourceCollection :=
  { Resources := twoSecretRecords,
    Dependencies := [("Deployment/web-a", ["vault-secret-a"]),
                     ("Deployment/web-b", ["vault-secret-b"])] }

/-- Both traversals of the identifier set of `twoSecretCollection` visit `vault-secret-a`
first. -/
def secretAFirst : VaultOrder :=
  { create := ["vault-secret-a", "vault-secret-b"],
    index := ["vault-secret-a", "vault-secret-b"] }

/-- Both traversals visit `vault-secret-b` first. -/
def secretBFirst : VaultOrder :=
  { create := ["vault-secret-b", "vault-secret-a"],
    index := ["vault-secret-b", "vault-secret-a"] }

/-- The traversal that creates the nodes visits `vault-secret-a` first, the one that
indexes them visits `vault-secret-b` first. -/
def secretsSwapped : VaultOrder :=
  { create := ["vault-secret-a", "vault-secret-b"],
    index := ["vault-secret-b", "vault-secret-a"] }

/-- A Job named `name` whose pod runs under the service account `account`. -/
def jobRecord (name account : String) : K8sResource :=
  { Object := [("spec", JVal.obj [("template", JVal.obj [("spec", JVal.obj
      [("serviceAccountName", JVal.str account)])])])],
    Kind := "Job", Name := name, Namespace := "", Labels := [], Annotations := [] }

/-- A service account `sa` and a Job `migrate` that runs under it. -/
def accountRecords : List K8sResource :=
  [bareRecord "ServiceAccount" "sa", jobRecord "migrate" "sa"]

/-- The collection of `accountRecords` with the dependency map that `buildDependencies`
computes for it. -/
def accountCollection : ResourceCollection :=
  { Resources := accountRecords, Dependencies := [("ServiceAccount/sa", ["migrate"])] }

/-! ## Vocabulary of the determinism and workload statements -/

/-- Two dependency maps list the same (key, name) pairs: they may differ in the order
of their entries and in the order and multiplicity of the names of a list. -/
def SamePairs (deps deps' : List (String × List String)) : Prop :=
  ∀ K d, (∃ ds, (K, ds) ∈ deps ∧ d ∈ ds) ↔ (∃ ds, (K, ds) ∈ deps' ∧ d ∈ ds)

/-- The pod-template annotations `spec.template.metadata.annotations`, empty when they
are not a map of strings. -/
def podAnnotations (resource : K8sResource) : List (String × String) :=
  (nestedStringMap resource.Object ["spec", "template", "metadata", "annotations"]).getD []

/-! ## Vocabulary of the monitor, ingress, token and kind statements -/

/-- A record that the match labels select: a Service whose `metadata.labels` is a map of
strings that contains every key of `matchLabels` with an equal value. -/
def monitorSelects (matchLabels : List (String × JVal)) (resource : K8sResource) : Bool :=
  resource.Kind == "Service" &&
    (match nestedStringMap resource.Object ["metadata", "labels"] with
     | some labels =>
       matchLabels.all (fun kv =>
         match labels.lookup kv.1 with
         | some labelValue => equalValue (JVal.str labelValue) kv.2
         | none => false)
     | none => false)

/-- The string at `backend.service.name` of one Ingress path; nothing when a link of
the chain is absent or of the wrong shape. -/
def pathBackend (path : JVal) : List String :=
  match path with
  | JVal.obj pathMap => (nestedString pathMap ["backend", "service", "name"]).toList
  | _ => []

/-- The list at `http.paths` of one Ingress rule; empty when a link of the chain is
absent or of the wrong shape. -/
def rulePaths (rule : JVal) : List JVal :=
  match rule with
  | JVal.obj ruleMap => (nestedSlice ruleMap ["http", "paths"]).getD []
  | _ => []

/-- The annotation that names the token mount. -/
def tokenAuthKey : String :=
  "vault.security.banzaicloud.io/token-auth-mount"

/-- The text of `s` before its first colon (all of `s` when it has none). -/
def beforeColon (s : String) : String :=
  ⟨s.data.takeWhile (fun c => c != ':')⟩

/-- What a token-mount value contributes: the text before its first colon when the
value has a colon and that text is not empty. -/
def tokenAuthRefs (s : String) : List String :=
  if ':' ∈ s.data ∧ beforeColon s ≠ "" then [beforeColon s] else []

/-- The kinds that `findDependencies` has a case for. -/
def recognizedKinds : List String :=
  ["Service", "Ingress", "Route", "ServiceMonitor", "Deployment", "StatefulSet",
   "DaemonSet", "RoleBinding", "ClusterRoleBinding", "ServiceAccount"]

/-! ## Worked inputs of the monitor, ingress, token and kind statements -/

/-- A ServiceMonitor `team-monitor` whose `matchLabels` is `team=a`. -/
def teamMonitor : K8sResource :=
  { Object := [("spec", JVal.obj [("selector", JVal.obj
      [("matchLabels", JVal.obj [("team", JVal.str "a")])])])],
    Kind := "ServiceMonitor", Name := "team-monitor", Namespace := "", Labels := [],
    Annotations := [] }

/-- A record of kind `kind` named `name` with the metadata label `team=team`. -/
def teamRecord (kind name team : String) : K8sResource :=
  { Object := [("metadata", JVal.obj [("labels", JVal.obj [("team", JVal.str team)])])],
    Kind := kind, Name := name, Namespace := "", Labels := [("team", team)],
    Annotations := [] }

/-- Records around `teamMonitor`: a Service without labels, two Services of team `a`, a
Service of team `b` and a Deployment of team `a`. -/
def teamRecords : List K8sResource :=
  [bareRecord "Service" "plain", teamRecord "Service" "first" "a",
   teamRecord "Service" "other" "b", teamRecord "Deployment" "first" "a",
   teamRecord "Service" "second" "a", teamMonitor]

/-- An Ingress path whose backend is the Service `service`. -/
def backendPath (service : String) : JVal :=
  JVal.obj [("backend", JVal.obj [("service", JVal.obj [("name", JVal.str service)])])]

/-- An Ingress rule with the given paths. -/
def httpRule (paths : List JVal) : JVal :=
  JVal.obj [("http", JVal.obj [("paths", JVal.arr paths)])]

/-- The rules of `brokenIngress`: a rule with a path that has no backend between two
good paths, a rule that is a string, a rule without `http`, and a good rule. -/
def brokenRules : List JVal :=
  [httpRule [backendPath "a", JVal.obj [("path", JVal.str "/")], backendPath "b"],
   JVal.str "rule", JVal.obj [("host", JVal.str "h")], httpRule [backendPath "c"]]

/-- An Ingress `broken` with the rules `brokenRules`. -/
def brokenIngress : K8sResource :=
  { Object := [("spec", JVal.obj [("rules", JVal.arr brokenRules)])],
    Kind := "Ingress", Name := "broken", Namespace := "", Labels := [],
    Annotations := [] }

/-- A Job `mounting` whose pod template mounts the ConfigMap `settings` and the Secret
`credentials`. -/
def mountingJob : K8sResource :=
  { Object := [("spec", JVal.obj [("template", JVal.obj [("spec", JVal.obj
      [("volumes", JVal.arr
        [JVal.obj [("configMap", JVal.obj [("name", JVal.str "settings")])],
         JVal.obj [("secret", JVal.obj [("secretName", JVal.str "credentials")])]])])])])],
    Kind := "Job", Name := "mounting", Namespace := "", Labels := [], Annotations := [] }

/-! ## Vocabulary of the layout statements -/

/-- A node with the geometry the layouts give: position `x`, `y` and size 140 by 80. -/
def placed (node : DiagramNode) (x y : Int) : DiagramNode :=
  { node with X := x, Y := y, Width := 140, Height := 80 }

/-- The partition of the key `ns`: the indices of the nodes with that partition key, in
node-sequence order. -/
def indicesOf (diagram : Diagram) (ns : String) : List Nat :=
  (List.range diagram.Nodes.length).filter (fun i =>
    match diagram.Nodes[i]? with
    | some node => partitionKey node == ns
    | none => false)

/-- An order in which a loop can visit the keys of `namespaceNodes`: every key once. -/
def ValidOrder (diagram : Diagram) (order : List String) : Prop :=
  order.Perm ((namespaceNodes diagram).map Prod.fst)

/-- Placement of the nodes `nodeIndices`, one after the other, the one at position `k`
of the list (counted from `start`) at the coordinates `coords k`. -/
def placeSeq (coords : Nat → Int × Int) : Diagram → List Nat → Nat → Diagram
  | diagram, [], _ => diagram
  | diagram, i :: rest, k =>
    placeSeq coords (placeNode diagram i (coords k).1 (coords k).2) rest (k + 1)

/-- The identifier of the node at an index, empty when there is no such node. -/
def idAt (diagram : Diagram) (idx : Nat) : String :=
  match diagram.Nodes[idx]? with
  | some node => node.ID
  | none => ""

/-- A node rectangle lies inside a bounding box, `margin` away from each of the four
edges of the box or more. -/
def insideBox (margin : Int) (node : DiagramNode) (box : NamespaceGroup) : Prop :=
  box.X + margin ≤ node.X ∧ node.X + node.Width + margin ≤ box.X + box.Width ∧
  box.Y + margin ≤ node.Y ∧ node.Y + node.Height + margin ≤ box.Y + box.Height

/-- Closed form of one step of a loop over the partitions: the nodes of the entry are
placed at `coords current k`, the entry gets the box `box`, and `current` moves on by
`advance`. -/
def boxedPartition (coords : Int → Nat → Int × Int)
    (box : String → Int → Nat → List String → NamespaceGroup) (advance : Int)
    (st : PartitionState) (entry : String × List Nat) : PartitionState :=
  let placedDiagram := placeSeq (coords st.current) st.diagram entry.2 0
  { diagram :=
      { placedDiagram with
        Namespaces := mapPut placedDiagram.Namespaces entry.1
          (box entry.1 st.current entry.2.length (entry.2.map (idAt st.diagram))) },
    current := st.current + advance }

/-- Position of the node at place `k` of a partition whose box starts at `currentY`
(hierarchical layout). -/
def hierarchicalCoords (currentY : Int) (k : Nat) : Int × Int :=
  (160 + 220 * (k : Int), currentY + 80)

/-- Box of a partition of `m` nodes that starts at `currentY` (hierarchical layout). -/
def hierarchicalBox (ns : String) (currentY : Int) (m : Nat) (ids : List String) :
    NamespaceGroup :=
  { Name := ns, X := 80, Y := currentY, Width := 220 * (m : Int) + 160, Height := 320,
    NodeIDs := ids }

/-- Position of the node at place `k` of a partition whose box starts at `currentX`
(vertical layout). -/
def verticalCoords (currentX : Int) (k : Nat) : Int × Int :=
  (currentX + 80, 160 + 160 * (k : Int))

/-- Box of a partition of `m` nodes that starts at `currentX` (vertical layout). -/
def verticalBox (ns : String) (currentX : Int) (m : Nat) (ids : List String) :
    NamespaceGroup :=
  { Name := ns, X := currentX, Y := 80, Width := 220, Height := 160 * (m : Int) + 160,
    NodeIDs := ids }

/-- Two diagrams have the same nodes up to their geometry. -/
def sameUpToGeometry (d other : Diagram) : Prop :=
  other.Nodes.map (fun node => placed node 0 0) = d.Nodes.map (fun node => placed node 0 0)

/-- Two boxes have disjoint interiors because one lies above the other. -/
def verticallyApart (a b : NamespaceGroup) : Prop :=
  a.Y + a.Height ≤ b.Y ∨ b.Y + b.Height ≤ a.Y

/-- Two boxes have disjoint interiors because one lies left of the other. -/
def horizontallyApart (a b : NamespaceGroup) : Prop :=
  a.X + a.Width ≤ b.X ∨ b.X + b.Width ≤ a.X

/-! ## Worked inputs of the layout statements -/

/-- A node `id` of kind Pod in the namespace `ns`, without geometry. -/
def layoutNode (id ns : String) : DiagramNode :=
  { ID := id, Label := id, Kind := "Pod", Namespace := ns, X := 0, Y := 0, Width := 0,
    Height := 0, Style := "", Connections := [] }

/-- A diagram of five nodes in the namespaces `a`, `b`, `a`, none and `a`, with one
group of an earlier run in its index of namespace groups. -/
def spacesDiagram : Diagram :=
  { Nodes := [layoutNode "node-0" "a", layoutNode "node-1" "b", layoutNode "node-2" "a",
              layoutNode "node-3" "", layoutNode "node-4" "a"],
    Connections := [], Layout := "",
    Namespaces := [("old", { Name := "old", X := 1, Y := 2, Width := 3, Height := 4,
                             NodeIDs := [] })] }

/-- A layout with namespace grouping. -/
def groupedLayout (algorithm : String) : Layout :=
  NewLayout algorithm false

/-- A layout without namespace grouping. -/
def flatLayout (algorithm : String) : Layout :=
  NewLayout algorithm true

/-! ## Vocabulary of the validation and escaping statements -/

/-- A record that passes the structural validation: name and kind are not empty. -/
def wellNamed (resource : K8sResource) : Prop :=
  resource.Name ≠ "" ∧ resource.Kind ≠ ""

/-- The error that `Validate` reports for a record that has an empty name or an empty
kind. -/
def validationError (resource : K8sResource) : String :=
  "validation failed for " ++ resource.Kind ++ "/" ++ resource.Name ++ ": " ++
    (if resource.Name = "" then "resource name is required"
     else "resource kind is required")

/-- The five entities that `EscapeXML` writes. -/
def xmlEntities : List (List Char) :=
  ["&amp;".data, "&lt;".data, "&gt;".data, "&quot;".data, "&#39;".data]

/-- The entity of a character, the character itself when it has none. -/
def escapeChar (c : Char) : List Char :=
  if c = '&' then "&amp;".data
  else if c = '<' then "&lt;".data
  else if c = '>' then "&gt;".data
  else if c = Char.ofNat 34 then "&quot;".data
  else if c = Char.ofNat 39 then "&#39;".data
  else [c]

/-- The entity at the head of a character list, if there is one: its character and the
characters after it. -/
def entityAt (cs : List Char) : Option (Char × List Char) :=
  if "&amp;".data.isPrefixOf cs = true then some ('&', cs.drop 5)
  else if "&lt;".data.isPrefixOf cs = true then some ('<', cs.drop 4)
  else if "&gt;".data.isPrefixOf cs = true then some ('>', cs.drop 4)
  else if "&quot;".data.isPrefixOf cs = true then some (Char.ofNat 34, cs.drop 6)
  else if "&#39;".data.isPrefixOf cs = true then some (Char.ofNat 39, cs.drop 5)
  else none

/-- Replacement of the five entities by their characters, left to right, in at most
`fuel` steps. -/
def unescapeFuel : Nat → List Char → List Char
  | 0, _ => []
  | _ + 1, [] => []
  | fuel + 1, c :: rest =>
    match entityAt (c :: rest) with
    | some (ch, tail) => ch :: unescapeFuel fuel tail
    | none => c :: unescapeFuel fuel rest

/-- Replacement of the five entities by their characters, left to right; one step per
character is enough. -/
def unescapeXML (cs : List Char) : List Char :=
  unescapeFuel cs.length cs

/-! ## Worked inputs of the validation statements -/

/-- A collection with a record without name between two good records and a record
without kind after them. -/
def unnamedCollection : ResourceCollection :=
  { Resources := [bareRecord "Service" "a", bareRecord "" "", bareRecord "" "b"],
    Dependencies := [("Service/a", ["a"])] }

/-! ## Worked inputs of the shadowing and key statements -/

/-- A ConfigMap that carries the name of a virtual secret, and the two Deployments with
the external-secret paths `secret/a` and `secret/b`. -/
def shadowRecords : List K8sResource :=
  [bareRecord "ConfigMap" "vault-secret-a", vaultDeployment "web-a" "secret/a",
   vaultDeployment "web-b" "secret/b"]

/-- The collection of `shadowRecords` with the dependency map that `buildDependencies`
computes for it. -/
def shadowCollection : ResourceCollection :=
  { Resources := shadowRecords,
    Dependencies := [("Deployment/web-a", ["vault-secret-a"]),
                     ("Deployment/web-b", ["vault-secret-b"])] }

/-- A Deployment `name` in the namespace `ns` whose pod template mounts the ConfigMap
`configMap`. -/
def mountingDeployment (ns name configMap : String) : K8sResource :=
  { Object := [("spec", JVal.obj [("template", JVal.obj [("spec", JVal.obj
      [("volumes", JVal.arr
        [JVal.obj [("configMap", JVal.obj [("name", JVal.str configMap)])]])])])])],
    Kind := "Deployment", Name := name, Namespace := ns, Labels := [], Annotations := [] }

/-- Two Deployments named `web` in the namespaces `a` and `b` that mount the ConfigMaps
`cm-a` and `cm-b`, and the two ConfigMaps. -/
def twinRecords : List K8sResource :=
  [mountingDeployment "a" "web" "cm-a", mountingDeployment "b" "web" "cm-b",
   bareRecord "ConfigMap" "cm-a", bareRecord "ConfigMap" "cm-b"]

/-- The collection of `twinRecords` with the dependency map that `buildDependencies`
computes for it. -/
def twinCollection : ResourceCollection :=
  { Resources := twinRecords, Dependencies := [("Deployment/web", ["cm-b"])] }

/-! ## The resolver with the order of every `range` over a map made explicit

When a Go program ranges over a map, the run time picks the order of the visit, anew
for every `range` statement that is executed.  `parser.go` ranges over a map in four
places: the selector in `matchesSelector` (line 236), the match labels in
`matchesServiceLabels` (line 256), the annotations of a record in
`findBankVaultsDependencies` (line 380) and the annotations of a pod template in
`findBankVaultsTemplateAnnotations` (line 422).  The definitions below are those of
`findDependencies` and `buildDependencies` with these four orders as an input; when
every order is that of the list, they are `findDependencies` and `buildDependencies`
themselves (`buildDependenciesUnder_listOrder`). -/

/-- The order in which each `range` over a map visits the entries.  The first number
is the position in `collection.Resources` of the record that `findDependencies` works
on, the second one the position in `allResources` of the record that the inner loop has
reached, and the list is the map; the value is the sequence of entries as visited. -/
structure RangeOrder where
  selector : Nat → Nat → List (String × JVal) → List (String × JVal)
  matchLabels : Nat → Nat → List (String × JVal) → List (String × JVal)
  annotations : Nat → List (String × String) → List (String × String)
  templateAnnotations : Nat → List (String × String) → List (String × String)

/-- Every `range` visits each entry of its map exactly once. -/
def RangeOrder.Valid (ranges : RangeOrder) : Prop :=
  (∀ i j m, (ranges.selector i j m).Perm m) ∧
  (∀ i j m, (ranges.matchLabels i j m).Perm m) ∧
  (∀ i m, (ranges.annotations i m).Perm m) ∧
  (∀ i m, (ranges.templateAnnotations i m).Perm m)

/-- Function `Parser.findDependencies` for the record at position `i`, every `range`
over a map visiting the entries in the order `ranges` gives; `none` is a run-time panic.
The loops over `allResources` carry the position of the record they have reached. -/
def findDependenciesUnder (ranges : RangeOrder) (i : Nat) (resource : K8sResource)
    (allResources : List K8sResource) : Option (List String) :=
  if resource.Kind = "Service" then
    match nestedMap resource.Object ["spec", "selector"] with
    | some selector =>
      allResources.enum.foldl
        (fun dependencies other =>
          serviceStep (ranges.selector i other.1 selector) dependencies other.2)
        (some [])
    | none => some []
  else if resource.Kind = "Ingress" then
    match nestedSlice resource.Object ["spec", "rules"] with
    | some rules => some (rules.foldl ingressRuleStep [])
    | none => some []
  else if resource.Kind = "Route" then
    match nestedMap resource.Object ["spec", "to"] with
    | some toMap =>
      (match nestedString toMap ["kind"] with
       | some kind =>
         if kind = "Service" then
           (match nestedString toMap ["name"] with
            | some serviceName => some [serviceName]
            | none => some [])
         else some []
       | none => some [])
    | none => some []
  else if resource.Kind = "ServiceMonitor" then
    match nestedMap resource.Object ["spec", "selector"] with
    | some selector =>
      (match nestedMap selector ["matchLabels"] with
       | some matchLabels =>
         some (allResources.enum.foldl
           (fun dependencies other =>
             serviceMonitorStep (ranges.matchLabels i other.1 matchLabels) dependencies
               other.2)
           [])
       | none => some [])
    | none => some []
  else if resource.Kind = "Deployment" ∨ resource.Kind = "StatefulSet" ∨
      resource.Kind = "DaemonSet" then
    let volumeDeps := findVolumeDependencies resource
    let envDeps := findEnvDependencies resource
    let serviceAccountDeps := findServiceAccountDependencies resource
    let bankVaultsDeps :=
      (ranges.annotations i resource.Annotations).foldl bankVaultsStep []
    let bankVaultsTemplateDeps :=
      match nestedStringMap resource.Object
          ["spec", "template", "metadata", "annotations"] with
      | some annotations =>
        (ranges.templateAnnotations i annotations).foldl bankVaultsTemplateStep []
      | none => []
    some (volumeDeps ++ envDeps ++ serviceAccountDeps ++ bankVaultsDeps ++
      bankVaultsTemplateDeps)
  else if resource.Kind = "RoleBinding" ∨ resource.Kind = "ClusterRoleBinding" then
    some (findRoleBindingDependencies resource)
  else if resource.Kind = "ServiceAccount" then
    some (findServiceAccountUsers resource allResources)
  else some []

/-- Body of the loop of lines 112-119 of `buildDependencies` for the record
`entry.2` at position `entry.1`; `none` is a panic. -/
def buildDependenciesStepUnder (ranges : RangeOrder) (allResources : List K8sResource)
    (dependencies : Option (List (String × List String))) (entry : Nat × K8sResource) :
    Option (List (String × List String)) :=
  match dependencies with
  | none => none
  | some dependencies =>
    match findDependenciesUnder ranges entry.1 entry.2 allResources with
    | none => none
    | some deps =>
      if deps.length > 0 then
        some (mapSet dependencies (compositeKey entry.2.Kind entry.2.Name) deps)
      else some dependencies

/-- Function `Parser.buildDependencies`, every `range` over a map visiting the entries
in the order `ranges` gives; `none` is a run-time panic. -/
def buildDependenciesUnder (ranges : RangeOrder) (collection : ResourceCollection) :
    Option ResourceCollection :=
  match collection.Resources.enum.foldl
      (buildDependenciesStepUnder ranges collection.Resources)
      (some collection.Dependencies) with
  | some dependencies => some { collection with Dependencies := dependencies }
  | none => none

/-- No Service of the list has a list or a map as a selector value. -/
def scalarSelectors (records : List K8sResource) : Bool :=
  records.all (fun r =>
    r.Kind != "Service" ||
      (match nestedMap r.Object ["spec", "selector"] with
       | some selector => selector.all (fun kv => isScalar kv.2)
       | none => true))

/-! ## Worked inputs of the range-order statements -/

/-- Every `range` visits the entries in the order of the list. -/
def listOrder : RangeOrder :=
  { selector := fun _ _ m => m, matchLabels := fun _ _ m => m,
    annotations := fun _ m => m, templateAnnotations := fun _ m => m }

/-- Every `range` visits the entries in the reverse of the order of the list. -/
def reverseOrder : RangeOrder :=
  { selector := fun _ _ m => m.reverse, matchLabels := fun _ _ m => m.reverse,
    annotations := fun _ m => m.reverse, templateAnnotations := fun _ m => m.reverse }

/-- A Service that selects `app: web` and `tier: front`; a Deployment with these two
pod-template labels, with two Bank-Vaults annotations of its own (a TLS secret and a
service account) and two on its pod template (a TLS secret and an external-secret
path); the two Secrets and the ServiceAccount that the annotations name. -/
def annotatedRecords : List K8sResource :=
  [{ Object := [("spec", JVal.obj [("selector", JVal.obj
        [("app", JVal.str "web"), ("tier", JVal.str "front")])])],
     Kind := "Service", Name := "web-svc", Namespace := "", Labels := [],
     Annotations := [] },
   { Object := [("spec", JVal.obj [("template", JVal.obj [("metadata", JVal.obj
        [("labels", JVal.obj [("app", JVal.str "web"), ("tier", JVal.str "front")]),
         ("annotations", JVal.obj
           [("vault.security.banzaicloud.io/vault-tls-secret", JVal.str "pod-tls"),
            (envFromPathKey, JVal.str "secret/a")])])])])],
     Kind := "Deployment", Name := "web", Namespace := "", Labels := [],
     Annotations := [("vault.security.banzaicloud.io/vault-tls-secret", "tls"),
                     ("vault.security.banzaicloud.io/vault-serviceaccount", "vault-sa")] },
   bareRecord "Secret" "tls", bareRecord "Secret" "pod-tls",
   bareRecord "ServiceAccount" "vault-sa"]

/-- The dependency map of `annotatedRecords` when every `range` follows the list. -/
def annotatedListed : ResourceCollection :=
  { Resources := annotatedRecords,
    Dependencies := [("Service/web-svc", ["web"]),
                     ("Deployment/web", ["tls", "vault-sa", "pod-tls", "vault-secret-a"])] }

/-- The dependency map of `annotatedRecords` when every `range` runs in reverse. -/
def annotatedReversed : ResourceCollection :=
  { Resources := annotatedRecords,
    Dependencies := [("Service/web-svc", ["web"]),
                     ("Deployment/web", ["vault-sa", "tls", "vault-secret-a", "pod-tls"])] }

/-- The one traversal order of the identifier set of `annotatedRecords`. -/
def secretAOnly : VaultOrder :=
  { create := ["vault-secret-a"], index := ["vault-secret-a"] }

/-- A Service whose selector holds a map under `app` and the string `front` under
`tier`, and a Deployment whose pod-template labels hold a map under `app` and the string
`back` under `tier`. -/
def clashRecords : List K8sResource :=
  [{ Object := [("spec", JVal.obj [("selector", JVal.obj
        [("app", JVal.obj [("name", JVal.str "web")]), ("tier", JVal.str "front")])])],
     Kind := "Service", Name := "web-svc", Namespace := "", Labels := [],
     Annotations := [] },
   { Object := [("spec", JVal.obj [("template", JVal.obj [("metadata", JVal.obj
        [("labels", JVal.obj
          [("app", JVal.obj [("name", JVal.str "web")]), ("tier", JVal.str "back")])])])])],
     Kind := "Deployment", Name := "web", Namespace := "", Labels := [],
     Annotations := [] }]

/-! ## Lemmas -/

/-! ### Node ids: `fmt.Sprintf("node-%d", i)` is injective -/

theorem digitValue_digitChar (d : Nat) (h : d < 10) : digitValue (Nat.digitChar d) = d := by
  interval_cases d <;> rfl

theorem foldl_decimal_append (pre : List Char) (c : Char) (a : Nat) :
    (pre ++ [c]).foldl (fun a c => 10 * a + digitValue c) a =
      10 * pre.foldl (fun a c => 10 * a + digitValue c) a + digitValue c := by
  simp [List.foldl_append]

theorem toDigitsCore_spec : ∀ (fuel n : Nat) (ds : List Char), n < fuel →
    ∃ pre, Nat.toDigitsCore 10 fuel n ds = pre ++ ds ∧ decimalValue pre = n := by
  intro fuel
  induction fuel with
  | zero => intro n ds h; omega
  | succ fuel ih =>
    intro n ds h
    unfold Nat.toDigitsCore
    by_cases h0 : n / 10 = 0
    · simp only [h0, if_true]
      refine ⟨[Nat.digitChar (n % 10)], rfl, ?_⟩
      have hn : n < 10 := by omega
      simp [decimalValue, digitValue_digitChar (n % 10) (Nat.mod_lt _ (by decide))]
      omega
    · simp only [h0, if_false]
      obtain ⟨pre, hpre, hval⟩ := ih (n / 10) (Nat.digitChar (n % 10) :: ds) (by omega)
      refine ⟨pre ++ [Nat.digitChar (n % 10)], by simp [hpre], ?_⟩
      unfold decimalValue at hval ⊢
      rw [foldl_decimal_append, hval, digitValue_digitChar (n % 10) (Nat.mod_lt _ (by decide))]
      omega

theorem decimalValue_repr (n : Nat) : decimalValue (Nat.repr n).data = n := by
  obtain ⟨pre, hpre, hval⟩ := toDigitsCore_spec (n + 1) n [] (Nat.lt_succ_self n)
  simp only [Nat.repr, Nat.toDigits, List.asString, hpre, List.append_nil]
  exact hval

theorem nodeID_injective : Function.Injective nodeID := by
  intro a b h
  unfold nodeID at h
  have h2 : (toString a : String) = toString b := by
    have := congrArg String.data h
    simp only [String.data_append, List.append_cancel_left_eq] at this
    exact String.ext this
  have h3 : Nat.repr a = Nat.repr b := h2
  have := congrArg (fun s => decimalValue s.data) h3
  simpa [decimalValue_repr] using this

/-! ### Association lists -/

theorem lookup_append_eq (k : String) (l₁ l₂ : List (String × String)) :
    (l₁ ++ l₂).lookup k =
      match l₁.lookup k with
      | some v => some v
      | none => l₂.lookup k := by
  induction l₁ with
  | nil => simp
  | cons p l ih =>
    obtain ⟨a, b⟩ := p
    by_cases h : k = a
    · subst h; simp [List.lookup_cons]
    · have : (k == a) = false := by simpa using h
      simp [List.lookup_cons, this, ih]

theorem mem_of_lookup_eq_some {k v : String} :
    ∀ {l : List (String × String)}, l.lookup k = some v → (k, v) ∈ l := by
  intro l
  induction l with
  | nil => simp
  | cons p l ih =>
    obtain ⟨a, b⟩ := p
    intro h
    by_cases hk : k = a
    · subst hk
      simp [List.lookup_cons] at h
      simp [h]
    · have : (k == a) = false := by simpa using hk
      simp only [List.lookup_cons, this] at h
      exact List.mem_cons_of_mem _ (ih h)

theorem lookup_ne_none_of_mem {k v : String} :
    ∀ {l : List (String × String)}, (k, v) ∈ l → l.lookup k ≠ none := by
  intro l
  induction l with
  | nil => simp
  | cons p l ih =>
    obtain ⟨a, b⟩ := p
    intro h
    by_cases hk : k = a
    · subst hk; simp [List.lookup_cons]
    · have hb : (k == a) = false := by simpa using hk
      simp only [List.lookup_cons, hb]
      apply ih
      rcases List.mem_cons.1 h with h | h
      · exact absurd (congrArg Prod.fst h) hk
      · exact h

/-! ### The node sequence -/

theorem foldl_realNodeStep (rs : List K8sResource) :
    ∀ (acc : List DiagramNode) (k : Nat),
      rs.foldl realNodeStep (acc, k) =
        (acc ++ ((rs.filter (fun r => !isContainerKind r.Kind)).enumFrom k).map
            (fun p => resourceNode p.1 p.2),
         k + (rs.filter (fun r => !isContainerKind r.Kind)).length) := by
  induction rs with
  | nil => intro acc k; simp
  | cons r rs ih =>
    intro acc k
    by_cases h : isContainerKind r.Kind = true
    · simp [List.foldl_cons, realNodeStep, h, ih]
    · simp only [Bool.not_eq_true] at h
      simp [List.foldl_cons, realNodeStep, h, ih, List.enumFrom_cons]
      omega

theorem foldl_vaultNodeStep (vs : List String) :
    ∀ (acc : List DiagramNode) (k : Nat),
      vs.foldl vaultNodeStep (acc, k) =
        (acc ++ (vs.enumFrom k).map (fun p => vaultNode p.1 p.2), k + vs.length) := by
  induction vs with
  | nil => intro acc k; simp
  | cons v vs ih =>
    intro acc k
    simp [List.foldl_cons, vaultNodeStep, ih, List.enumFrom_cons]
    omega

theorem buildNodes_eq (collection : ResourceCollection) (o : VaultOrder) :
    buildNodes collection o =
      ((materialized collection).enumFrom 0).map (fun p => resourceNode p.1 p.2) ++
      (o.create.enumFrom (materialized collection).length).map
        (fun p => vaultNode p.1 p.2) := by
  simp [buildNodes, materialized, foldl_realNodeStep, foldl_vaultNodeStep]

theorem buildNodes_length (collection : ResourceCollection) (o : VaultOrder) :
    (buildNodes collection o).length = (materialized collection).length + o.create.length := by
  simp [buildNodes_eq]

theorem buildNodes_getElem?_real (collection : ResourceCollection) (o : VaultOrder)
    (i : Nat) (r : K8sResource) (h : (materialized collection)[i]? = some r) :
    (buildNodes collection o)[i]? = some (resourceNode i r) := by
  have hi : i < (materialized collection).length := by
    rcases Nat.lt_or_ge i (materialized collection).length with h' | h'
    · exact h'
    · rw [List.getElem?_eq_none h'] at h; cases h
  rw [buildNodes_eq, List.getElem?_append]
  simp only [List.length_map, List.enumFrom_length, hi, if_true, List.getElem?_map,
    List.getElem?_enumFrom, h, Option.map_some', Nat.zero_add]

theorem buildNodes_getElem?_vault (collection : ResourceCollection) (o : VaultOrder)
    (i : Nat) (h : (materialized collection).length ≤ i) :
    (buildNodes collection o)[i]? =
      (o.create[i - (materialized collection).length]?).map (fun v => vaultNode i v) := by
  rw [buildNodes_eq, List.getElem?_append]
  have : ¬ i < (materialized collection).length := by omega
  simp [this, List.getElem?_enumFrom]
  cases o.create[i - (materialized collection).length]? with
  | none => rfl
  | some v => simp; congr 1; omega

theorem buildNodes_ID (collection : ResourceCollection) (o : VaultOrder) (i : Nat)
    (n : DiagramNode) (h : (buildNodes collection o)[i]? = some n) : n.ID = nodeID i := by
  rcases Nat.lt_or_ge i (materialized collection).length with hi | hi
  · have hr : (materialized collection)[i]? = some ((materialized collection)[i]) :=
      List.getElem?_eq_getElem hi
    rw [buildNodes_getElem?_real collection o i _ hr] at h
    cases h; rfl
  · rw [buildNodes_getElem?_vault collection o i hi] at h
    cases hv : o.create[i - (materialized collection).length]? with
    | none => rw [hv] at h; cases h
    | some v => rw [hv] at h; cases h; rfl

theorem exists_node_of_lt (collection : ResourceCollection) (o : VaultOrder) (i : Nat)
    (h : i < (materialized collection).length + o.create.length) :
    ∃ n ∈ buildNodes collection o, n.ID = nodeID i := by
  have hlt : i < (buildNodes collection o).length := by rw [buildNodes_length]; exact h
  refine ⟨(buildNodes collection o)[i], List.getElem_mem _, ?_⟩
  exact buildNodes_ID collection o i _ (List.getElem?_eq_getElem hlt)

/-! ### The two indices -/

theorem realIndexStep_container (st : IndexState) (r : K8sResource)
    (h : isContainerKind r.Kind = true) : realIndexStep st r = st := by
  simp [realIndexStep, h]

theorem realIndexStep_resourceMap (st : IndexState) (r : K8sResource)
    (h : isContainerKind r.Kind = false) :
    (realIndexStep st r).resourceMap =
      (compositeKey r.Kind r.Name, nodeID st.nodeIndex) :: st.resourceMap := by
  simp [realIndexStep, h]

theorem realIndexStep_nodeIndex (st : IndexState) (r : K8sResource)
    (h : isContainerKind r.Kind = false) :
    (realIndexStep st r).nodeIndex = st.nodeIndex + 1 := by
  simp [realIndexStep, h]

theorem realIndexStep_nodeMap (st : IndexState) (r : K8sResource)
    (h : isContainerKind r.Kind = false) :
    (realIndexStep st r).nodeMap =
      if (st.nodeMap.lookup r.Name).isSome ∧ isWorkloadKind r.Kind = false then st.nodeMap
      else (r.Name, nodeID st.nodeIndex) :: st.nodeMap := by
  simp only [realIndexStep, h, Bool.false_eq_true, if_false]
  cases hl : st.nodeMap.lookup r.Name with
  | none => simp
  | some v => cases hw : isWorkloadKind r.Kind <;> simp

theorem foldl_realIndexStep (rs : List K8sResource) :
    ∀ st : IndexState,
      (rs.foldl realIndexStep st).resourceMap =
          (((rs.filter (fun r => !isContainerKind r.Kind)).enumFrom st.nodeIndex).map
            (fun p => (compositeKey p.2.Kind p.2.Name, nodeID p.1))).reverse ++
            st.resourceMap ∧
      (rs.foldl realIndexStep st).nodeIndex =
          st.nodeIndex + (rs.filter (fun r => !isContainerKind r.Kind)).length := by
  induction rs with
  | nil => intro st; simp
  | cons r rs ih =>
    intro st
    by_cases h : isContainerKind r.Kind = true
    · simp only [List.foldl_cons, realIndexStep_container st r h]
      simpa [h] using ih st
    · simp only [Bool.not_eq_true] at h
      simp only [List.foldl_cons]
      obtain ⟨h1, h2⟩ := ih (realIndexStep st r)
      rw [realIndexStep_resourceMap st r h, realIndexStep_nodeIndex st r h] at h1
      rw [realIndexStep_nodeIndex st r h] at h2
      constructor
      · rw [h1]; simp [h, List.enumFrom_cons]
      · rw [h2]; simp [h]; omega

theorem foldl_vaultIndexStep (vs : List String) :
    ∀ st : IndexState,
      (vs.foldl vaultIndexStep st).resourceMap =
          ((vs.enumFrom st.nodeIndex).map
            (fun p => (compositeKey "VaultSecret" p.2, nodeID p.1))).reverse ++
            st.resourceMap ∧
      (vs.foldl vaultIndexStep st).nodeMap =
          ((vs.enumFrom st.nodeIndex).map (fun p => (p.2, nodeID p.1))).reverse ++
            st.nodeMap ∧
      (vs.foldl vaultIndexStep st).nodeIndex = st.nodeIndex + vs.length := by
  induction vs with
  | nil => intro st; simp
  | cons v vs ih =>
    intro st
    simp only [List.foldl_cons]
    obtain ⟨h1, h2, h3⟩ := ih (vaultIndexStep st v)
    refine ⟨?_, ?_, ?_⟩
    · rw [h1]; simp [vaultIndexStep, List.enumFrom_cons]
    · rw [h2]; simp [vaultIndexStep, List.enumFrom_cons]
    · rw [h3]; simp [vaultIndexStep]; omega

theorem realIndex_nodeIndex (collection : ResourceCollection) :
    (realIndex collection).nodeIndex = (materialized collection).length := by
  simp [realIndex, materialized, (foldl_realIndexStep _ _).2]

theorem realIndex_resourceMap (collection : ResourceCollection) :
    (realIndex collection).resourceMap =
      (((materialized collection).enumFrom 0).map
        (fun p => (compositeKey p.2.Kind p.2.Name, nodeID p.1))).reverse := by
  simp [realIndex, materialized, (foldl_realIndexStep _ _).1]

theorem buildIndex_resourceMap (collection : ResourceCollection) (o : VaultOrder) :
    (buildIndex collection o).resourceMap =
      ((o.index.enumFrom (materialized collection).length).map
        (fun p => (compositeKey "VaultSecret" p.2, nodeID p.1))).reverse ++
      (realIndex collection).resourceMap := by
  have h := (foldl_vaultIndexStep o.index (realIndex collection)).1
  rw [realIndex_nodeIndex] at h
  exact h

theorem buildIndex_nodeMap (collection : ResourceCollection) (o : VaultOrder) :
    (buildIndex collection o).nodeMap =
      ((o.index.enumFrom (materialized collection).length).map
        (fun p => (p.2, nodeID p.1))).reverse ++
      (realIndex collection).nodeMap := by
  have h := (foldl_vaultIndexStep o.index (realIndex collection)).2.1
  rw [realIndex_nodeIndex] at h
  exact h

theorem lookup_enum_some {α : Type} (f : α → String) (k0 : Nat) (xs : List α)
    (key v : String)
    (h : (((xs.enumFrom k0).map (fun p => (f p.2, nodeID p.1))).reverse).lookup key = some v) :
    ∃ i x, xs[i]? = some x ∧ f x = key ∧ v = nodeID (k0 + i) := by
  have hm := mem_of_lookup_eq_some h
  rw [List.mem_reverse, List.mem_map] at hm
  obtain ⟨⟨j, x⟩, hp, he⟩ := hm
  obtain ⟨n, hn⟩ := List.mem_iff_getElem?.1 hp
  rw [List.getElem?_enumFrom] at hn
  cases hx : xs[n]? with
  | none => rw [hx] at hn; cases hn
  | some y =>
    rw [hx] at hn
    simp only [Option.map_some', Option.some.injEq, Prod.mk.injEq] at hn
    obtain ⟨hj, hy⟩ := hn
    simp only [Prod.mk.injEq] at he
    refine ⟨n, y, hx, ?_, ?_⟩
    · rw [hy]; exact he.1
    · rw [hj]; exact he.2.symm

theorem lookup_enum_ne_none {α : Type} (f : α → String) (k0 : Nat) (xs : List α)
    (x : α) (hx : x ∈ xs) :
    (((xs.enumFrom k0).map (fun p => (f p.2, nodeID p.1))).reverse).lookup (f x) ≠ none := by
  obtain ⟨n, hn⟩ := List.mem_iff_getElem?.1 hx
  apply lookup_ne_none_of_mem (v := nodeID (k0 + n))
  rw [List.mem_reverse, List.mem_map]
  refine ⟨(k0 + n, x), ?_, rfl⟩
  apply List.mem_iff_getElem?.2
  exact ⟨n, by rw [List.getElem?_enumFrom, hn]; rfl⟩

theorem lookup_enum_none {α : Type} (f : α → String) (k0 : Nat) (xs : List α) (key : String)
    (h : ∀ x ∈ xs, f x ≠ key) :
    (((xs.enumFrom k0).map (fun p => (f p.2, nodeID p.1))).reverse).lookup key = none := by
  cases hl : (((xs.enumFrom k0).map (fun p => (f p.2, nodeID p.1))).reverse).lookup key with
  | none => rfl
  | some v =>
    obtain ⟨i, x, hx, hf, _⟩ := lookup_enum_some f k0 xs key v hl
    exact absurd hf (h x (List.mem_iff_getElem?.2 ⟨i, hx⟩))

/-- Reading of the kind/name index: every binding gives the id of the node whose slot
carries that key, a record's slot or a virtual secret's. -/
theorem resourceMap_lookup_some (collection : ResourceCollection) (o : VaultOrder)
    (k v : String) (h : (buildIndex collection o).resourceMap.lookup k = some v) :
    ∃ i, v = nodeID i ∧
      ((∃ r, (materialized collection)[i]? = some r ∧ compositeKey r.Kind r.Name = k) ∨
       ((materialized collection).length ≤ i ∧
        ∃ x, o.index[i - (materialized collection).length]? = some x ∧
          compositeKey "VaultSecret" x = k)) := by
  rw [buildIndex_resourceMap, lookup_append_eq] at h
  cases hv : (((o.index.enumFrom (materialized collection).length).map
      (fun p => (compositeKey "VaultSecret" p.2, nodeID p.1))).reverse).lookup k with
  | some w =>
    rw [hv] at h
    simp only [Option.some.injEq] at h
    subst h
    obtain ⟨i, x, hx, hf, hw⟩ :=
      lookup_enum_some (fun x => compositeKey "VaultSecret" x) _ _ _ _ hv
    refine ⟨(materialized collection).length + i, hw, Or.inr ⟨by omega, x, ?_, hf⟩⟩
    simpa using hx
  | none =>
    rw [hv] at h
    simp only at h
    rw [realIndex_resourceMap] at h
    obtain ⟨i, r, hr, hf, hw⟩ :=
      lookup_enum_some (fun r : K8sResource => compositeKey r.Kind r.Name) _ _ _ _ h
    refine ⟨i, by simpa using hw, Or.inl ⟨r, hr, hf⟩⟩

theorem getElem?_lt_length {α : Type} {l : List α} {i : Nat} {x : α} (h : l[i]? = some x) :
    i < l.length := by
  rcases Nat.lt_or_ge i l.length with h' | h'
  · exact h'
  · rw [List.getElem?_eq_none h'] at h; cases h

theorem resourceMap_lookup_lt (collection : ResourceCollection) (o : VaultOrder)
    (k v : String) (h : (buildIndex collection o).resourceMap.lookup k = some v) :
    ∃ i, i < (materialized collection).length + o.index.length ∧ v = nodeID i := by
  obtain ⟨i, hv, hcase⟩ := resourceMap_lookup_some collection o k v h
  refine ⟨i, ?_, hv⟩
  rcases hcase with ⟨r, hr, _⟩ | ⟨hle, x, hx, _⟩
  · have := getElem?_lt_length hr; omega
  · have := getElem?_lt_length hx; omega

/-- Two keys of the kind/name index bound to one node id are the same key. -/
theorem resourceMap_key_unique (collection : ResourceCollection) (o : VaultOrder)
    (k₁ k₂ v : String) (h₁ : (buildIndex collection o).resourceMap.lookup k₁ = some v)
    (h₂ : (buildIndex collection o).resourceMap.lookup k₂ = some v) : k₁ = k₂ := by
  obtain ⟨i, hi, c₁⟩ := resourceMap_lookup_some collection o k₁ v h₁
  obtain ⟨j, hj, c₂⟩ := resourceMap_lookup_some collection o k₂ v h₂
  have hij : i = j := nodeID_injective (hi.symm.trans hj)
  subst hij
  rcases c₁ with ⟨r, hr, hk⟩ | ⟨hle, x, hx, hk⟩
  · rcases c₂ with ⟨r', hr', hk'⟩ | ⟨hle', x', hx', hk'⟩
    · rw [hr] at hr'; cases hr'; rw [← hk, ← hk']
    · have := getElem?_lt_length hr; omega
  · rcases c₂ with ⟨r', hr', hk'⟩ | ⟨hle', x', hx', hk'⟩
    · have := getElem?_lt_length hr'; omega
    · rw [hx] at hx'; cases hx'; rw [← hk, ← hk']

theorem lookup_cons_self (k v : String) (l : List (String × String)) :
    ((k, v) :: l).lookup k = some v := by
  simp [List.lookup_cons]

theorem lookup_cons_ne (x k v : String) (l : List (String × String)) (h : x ≠ k) :
    ((k, v) :: l).lookup x = l.lookup x := by
  have : (x == k) = false := by simpa using h
  simp [List.lookup_cons, this]

theorem getElem?_append_singleton_left {α : Type} (l : List α) (a : α) (i : Nat) (x : α)
    (h : l[i]? = some x) : (l ++ [a])[i]? = some x := by
  rw [List.getElem?_append]
  simp [getElem?_lt_length h, h]

theorem nameInv_step (st : IndexState) (ms : List K8sResource) (r : K8sResource)
    (hc : isContainerKind r.Kind = false) (hn : st.nodeIndex = ms.length)
    (inv : NameInv st.nodeMap ms) : NameInv (realIndexStep st r).nodeMap (ms ++ [r]) := by
  intro x
  rw [realIndexStep_nodeMap st r hc]
  by_cases hx : x = r.Name
  · subst hx
    obtain ⟨inv0, inv1⟩ := inv r.Name
    by_cases hkeep : (st.nodeMap.lookup r.Name).isSome ∧ isWorkloadKind r.Kind = false
    · rw [if_pos hkeep]
      obtain ⟨hsome, hw⟩ := hkeep
      constructor
      · intro hnone; rw [hnone] at hsome; cases hsome
      · intro v hv
        obtain ⟨i, r0, hi, hr0, hname, hwl⟩ := inv1 v hv
        refine ⟨i, r0, hi, getElem?_append_singleton_left _ _ _ _ hr0, hname, ?_⟩
        rintro ⟨w, hwm, hwn, hww⟩
        rcases List.mem_append.1 hwm with hwm | hwm
        · exact hwl ⟨w, hwm, hwn, hww⟩
        · simp only [List.mem_singleton] at hwm
          subst hwm; rw [hw] at hww; cases hww
    · rw [if_neg hkeep, lookup_cons_self]
      constructor
      · intro h; cases h
      · intro v hv
        simp only [Option.some.injEq] at hv
        refine ⟨ms.length, r, by rw [← hv, hn], by simp, rfl, ?_⟩
        rintro ⟨w, hwm, hwn, hww⟩
        by_cases hw : isWorkloadKind r.Kind = true
        · exact hw
        · simp only [Bool.not_eq_true] at hw
          have hnone : st.nodeMap.lookup r.Name = none := by
            cases hl : st.nodeMap.lookup r.Name with
            | none => rfl
            | some u => exact absurd ⟨by simp [hl], hw⟩ hkeep
          rcases List.mem_append.1 hwm with hwm | hwm
          · exact absurd hwn (inv0 hnone w hwm)
          · simp only [List.mem_singleton] at hwm
            subst hwm; exact hww
  · obtain ⟨inv0, inv1⟩ := inv x
    have hlook : (if (st.nodeMap.lookup r.Name).isSome ∧ isWorkloadKind r.Kind = false
        then st.nodeMap else (r.Name, nodeID st.nodeIndex) :: st.nodeMap).lookup x =
        st.nodeMap.lookup x := by
      split
      · rfl
      · exact lookup_cons_ne x r.Name _ _ hx
    rw [hlook]
    constructor
    · intro hnone w hwm
      rcases List.mem_append.1 hwm with hwm | hwm
      · exact inv0 hnone w hwm
      · simp only [List.mem_singleton] at hwm
        subst hwm; exact fun h => hx h.symm
    · intro v hv
      obtain ⟨i, r0, hi, hr0, hname, hwl⟩ := inv1 v hv
      refine ⟨i, r0, hi, getElem?_append_singleton_left _ _ _ _ hr0, hname, ?_⟩
      rintro ⟨w, hwm, hwn, hww⟩
      rcases List.mem_append.1 hwm with hwm | hwm
      · exact hwl ⟨w, hwm, hwn, hww⟩
      · simp only [List.mem_singleton] at hwm
        subst hwm; exact absurd hwn.symm hx

theorem nameInv_foldl (rs : List K8sResource) :
    NameInv (rs.foldl realIndexStep { nodeMap := [], resourceMap := [], nodeIndex := 0 }).nodeMap
      (rs.filter (fun r => !isContainerKind r.Kind)) := by
  induction rs using List.reverseRecOn with
  | nil => intro x; simp
  | append_singleton rs r ih =>
    rw [List.foldl_append, List.foldl_cons, List.foldl_nil, List.filter_append]
    by_cases hc : isContainerKind r.Kind = true
    · rw [realIndexStep_container _ r hc]
      simpa [hc] using ih
    · simp only [Bool.not_eq_true] at hc
      have hn := (foldl_realIndexStep rs { nodeMap := [], resourceMap := [], nodeIndex := 0 }).2
      simp only [Nat.zero_add] at hn
      have := nameInv_step _ _ r hc hn ih
      simpa [hc] using this

theorem realIndex_nameInv (collection : ResourceCollection) :
    NameInv (realIndex collection).nodeMap (materialized collection) :=
  nameInv_foldl collection.Resources

/-- Names that are not indexed as virtual secrets keep the binding the records gave
them. -/
theorem nodeMap_lookup_of_not_mem (collection : ResourceCollection) (o : VaultOrder)
    (x : String) (hx : x ∉ o.index) :
    (buildIndex collection o).nodeMap.lookup x = (realIndex collection).nodeMap.lookup x := by
  rw [buildIndex_nodeMap, lookup_append_eq,
    lookup_enum_none (fun v : String => v) _ o.index x (fun v hv h => hx (h ▸ hv))]

theorem nodeMap_lookup_lt (collection : ResourceCollection) (o : VaultOrder)
    (x v : String) (h : (buildIndex collection o).nodeMap.lookup x = some v) :
    ∃ i, i < (materialized collection).length + o.index.length ∧ v = nodeID i := by
  rw [buildIndex_nodeMap, lookup_append_eq] at h
  cases hv : (((o.index.enumFrom (materialized collection).length).map
      (fun p => (p.2, nodeID p.1))).reverse).lookup x with
  | some w =>
    rw [hv] at h
    simp only [Option.some.injEq] at h
    subst h
    obtain ⟨i, y, hy, _, hw⟩ := lookup_enum_some (fun v : String => v) _ _ _ _ hv
    exact ⟨_, by have := getElem?_lt_length hy; omega, hw⟩
  | none =>
    rw [hv] at h
    simp only at h
    obtain ⟨i, r, hi, hr, _, _⟩ := (realIndex_nameInv collection x).2 v h
    exact ⟨i, by have := getElem?_lt_length hr; omega, hi⟩

/-! ### Edge synthesis -/

theorem foldl_dependencyStep (nodeMap resourceMap : List (String × String))
    (resourceKey targetID : String) (ds : List String) :
    ∀ acc : List Connection,
      ds.foldl (dependencyStep nodeMap resourceMap resourceKey targetID) acc =
        acc ++ ds.filterMap (edgeFor nodeMap resourceMap resourceKey targetID) := by
  induction ds with
  | nil => intro acc; simp
  | cons d ds ih =>
    intro acc
    rw [List.foldl_cons, ih]
    unfold dependencyStep edgeFor
    cases hres : resolveDependency nodeMap resourceMap resourceKey d with
    | none => simp [List.filterMap_cons, edgeFor, hres]
    | some s =>
      by_cases hs : s = targetID
      · simp [List.filterMap_cons, edgeFor, hres, hs]
      · simp [List.filterMap_cons, edgeFor, hres, hs]

theorem foldl_entryStep (nodeMap resourceMap : List (String × String))
    (es : List (String × List String)) :
    ∀ acc : List Connection,
      es.foldl (entryStep nodeMap resourceMap) acc =
        acc ++ es.flatMap (edgesOfEntry nodeMap resourceMap) := by
  induction es with
  | nil => intro acc; simp
  | cons e es ih =>
    intro acc
    rw [List.foldl_cons, ih, List.flatMap_cons]
    unfold entryStep edgesOfEntry
    cases hl : resourceMap.lookup e.1 with
    | none => simp
    | some t => simp [foldl_dependencyStep]

theorem connections_eq (c : Converter) (collection : ResourceCollection) (o : VaultOrder) :
    (convertToDiagram c collection o).Connections =
      collection.Dependencies.flatMap
        (edgesOfEntry (buildIndex collection o).nodeMap (buildIndex collection o).resourceMap) := by
  simp [convertToDiagram, foldl_entryStep]

theorem mem_edgesOfEntry (nodeMap resourceMap : List (String × String))
    (entry : String × List String) (conn : Connection) :
    conn ∈ edgesOfEntry nodeMap resourceMap entry ↔
      ∃ t, resourceMap.lookup entry.1 = some t ∧
        ∃ d ∈ entry.2, ∃ s, resolveDependency nodeMap resourceMap entry.1 d = some s ∧
          s ≠ t ∧ conn = { SourceID := t, TargetID := s, Label := "uses", Style := "default" } := by
  unfold edgesOfEntry
  cases hl : resourceMap.lookup entry.1 with
  | none => simp
  | some t =>
    simp only [List.mem_filterMap, Option.some.injEq, exists_eq_left']
    constructor
    · rintro ⟨d, hd, he⟩
      unfold edgeFor at he
      cases hres : resolveDependency nodeMap resourceMap entry.1 d with
      | none => rw [hres] at he; cases he
      | some s =>
        rw [hres] at he
        by_cases hs : s = t
        · simp [hs] at he
        · simp only [hs, if_false, Option.some.injEq] at he
          exact ⟨d, hd, s, hres, hs, he.symm⟩
    · rintro ⟨d, hd, s, hres, hs, hc⟩
      exact ⟨d, hd, by simp [edgeFor, hres, hs, hc]⟩

theorem mem_connections (c : Converter) (collection : ResourceCollection) (o : VaultOrder)
    (conn : Connection) :
    conn ∈ (convertToDiagram c collection o).Connections ↔
      ∃ entry ∈ collection.Dependencies,
        ∃ t, (buildIndex collection o).resourceMap.lookup entry.1 = some t ∧
          ∃ d ∈ entry.2, ∃ s,
            resolveDependency (buildIndex collection o).nodeMap
              (buildIndex collection o).resourceMap entry.1 d = some s ∧
            s ≠ t ∧
            conn = { SourceID := t, TargetID := s, Label := "uses", Style := "default" } := by
  rw [connections_eq, List.mem_flatMap]
  constructor
  · rintro ⟨entry, he, hc⟩
    exact ⟨entry, he, (mem_edgesOfEntry _ _ _ _).1 hc⟩
  · rintro ⟨entry, he, hc⟩
    exact ⟨entry, he, (mem_edgesOfEntry _ _ _ _).2 hc⟩

theorem serviceLookup_some (resourceMap : List (String × String)) (resourceKey depName s : String)
    (h : serviceLookup resourceMap resourceKey depName = some s) :
    resourceMap.lookup (compositeKey "Service" depName) = some s := by
  unfold serviceLookup at h
  simp only at h
  split at h
  · split at h
    · exact h
    · split at h
      · exact h
      · split at h
        · exact h
        · cases h
  · cases h

theorem resolveDependency_some (nodeMap resourceMap : List (String × String))
    (resourceKey depName s : String)
    (h : resolveDependency nodeMap resourceMap resourceKey depName = some s) :
    resourceMap.lookup (compositeKey "Service" depName) = some s ∨
      nodeMap.lookup depName = some s := by
  unfold resolveDependency at h
  cases hs : serviceLookup resourceMap resourceKey depName with
  | some v =>
    rw [hs] at h
    simp only [Option.some.injEq] at h
    subst h
    exact Or.inl (serviceLookup_some _ _ _ _ hs)
  | none =>
    rw [hs] at h
    exact Or.inr h

theorem resolveDependency_of_service_none (nodeMap resourceMap : List (String × String))
    (resourceKey depName : String)
    (h : resourceMap.lookup (compositeKey "Service" depName) = none) :
    resolveDependency nodeMap resourceMap resourceKey depName = nodeMap.lookup depName := by
  have : serviceLookup resourceMap resourceKey depName = none := by
    cases hs : serviceLookup resourceMap resourceKey depName with
    | none => rfl
    | some v => rw [serviceLookup_some _ _ _ _ hs] at h; cases h
  simp [resolveDependency, this]

/-! ### Keys and markers -/

theorem compositeKey_data (kind name : String) :
    (compositeKey kind name).data = kind.data ++ '/' :: name.data := by
  simp [compositeKey, String.data_append]

theorem slash_split_unique (a b a' b' : List Char) (ha' : '/' ∉ a') (hb' : '/' ∉ b')
    (h : a ++ '/' :: b = a' ++ '/' :: b') : a = a' ∧ b = b' := by
  rcases List.append_eq_append_iff.1 h with ⟨m, hm, hb⟩ | ⟨m, hm, hb⟩
  · cases m with
    | nil => simp at hm hb; exact ⟨hm.symm, hb⟩
    | cons x m =>
      simp only [List.cons_append, List.cons.injEq] at hb
      exact absurd (by rw [hm, ← hb.1]; simp) ha'
  · cases m with
    | nil => simp at hm hb; exact ⟨hm, hb.symm⟩
    | cons x m =>
      simp only [List.cons_append, List.cons.injEq] at hb
      exact absurd (by rw [hb.2]; simp) hb'

theorem compositeKey_eq_service (kind name n : String) (hn : '/' ∉ n.data)
    (h : compositeKey kind name = compositeKey "Service" n) : kind = "Service" ∧ name = n := by
  have hd := congrArg String.data h
  rw [compositeKey_data, compositeKey_data] at hd
  obtain ⟨h1, h2⟩ := slash_split_unique _ _ _ _ (by decide) hn hd
  exact ⟨String.ext h1, String.ext h2⟩

theorem splitChars_of_not_mem (sep : Char) (l : List Char) (h : sep ∉ l) :
    splitChars sep l = [l] := by
  induction l with
  | nil => rfl
  | cons c cs ih =>
    have hc : c ≠ sep := fun e => h (by simp [e])
    have hcs : sep ∉ cs := fun e => h (List.mem_cons_of_mem _ e)
    simp [splitChars, hc, ih hcs]

theorem splitChars_append (sep : Char) (a b : List Char) (h : sep ∉ a) :
    splitChars sep (a ++ sep :: b) = a :: splitChars sep b := by
  induction a with
  | nil => simp [splitChars]
  | cons c cs ih =>
    have hc : c ≠ sep := fun e => h (by simp [e])
    have hcs : sep ∉ cs := fun e => h (List.mem_cons_of_mem _ e)
    simp [splitChars, hc, ih hcs]

theorem split_compositeKey (kind name : String) (hk : '/' ∉ kind.data) (hn : '/' ∉ name.data) :
    split (compositeKey kind name) '/' = [kind, name] := by
  simp [split, compositeKey_data, splitChars_append _ _ _ hk, splitChars_of_not_mem _ _ hn]

theorem serviceLookup_of_redirecting (resourceMap : List (String × String))
    (kind name depName : String)
    (hk : kind = "Route" ∨ kind = "ServiceMonitor" ∨ kind = "Ingress")
    (hn : '/' ∉ name.data) :
    serviceLookup resourceMap (compositeKey kind name) depName =
      resourceMap.lookup (compositeKey "Service" depName) := by
  have hkd : '/' ∉ kind.data := by
    rcases hk with h | h | h <;> subst h <;> decide
  unfold serviceLookup
  simp only [split_compositeKey kind name hkd hn, List.length_cons, List.length_nil,
    List.headD_cons]
  rcases hk with h | h | h <;> subst h <;> simp

theorem hasPrefix_of_mem_virtualVaultSecrets (deps : List (String × List String)) (x : String)
    (h : x ∈ virtualVaultSecrets deps) : hasPrefix x "vault-secret-" = true := by
  unfold virtualVaultSecrets at h
  have inner : ∀ (ds : List String) (set : List String),
      (∀ y ∈ set, hasPrefix y "vault-secret-" = true) →
      ∀ y ∈ ds.foldl (fun set depName =>
          if hasPrefix depName "vault-secret-" then
            (if depName ∈ set then set else set ++ [depName])
          else set) set, hasPrefix y "vault-secret-" = true := by
    intro ds
    induction ds with
    | nil => intro set hs; simpa using hs
    | cons d ds ih =>
      intro set hs
      rw [List.foldl_cons]
      apply ih
      intro y hy
      by_cases hp : hasPrefix d "vault-secret-" = true
      · rw [if_pos hp] at hy
        by_cases hm : d ∈ set
        · rw [if_pos hm] at hy; exact hs y hy
        · rw [if_neg hm] at hy
          rcases List.mem_append.1 hy with hy | hy
          · exact hs y hy
          · simp only [List.mem_singleton] at hy; rw [hy]; exact hp
      · rw [if_neg hp] at hy; exact hs y hy
  have outer : ∀ (es : List (String × List String)) (set : List String),
      (∀ y ∈ set, hasPrefix y "vault-secret-" = true) →
      ∀ y ∈ es.foldl (fun set entry => entry.2.foldl (fun set depName =>
          if hasPrefix depName "vault-secret-" then
            (if depName ∈ set then set else set ++ [depName])
          else set) set) set, hasPrefix y "vault-secret-" = true := by
    intro es
    induction es with
    | nil => intro set hs; simpa using hs
    | cons e es ih =>
      intro set hs
      rw [List.foldl_cons]
      exact ih _ (inner e.2 set hs)
  exact outer deps [] (by simp) x h

theorem not_mem_index_of_no_marker (collection : ResourceCollection) (o : VaultOrder)
    (hv : o.Valid collection) (x : String) (hx : hasPrefix x "vault-secret-" = false) :
    x ∉ o.index := by
  intro hm
  have := hasPrefix_of_mem_virtualVaultSecrets _ x (hv.2.mem_iff.1 hm)
  rw [hx] at this; cases this

/-! ## The claims -/

/-- C1: every connection of the diagram returned by `convertToDiagram` has a `SourceID`
and a `TargetID` that are each the `ID` of a node of the diagram, and the two differ.
This holds for every record list, every dependency map and every order in which the
virtual-secret set is traversed. -/
theorem connections_reference_nodes (c : Converter) (collection : ResourceCollection)
    (o : VaultOrder) (hv : o.Valid collection) (conn : Connection)
    (hc : conn ∈ (convertToDiagram c collection o).Connections) :
    (∃ n ∈ (convertToDiagram c collection o).Nodes, n.ID = conn.SourceID) ∧
    (∃ n ∈ (convertToDiagram c collection o).Nodes, n.ID = conn.TargetID) ∧
    conn.SourceID ≠ conn.TargetID := by
  have hlen : o.index.length = o.create.length := by
    rw [hv.1.length_eq, hv.2.length_eq]
  obtain ⟨entry, _, t, ht, d, _, s, hs, hne, hconn⟩ := (mem_connections c collection o conn).1 hc
  subst hconn
  have hnodes : (convertToDiagram c collection o).Nodes = buildNodes collection o := rfl
  rw [hnodes]
  refine ⟨?_, ?_, fun h => hne h.symm⟩
  · obtain ⟨i, hi, hti⟩ := resourceMap_lookup_lt collection o _ _ ht
    rw [hti]
    exact exists_node_of_lt collection o i (by omega)
  · rcases resolveDependency_some _ _ _ _ _ hs with h | h
    · obtain ⟨i, hi, hsi⟩ := resourceMap_lookup_lt collection o _ _ h
      rw [hsi]
      exact exists_node_of_lt collection o i (by omega)
    · obtain ⟨i, hi, hsi⟩ := nodeMap_lookup_lt collection o _ _ h
      rw [hsi]
      exact exists_node_of_lt collection o i (by omega)

theorem mixedOrder_valid : mixedOrder.Valid mixedCollection :=
  ⟨List.Perm.of_eq (by decide), List.Perm.of_eq (by decide)⟩

/-- Witness of C1 on `mixedCollection`: the edge from the Ingress (`node-2`) to the
virtual secret (`node-4`). -/
theorem connections_reference_nodes_witness :
    ({ SourceID := "node-2", TargetID := "node-4", Label := "uses", Style := "default" } :
        Connection) ∈ (convertToDiagram exampleConverter mixedCollection mixedOrder).Connections ∧
    (∃ n ∈ (convertToDiagram exampleConverter mixedCollection mixedOrder).Nodes,
      n.ID = "node-2") ∧
    (∃ n ∈ (convertToDiagram exampleConverter mixedCollection mixedOrder).Nodes,
      n.ID = "node-4") ∧
    "node-2" ≠ "node-4" :=
  ⟨by decide,
   connections_reference_nodes exampleConverter mixedCollection mixedOrder mixedOrder_valid
     { SourceID := "node-2", TargetID := "node-4", Label := "uses", Style := "default" }
     (by decide)⟩

/-- C2: with `r` the number of records whose kind is neither `Namespace` nor
`Kustomization`, the node at position `i < r` is the one of the `i`-th such record, in
record order: its `ID` is `node-i`, its `Label` the record's name, and it carries the
record's `Kind` and `Namespace`; every node at a position from `r` on has kind
`VaultSecret`; and the node sequence has `r` nodes besides the virtual ones. -/
theorem real_nodes_dense (c : Converter) (collection : ResourceCollection) (o : VaultOrder)
    (i : Nat) :
    (∀ r, (materialized collection)[i]? = some r →
      ∃ n, (convertToDiagram c collection o).Nodes[i]? = some n ∧
        n.ID = "node-" ++ toString i ∧ n.Label = r.Name ∧ n.Kind = r.Kind ∧
        n.Namespace = r.Namespace) ∧
    (∀ n, (materialized collection).length ≤ i →
      (convertToDiagram c collection o).Nodes[i]? = some n → n.Kind = "VaultSecret") ∧
    (convertToDiagram c collection o).Nodes.length =
      (materialized collection).length + o.create.length := by
  have hnodes : (convertToDiagram c collection o).Nodes = buildNodes collection o := rfl
  rw [hnodes]
  refine ⟨?_, ?_, buildNodes_length collection o⟩
  · intro r hr
    exact ⟨resourceNode i r, buildNodes_getElem?_real collection o i r hr, rfl, rfl, rfl, rfl⟩
  · intro n hle hn
    rw [buildNodes_getElem?_vault collection o i hle] at hn
    cases hv : o.create[i - (materialized collection).length]? with
    | none => rw [hv] at hn; cases hn
    | some v => rw [hv] at hn; cases hn; rfl

theorem node_of_real_slot (c : Converter) (collection : ResourceCollection) (o : VaultOrder)
    (i : Nat) (r : K8sResource) (hr : (materialized collection)[i]? = some r) :
    (∃ n ∈ (convertToDiagram c collection o).Nodes, n.ID = nodeID i) ∧
    ∀ n ∈ (convertToDiagram c collection o).Nodes, n.ID = nodeID i →
      n.Label = r.Name ∧ n.Kind = r.Kind := by
  have hnodes : (convertToDiagram c collection o).Nodes = buildNodes collection o := rfl
  rw [hnodes]
  have hi := buildNodes_getElem?_real collection o i r hr
  refine ⟨⟨resourceNode i r, List.mem_iff_getElem?.2 ⟨i, hi⟩, rfl⟩, ?_⟩
  intro n hn hid
  obtain ⟨j, hj⟩ := List.mem_iff_getElem?.1 hn
  have hji : j = i := nodeID_injective ((buildNodes_ID collection o j n hj).symm.trans hid)
  subst hji
  rw [hi] at hj
  cases hj
  exact ⟨rfl, rfl⟩

theorem isWorkloadKind_iff (kind : String) :
    isWorkloadKind kind = true ↔
      kind = "Deployment" ∨ kind = "StatefulSet" ∨ kind = "DaemonSet" := by
  simp [isWorkloadKind, or_assoc]

theorem mem_materialized_of_workload (collection : ResourceCollection) (r : K8sResource)
    (hr : r ∈ collection.Resources)
    (hw : r.Kind = "Deployment" ∨ r.Kind = "StatefulSet" ∨ r.Kind = "DaemonSet") :
    r ∈ materialized collection := by
  unfold materialized
  rw [List.mem_filter]
  refine ⟨hr, ?_⟩
  rcases hw with h | h | h <;> rw [h] <;> decide

/-- C3: for every record list and every name `x` without the virtual marker such that
some record named `x` has kind Deployment, StatefulSet or DaemonSet, the plain-name
index binds `x` to the id of a node of the diagram, and the node with that id is labelled
`x` and has one of these three kinds, whatever the order of the records; a lookup of `x`
that is not redirected to `Service/x` resolves to that id. -/
theorem workload_wins_plain_name (c : Converter) (collection : ResourceCollection)
    (o : VaultOrder) (hv : o.Valid collection) (x : String)
    (hx : hasPrefix x "vault-secret-" = false)
    (hw : ∃ r ∈ collection.Resources, r.Name = x ∧
      (r.Kind = "Deployment" ∨ r.Kind = "StatefulSet" ∨ r.Kind = "DaemonSet")) :
    ∃ id, (buildIndex collection o).nodeMap.lookup x = some id ∧
      (∃ n ∈ (convertToDiagram c collection o).Nodes, n.ID = id) ∧
      (∀ n ∈ (convertToDiagram c collection o).Nodes, n.ID = id →
        n.Label = x ∧ (n.Kind = "Deployment" ∨ n.Kind = "StatefulSet" ∨ n.Kind = "DaemonSet")) ∧
      (∀ resourceKey,
        serviceLookup (buildIndex collection o).resourceMap resourceKey x = none →
        resolveDependency (buildIndex collection o).nodeMap
          (buildIndex collection o).resourceMap resourceKey x = some id) := by
  obtain ⟨w, hwm, hwn, hwk⟩ := hw
  have hwms := mem_materialized_of_workload collection w hwm hwk
  rw [nodeMap_lookup_of_not_mem collection o x (not_mem_index_of_no_marker collection o hv x hx)]
  obtain ⟨inv0, inv1⟩ := realIndex_nameInv collection x
  cases hl : (realIndex collection).nodeMap.lookup x with
  | none => exact absurd hwn (inv0 hl w hwms)
  | some v =>
    obtain ⟨i, r, hvi, hr, hname, hwl⟩ := inv1 v hl
    have hrk := (isWorkloadKind_iff r.Kind).1
      (hwl ⟨w, hwms, hwn, (isWorkloadKind_iff w.Kind).2 hwk⟩)
    obtain ⟨hex, hall⟩ := node_of_real_slot c collection o i r hr
    refine ⟨v, rfl, by rw [hvi]; exact hex, ?_, ?_⟩
    · intro n hn hid
      rw [hvi] at hid
      obtain ⟨h1, h2⟩ := hall n hn hid
      exact ⟨h1.trans hname, by rw [h2]; exact hrk⟩
    · intro resourceKey hnone
      have hb : (buildIndex collection o).nodeMap.lookup x = some v := by
        rw [nodeMap_lookup_of_not_mem collection o x
          (not_mem_index_of_no_marker collection o hv x hx)]
        exact hl
      simp [resolveDependency, hnone, hb]

/-- Witness of C3 on `mixedCollection`: `api` is a Service (first) and a Deployment, and
the plain name is bound to the Deployment's node `node-1`. -/
theorem workload_wins_plain_name_witness :
    hasPrefix "api" "vault-secret-" = false ∧
    (buildIndex mixedCollection mixedOrder).nodeMap.lookup "api" = some "node-1" ∧
    ∃ id, (buildIndex mixedCollection mixedOrder).nodeMap.lookup "api" = some id ∧
      (∃ n ∈ (convertToDiagram exampleConverter mixedCollection mixedOrder).Nodes, n.ID = id) ∧
      (∀ n ∈ (convertToDiagram exampleConverter mixedCollection mixedOrder).Nodes, n.ID = id →
        n.Label = "api" ∧
          (n.Kind = "Deployment" ∨ n.Kind = "StatefulSet" ∨ n.Kind = "DaemonSet")) ∧
      (∀ resourceKey,
        serviceLookup (buildIndex mixedCollection mixedOrder).resourceMap resourceKey "api"
          = none →
        resolveDependency (buildIndex mixedCollection mixedOrder).nodeMap
          (buildIndex mixedCollection mixedOrder).resourceMap resourceKey "api" = some id) :=
  ⟨by decide, by decide,
   workload_wins_plain_name exampleConverter mixedCollection mixedOrder mixedOrder_valid "api"
     (by decide) ⟨bareRecord "Deployment" "api", by simp [mixedCollection], rfl, Or.inl rfl⟩⟩

theorem mem_materialized_of_service (collection : ResourceCollection) (r : K8sResource)
    (hr : r ∈ collection.Resources) (hk : r.Kind = "Service") :
    r ∈ materialized collection := by
  unfold materialized
  rw [List.mem_filter]
  exact ⟨hr, by rw [hk]; decide⟩

theorem mem_connections_of_resolve (c : Converter) (collection : ResourceCollection)
    (o : VaultOrder) (resourceKey : String) (ds : List String) (d t s : String)
    (hentry : (resourceKey, ds) ∈ collection.Dependencies) (hd : d ∈ ds)
    (ht : (buildIndex collection o).resourceMap.lookup resourceKey = some t)
    (hs : resolveDependency (buildIndex collection o).nodeMap
      (buildIndex collection o).resourceMap resourceKey d = some s)
    (hne : s ≠ t) :
    ({ SourceID := t, TargetID := s, Label := "uses", Style := "default" } : Connection) ∈
      (convertToDiagram c collection o).Connections :=
  (mem_connections c collection o _).2 ⟨(resourceKey, ds), hentry, t, ht, d, hd, s, hs, hne, rfl⟩

/-- The kind/name index has a binding for `Service/n` exactly when a record that gets a
node has that key; the binding is then the id of such a record's slot. -/
theorem resourceMap_lookup_service (collection : ResourceCollection) (o : VaultOrder)
    (n : String) :
    ((buildIndex collection o).resourceMap.lookup (compositeKey "Service" n) = none ↔
      ∀ r ∈ materialized collection, compositeKey r.Kind r.Name ≠ compositeKey "Service" n) ∧
    ∀ v, (buildIndex collection o).resourceMap.lookup (compositeKey "Service" n) = some v →
      ∃ i r, v = nodeID i ∧ (materialized collection)[i]? = some r ∧
        compositeKey r.Kind r.Name = compositeKey "Service" n := by
  have hvault : ∀ x : String, compositeKey "VaultSecret" x ≠ compositeKey "Service" n := by
    intro x h
    have hd := congrArg String.data h
    rw [compositeKey_data, compositeKey_data] at hd
    have : ("VaultSecret".data ++ '/' :: x.data).head? = ("Service".data ++ '/' :: n.data).head? := by
      rw [hd]
    have hV : "VaultSecret".data = 'V' :: "aultSecret".data := by decide
    have hS : "Service".data = 'S' :: "ervice".data := by decide
    rw [hV, hS] at this
    simp at this
  have hsome : ∀ v, (buildIndex collection o).resourceMap.lookup (compositeKey "Service" n) = some v →
      ∃ i r, v = nodeID i ∧ (materialized collection)[i]? = some r ∧
        compositeKey r.Kind r.Name = compositeKey "Service" n := by
    intro v hv
    obtain ⟨i, hi, hcase⟩ := resourceMap_lookup_some collection o _ v hv
    rcases hcase with ⟨r, hr, hk⟩ | ⟨_, x, _, hk⟩
    · exact ⟨i, r, hi, hr, hk⟩
    · exact absurd hk (hvault x)
  refine ⟨⟨?_, ?_⟩, hsome⟩
  · intro hnone r hr hk
    rw [buildIndex_resourceMap, lookup_append_eq] at hnone
    have hreal : (realIndex collection).resourceMap.lookup (compositeKey "Service" n) ≠ none := by
      rw [realIndex_resourceMap, ← hk]
      exact lookup_enum_ne_none (fun r : K8sResource => compositeKey r.Kind r.Name) 0 _ r hr
    cases hv : (((o.index.enumFrom (materialized collection).length).map
        (fun p => (compositeKey "VaultSecret" p.2, nodeID p.1))).reverse).lookup
          (compositeKey "Service" n) with
    | some w => rw [hv] at hnone; cases hnone
    | none => rw [hv] at hnone; exact hreal hnone
  · intro hall
    cases hl : (buildIndex collection o).resourceMap.lookup (compositeKey "Service" n) with
    | none => rfl
    | some v =>
      obtain ⟨i, r, _, hr, hk⟩ := hsome v hl
      exact absurd hk (hall r (List.mem_iff_getElem?.2 ⟨i, hr⟩))

/-- C4, as amended: for a dependency-map entry whose key is `kind/name` with `kind` one
of Route, ServiceMonitor, Ingress and `name` free of `/` (so that the key splits into
exactly two parts), and for a dependency name `n` free of `/` in its list, if a record of
kind Service named `n` exists then `n` resolves to the id of a node of kind Service
labelled `n`, even when other records (a workload included) are also named `n`; and
when the key is bound in the kind/name index the edge to that node is in the diagram. -/
theorem redirection_prefers_service (c : Converter) (collection : ResourceCollection)
    (o : VaultOrder) (kind name n : String) (ds : List String)
    (hk : kind = "Route" ∨ kind = "ServiceMonitor" ∨ kind = "Ingress")
    (hname : '/' ∉ name.data) (hn : '/' ∉ n.data)
    (hsvc : ∃ r ∈ collection.Resources, r.Kind = "Service" ∧ r.Name = n)
    (hentry : (compositeKey kind name, ds) ∈ collection.Dependencies) (hd : n ∈ ds) :
    ∃ s, resolveDependency (buildIndex collection o).nodeMap
        (buildIndex collection o).resourceMap (compositeKey kind name) n = some s ∧
      (∃ node ∈ (convertToDiagram c collection o).Nodes, node.ID = s) ∧
      (∀ node ∈ (convertToDiagram c collection o).Nodes, node.ID = s →
        node.Kind = "Service" ∧ node.Label = n) ∧
      (∀ t, (buildIndex collection o).resourceMap.lookup (compositeKey kind name) = some t →
        ({ SourceID := t, TargetID := s, Label := "uses", Style := "default" } : Connection) ∈
          (convertToDiagram c collection o).Connections) := by
  obtain ⟨svc, hsm, hsk, hsn⟩ := hsvc
  obtain ⟨hnone, hsome⟩ := resourceMap_lookup_service collection o n
  cases hl : (buildIndex collection o).resourceMap.lookup (compositeKey "Service" n) with
  | none =>
    exact absurd (by rw [hsk, hsn])
      (hnone.1 hl svc (mem_materialized_of_service collection svc hsm hsk))
  | some s =>
    obtain ⟨i, r, hsi, hr, hkey⟩ := hsome s hl
    obtain ⟨hrk, hrn⟩ := compositeKey_eq_service r.Kind r.Name n hn hkey
    obtain ⟨hex, hall⟩ := node_of_real_slot c collection o i r hr
    have hres : resolveDependency (buildIndex collection o).nodeMap
        (buildIndex collection o).resourceMap (compositeKey kind name) n = some s := by
      simp [resolveDependency, serviceLookup_of_redirecting _ kind name n hk hname, hl]
    refine ⟨s, hres, by rw [hsi]; exact hex, ?_, ?_⟩
    · intro node hnode hid
      rw [hsi] at hid
      obtain ⟨h1, h2⟩ := hall node hnode hid
      exact ⟨h2.trans hrk, h1.trans hrn⟩
    · intro t ht
      apply mem_connections_of_resolve c collection o _ ds n t s hentry hd ht hres
      intro hst
      subst hst
      have hkk := resourceMap_key_unique collection o _ _ _ ht hl
      have := (compositeKey_eq_service kind name n hn hkk).1
      rcases hk with h | h | h <;> rw [h] at this <;> exact absurd this (by decide)

/-- Witness of C4 (amended) on `mixedCollection`: the Ingress `ing` names `api`, which is
both a Service and a Deployment; the edge goes to the Service's node `node-0`. -/
theorem redirection_prefers_service_witness :
    resolveDependency (buildIndex mixedCollection mixedOrder).nodeMap
        (buildIndex mixedCollection mixedOrder).resourceMap "Ingress/ing" "api" = some "node-0" ∧
    ∃ s, resolveDependency (buildIndex mixedCollection mixedOrder).nodeMap
        (buildIndex mixedCollection mixedOrder).resourceMap
          (compositeKey "Ingress" "ing") "api" = some s ∧
      (∃ node ∈ (convertToDiagram exampleConverter mixedCollection mixedOrder).Nodes,
        node.ID = s) ∧
      (∀ node ∈ (convertToDiagram exampleConverter mixedCollection mixedOrder).Nodes,
        node.ID = s → node.Kind = "Service" ∧ node.Label = "api") ∧
      (∀ t, (buildIndex mixedCollection mixedOrder).resourceMap.lookup
          (compositeKey "Ingress" "ing") = some t →
        ({ SourceID := t, TargetID := s, Label := "uses", Style := "default" } : Connection) ∈
          (convertToDiagram exampleConverter mixedCollection mixedOrder).Connections) :=
  ⟨by decide,
   redirection_prefers_service exampleConverter mixedCollection mixedOrder "Ingress" "ing" "api"
     ["api", "cm", "missing", "vault-secret-a-b"] (Or.inr (Or.inr rfl)) (by decide) (by decide)
     ⟨bareRecord "Service" "api", by simp [mixedCollection], rfl, rfl⟩
     (by decide) (by decide)⟩

/-- Counterexample to C4 as stated.  (1) A Route named `a/b` that points at `svc`, with a
Service `svc` (`node-1`) and a Deployment `svc` (`node-2`): its key `Route/a/b` has three
parts, no redirection is applied, and the single edge goes to the Deployment.  (2) A Route
that points at `x/y`, with a Service `x/y` (`node-1`) and a later record of kind
`Service/x` named `y` (`node-2`): both have the key `Service/x/y`, and the edge goes to
the latter. -/
theorem redirection_counterexample :
    (buildDependencies { Resources := slashRouteRecords, Dependencies := [] }).map
        (fun col =>
          ((convertToDiagram exampleConverter col noVaultOrder).Connections,
           (convertToDiagram exampleConverter col noVaultOrder).Nodes.map
             (fun n => (n.ID, n.Kind, n.Label)))) =
      some ([{ SourceID := "node-0", TargetID := "node-2", Label := "uses", Style := "default" }],
            [("node-0", "Route", "a/b"), ("node-1", "Service", "svc"),
             ("node-2", "Deployment", "svc")]) ∧
    (buildDependencies { Resources := slashTargetRecords, Dependencies := [] }).map
        (fun col =>
          ((convertToDiagram exampleConverter col noVaultOrder).Connections,
           (convertToDiagram exampleConverter col noVaultOrder).Nodes.map
             (fun n => (n.ID, n.Kind, n.Label)))) =
      some ([{ SourceID := "node-0", TargetID := "node-2", Label := "uses", Style := "default" }],
            [("node-0", "Route", "r"), ("node-1", "Service", "x/y"),
             ("node-2", "Service/x", "y")]) := by
  constructor <;> decide

theorem nodeMap_lookup_ne_none (collection : ResourceCollection) (o : VaultOrder) (n : String)
    (r : K8sResource) (hr : r ∈ materialized collection) (hn : r.Name = n) :
    (buildIndex collection o).nodeMap.lookup n ≠ none := by
  rw [buildIndex_nodeMap, lookup_append_eq]
  cases hv : (((o.index.enumFrom (materialized collection).length).map
      (fun p => (p.2, nodeID p.1))).reverse).lookup n with
  | some w => simp
  | none =>
    intro hnone
    exact (realIndex_nameInv collection n).1 hnone r hr hn

/-- C5, as amended: for a dependency-map entry (of an Ingress, a Route, a ServiceMonitor
or any other key) and a dependency name `n` free of `/` in its list such that no record
of kind Service is named `n` while some record that gets a node is named `n`,
`convertToDiagram` falls back to the plain-name index: `n` resolves to the node id bound
to the plain name `n`, which is the id of a node of the diagram, and the edge from the
key's node to it is produced whenever the two nodes differ. -/
theorem plain_name_used_without_service (c : Converter) (collection : ResourceCollection)
    (o : VaultOrder) (hv : o.Valid collection) (resourceKey n : String) (ds : List String)
    (hentry : (resourceKey, ds) ∈ collection.Dependencies) (hd : n ∈ ds)
    (hn : '/' ∉ n.data)
    (hnosvc : ∀ r ∈ collection.Resources, ¬ (r.Kind = "Service" ∧ r.Name = n))
    (hrec : ∃ r ∈ collection.Resources,
      r.Name = n ∧ r.Kind ≠ "Namespace" ∧ r.Kind ≠ "Kustomization") :
    ∃ s, (buildIndex collection o).nodeMap.lookup n = some s ∧
      resolveDependency (buildIndex collection o).nodeMap
        (buildIndex collection o).resourceMap resourceKey n = some s ∧
      (∃ node ∈ (convertToDiagram c collection o).Nodes, node.ID = s) ∧
      (∀ t, (buildIndex collection o).resourceMap.lookup resourceKey = some t → s ≠ t →
        ({ SourceID := t, TargetID := s, Label := "uses", Style := "default" } : Connection) ∈
          (convertToDiagram c collection o).Connections) := by
  obtain ⟨r, hrm, hrn, hk1, hk2⟩ := hrec
  have hrms : r ∈ materialized collection := by
    unfold materialized
    rw [List.mem_filter]
    exact ⟨hrm, by simp [isContainerKind, hk1, hk2]⟩
  have hnone : (buildIndex collection o).resourceMap.lookup (compositeKey "Service" n) = none := by
    apply (resourceMap_lookup_service collection o n).1.2
    intro r' hr' hkey
    have hr'm : r' ∈ collection.Resources := (List.mem_filter.1 hr').1
    exact hnosvc r' hr'm (compositeKey_eq_service r'.Kind r'.Name n hn hkey)
  cases hl : (buildIndex collection o).nodeMap.lookup n with
  | none => exact absurd hl (nodeMap_lookup_ne_none collection o n r hrms hrn)
  | some s =>
    have hres : resolveDependency (buildIndex collection o).nodeMap
        (buildIndex collection o).resourceMap resourceKey n = some s := by
      rw [resolveDependency_of_service_none _ _ _ _ hnone, hl]
    refine ⟨s, rfl, hres, ?_, ?_⟩
    · obtain ⟨i, hi, hsi⟩ := nodeMap_lookup_lt collection o n s hl
      have hlen : o.index.length = o.create.length := by rw [hv.1.length_eq, hv.2.length_eq]
      rw [hsi]
      exact exists_node_of_lt collection o i (by omega)
    · intro t ht hne
      exact mem_connections_of_resolve c collection o _ ds n t s hentry hd ht hres hne

theorem noVaultOrder_valid_scenarioC : noVaultOrder.Valid scenarioCCollection :=
  ⟨List.Perm.of_eq (by decide), List.Perm.of_eq (by decide)⟩

/-- Witness of C5 (amended) on Scenario C: the Ingress `web-ingress` names `api`, only a
ConfigMap is named `api`, and the edge `node-0 -> node-1` is in the diagram. -/
theorem plain_name_used_without_service_witness :
    ({ SourceID := "node-0", TargetID := "node-1", Label := "uses", Style := "default" } :
        Connection) ∈
      (convertToDiagram exampleConverter scenarioCCollection noVaultOrder).Connections ∧
    ∃ s, (buildIndex scenarioCCollection noVaultOrder).nodeMap.lookup "api" = some s ∧
      resolveDependency (buildIndex scenarioCCollection noVaultOrder).nodeMap
        (buildIndex scenarioCCollection noVaultOrder).resourceMap "Ingress/web-ingress" "api"
          = some s ∧
      (∃ node ∈ (convertToDiagram exampleConverter scenarioCCollection noVaultOrder).Nodes,
        node.ID = s) ∧
      (∀ t, (buildIndex scenarioCCollection noVaultOrder).resourceMap.lookup
          "Ingress/web-ingress" = some t → s ≠ t →
        ({ SourceID := t, TargetID := s, Label := "uses", Style := "default" } : Connection) ∈
          (convertToDiagram exampleConverter scenarioCCollection noVaultOrder).Connections) :=
  ⟨by decide,
   plain_name_used_without_service exampleConverter scenarioCCollection noVaultOrder
     noVaultOrder_valid_scenarioC "Ingress/web-ingress" "api" ["api"] (by decide) (by decide)
     (by decide)
     (by
       intro r hr
       simp only [scenarioCCollection, scenarioCRecords, List.mem_cons, List.mem_singleton,
         List.not_mem_nil, or_false] at hr
       rcases hr with h | h <;> subst h <;> decide)
     ⟨bareRecord "ConfigMap" "api", by simp [scenarioCCollection, scenarioCRecords], rfl,
       by decide, by decide⟩⟩

/-- Counterexample to C5 as stated (Scenario C): for an Ingress `web-ingress` whose
backend service is `api` and a ConfigMap named `api`, with no Service named `api`, the
dependency map is `Ingress/web-ingress -> [api]` and the diagram has one edge, from the
Ingress (`node-0`) to the ConfigMap (`node-1`). -/
theorem scenario_c_counterexample :
    (buildDependencies { Resources := scenarioCRecords, Dependencies := [] }).map
        (fun col =>
          (col.Dependencies,
           (convertToDiagram exampleConverter col noVaultOrder).Connections,
           (convertToDiagram exampleConverter col noVaultOrder).Nodes.map
             (fun n => (n.ID, n.Kind, n.Label)))) =
      some ([("Ingress/web-ingress", ["api"])],
            [{ SourceID := "node-0", TargetID := "node-1", Label := "uses", Style := "default" }],
            [("node-0", "Ingress", "web-ingress"), ("node-1", "ConfigMap", "api")]) := by
  decide

/-- C6: when the kind/name index has no binding for `Service/n`, a dependency name `n`
resolves through the plain-name index, for a Route, ServiceMonitor or Ingress key as for
any other key; so the edge from the key's node to the node bound to the plain name `n`
is in the diagram whenever that node exists and differs from the key's node. -/
theorem service_first_then_plain_name (c : Converter) (collection : ResourceCollection)
    (o : VaultOrder) (resourceKey n : String)
    (hnone : (buildIndex collection o).resourceMap.lookup (compositeKey "Service" n) = none) :
    resolveDependency (buildIndex collection o).nodeMap
        (buildIndex collection o).resourceMap resourceKey n =
      (buildIndex collection o).nodeMap.lookup n ∧
    ∀ ds t s, (resourceKey, ds) ∈ collection.Dependencies → n ∈ ds →
      (buildIndex collection o).resourceMap.lookup resourceKey = some t →
      (buildIndex collection o).nodeMap.lookup n = some s → s ≠ t →
      ({ SourceID := t, TargetID := s, Label := "uses", Style := "default" } : Connection) ∈
        (convertToDiagram c collection o).Connections := by
  have hres := resolveDependency_of_service_none (buildIndex collection o).nodeMap
    (buildIndex collection o).resourceMap resourceKey n hnone
  refine ⟨hres, ?_⟩
  intro ds t s hentry hd ht hs hne
  exact mem_connections_of_resolve c collection o _ ds n t s hentry hd ht (by rw [hres, hs]) hne

/-- Witness of C6 on `mixedCollection`: no Service is named `cm`, and the Ingress key
resolves `cm` to the ConfigMap's node `node-3` by plain name. -/
theorem service_first_then_plain_name_witness :
    (buildIndex mixedCollection mixedOrder).resourceMap.lookup (compositeKey "Service" "cm")
      = none ∧
    (buildIndex mixedCollection mixedOrder).nodeMap.lookup "cm" = some "node-3" ∧
    (resolveDependency (buildIndex mixedCollection mixedOrder).nodeMap
        (buildIndex mixedCollection mixedOrder).resourceMap "Ingress/ing" "cm" =
      (buildIndex mixedCollection mixedOrder).nodeMap.lookup "cm" ∧
    ∀ ds t s, ("Ingress/ing", ds) ∈ mixedCollection.Dependencies → "cm" ∈ ds →
      (buildIndex mixedCollection mixedOrder).resourceMap.lookup "Ingress/ing" = some t →
      (buildIndex mixedCollection mixedOrder).nodeMap.lookup "cm" = some s → s ≠ t →
      ({ SourceID := t, TargetID := s, Label := "uses", Style := "default" } : Connection) ∈
        (convertToDiagram exampleConverter mixedCollection mixedOrder).Connections) :=
  ⟨by decide, by decide,
   service_first_then_plain_name exampleConverter mixedCollection mixedOrder "Ingress/ing" "cm"
     (by decide)⟩

/-- C7: every connection synthesized by `convertToDiagram` comes from an entry with key
`K` and a name `D` of its list, has `SourceID` the node id that the kind/name index gives
for `K`, `TargetID` the node id resolved for `D`, `Label` "uses" and `Style` "default".
Scenario A: for the Deployment `web` (pod-template label `app=web`) and the Service
`web-svc` (selector `app=web`), in either record order, the dependency map is
`Service/web-svc -> [web]` and the diagram has exactly one edge, from the node of
`web-svc` to the node of `web`, labelled "uses". -/
theorem edge_direction_and_label (c : Converter) (collection : ResourceCollection)
    (o : VaultOrder) :
    (∀ conn ∈ (convertToDiagram c collection o).Connections,
      ∃ entry ∈ collection.Dependencies, ∃ D ∈ entry.2,
        (buildIndex collection o).resourceMap.lookup entry.1 = some conn.SourceID ∧
        resolveDependency (buildIndex collection o).nodeMap
          (buildIndex collection o).resourceMap entry.1 D = some conn.TargetID ∧
        conn.Label = "uses" ∧ conn.Style = "default") ∧
    (buildDependencies { Resources := [scenarioAWeb, scenarioAWebSvc], Dependencies := [] }).map
        (fun col =>
          (col.Dependencies, (convertToDiagram c col noVaultOrder).Connections,
           (convertToDiagram c col noVaultOrder).Nodes.map (fun n => (n.ID, n.Kind, n.Label)))) =
      some ([("Service/web-svc", ["web"])],
            [{ SourceID := "node-1", TargetID := "node-0", Label := "uses", Style := "default" }],
            [("node-0", "Deployment", "web"), ("node-1", "Service", "web-svc")]) ∧
    (buildDependencies { Resources := [scenarioAWebSvc, scenarioAWeb], Dependencies := [] }).map
        (fun col =>
          (col.Dependencies, (convertToDiagram c col noVaultOrder).Connections,
           (convertToDiagram c col noVaultOrder).Nodes.map (fun n => (n.ID, n.Kind, n.Label)))) =
      some ([("Service/web-svc", ["web"])],
            [{ SourceID := "node-0", TargetID := "node-1", Label := "uses", Style := "default" }],
            [("node-0", "Service", "web-svc"), ("node-1", "Deployment", "web")]) := by
  have scenario₁ :
      (buildDependencies { Resources := [scenarioAWeb, scenarioAWebSvc], Dependencies := [] }).map
        (fun col =>
          (col.Dependencies, (convertToDiagram exampleConverter col noVaultOrder).Connections,
           (convertToDiagram exampleConverter col noVaultOrder).Nodes.map
             (fun n => (n.ID, n.Kind, n.Label)))) =
      some ([("Service/web-svc", ["web"])],
            [{ SourceID := "node-1", TargetID := "node-0", Label := "uses", Style := "default" }],
            [("node-0", "Deployment", "web"), ("node-1", "Service", "web-svc")]) := by
    decide
  have scenario₂ :
      (buildDependencies { Resources := [scenarioAWebSvc, scenarioAWeb], Dependencies := [] }).map
        (fun col =>
          (col.Dependencies, (convertToDiagram exampleConverter col noVaultOrder).Connections,
           (convertToDiagram exampleConverter col noVaultOrder).Nodes.map
             (fun n => (n.ID, n.Kind, n.Label)))) =
      some ([("Service/web-svc", ["web"])],
            [{ SourceID := "node-0", TargetID := "node-1", Label := "uses", Style := "default" }],
            [("node-0", "Service", "web-svc"), ("node-1", "Deployment", "web")]) := by
    decide
  refine ⟨?_, scenario₁, scenario₂⟩
  intro conn hc
  obtain ⟨entry, he, t, ht, d, hd, s, hs, _, hconn⟩ := (mem_connections c collection o conn).1 hc
  subst hconn
  exact ⟨entry, he, d, hd, ht, hs, rfl, rfl⟩

theorem edgeFor_eq_none_of_unresolved (nodeMap resourceMap : List (String × String))
    (resourceKey t d : String)
    (h : resolveDependency nodeMap resourceMap resourceKey d = none) :
    edgeFor nodeMap resourceMap resourceKey t d = none := by
  simp [edgeFor, h]

/-- C8: the connection sequence is the concatenation, over the dependency-map entries
in traversal order, of the edges owed to each entry (`edgesOfEntry`).  An entry whose key
is absent from the kind/name index owes no edge.  An entry whose key is bound to `t` owes
one edge per position of its list whose name resolves to a node id other than `t`, in
list order.  A name that does not resolve removes only its own edge: the entry owes the
same edges as with that name deleted from its list. -/
theorem edge_synthesis_drop_policy (c : Converter) (collection : ResourceCollection)
    (o : VaultOrder) :
    (convertToDiagram c collection o).Connections =
      collection.Dependencies.flatMap
        (edgesOfEntry (buildIndex collection o).nodeMap (buildIndex collection o).resourceMap) ∧
    (∀ K ds, (buildIndex collection o).resourceMap.lookup K = none →
      edgesOfEntry (buildIndex collection o).nodeMap (buildIndex collection o).resourceMap
        (K, ds) = []) ∧
    (∀ K ds t, (buildIndex collection o).resourceMap.lookup K = some t →
      edgesOfEntry (buildIndex collection o).nodeMap (buildIndex collection o).resourceMap
        (K, ds) =
      ds.filterMap (fun d =>
        (resolveDependency (buildIndex collection o).nodeMap
          (buildIndex collection o).resourceMap K d).bind
          (fun s => if s = t then none
            else some { SourceID := t, TargetID := s, Label := "uses", Style := "default" }))) ∧
    (∀ K ds₁ d ds₂,
      resolveDependency (buildIndex collection o).nodeMap
        (buildIndex collection o).resourceMap K d = none →
      edgesOfEntry (buildIndex collection o).nodeMap (buildIndex collection o).resourceMap
        (K, ds₁ ++ d :: ds₂) =
      edgesOfEntry (buildIndex collection o).nodeMap (buildIndex collection o).resourceMap
        (K, ds₁ ++ ds₂)) := by
  refine ⟨connections_eq c collection o, ?_, ?_, ?_⟩
  · intro K ds h
    simp [edgesOfEntry, h]
  · intro K ds t h
    simp only [edgesOfEntry, h]
    congr 1
    funext d
    unfold edgeFor
    cases resolveDependency (buildIndex collection o).nodeMap
      (buildIndex collection o).resourceMap K d <;> rfl
  · intro K ds₁ d ds₂ h
    unfold edgesOfEntry
    cases (buildIndex collection o).resourceMap.lookup K with
    | none => rfl
    | some t =>
      simp only [List.filterMap_append, List.filterMap_cons,
        edgeFor_eq_none_of_unresolved _ _ _ t d h]

theorem count_edgesOfEntry_bound (nodeMap resourceMap : List (String × String))
    (K : String) (ds : List String) (t s : String) (ht : resourceMap.lookup K = some t)
    (hst : s ≠ t) :
    (edgesOfEntry nodeMap resourceMap (K, ds)).count
        { SourceID := t, TargetID := s, Label := "uses", Style := "default" } =
      ds.countP (fun d => decide (resolveDependency nodeMap resourceMap K d = some s)) := by
  simp only [edgesOfEntry, ht]
  induction ds with
  | nil => simp
  | cons d ds ih =>
    rw [List.filterMap_cons, List.countP_cons]
    cases hres : resolveDependency nodeMap resourceMap K d with
    | none =>
      simp only [edgeFor, hres]
      rw [ih]; simp
    | some s' =>
      by_cases hs't : s' = t
      · have hne : s' ≠ s := fun h => hst (h.symm.trans hs't)
        simp only [edgeFor, hres, hs't, if_true]
        rw [ih]
        have : ¬ (t = s) := fun h => hst h.symm
        simp [this]
      · simp only [edgeFor, hres, hs't, if_false]
        rw [List.count_cons, ih]
        by_cases hs's : s' = s
        · subst hs's; simp
        · have : ¬ (({ SourceID := t, TargetID := s', Label := "uses", Style := "default" } :
              Connection) = { SourceID := t, TargetID := s, Label := "uses", Style := "default" }) := by
            intro h; injection h with _ h2; exact hs's h2
          simp [this, hs's]

theorem count_flatMap_single {α β : Type} [DecidableEq β] (f : α → List β) (key : α → String)
    (e : β) :
    ∀ (es : List α) (a : α), (es.map key).Nodup → a ∈ es →
      (∀ b ∈ es, key b ≠ key a → e ∉ f b) →
      (es.flatMap f).count e = (f a).count e := by
  intro es
  induction es with
  | nil => intro a _ ha; cases ha
  | cons b es ih =>
    intro a hnd ha hother
    rw [List.map_cons, List.nodup_cons] at hnd
    rw [List.flatMap_cons, List.count_append]
    rcases List.mem_cons.1 ha with hab | hmem
    · subst hab
      have hzero : (es.flatMap f).count e = 0 := by
        rw [List.count_eq_zero, List.mem_flatMap]
        rintro ⟨b, hb, heb⟩
        have hkey : key b ≠ key a := by
          intro h
          exact hnd.1 (h ▸ List.mem_map_of_mem key hb)
        exact hother b (List.mem_cons_of_mem _ hb) hkey heb
      omega
    · have hkey : key b ≠ key a := by
        intro h
        exact hnd.1 (h ▸ List.mem_map_of_mem key hmem)
      have hzero : (f b).count e = 0 :=
        List.count_eq_zero.2 (hother b (List.mem_cons_self _ _) hkey)
      rw [hzero, Nat.zero_add]
      exact ih a hnd.2 hmem (fun b' hb' => hother b' (List.mem_cons_of_mem _ hb'))

/-- C9, as amended: `convertToDiagram` does not deduplicate.  For a dependency map (its
keys pairwise distinct, as in a Go map), an entry `(K, ds)` whose key is bound to the
node id `t`, and any other node id `s`, the connection sequence holds the connection
`t -> s` exactly as many times as `ds` has positions whose name resolves to `s`: once
for each, so a name listed twice, or two names that resolve to one node, give two equal
connections. -/
theorem connection_multiplicity (c : Converter) (collection : ResourceCollection)
    (o : VaultOrder) (hkeys : (collection.Dependencies.map Prod.fst).Nodup)
    (K : String) (ds : List String) (t s : String)
    (hentry : (K, ds) ∈ collection.Dependencies)
    (ht : (buildIndex collection o).resourceMap.lookup K = some t) (hst : s ≠ t) :
    (convertToDiagram c collection o).Connections.count
        { SourceID := t, TargetID := s, Label := "uses", Style := "default" } =
      ds.countP (fun d => decide (resolveDependency (buildIndex collection o).nodeMap
        (buildIndex collection o).resourceMap K d = some s)) := by
  rw [connections_eq,
    count_flatMap_single _ Prod.fst _ collection.Dependencies (K, ds) hkeys hentry,
    count_edgesOfEntry_bound _ _ K ds t s ht hst]
  intro b _ hkey hmem
  obtain ⟨t', ht', _, _, s', _, _, hconn⟩ := (mem_edgesOfEntry _ _ _ _).1 hmem
  injection hconn with h1 _ _ _
  subst h1
  exact hkey (resourceMap_key_unique collection o _ _ _ ht' ht)

/-- Witness of C9 (amended): the Deployment `web` lists the ConfigMap `cfg` twice, and
the connection `node-0 -> node-1` occurs twice. -/
theorem connection_multiplicity_witness :
    (convertToDiagram exampleConverter twiceConfiguredCollection noVaultOrder).Connections.count
        { SourceID := "node-0", TargetID := "node-1", Label := "uses", Style := "default" } = 2 ∧
    (convertToDiagram exampleConverter twiceConfiguredCollection noVaultOrder).Connections.count
        { SourceID := "node-0", TargetID := "node-1", Label := "uses", Style := "default" } =
      ["cfg", "cfg"].countP (fun d => decide (resolveDependency
        (buildIndex twiceConfiguredCollection noVaultOrder).nodeMap
        (buildIndex twiceConfiguredCollection noVaultOrder).resourceMap "Deployment/web" d =
          some "node-1")) :=
  ⟨by decide,
   connection_multiplicity exampleConverter twiceConfiguredCollection noVaultOrder (by decide)
     "Deployment/web" ["cfg", "cfg"] "node-0" "node-1" (by decide) (by decide) (by decide)⟩

/-- Counterexample to C9 as stated: a Deployment `web` that references the ConfigMap
`cfg` both by a volume and by `envFrom` gets the dependency list `[cfg, cfg]`, and the
connection sequence holds the connection `node-0 -> node-1` twice. -/
theorem deduplication_counterexample :
    (buildDependencies
        { Resources := [twiceConfiguredWeb, bareRecord "ConfigMap" "cfg"],
          Dependencies := [] }).map
        (fun col =>
          (col.Dependencies,
           (convertToDiagram exampleConverter col noVaultOrder).Connections)) =
      some ([("Deployment/web", ["cfg", "cfg"])],
            [{ SourceID := "node-0", TargetID := "node-1", Label := "uses", Style := "default" },
             { SourceID := "node-0", TargetID := "node-1", Label := "uses", Style := "default" }]) := by
  decide

/-! ### Selectors -/

theorem matchesSelector_nil (resource : K8sResource) :
    matchesSelector resource [] = some (hasTemplateLabels resource) := by
  unfold matchesSelector hasTemplateLabels
  by_cases hk : resource.Kind ≠ "Deployment" ∧ resource.Kind ≠ "StatefulSet" ∧
      resource.Kind ≠ "DaemonSet"
  · rw [if_pos hk]
    obtain ⟨h1, h2, h3⟩ := hk
    simp [isWorkloadKind, h1, h2, h3]
  · rw [if_neg hk]
    have hw : isWorkloadKind resource.Kind = true := by
      rw [isWorkloadKind_iff]
      by_contra hcon
      exact hk ⟨fun h => hcon (Or.inl h), fun h => hcon (Or.inr (Or.inl h)),
        fun h => hcon (Or.inr (Or.inr h))⟩
    cases nestedMap resource.Object ["spec", "template", "metadata", "labels"] with
    | none => simp [hw]
    | some labels => simp [hw, selectorLoop]

theorem matchesServiceLabels_nil (resource : K8sResource) :
    matchesServiceLabels resource [] = hasServiceLabels resource := by
  unfold matchesServiceLabels hasServiceLabels
  by_cases hk : resource.Kind = "Service"
  · simp only [hk, ne_eq, not_true_eq_false, if_false]
    cases nestedStringMap resource.Object ["metadata", "labels"] with
    | none => simp
    | some labels => simp [serviceLabelsLoop]
  · simp [hk]

theorem serviceStep_nil (acc : List String) (r : K8sResource) :
    serviceStep [] (some acc) r =
      some (if hasTemplateLabels r = true then acc ++ [r.Name] else acc) := by
  unfold serviceStep
  simp only [matchesSelector_nil]
  cases hasTemplateLabels r <;> simp

theorem serviceMonitorStep_nil (acc : List String) (r : K8sResource) :
    serviceMonitorStep [] acc r =
      if hasServiceLabels r = true then acc ++ [r.Name] else acc := by
  unfold serviceMonitorStep
  rw [matchesServiceLabels_nil]
  cases hm : hasServiceLabels r with
  | true =>
    have hk : r.Kind = "Service" := by
      simp only [hasServiceLabels, Bool.and_eq_true, beq_iff_eq] at hm
      exact hm.1
    simp [hk]
  | false => simp

theorem foldl_serviceStep_nil (rs : List K8sResource) :
    ∀ acc : List String,
      rs.foldl (serviceStep []) (some acc) =
        some (acc ++ (rs.filter hasTemplateLabels).map (fun r => r.Name)) := by
  induction rs with
  | nil => intro acc; simp
  | cons r rs ih =>
    intro acc
    rw [List.foldl_cons, serviceStep_nil, ih]
    cases hm : hasTemplateLabels r <;> simp [List.filter_cons, hm]

theorem foldl_serviceMonitorStep_nil (rs : List K8sResource) :
    ∀ acc : List String,
      rs.foldl (serviceMonitorStep []) acc =
        acc ++ (rs.filter hasServiceLabels).map (fun r => r.Name) := by
  induction rs with
  | nil => intro acc; simp
  | cons r rs ih =>
    intro acc
    rw [List.foldl_cons, serviceMonitorStep_nil, ih]
    cases hm : hasServiceLabels r <;> simp [List.filter_cons, hm]

/-- C10, as amended: an empty selector is a match-all.  With a selector that has no keys,
`matchesSelector` returns true exactly for the records of kind Deployment, StatefulSet or
DaemonSet whose `spec.template.metadata.labels` is a map, and `matchesServiceLabels`
returns true exactly for the Service records whose `metadata.labels` is a map of
strings.  So the dependency list of a Service whose `spec.selector` is present and empty
holds the names of all such workloads, in record order, and that of a ServiceMonitor
whose `matchLabels` is present and empty holds the names of all such Services. -/
theorem empty_selector_matches_all (resource : K8sResource) (allResources : List K8sResource) :
    matchesSelector resource [] = some (hasTemplateLabels resource) ∧
    matchesServiceLabels resource [] = hasServiceLabels resource ∧
    (resource.Kind = "Service" →
      nestedMap resource.Object ["spec", "selector"] = some [] →
      findDependencies resource allResources =
        some ((allResources.filter hasTemplateLabels).map (fun r => r.Name))) ∧
    (resource.Kind = "ServiceMonitor" →
      (∃ selector, nestedMap resource.Object ["spec", "selector"] = some selector ∧
        nestedMap selector ["matchLabels"] = some []) →
      findDependencies resource allResources =
        some ((allResources.filter hasServiceLabels).map (fun r => r.Name))) := by
  refine ⟨matchesSelector_nil resource, matchesServiceLabels_nil resource, ?_, ?_⟩
  · intro hk hsel
    unfold findDependencies
    rw [if_pos hk, hsel]
    simp only [foldl_serviceStep_nil, List.nil_append]
  · rintro hk ⟨selector, hsel, hml⟩
    unfold findDependencies
    have h1 : ¬ resource.Kind = "Service" := by rw [hk]; decide
    have h2 : ¬ resource.Kind = "Ingress" := by rw [hk]; decide
    have h3 : ¬ resource.Kind = "Route" := by rw [hk]; decide
    rw [if_neg h1, if_neg h2, if_neg h3, if_pos hk, hsel]
    simp only [hml, foldl_serviceMonitorStep_nil, List.nil_append]

/-- Counterexample to C10 as stated: with an empty selector `matchesSelector` returns
true for the Deployment `web` of Scenario A, so a Service whose `spec.selector` is present
and empty depends on `web`; and a ServiceMonitor whose `matchLabels` is empty matches the
Service `labelled-svc`. -/
theorem empty_selector_counterexample :
    matchesSelector scenarioAWeb [] = some true ∧
    nestedMap emptySelectorService.Object ["spec", "selector"] = some [] ∧
    findDependencies emptySelectorService [scenarioAWeb, emptySelectorService] = some ["web"] ∧
    matchesServiceLabels labelledService [] = true ∧
    findDependencies emptySelectorMonitor [labelledService, emptySelectorMonitor] =
      some ["labelled-svc"] := by
  refine ⟨by decide, ?_, by decide, by decide, by decide⟩
  rfl

/-! ### Closed forms of the resolver loops -/

theorem volumeStep_eq (dependencies : List String) (vol : JVal) :
    volumeStep dependencies vol = dependencies ++ volumeRefs vol := by
  cases vol with
  | obj volMap =>
    simp only [volumeStep, volumeRefs, refName]
    repeat' split
    all_goals simp_all
  | _ => simp [volumeStep, volumeRefs]

theorem foldl_append_flatMap {α : Type} (step : List String → α → List String)
    (refs : α → List String) (h : ∀ acc x, step acc x = acc ++ refs x) (xs : List α) :
    ∀ acc, xs.foldl step acc = acc ++ xs.flatMap refs := by
  induction xs with
  | nil => intro acc; simp
  | cons x xs ih => intro acc; rw [List.foldl_cons, h, ih]; simp

theorem findVolumeDependencies_eq (resource : K8sResource) :
    findVolumeDependencies resource = (podVolumes resource).flatMap volumeRefs := by
  unfold findVolumeDependencies podVolumes
  cases nestedSlice resource.Object ["spec", "template", "spec", "volumes"] with
  | none => simp
  | some volumes => simp [foldl_append_flatMap volumeStep volumeRefs volumeStep_eq]

theorem envFromStep_eq (dependencies : List String) (envSource : JVal) :
    envFromStep dependencies envSource = dependencies ++ envFromRefs envSource := by
  cases envSource with
  | obj m =>
    simp only [envFromStep, envFromRefs, refName]
    repeat' split
    all_goals simp_all
  | _ => simp [envFromStep, envFromRefs]

theorem envVarStep_eq (dependencies : List String) (envVar : JVal) :
    envVarStep dependencies envVar = dependencies ++ envVarRefs envVar := by
  cases envVar with
  | obj m =>
    simp only [envVarStep, envVarRefs, refName]
    repeat' split
    all_goals simp_all
  | _ => simp [envVarStep, envVarRefs]

theorem containerStep_eq (dependencies : List String) (container : JVal) :
    containerStep dependencies container = dependencies ++ containerRefs container := by
  cases container with
  | obj m =>
    simp only [containerStep, containerRefs, sliceAt]
    cases nestedSlice m ["envFrom"] with
    | none =>
      cases nestedSlice m ["env"] with
      | none => simp
      | some env => simp [foldl_append_flatMap envVarStep envVarRefs envVarStep_eq]
    | some envFrom =>
      cases nestedSlice m ["env"] with
      | none => simp [foldl_append_flatMap envFromStep envFromRefs envFromStep_eq]
      | some env =>
        simp [foldl_append_flatMap envVarStep envVarRefs envVarStep_eq,
          foldl_append_flatMap envFromStep envFromRefs envFromStep_eq]
  | _ => simp [containerStep, containerRefs]

theorem findEnvDependencies_eq (resource : K8sResource) :
    findEnvDependencies resource = (podContainers resource).flatMap containerRefs := by
  unfold findEnvDependencies podContainers
  cases nestedSlice resource.Object ["spec", "template", "spec", "containers"] with
  | none => simp
  | some containers => simp [foldl_append_flatMap containerStep containerRefs containerStep_eq]

theorem findServiceAccountDependencies_eq (resource : K8sResource) :
    findServiceAccountDependencies resource = podAccount resource := by
  unfold findServiceAccountDependencies podAccount
  cases nestedString resource.Object ["spec", "template", "spec", "serviceAccountName"] with
  | none => rfl
  | some name => by_cases h : name = "" <;> simp [h]

theorem serviceAccountUserStep_eq (account : K8sResource) (dependencies : List String)
    (resource : K8sResource) :
    serviceAccountUserStep account dependencies resource =
      dependencies ++ (if usesAccount account resource = true then [resource.Name] else []) := by
  unfold serviceAccountUserStep usesAccount
  by_cases hc : resource.Kind = "CronJob"
  · simp only [hc]
    cases h : nestedString resource.Object
        ["spec", "jobTemplate", "spec", "template", "spec", "serviceAccountName"] with
    | none => simp
    | some name => by_cases hn : name = account.Name <;> simp [hn]
  · by_cases hw : resource.Kind = "Deployment" ∨ resource.Kind = "StatefulSet" ∨
        resource.Kind = "DaemonSet" ∨ resource.Kind = "Job"
    · have hw' : resource.Kind = "Deployment" ∨ resource.Kind = "StatefulSet" ∨
          resource.Kind = "DaemonSet" ∨ resource.Kind = "Job" ∨ resource.Kind = "CronJob" := by
        rcases hw with h | h | h | h
        · exact Or.inl h
        · exact Or.inr (Or.inl h)
        · exact Or.inr (Or.inr (Or.inl h))
        · exact Or.inr (Or.inr (Or.inr (Or.inl h)))
      have hb : (resource.Kind == "Deployment" || resource.Kind == "StatefulSet" ||
          resource.Kind == "DaemonSet" || resource.Kind == "Job") = true := by
        simpa [or_assoc] using hw
      rw [if_pos hw']
      simp only [hc, if_false, ite_self, hb, Bool.true_and]
      cases h : nestedString resource.Object
          ["spec", "template", "spec", "serviceAccountName"] with
      | none => simp [hc]
      | some name => by_cases hn : name = account.Name <;> simp [hn, hc]
    · have hw' : ¬ (resource.Kind = "Deployment" ∨ resource.Kind = "StatefulSet" ∨
          resource.Kind = "DaemonSet" ∨ resource.Kind = "Job" ∨ resource.Kind = "CronJob") := by
        rintro (h | h | h | h | h)
        · exact hw (Or.inl h)
        · exact hw (Or.inr (Or.inl h))
        · exact hw (Or.inr (Or.inr (Or.inl h)))
        · exact hw (Or.inr (Or.inr (Or.inr h)))
        · exact hc h
      have hb : (resource.Kind == "Deployment" || resource.Kind == "StatefulSet" ||
          resource.Kind == "DaemonSet" || resource.Kind == "Job") = false := by
        rw [Bool.eq_false_iff]
        intro hcon
        apply hw
        simpa [or_assoc] using hcon
      rw [if_neg hw']
      simp [hb, hc]

theorem flatMap_ite_singleton {α : Type} (p : α → Bool) (f : α → String) (xs : List α) :
    xs.flatMap (fun x => if p x = true then [f x] else []) = (xs.filter p).map f := by
  induction xs with
  | nil => rfl
  | cons x xs ih =>
    rw [List.flatMap_cons, ih]
    cases h : p x <;> simp [List.filter_cons, h]

/-- C18: for every ServiceAccount record `a` and every record list,
`findServiceAccountUsers` returns exactly the names, in record order, of the records that
use the account (`usesAccount`): the Deployment, StatefulSet, DaemonSet and Job records
whose `spec.template.spec.serviceAccountName` is the name of `a`, and the CronJob records
whose `spec.jobTemplate.spec.template.spec.serviceAccountName` is; this list is the
dependency list that `findDependencies` gives to a record of kind ServiceAccount. -/
theorem service_account_reverse_lookup (a : K8sResource) (allResources : List K8sResource) :
    findServiceAccountUsers a allResources =
      (allResources.filter (usesAccount a)).map (fun r => r.Name) ∧
    (a.Kind = "ServiceAccount" →
      findDependencies a allResources =
        some ((allResources.filter (usesAccount a)).map (fun r => r.Name))) := by
  have hfold : findServiceAccountUsers a allResources =
      (allResources.filter (usesAccount a)).map (fun r => r.Name) := by
    unfold findServiceAccountUsers
    rw [foldl_append_flatMap (serviceAccountUserStep a)
      (fun r => if usesAccount a r = true then [r.Name] else [])
      (serviceAccountUserStep_eq a), List.nil_append, flatMap_ite_singleton]
  refine ⟨hfold, ?_⟩
  intro hk
  unfold findDependencies
  have h1 : ¬ a.Kind = "Service" := by rw [hk]; decide
  have h2 : ¬ a.Kind = "Ingress" := by rw [hk]; decide
  have h3 : ¬ a.Kind = "Route" := by rw [hk]; decide
  have h4 : ¬ a.Kind = "ServiceMonitor" := by rw [hk]; decide
  have h5 : ¬ (a.Kind = "Deployment" ∨ a.Kind = "StatefulSet" ∨ a.Kind = "DaemonSet") := by
    rw [hk]; decide
  have h6 : ¬ (a.Kind = "RoleBinding" ∨ a.Kind = "ClusterRoleBinding") := by rw [hk]; decide
  rw [if_neg h1, if_neg h2, if_neg h3, if_neg h4, if_neg h5, if_neg h6, if_pos hk, hfold]

theorem subjectStep_eq (dependencies : List String) (subject : JVal) :
    subjectStep dependencies subject = dependencies ++ subjectRef subject := by
  cases subject with
  | obj m =>
    simp only [subjectStep, subjectRef]
    cases hk : nestedString m ["kind"] with
    | none => simp
    | some kind =>
      by_cases hs : kind = "ServiceAccount"
      · subst hs
        cases hn : nestedString m ["name"] <;> simp
      · simp [hs]
  | _ => simp [subjectStep, subjectRef]

/-- C20: for every record (a RoleBinding or ClusterRoleBinding in particular),
`findRoleBindingDependencies` returns the names of the `subjects` entries whose `kind` is
`ServiceAccount`, in subject order, followed by `roleRef.name` when present; a subject of
another kind contributes nothing.  For a record of kind RoleBinding or ClusterRoleBinding
this is the dependency list that `findDependencies` returns. -/
theorem binding_rule (resource : K8sResource) (allResources : List K8sResource) :
    findRoleBindingDependencies resource =
      (sliceAt resource.Object "subjects").flatMap subjectRef ++
        refName resource.Object "roleRef" "name" ∧
    (∀ m : List (String × JVal), nestedString m ["kind"] ≠ some "ServiceAccount" →
      subjectRef (JVal.obj m) = []) ∧
    (resource.Kind = "RoleBinding" ∨ resource.Kind = "ClusterRoleBinding" →
      findDependencies resource allResources =
        some ((sliceAt resource.Object "subjects").flatMap subjectRef ++
          refName resource.Object "roleRef" "name")) := by
  have hrb : findRoleBindingDependencies resource =
      (sliceAt resource.Object "subjects").flatMap subjectRef ++
        refName resource.Object "roleRef" "name" := by
    unfold findRoleBindingDependencies sliceAt refName
    cases hs : nestedSlice resource.Object ["subjects"] with
    | none =>
      simp only [Option.getD_none, List.flatMap_nil, List.nil_append]
    | some subjects =>
      simp only [Option.getD_some, foldl_append_flatMap subjectStep subjectRef subjectStep_eq,
        List.nil_append]
      repeat' split
      all_goals simp_all
  refine ⟨hrb, ?_, ?_⟩
  · intro m hm
    simp [subjectRef, hm]
  · intro hk
    unfold findDependencies
    have h1 : ¬ resource.Kind = "Service" := by rcases hk with h | h <;> rw [h] <;> decide
    have h2 : ¬ resource.Kind = "Ingress" := by rcases hk with h | h <;> rw [h] <;> decide
    have h3 : ¬ resource.Kind = "Route" := by rcases hk with h | h <;> rw [h] <;> decide
    have h4 : ¬ resource.Kind = "ServiceMonitor" := by
      rcases hk with h | h <;> rw [h] <;> decide
    have h5 : ¬ (resource.Kind = "Deployment" ∨ resource.Kind = "StatefulSet" ∨
        resource.Kind = "DaemonSet") := by
      rcases hk with h | h <;> rw [h] <;> decide
    rw [if_neg h1, if_neg h2, if_neg h3, if_neg h4, if_neg h5, if_pos hk, hrb]

/-! ### The Service selector -/

theorem ifaceNe_scalar (labelValue value : JVal) (h : isScalar value = true) :
    ifaceNe labelValue value = some (!equalValue labelValue value) := by
  cases labelValue <;> cases value <;> simp_all [ifaceNe, equalValue, isScalar, bne]

theorem selectorLoop_scalar (labels : List (String × JVal)) :
    ∀ selector : List (String × JVal), (∀ kv ∈ selector, isScalar kv.2 = true) →
      selectorLoop labels selector = some (labelsContain labels selector) := by
  intro selector
  induction selector with
  | nil => intro _; rfl
  | cons kv rest ih =>
    intro h
    obtain ⟨key, value⟩ := kv
    have hv : isScalar value = true := h (key, value) (List.mem_cons_self _ _)
    have hrest := ih (fun kv hkv => h kv (List.mem_cons_of_mem _ hkv))
    unfold selectorLoop labelsContain
    cases hl : labels.lookup key with
    | none => simp [hl]
    | some labelValue =>
      simp only [ifaceNe_scalar labelValue value hv, List.all_cons, hl]
      cases he : equalValue labelValue value with
      | true => simpa [labelsContain] using hrest
      | false => simp

theorem matchesSelector_scalar (resource : K8sResource) (selector : List (String × JVal))
    (h : ∀ kv ∈ selector, isScalar kv.2 = true) :
    matchesSelector resource selector = some (selectedBy selector resource) := by
  unfold matchesSelector selectedBy
  by_cases hk : resource.Kind ≠ "Deployment" ∧ resource.Kind ≠ "StatefulSet" ∧
      resource.Kind ≠ "DaemonSet"
  · rw [if_pos hk]
    obtain ⟨h1, h2, h3⟩ := hk
    simp [isWorkloadKind, h1, h2, h3]
  · rw [if_neg hk]
    have hw : isWorkloadKind resource.Kind = true := by
      rw [isWorkloadKind_iff]
      by_contra hcon
      exact hk ⟨fun h => hcon (Or.inl h), fun h => hcon (Or.inr (Or.inl h)),
        fun h => hcon (Or.inr (Or.inr h))⟩
    cases nestedMap resource.Object ["spec", "template", "metadata", "labels"] with
    | none => simp [hw]
    | some labels => simp [hw, selectorLoop_scalar labels selector h]

theorem foldl_serviceStep_scalar (selector : List (String × JVal))
    (h : ∀ kv ∈ selector, isScalar kv.2 = true) (rs : List K8sResource) :
    ∀ acc : List String,
      rs.foldl (serviceStep selector) (some acc) =
        some (acc ++ (rs.filter (selectedBy selector)).map (fun r => r.Name)) := by
  induction rs with
  | nil => intro acc; simp
  | cons r rs ih =>
    intro acc
    have hstep : serviceStep selector (some acc) r =
        some (if selectedBy selector r = true then acc ++ [r.Name] else acc) := by
      unfold serviceStep
      simp only [matchesSelector_scalar r selector h]
      cases selectedBy selector r <;> simp
    rw [List.foldl_cons, hstep, ih]
    cases hm : selectedBy selector r <;> simp [List.filter_cons, hm]

/-! ### Virtual identifiers -/

theorem secretPrefix_data : "secret/".data = ['s', 'e', 'c', 'r', 'e', 't', '/'] := by
  decide

theorem markerPrefix_data :
    "vault-secret-".data = ['v', 'a', 'u', 'l', 't', '-', 's', 'e', 'c', 'r', 'e', 't', '-'] := by
  decide

theorem hasPrefix_iff (s p : String) : hasPrefix s p = true ↔ ∃ q, s.data = p.data ++ q := by
  unfold hasPrefix
  rw [List.isPrefixOf_iff_prefix]
  constructor
  · rintro ⟨q, hq⟩; exact ⟨q, hq.symm⟩
  · rintro ⟨q, hq⟩; exact ⟨q, hq.symm⟩

theorem hasPrefix_append (p q : String) : hasPrefix (p ++ q) p = true :=
  (hasPrefix_iff _ _).2 ⟨q.data, by simp⟩

theorem trimPrefix_append (p q : String) : trimPrefix (p ++ q) p = q := by
  unfold trimPrefix
  rw [if_pos (hasPrefix_append p q)]
  apply String.ext
  simp

theorem trimPrefix_of_not (s p : String) (h : hasPrefix s p = false) : trimPrefix s p = s := by
  unfold trimPrefix
  simp [h]

theorem stripSecret_append (q : List Char) : stripSecret ("secret/".data ++ q) = q := by
  rw [secretPrefix_data]
  rfl

theorem stripSecret_of_not (l : List Char) (h : ¬ ∃ q, l = "secret/".data ++ q) :
    stripSecret l = l := by
  unfold stripSecret
  split
  · rename_i rest
    exact absurd ⟨rest, by rw [secretPrefix_data]; rfl⟩ h
  · rfl

theorem trimPrefix_secret (p : String) :
    trimPrefix p "secret/" = String.mk (stripSecret p.data) := by
  by_cases h : hasPrefix p "secret/" = true
  · obtain ⟨q, hq⟩ := (hasPrefix_iff _ _).1 h
    have hp : p = "secret/" ++ String.mk q := String.ext (by simp [hq])
    rw [hp, trimPrefix_append]
    apply String.ext
    show q = stripSecret ("secret/" ++ String.mk q).data
    rw [String.data_append]
    exact (stripSecret_append q).symm
  · simp only [Bool.not_eq_true] at h
    rw [trimPrefix_of_not _ _ h, stripSecret_of_not]
    intro ⟨q, hq⟩
    have := (hasPrefix_iff p "secret/").2 ⟨q, hq⟩
    rw [h] at this; cases this

theorem replaceAll_dash (s : String) :
    replaceAll (replaceAll s '/' '-') ':' '-' = String.mk (s.data.map dash) := by
  unfold replaceAll
  apply String.ext
  simp only [List.map_map]
  apply List.map_congr_left
  intro c _
  simp only [Function.comp, dash]
  by_cases h1 : c = '/'
  · subst h1; decide
  · by_cases h2 : c = ':'
    · subst h2; decide
    · simp [h1, h2]

theorem synthesized_eq (p : String) :
    "vault-secret-" ++ replaceAll (replaceAll (trimPrefix p "secret/") '/' '-') ':' '-' =
      virtualIdentifier p := by
  rw [replaceAll_dash, trimPrefix_secret]
  rfl

theorem vaultPathStep_eq (dependencies : List String) (path : String) :
    vaultPathStep dependencies path =
      dependencies ++
        (if trimSpace path = "" then [] else [virtualIdentifier (trimSpace path)]) := by
  unfold vaultPathStep
  by_cases h : trimSpace path = ""
  · simp [h]
  · simp only [ne_eq, h, not_false_eq_true, if_true, if_false, synthesized_eq]

theorem flatMap_trimmed (segments : List String) :
    segments.flatMap (fun path =>
        if trimSpace path = "" then [] else [virtualIdentifier (trimSpace path)]) =
      ((segments.map trimSpace).filter (fun p => decide (p ≠ ""))).map virtualIdentifier := by
  induction segments with
  | nil => rfl
  | cons seg rest ih =>
    rw [List.flatMap_cons, ih]
    by_cases h : trimSpace seg = "" <;> simp [List.filter_cons, h]

theorem bankVaultsTemplateStep_envFromPath (dependencies : List String) (value : String) :
    bankVaultsTemplateStep dependencies (envFromPathKey, value) =
      dependencies ++
        (((split value ',').map trimSpace).filter (fun p => decide (p ≠ ""))).map
          virtualIdentifier := by
  have hk1 : ¬ envFromPathKey = "vault.security.banzaicloud.io/vault-tls-secret" := by decide
  have hk2 : ¬ envFromPathKey = "vault.security.banzaicloud.io/vault-serviceaccount" := by
    decide
  have hk3 : envFromPathKey = "vault.security.banzaicloud.io/vault-env-from-path" := rfl
  have hk4 : ¬ envFromPathKey = "vault.security.banzaicloud.io/token-auth-mount" := by decide
  unfold bankVaultsTemplateStep
  simp only []
  rw [if_neg (fun h => hk1 h.1), if_neg (fun h => hk2 h.1)]
  by_cases hv : value = ""
  · subst hv
    have hs : split "" ',' = [""] := by decide
    have ht : trimSpace "" = "" := by decide
    rw [if_neg (fun h => h.2 rfl), if_neg (fun h => h.2 rfl)]
    simp [hs, ht]
  · rw [if_pos ⟨hk3, hv⟩,
      foldl_append_flatMap vaultPathStep _ vaultPathStep_eq, flatMap_trimmed]

theorem dropWhile_eq_self_of_head {p : Char → Bool} (l : List Char)
    (h : ∀ c, l.head? = some c → p c = false) : l.dropWhile p = l := by
  cases l with
  | nil => rfl
  | cons c cs => simp [List.dropWhile_cons, h c rfl]

theorem trimSpace_of_noOuterSpace (p : String) (h : NoOuterSpace p) : trimSpace p = p := by
  unfold trimSpace
  apply String.ext
  show ((p.data.dropWhile isSpace).reverse.dropWhile isSpace).reverse = p.data
  rw [dropWhile_eq_self_of_head p.data h.1,
    dropWhile_eq_self_of_head p.data.reverse (by
      intro c hc
      rw [List.head?_reverse] at hc
      exact h.2 c hc),
    List.reverse_reverse]

theorem trimSpace_eq_empty_iff (s : String) :
    trimSpace s = "" ↔ ∀ c ∈ s.data, isSpace c = true := by
  unfold trimSpace
  constructor
  · intro h
    have hd : ((s.data.dropWhile isSpace).reverse.dropWhile isSpace).reverse = [] :=
      congrArg String.data h
    rw [List.reverse_eq_nil_iff, List.dropWhile_eq_nil_iff] at hd
    have hnil : s.data.dropWhile isSpace = [] := by
      cases hl : s.data.dropWhile isSpace with
      | nil => rfl
      | cons c cs =>
        have hc : isSpace c = true := hd c (by rw [hl]; simp)
        have hne : ¬ isSpace c = true := by
          have := List.head_dropWhile_not isSpace s.data (by rw [hl]; simp)
          simp only [hl, List.head_cons] at this
          simpa using this
        exact absurd hc hne
    exact List.dropWhile_eq_nil_iff.1 hnil
  · intro h
    apply String.ext
    show ((s.data.dropWhile isSpace).reverse.dropWhile isSpace).reverse = []
    rw [List.dropWhile_eq_nil_iff.2 h]
    rfl

theorem virtualIdentifier_suffix (p : String) :
    ∃ rest : String, virtualIdentifier p = "vault-secret-" ++ rest ∧
      '/' ∉ rest.data ∧ ':' ∉ rest.data := by
  refine ⟨String.mk ((stripSecret p.data).map dash), rfl, ?_, ?_⟩
  · intro hmem
    obtain ⟨c, _, hc⟩ := List.mem_map.1 hmem
    unfold dash at hc
    split at hc
    · exact absurd hc (by decide)
    · rename_i hn; exact hn (Or.inl hc)
  · intro hmem
    obtain ⟨c, _, hc⟩ := List.mem_map.1 hmem
    unfold dash at hc
    split at hc
    · exact absurd hc (by decide)
    · rename_i hn; exact hn (Or.inr hc)

/-- C12: for every value of the pod-template annotation
`vault.security.banzaicloud.io/vault-env-from-path`, the dependencies contributed are,
for each comma-separated segment whose whitespace-trimmed text `p` is not empty and in
segment order, the virtual identifier of `p`: the marker `vault-secret-` followed by `p`
with one leading `secret/` removed (if present) and every remaining `/` and `:` replaced
by `-`.  A segment is dropped exactly when it is empty or all whitespace, and the part
after the marker has no `/` and no `:`.  The same holds for the whole function on a pod
template that carries only this annotation. -/
theorem virtual_identifier_synthesis (dependencies : List String) (value : String) :
    bankVaultsTemplateStep dependencies (envFromPathKey, value) =
      dependencies ++
        (((split value ',').map trimSpace).filter (fun p => decide (p ≠ ""))).map
          virtualIdentifier ∧
    (∀ resource : K8sResource,
      nestedStringMap resource.Object ["spec", "template", "metadata", "annotations"] =
        some [(envFromPathKey, value)] →
      findBankVaultsTemplateAnnotations resource =
        (((split value ',').map trimSpace).filter (fun p => decide (p ≠ ""))).map
          virtualIdentifier) ∧
    (∀ segment : String, trimSpace segment = "" ↔ ∀ c ∈ segment.data, isSpace c = true) ∧
    (∀ q : String, virtualIdentifier ("secret/" ++ q) =
      "vault-secret-" ++ String.mk (q.data.map dash)) ∧
    (∀ p : String, hasPrefix p "secret/" = false →
      virtualIdentifier p = "vault-secret-" ++ String.mk (p.data.map dash)) ∧
    (∀ p : String, ∃ rest : String, virtualIdentifier p = "vault-secret-" ++ rest ∧
      '/' ∉ rest.data ∧ ':' ∉ rest.data) := by
  refine ⟨bankVaultsTemplateStep_envFromPath dependencies value, ?_, trimSpace_eq_empty_iff,
    ?_, ?_, virtualIdentifier_suffix⟩
  · intro resource h
    unfold findBankVaultsTemplateAnnotations
    rw [h]
    show List.foldl bankVaultsTemplateStep [] [(envFromPathKey, value)] = _
    rw [List.foldl_cons, List.foldl_nil, bankVaultsTemplateStep_envFromPath, List.nil_append]
  · intro q
    unfold virtualIdentifier
    rw [String.data_append, stripSecret_append]
  · intro p hp
    unfold virtualIdentifier
    rw [stripSecret_of_not]
    intro ⟨q, hq⟩
    have := (hasPrefix_iff p "secret/").2 ⟨q, hq⟩
    rw [hp] at this; cases this

/-- C11: the Service selector rule holds whenever the selector values are scalars
(strings in particular): for a Service whose `spec.selector` is the map `selector`, and
every record list, `findDependencies` returns exactly the names, in record order, of the
Deployment, StatefulSet and DaemonSet records whose `spec.template.metadata.labels` is a
map that contains every key of the selector with an equal value (`selectedBy`).  It
does not hold for every selector: for the Service `web-svc` whose selector value under
`app` is a map, and a Deployment whose label value under `app` is a map, the comparison
of the two values panics and no dependency list is computed. -/
theorem service_selector_rule :
    (∀ (resource : K8sResource) (allResources : List K8sResource)
        (selector : List (String × JVal)),
      resource.Kind = "Service" →
      nestedMap resource.Object ["spec", "selector"] = some selector →
      (∀ kv ∈ selector, isScalar kv.2 = true) →
      findDependencies resource allResources =
        some ((allResources.filter (selectedBy selector)).map (fun r => r.Name))) ∧
    findDependencies nestedSelectorService [nestedLabelsWeb, nestedSelectorService] = none := by
  refine ⟨?_, by decide⟩
  intro resource allResources selector hk hsel hscalar
  unfold findDependencies
  rw [if_pos hk, hsel]
  simp only [foldl_serviceStep_scalar selector hscalar, List.nil_append]

/-- Instance of the selector rule of C11 on Scenario A: the Service `web-svc` with
selector `app=web` depends on the Deployment `web` and not on itself. -/
theorem service_selector_rule_witness :
    findDependencies scenarioAWebSvc [scenarioAWeb, scenarioAWebSvc] =
      some (([scenarioAWeb, scenarioAWebSvc].filter
        (selectedBy [("app", JVal.str "web")])).map (fun r => r.Name)) ∧
    ([scenarioAWeb, scenarioAWebSvc].filter
        (selectedBy [("app", JVal.str "web")])).map (fun r => r.Name) = ["web"] :=
  ⟨service_selector_rule.1 scenarioAWebSvc [scenarioAWeb, scenarioAWebSvc]
      [("app", JVal.str "web")] rfl rfl (by decide),
   by decide⟩

/-! ### Labels of virtual nodes -/

theorem split_of_not_mem (s : String) (sep : Char) (h : sep ∉ s.data) : split s sep = [s] := by
  unfold split
  rw [splitChars_of_not_mem sep s.data h]
  rfl

theorem undash_dash (q : List Char) (h : ∀ c ∈ q, c ≠ '-' ∧ c ≠ ':') :
    (q.map dash).map (fun c => if c = '-' then '/' else c) = q := by
  induction q with
  | nil => rfl
  | cons c cs ih =>
    have hc := h c (List.mem_cons_self _ _)
    have hcs := ih (fun c' hc' => h c' (List.mem_cons_of_mem _ hc'))
    simp only [List.map_cons, hcs, List.cons.injEq, and_true]
    unfold dash
    by_cases h1 : c = '/'
    · subst h1; decide
    · simp [h1, hc.1, hc.2]

theorem vaultLabel_virtualIdentifier (p : String) (hp : hasPrefix p "secret/" = true)
    (hq : hasPrefix (trimPrefix p "secret/") "secret/" = false)
    (hc : ∀ c ∈ p.data, c ≠ '-' ∧ c ≠ ':') :
    vaultLabel (virtualIdentifier p) = p := by
  obtain ⟨q, hpq⟩ := (hasPrefix_iff _ _).1 hp
  have hp' : p = "secret/" ++ String.mk q := String.ext (by simp [hpq])
  have hqc : ∀ c ∈ q, c ≠ '-' ∧ c ≠ ':' := by
    intro c hcq
    exact hc c (by rw [hpq]; exact List.mem_append_right _ hcq)
  rw [hp', trimPrefix_append] at hq
  have hid : virtualIdentifier p = "vault-secret-" ++ String.mk (q.map dash) := by
    rw [hp']
    unfold virtualIdentifier
    rw [String.data_append, stripSecret_append]
  have hrep : replaceAll (String.mk (q.map dash)) '-' '/' = String.mk q := by
    unfold replaceAll
    apply String.ext
    exact undash_dash q hqc
  unfold vaultLabel
  simp only [hid, trimPrefix_append, hrep, hq, Bool.not_false, if_true]
  exact hp'.symm

/-- C13, as amended: for every external-secret path `p` that begins with `secret/`,
whose remainder does not again begin with `secret/`, that has no leading or trailing
whitespace and contains no `-`, `:` or `,`, the annotation value `p` contributes exactly
the virtual identifier of `p`, which carries the marker, and the virtual node created
for that identifier has `Label` equal to `p`.  Scenario B: a Deployment whose pod template
carries the annotation value `secret/app/db` yields exactly one additional node, a
`VaultSecret` labelled `secret/app/db`, and one edge from the Deployment's node to it. -/
theorem label_round_trip :
    (∀ p : String, hasPrefix p "secret/" = true →
      hasPrefix (trimPrefix p "secret/") "secret/" = false →
      NoOuterSpace p → (∀ c ∈ p.data, c ≠ '-' ∧ c ≠ ':' ∧ c ≠ ',') →
      bankVaultsTemplateStep [] (envFromPathKey, p) = [virtualIdentifier p] ∧
      hasPrefix (virtualIdentifier p) "vault-secret-" = true ∧
      ∀ i, (vaultNode i (virtualIdentifier p)).Label = p) ∧
    (buildDependencies
        { Resources := [vaultDeployment "app" "secret/app/db"], Dependencies := [] }).map
      (fun col =>
        (col.Dependencies,
         (convertToDiagram exampleConverter col
            { create := ["vault-secret-app-db"], index := ["vault-secret-app-db"] }).Nodes.map
           (fun n => (n.ID, n.Kind, n.Label)),
         (convertToDiagram exampleConverter col
            { create := ["vault-secret-app-db"], index := ["vault-secret-app-db"] }).Connections)) =
      some ([("Deployment/app", ["vault-secret-app-db"])],
            [("node-0", "Deployment", "app"), ("node-1", "VaultSecret", "secret/app/db")],
            [{ SourceID := "node-0", TargetID := "node-1", Label := "uses",
               Style := "default" }]) := by
  refine ⟨?_, by decide⟩
  intro p hp hq hspace hchars
  have hne : p ≠ "" := by
    intro h
    rw [h] at hp
    exact absurd hp (by decide)
  have hcomma : ',' ∉ p.data := fun h => (hchars ',' h).2.2 rfl
  refine ⟨?_, hasPrefix_append _ _, ?_⟩
  · rw [bankVaultsTemplateStep_envFromPath, split_of_not_mem p ',' hcomma]
    simp [trimSpace_of_noOuterSpace p hspace, hne]
  · intro i
    exact vaultLabel_virtualIdentifier p hp hq (fun c hc => ⟨(hchars c hc).1, (hchars c hc).2.1⟩)

/-- Witness of C13 (amended) at `p = secret/app/db`. -/
theorem label_round_trip_witness :
    virtualIdentifier "secret/app/db" = "vault-secret-app-db" ∧
    (bankVaultsTemplateStep [] (envFromPathKey, "secret/app/db") =
        [virtualIdentifier "secret/app/db"] ∧
      hasPrefix (virtualIdentifier "secret/app/db") "vault-secret-" = true ∧
      ∀ i, (vaultNode i (virtualIdentifier "secret/app/db")).Label = "secret/app/db") :=
  ⟨by decide,
   label_round_trip.1 "secret/app/db" (by decide) (by decide)
     ⟨fun c hc => by
        rw [show "secret/app/db".data.head? = some 's' from by decide] at hc
        cases hc; decide,
      fun c hc => by
        rw [show "secret/app/db".data.getLast? = some 'b' from by decide] at hc
        cases hc; decide⟩
     (by decide)⟩

/-- Counterexample to C13 as stated: the path `secret/secret/db` begins with `secret/`,
is unchanged by trimming and contains no `-`, `:` or `,`; its identifier is
`vault-secret-secret-db`, and the virtual node created for it is labelled `secret/db`. -/
theorem label_round_trip_counterexample :
    hasPrefix "secret/secret/db" "secret/" = true ∧
    trimSpace "secret/secret/db" = "secret/secret/db" ∧
    (∀ c ∈ "secret/secret/db".data, c ≠ '-' ∧ c ≠ ':' ∧ c ≠ ',') ∧
    (buildDependencies
        { Resources := [vaultDeployment "app" "secret/secret/db"], Dependencies := [] }).map
      (fun col =>
        (col.Dependencies,
         (convertToDiagram exampleConverter col
            { create := ["vault-secret-secret-db"],
              index := ["vault-secret-secret-db"] }).Nodes.map
           (fun n => (n.ID, n.Kind, n.Label)))) =
      some ([("Deployment/app", ["vault-secret-secret-db"])],
            [("node-0", "Deployment", "app"), ("node-1", "VaultSecret", "secret/db")]) := by
  refine ⟨by decide, by decide, by decide, by decide⟩

/-! ### The set of virtual identifiers -/

theorem vaultInner_spec (ds : List String) :
    ∀ set : List String, set.Nodup →
      (ds.foldl (fun set depName =>
          if hasPrefix depName "vault-secret-" then
            (if depName ∈ set then set else set ++ [depName])
          else set) set).Nodup ∧
      ∀ y, y ∈ ds.foldl (fun set depName =>
          if hasPrefix depName "vault-secret-" then
            (if depName ∈ set then set else set ++ [depName])
          else set) set ↔
        y ∈ set ∨ (y ∈ ds ∧ hasPrefix y "vault-secret-" = true) := by
  induction ds with
  | nil => intro set hs; simp [hs]
  | cons d ds ih =>
    intro set hs
    rw [List.foldl_cons]
    by_cases hp : hasPrefix d "vault-secret-" = true
    · rw [if_pos hp]
      by_cases hm : d ∈ set
      · rw [if_pos hm]
        obtain ⟨h1, h2⟩ := ih set hs
        refine ⟨h1, fun y => ?_⟩
        rw [h2 y]
        constructor
        · rintro (h | ⟨h, hy⟩)
          · exact Or.inl h
          · exact Or.inr ⟨List.mem_cons_of_mem _ h, hy⟩
        · rintro (h | ⟨h, hy⟩)
          · exact Or.inl h
          · rcases List.mem_cons.1 h with h | h
            · exact Or.inl (h ▸ hm)
            · exact Or.inr ⟨h, hy⟩
      · rw [if_neg hm]
        have hs' : (set ++ [d]).Nodup := by
          rw [List.nodup_append]
          refine ⟨hs, List.nodup_singleton d, ?_⟩
          intro x hx hx'
          simp only [List.mem_singleton] at hx'
          exact hm (hx' ▸ hx)
        obtain ⟨h1, h2⟩ := ih (set ++ [d]) hs'
        refine ⟨h1, fun y => ?_⟩
        rw [h2 y]
        constructor
        · rintro (h | ⟨h, hy⟩)
          · rcases List.mem_append.1 h with h | h
            · exact Or.inl h
            · simp only [List.mem_singleton] at h
              exact Or.inr ⟨by rw [h]; exact List.mem_cons_self _ _, by rw [h]; exact hp⟩
          · exact Or.inr ⟨List.mem_cons_of_mem _ h, hy⟩
        · rintro (h | ⟨h, hy⟩)
          · exact Or.inl (List.mem_append_left _ h)
          · rcases List.mem_cons.1 h with h | h
            · exact Or.inl (List.mem_append_right _ (by simp [h]))
            · exact Or.inr ⟨h, hy⟩
    · rw [if_neg hp]
      obtain ⟨h1, h2⟩ := ih set hs
      refine ⟨h1, fun y => ?_⟩
      rw [h2 y]
      constructor
      · rintro (h | ⟨h, hy⟩)
        · exact Or.inl h
        · exact Or.inr ⟨List.mem_cons_of_mem _ h, hy⟩
      · rintro (h | ⟨h, hy⟩)
        · exact Or.inl h
        · rcases List.mem_cons.1 h with h | h
          · rw [h] at hy; exact absurd hy hp
          · exact Or.inr ⟨h, hy⟩

theorem vaultOuter_spec (es : List (String × List String)) :
    ∀ set : List String, set.Nodup →
      (es.foldl (fun set entry => entry.2.foldl (fun set depName =>
          if hasPrefix depName "vault-secret-" then
            (if depName ∈ set then set else set ++ [depName])
          else set) set) set).Nodup ∧
      ∀ y, y ∈ es.foldl (fun set entry => entry.2.foldl (fun set depName =>
          if hasPrefix depName "vault-secret-" then
            (if depName ∈ set then set else set ++ [depName])
          else set) set) set ↔
        y ∈ set ∨ y ∈ markerNames es := by
  induction es with
  | nil => intro set hs; simp [hs, markerNames]
  | cons e es ih =>
    intro set hs
    rw [List.foldl_cons]
    obtain ⟨hn, hm⟩ := vaultInner_spec e.2 set hs
    obtain ⟨h1, h2⟩ := ih _ hn
    refine ⟨h1, fun y => ?_⟩
    rw [h2 y, hm y]
    simp only [markerNames, List.flatMap_cons, List.filter_append, List.mem_append,
      List.mem_filter]
    tauto

theorem virtualVaultSecrets_nodup (deps : List (String × List String)) :
    (virtualVaultSecrets deps).Nodup :=
  (vaultOuter_spec deps [] List.nodup_nil).1

theorem mem_virtualVaultSecrets (deps : List (String × List String)) (y : String) :
    y ∈ virtualVaultSecrets deps ↔ y ∈ markerNames deps := by
  have := (vaultOuter_spec deps [] List.nodup_nil).2 y
  simpa [virtualVaultSecrets] using this

theorem virtualVaultSecrets_perm (deps : List (String × List String)) :
    (virtualVaultSecrets deps).Perm (markerNames deps).dedup :=
  (List.perm_ext_iff_of_nodup (virtualVaultSecrets_nodup deps) (List.nodup_dedup _)).2
    (fun y => by rw [mem_virtualVaultSecrets, List.mem_dedup])

theorem valid_create (collection : ResourceCollection) (o : VaultOrder)
    (hv : o.Valid collection) :
    o.create.Nodup ∧ o.create.length = (markerNames collection.Dependencies).dedup.length ∧
      ∀ v, v ∈ o.create ↔ v ∈ markerNames collection.Dependencies := by
  refine ⟨(hv.1.nodup_iff).2 (virtualVaultSecrets_nodup _), ?_, fun v => ?_⟩
  · rw [hv.1.length_eq, (virtualVaultSecrets_perm _).length_eq]
  · rw [hv.1.mem_iff, mem_virtualVaultSecrets]

theorem valid_index (collection : ResourceCollection) (o : VaultOrder)
    (hv : o.Valid collection) :
    o.index.Nodup ∧ o.index.length = o.create.length ∧
      ∀ v, v ∈ o.index ↔ v ∈ markerNames collection.Dependencies := by
  refine ⟨(hv.2.nodup_iff).2 (virtualVaultSecrets_nodup _), ?_, fun v => ?_⟩
  · rw [hv.1.length_eq, hv.2.length_eq]
  · rw [hv.2.mem_iff, mem_virtualVaultSecrets]

/-! ### Virtual secrets in the indices -/

theorem nodeMap_lookup_vault (collection : ResourceCollection) (o : VaultOrder) (v : String)
    (hv : v ∈ o.index) :
    ∃ j, o.index[j]? = some v ∧
      (buildIndex collection o).nodeMap.lookup v =
        some (nodeID ((materialized collection).length + j)) := by
  rw [buildIndex_nodeMap, lookup_append_eq]
  cases hl : (((o.index.enumFrom (materialized collection).length).map
      (fun p => (p.2, nodeID p.1))).reverse).lookup v with
  | none =>
    exact absurd hl
      (lookup_enum_ne_none (fun x : String => x) (materialized collection).length o.index v hv)
  | some w =>
    obtain ⟨j, x, hx, hxe, hw⟩ := lookup_enum_some (fun x : String => x) _ _ _ _ hl
    have hxv : x = v := hxe
    subst hxv
    exact ⟨j, hx, by rw [hw]⟩

theorem compositeKey_vault_injective (x y : String)
    (h : compositeKey "VaultSecret" x = compositeKey "VaultSecret" y) : x = y := by
  have hd := congrArg String.data h
  rw [compositeKey_data, compositeKey_data] at hd
  have := List.append_cancel_left hd
  simp only [List.cons.injEq, true_and] at this
  exact String.ext this

theorem resourceMap_lookup_vault (collection : ResourceCollection) (o : VaultOrder) (v : String)
    (hv : v ∈ o.index) :
    ∃ j, o.index[j]? = some v ∧
      (buildIndex collection o).resourceMap.lookup (compositeKey "VaultSecret" v) =
        some (nodeID ((materialized collection).length + j)) := by
  rw [buildIndex_resourceMap, lookup_append_eq]
  cases hl : (((o.index.enumFrom (materialized collection).length).map
      (fun p => (compositeKey "VaultSecret" p.2, nodeID p.1))).reverse).lookup
        (compositeKey "VaultSecret" v) with
  | none =>
    exact absurd hl
      (lookup_enum_ne_none (fun x : String => compositeKey "VaultSecret" x)
        (materialized collection).length o.index v hv)
  | some w =>
    obtain ⟨j, x, hx, hxe, hw⟩ :=
      lookup_enum_some (fun x : String => compositeKey "VaultSecret" x) _ _ _ _ hl
    have hxv : x = v := compositeKey_vault_injective x v hxe
    subst hxv
    exact ⟨j, hx, by rw [hw]⟩

theorem slash_head_unique (a b a' b' : List Char) (ha : '/' ∉ a) (ha' : '/' ∉ a')
    (h : a ++ '/' :: b = a' ++ '/' :: b') : a = a' := by
  rcases List.append_eq_append_iff.1 h with ⟨m, hm, hb⟩ | ⟨m, hm, hb⟩
  · cases m with
    | nil => simpa using hm.symm
    | cons x m =>
      simp only [List.cons_append, List.cons.injEq] at hb
      exact absurd (by rw [hm, ← hb.1]; simp) ha'
  · cases m with
    | nil => simpa using hm
    | cons x m =>
      simp only [List.cons_append, List.cons.injEq] at hb
      exact absurd (by rw [hm, ← hb.1]; simp) ha

theorem compositeKey_kind_unique (kind name kind' name' : String) (hk : '/' ∉ kind.data)
    (hk' : '/' ∉ kind'.data) (h : compositeKey kind name = compositeKey kind' name') :
    kind = kind' := by
  have hd := congrArg String.data h
  rw [compositeKey_data, compositeKey_data] at hd
  exact String.ext (slash_head_unique _ _ _ _ hk hk' hd)

theorem compositeKey_eq_of_no_slash (kind name kind' name' : String) (hk' : '/' ∉ kind'.data)
    (hn' : '/' ∉ name'.data) (h : compositeKey kind name = compositeKey kind' name') :
    kind = kind' ∧ name = name' := by
  have hd := congrArg String.data h
  rw [compositeKey_data, compositeKey_data] at hd
  obtain ⟨h1, h2⟩ := slash_split_unique _ _ _ _ hk' hn' hd
  exact ⟨String.ext h1, String.ext h2⟩

theorem split_head_compositeKey (kind name : String) (hk : '/' ∉ kind.data) :
    (split (compositeKey kind name) '/').headD "" = kind := by
  simp [split, compositeKey_data, splitChars_append _ _ _ hk]

/-- Keys whose kind is not Route, ServiceMonitor or Ingress are never redirected. -/
theorem serviceLookup_of_other_kind (resourceMap : List (String × String))
    (kind name depName : String) (hk : '/' ∉ kind.data)
    (h1 : kind ≠ "Route") (h2 : kind ≠ "ServiceMonitor") (h3 : kind ≠ "Ingress") :
    serviceLookup resourceMap (compositeKey kind name) depName = none := by
  unfold serviceLookup
  simp only [split_head_compositeKey kind name hk, h1, h2, h3, if_false, ite_self]

/-- The slot that the kind/name index binds to a key of a kind without `/` other than
`VaultSecret` is a record's slot. -/
theorem resourceMap_lookup_real (collection : ResourceCollection) (o : VaultOrder)
    (kind name t : String) (hk : '/' ∉ kind.data) (hkv : kind ≠ "VaultSecret")
    (ht : (buildIndex collection o).resourceMap.lookup (compositeKey kind name) = some t) :
    ∃ i r, t = nodeID i ∧ (materialized collection)[i]? = some r ∧
      compositeKey r.Kind r.Name = compositeKey kind name := by
  obtain ⟨i, hi, hcase⟩ := resourceMap_lookup_some collection o _ t ht
  rcases hcase with ⟨r, hr, hkey⟩ | ⟨_, x, _, hkey⟩
  · exact ⟨i, r, hi, hr, hkey⟩
  · exact absurd (compositeKey_kind_unique _ _ _ _ (by decide) hk hkey).symm hkv

theorem vault_node_at (collection : ResourceCollection) (o : VaultOrder) (j : Nat) (v : String)
    (hj : o.create[j]? = some v) :
    (buildNodes collection o)[(materialized collection).length + j]? =
      some (vaultNode ((materialized collection).length + j) v) := by
  rw [buildNodes_getElem?_vault collection o _ (Nat.le_add_right _ _)]
  simp [hj]

/-- C14: the node sequence has, besides the `r` nodes of the records, exactly as many
nodes as there are distinct dependency names with the marker `vault-secret-` over all
dependency lists, each of kind `VaultSecret` (so, when no record has that kind itself,
this is the number of nodes of kind `VaultSecret`).  For each such name `v` exactly one
virtual node is created, `v` is bound to the id of one virtual node, and every
Deployment, StatefulSet or DaemonSet entry that lists `v` and is bound in the kind/name
index has an edge to that node.  For the two Deployments with the distinct paths
`secret/a-b/c` and `secret/a/b-c` there is one identifier `vault-secret-a-b-c`, one
virtual node `node-2`, and both Deployments have an edge to it. -/
theorem virtual_node_uniqueness (c : Converter) (collection : ResourceCollection)
    (o : VaultOrder) (hv : o.Valid collection) :
    (convertToDiagram c collection o).Nodes.length =
      (materialized collection).length + (markerNames collection.Dependencies).dedup.length ∧
    (∀ i n, (materialized collection).length ≤ i →
      (convertToDiagram c collection o).Nodes[i]? = some n → n.Kind = "VaultSecret") ∧
    ((∀ r ∈ materialized collection, r.Kind ≠ "VaultSecret") →
      (convertToDiagram c collection o).Nodes.countP (fun n => n.Kind == "VaultSecret") =
        (markerNames collection.Dependencies).dedup.length) ∧
    (∀ v ∈ markerNames collection.Dependencies,
      o.create.count v = 1 ∧
      ∃ j, (materialized collection).length ≤ j ∧
        (buildIndex collection o).nodeMap.lookup v = some (nodeID j) ∧
        (∃ n, (convertToDiagram c collection o).Nodes[j]? = some n ∧ n.ID = nodeID j ∧
          n.Kind = "VaultSecret") ∧
        ∀ kind name ds t,
          kind = "Deployment" ∨ kind = "StatefulSet" ∨ kind = "DaemonSet" →
          (compositeKey kind name, ds) ∈ collection.Dependencies → v ∈ ds →
          (buildIndex collection o).resourceMap.lookup (compositeKey kind name) = some t →
          ({ SourceID := t, TargetID := nodeID j, Label := "uses", Style := "default" } :
            Connection) ∈ (convertToDiagram c collection o).Connections) ∧
    (buildDependencies { Resources := collidingPathRecords, Dependencies := [] }).map
      (fun col =>
        (col.Dependencies,
         (convertToDiagram exampleConverter col
            { create := ["vault-secret-a-b-c"], index := ["vault-secret-a-b-c"] }).Nodes.map
           (fun n => (n.ID, n.Kind)),
         (convertToDiagram exampleConverter col
            { create := ["vault-secret-a-b-c"], index := ["vault-secret-a-b-c"] }).Connections)) =
      some ([("Deployment/web-a", ["vault-secret-a-b-c"]),
             ("Deployment/web-b", ["vault-secret-a-b-c"])],
            [("node-0", "Deployment"), ("node-1", "Deployment"), ("node-2", "VaultSecret")],
            [{ SourceID := "node-0", TargetID := "node-2", Label := "uses", Style := "default" },
             { SourceID := "node-1", TargetID := "node-2", Label := "uses",
               Style := "default" }]) := by
  obtain ⟨hcn, hcl, hcm⟩ := valid_create collection o hv
  obtain ⟨hin, hil, him⟩ := valid_index collection o hv
  have hnodes : (convertToDiagram c collection o).Nodes = buildNodes collection o := rfl
  rw [hnodes]
  refine ⟨?_, ?_, ?_, ?_, by decide⟩
  · rw [buildNodes_length, hcl]
  · intro i n hle hn
    rw [buildNodes_getElem?_vault collection o i hle] at hn
    cases hcr : o.create[i - (materialized collection).length]? with
    | none => rw [hcr] at hn; cases hn
    | some v => rw [hcr] at hn; cases hn; rfl
  · intro hkind
    rw [buildNodes_eq, List.countP_append]
    have hreal : List.countP (fun n => n.Kind == "VaultSecret")
        (((materialized collection).enumFrom 0).map (fun p => resourceNode p.1 p.2)) = 0 := by
      rw [List.countP_eq_zero]
      intro n hn
      obtain ⟨p, hp, hpn⟩ := List.mem_map.1 hn
      have hmem : p.2 ∈ materialized collection := by
        obtain ⟨i, r⟩ := p
        have := List.mem_enumFrom hp
        rw [this.2.2]
        exact List.getElem_mem _
      rw [← hpn]
      simpa [resourceNode] using hkind p.2 hmem
    have hvault : List.countP (fun n => n.Kind == "VaultSecret")
        ((o.create.enumFrom (materialized collection).length).map
          (fun p => vaultNode p.1 p.2)) = o.create.length := by
      have hall : ∀ n ∈ (o.create.enumFrom (materialized collection).length).map
          (fun p => vaultNode p.1 p.2), (fun n => n.Kind == "VaultSecret") n = true := by
        intro n hn
        obtain ⟨p, _, hpn⟩ := List.mem_map.1 hn
        rw [← hpn]
        simp [vaultNode]
      rw [List.countP_eq_length.2 hall]
      simp
    rw [hreal, hvault, hcl, Nat.zero_add]
  · intro v hvm
    refine ⟨List.count_eq_one_of_mem hcn ((hcm v).2 hvm), ?_⟩
    obtain ⟨j, hj, hlook⟩ := nodeMap_lookup_vault collection o v ((him v).2 hvm)
    have hjlt : j < o.create.length := by
      have := getElem?_lt_length hj
      omega
    refine ⟨(materialized collection).length + j, Nat.le_add_right _ _, hlook, ?_, ?_⟩
    · refine ⟨vaultNode ((materialized collection).length + j) (o.create[j]),
        vault_node_at collection o j _ (List.getElem?_eq_getElem hjlt), rfl, rfl⟩
    · intro kind name ds t hk hentry hvds ht
      have hkd : '/' ∉ kind.data := by rcases hk with h | h | h <;> subst h <;> decide
      have hkv : kind ≠ "VaultSecret" := by rcases hk with h | h | h <;> subst h <;> decide
      have hnone : serviceLookup (buildIndex collection o).resourceMap
          (compositeKey kind name) v = none := by
        apply serviceLookup_of_other_kind _ kind name v hkd <;>
          rcases hk with h | h | h <;> subst h <;> decide
      have hres : resolveDependency (buildIndex collection o).nodeMap
          (buildIndex collection o).resourceMap (compositeKey kind name) v =
            some (nodeID ((materialized collection).length + j)) := by
        simp [resolveDependency, hnone, hlook]
      apply mem_connections_of_resolve c collection o _ ds v t _ hentry hvds ht hres
      intro hst
      obtain ⟨i, r, hti, hr, _⟩ := resourceMap_lookup_real collection o kind name t hkd hkv ht
      have := nodeID_injective (hst.trans hti)
      have := getElem?_lt_length hr
      omega

theorem collidingOrder_valid :
    VaultOrder.Valid { create := ["vault-secret-a-b-c"], index := ["vault-secret-a-b-c"] }
      { Resources := collidingPathRecords,
        Dependencies := [("Deployment/web-a", ["vault-secret-a-b-c"]),
                         ("Deployment/web-b", ["vault-secret-a-b-c"])] } :=
  ⟨List.Perm.of_eq (by decide), List.Perm.of_eq (by decide)⟩

/-- Witness of C14 on the two Deployments with colliding paths: three nodes, one of them
virtual. -/
theorem virtual_node_uniqueness_witness :
    (convertToDiagram exampleConverter
        { Resources := collidingPathRecords,
          Dependencies := [("Deployment/web-a", ["vault-secret-a-b-c"]),
                           ("Deployment/web-b", ["vault-secret-a-b-c"])] }
        { create := ["vault-secret-a-b-c"], index := ["vault-secret-a-b-c"] }).Nodes.length =
      2 + 1 :=
  (virtual_node_uniqueness exampleConverter
    { Resources := collidingPathRecords,
      Dependencies := [("Deployment/web-a", ["vault-secret-a-b-c"]),
                       ("Deployment/web-b", ["vault-secret-a-b-c"])] }
    { create := ["vault-secret-a-b-c"], index := ["vault-secret-a-b-c"] }
    collidingOrder_valid).1

theorem twoSecret_vaultSet :
    virtualVaultSecrets twoSecretCollection.Dependencies = ["vault-secret-a", "vault-secret-b"] := by
  decide

theorem secretAFirst_valid : secretAFirst.Valid twoSecretCollection :=
  ⟨List.Perm.of_eq twoSecret_vaultSet.symm, List.Perm.of_eq twoSecret_vaultSet.symm⟩

theorem secretBFirst_valid : secretBFirst.Valid twoSecretCollection := by
  constructor
  · rw [twoSecret_vaultSet]; exact List.Perm.swap _ _ _
  · rw [twoSecret_vaultSet]; exact List.Perm.swap _ _ _

theorem secretsSwapped_valid : secretsSwapped.Valid twoSecretCollection := by
  constructor
  · rw [twoSecret_vaultSet]; exact List.Perm.refl _
  · rw [twoSecret_vaultSet]; exact List.Perm.swap _ _ _

/-- C15: when the two traversals of the identifier set visit it in the same order, every
identifier `v` is bound, in the plain-name index and in the kind/name index, to the id
of the virtual node created for `v` (the node labelled with the path rebuilt from `v`).
This does not hold for every pair of traversal orders: for the two Deployments with the
paths `secret/a` and `secret/b`, when the nodes are created in the order `a, b` and
indexed in the order `b, a`, the identifier `vault-secret-a` is bound to `node-3`, which
is the node labelled `secret/b`, and the Deployment `web-a` gets its edge to that node. -/
theorem virtual_registration :
    (∀ (collection : ResourceCollection) (o : VaultOrder), o.create = o.index →
      ∀ v ∈ o.index,
        (∃ j, (buildIndex collection o).nodeMap.lookup v = some (nodeID j) ∧
          (buildNodes collection o)[j]? = some (vaultNode j v)) ∧
        (∃ j, (buildIndex collection o).resourceMap.lookup (compositeKey "VaultSecret" v) =
            some (nodeID j) ∧
          (buildNodes collection o)[j]? = some (vaultNode j v))) ∧
    (buildDependencies { Resources := twoSecretRecords, Dependencies := [] }).map
        (fun col => col.Dependencies) = some twoSecretCollection.Dependencies ∧
    secretsSwapped.Valid twoSecretCollection ∧
    (buildIndex twoSecretCollection secretsSwapped).nodeMap.lookup "vault-secret-a" =
      some "node-3" ∧
    (convertToDiagram exampleConverter twoSecretCollection secretsSwapped).Nodes.map
        (fun n => (n.ID, n.Kind, n.Label)) =
      [("node-0", "Deployment", "web-a"), ("node-1", "Deployment", "web-b"),
       ("node-2", "VaultSecret", "secret/a"), ("node-3", "VaultSecret", "secret/b")] ∧
    (convertToDiagram exampleConverter twoSecretCollection secretsSwapped).Connections =
      [{ SourceID := "node-0", TargetID := "node-3", Label := "uses", Style := "default" },
       { SourceID := "node-1", TargetID := "node-2", Label := "uses", Style := "default" }] := by
  refine ⟨?_, by decide, secretsSwapped_valid, by decide, by decide, by decide⟩
  intro collection o hsame v hv
  constructor
  · obtain ⟨j, hj, hlook⟩ := nodeMap_lookup_vault collection o v hv
    exact ⟨_, hlook, vault_node_at collection o j v (by rw [hsame]; exact hj)⟩
  · obtain ⟨j, hj, hlook⟩ := resourceMap_lookup_vault collection o v hv
    exact ⟨_, hlook, vault_node_at collection o j v (by rw [hsame]; exact hj)⟩

theorem tokenAuthMount_eq (dependencies : List String) (value : String) :
    tokenAuthMount dependencies value = dependencies ++ tokenAuthMount [] value := by
  unfold tokenAuthMount
  split
  · simp only []
    split <;> simp
  · simp

theorem bankVaultsStep_eq (dependencies : List String) (kv : String × String) :
    bankVaultsStep dependencies kv = dependencies ++ bankVaultsStep [] kv := by
  unfold bankVaultsStep
  simp only []
  split
  · simp
  · split
    · simp
    · split
      · exact tokenAuthMount_eq _ _
      · simp

theorem bankVaultsTemplateStep_eq (dependencies : List String) (kv : String × String) :
    bankVaultsTemplateStep dependencies kv = dependencies ++ bankVaultsTemplateStep [] kv := by
  unfold bankVaultsTemplateStep
  simp only []
  split
  · simp
  · split
    · simp
    · split
      · rw [foldl_append_flatMap vaultPathStep _ vaultPathStep_eq,
          foldl_append_flatMap vaultPathStep _ vaultPathStep_eq, List.nil_append]
      · split
        · exact tokenAuthMount_eq _ _
        · simp

theorem mem_markerNames (deps : List (String × List String)) (y : String) :
    y ∈ markerNames deps ↔
      (∃ K ds, (K, ds) ∈ deps ∧ y ∈ ds) ∧ hasPrefix y "vault-secret-" = true := by
  simp only [markerNames, List.mem_filter, List.mem_flatMap]
  constructor
  · rintro ⟨⟨entry, he, hy⟩, hp⟩
    exact ⟨⟨entry.1, entry.2, he, hy⟩, hp⟩
  · rintro ⟨⟨K, ds, he, hy⟩, hp⟩
    exact ⟨⟨(K, ds), he, hy⟩, hp⟩

theorem samePairs_vaultSet (deps deps' : List (String × List String))
    (h : SamePairs deps deps') :
    (virtualVaultSecrets deps).Perm (virtualVaultSecrets deps') := by
  apply (List.perm_ext_iff_of_nodup (virtualVaultSecrets_nodup _)
    (virtualVaultSecrets_nodup _)).2
  intro y
  rw [mem_virtualVaultSecrets, mem_virtualVaultSecrets, mem_markerNames, mem_markerNames]
  constructor
  · rintro ⟨⟨K, hK⟩, hp⟩; exact ⟨⟨K, (h K y).1 hK⟩, hp⟩
  · rintro ⟨⟨K, hK⟩, hp⟩; exact ⟨⟨K, (h K y).2 hK⟩, hp⟩

theorem samePairs_mem_connections (c : Converter) (resources : List K8sResource)
    (deps deps' : List (String × List String)) (o : VaultOrder) (h : SamePairs deps deps')
    (conn : Connection)
    (hc : conn ∈ (convertToDiagram c { Resources := resources, Dependencies := deps } o).Connections) :
    conn ∈ (convertToDiagram c { Resources := resources, Dependencies := deps' } o).Connections := by
  rw [mem_connections] at hc ⊢
  obtain ⟨entry, he, t, ht, d, hd, rest⟩ := hc
  obtain ⟨ds', he', hd'⟩ := (h entry.1 d).1 ⟨entry.2, he, hd⟩
  exact ⟨(entry.1, ds'), he', t, ht, d, hd', rest⟩

/-- C19, as amended: every edge that is synthesized from a dependency-map entry whose key
is `ServiceAccount/name` runs from the ServiceAccount's node to the node registered under
the plain name of a consuming workload of the list: its `SourceID` is the node id bound
to the key (the id of a node of kind ServiceAccount labelled `name`, when `name` has no
`/`), its `TargetID` is the node id bound to a name of the list, and the two differ. -/
theorem service_account_edge_direction (c : Converter) (collection : ResourceCollection)
    (o : VaultOrder) (name : String) (ds : List String) (conn : Connection)
    (hconn : conn ∈ edgesOfEntry (buildIndex collection o).nodeMap
      (buildIndex collection o).resourceMap (compositeKey "ServiceAccount" name, ds)) :
    (buildIndex collection o).resourceMap.lookup (compositeKey "ServiceAccount" name) =
      some conn.SourceID ∧
    (∃ d ∈ ds, (buildIndex collection o).nodeMap.lookup d = some conn.TargetID) ∧
    conn.SourceID ≠ conn.TargetID ∧
    ('/' ∉ name.data →
      (∃ n ∈ (convertToDiagram c collection o).Nodes, n.ID = conn.SourceID) ∧
      ∀ n ∈ (convertToDiagram c collection o).Nodes, n.ID = conn.SourceID →
        n.Kind = "ServiceAccount" ∧ n.Label = name) := by
  obtain ⟨t, ht, d, hd, s, hs, hne, hc⟩ := (mem_edgesOfEntry _ _ _ _).1 hconn
  subst hc
  have hnone : serviceLookup (buildIndex collection o).resourceMap
      (compositeKey "ServiceAccount" name) d = none :=
    serviceLookup_of_other_kind _ "ServiceAccount" name d (by decide) (by decide) (by decide)
      (by decide)
  have hplain : (buildIndex collection o).nodeMap.lookup d = some s := by
    simpa [resolveDependency, hnone] using hs
  refine ⟨ht, ⟨d, hd, hplain⟩, fun h => hne h.symm, ?_⟩
  intro hname
  obtain ⟨i, r, hti, hr, hkey⟩ :=
    resourceMap_lookup_real collection o "ServiceAccount" name t (by decide) (by decide) ht
  obtain ⟨hrk, hrn⟩ :=
    compositeKey_eq_of_no_slash r.Kind r.Name "ServiceAccount" name (by decide) hname hkey
  obtain ⟨hex, hall⟩ := node_of_real_slot c collection o i r hr
  refine ⟨by simpa [hti] using hex, ?_⟩
  intro n hn hid
  have hid' : n.ID = nodeID i := by simpa [hti] using hid
  obtain ⟨h1, h2⟩ := hall n hn hid'
  exact ⟨h2.trans hrk, h1.trans hrn⟩

/-- Witness of C19 (amended): the entry `ServiceAccount/sa -> [migrate]` gives the edge
from the account's node `node-0` to the Job's node `node-1`. -/
theorem service_account_edge_direction_witness :
    (buildIndex accountCollection noVaultOrder).resourceMap.lookup
        (compositeKey "ServiceAccount" "sa") = some "node-0" ∧
    (∃ d ∈ ["migrate"],
      (buildIndex accountCollection noVaultOrder).nodeMap.lookup d = some "node-1") ∧
    "node-0" ≠ "node-1" ∧
    ('/' ∉ "sa".data →
      (∃ n ∈ (convertToDiagram exampleConverter accountCollection noVaultOrder).Nodes,
        n.ID = "node-0") ∧
      ∀ n ∈ (convertToDiagram exampleConverter accountCollection noVaultOrder).Nodes,
        n.ID = "node-0" → n.Kind = "ServiceAccount" ∧ n.Label = "sa") :=
  service_account_edge_direction exampleConverter accountCollection noVaultOrder "sa"
    ["migrate"]
    { SourceID := "node-0", TargetID := "node-1", Label := "uses", Style := "default" }
    (by decide)

/-- Counterexample to C19 as stated: for a service account `sa` and a Job `migrate` that
runs under it, the dependency map is `ServiceAccount/sa -> [migrate]` and the one edge
has `SourceID` the account's node `node-0` and `TargetID` the Job's node `node-1`. -/
theorem service_account_edge_counterexample :
    (buildDependencies { Resources := accountRecords, Dependencies := [] }).map
      (fun col =>
        (col.Dependencies,
         (convertToDiagram exampleConverter col noVaultOrder).Nodes.map
           (fun n => (n.ID, n.Kind, n.Label)),
         (convertToDiagram exampleConverter col noVaultOrder).Connections)) =
      some ([("ServiceAccount/sa", ["migrate"])],
            [("node-0", "ServiceAccount", "sa"), ("node-1", "Job", "migrate")],
            [{ SourceID := "node-0", TargetID := "node-1", Label := "uses",
               Style := "default" }]) := by
  decide

/-- C17: for every record of kind Deployment, StatefulSet or DaemonSet and every record
list, `findDependencies` returns (without panic) the concatenation, in this order, of
(a) the references of each `spec.template.spec.volumes` entry (`configMap.name`,
`secret.secretName`, `persistentVolumeClaim.claimName`), (b) the references of each
container (its `envFrom` `configMapRef`/`secretRef` names, then its `env` `valueFrom`
`configMapKeyRef`/`secretKeyRef` names), (c) the non-empty
`spec.template.spec.serviceAccountName`, (d) the vendor-annotation dependencies of each
of the record's own annotations, then those of each of the pod template's annotations;
nothing else. -/
theorem workload_rule (resource : K8sResource) (allResources : List K8sResource)
    (hk : resource.Kind = "Deployment" ∨ resource.Kind = "StatefulSet" ∨
      resource.Kind = "DaemonSet") :
    findDependencies resource allResources =
      some ((podVolumes resource).flatMap volumeRefs ++
        (podContainers resource).flatMap containerRefs ++
        podAccount resource ++
        resource.Annotations.flatMap (bankVaultsStep []) ++
        (podAnnotations resource).flatMap (bankVaultsTemplateStep [])) := by
  have h1 : ¬ resource.Kind = "Service" := by rcases hk with h | h | h <;> rw [h] <;> decide
  have h2 : ¬ resource.Kind = "Ingress" := by rcases hk with h | h | h <;> rw [h] <;> decide
  have h3 : ¬ resource.Kind = "Route" := by rcases hk with h | h | h <;> rw [h] <;> decide
  have h4 : ¬ resource.Kind = "ServiceMonitor" := by
    rcases hk with h | h | h <;> rw [h] <;> decide
  have hown : findBankVaultsDependencies resource =
      resource.Annotations.flatMap (bankVaultsStep []) := by
    unfold findBankVaultsDependencies
    rw [foldl_append_flatMap bankVaultsStep _ bankVaultsStep_eq, List.nil_append]
  have htemplate : findBankVaultsTemplateAnnotations resource =
      (podAnnotations resource).flatMap (bankVaultsTemplateStep []) := by
    unfold findBankVaultsTemplateAnnotations podAnnotations
    cases nestedStringMap resource.Object ["spec", "template", "metadata", "annotations"] with
    | none => rfl
    | some annotations =>
      show List.foldl bankVaultsTemplateStep [] annotations = _
      rw [foldl_append_flatMap bankVaultsTemplateStep _ bankVaultsTemplateStep_eq,
        List.nil_append]
      rfl
  unfold findDependencies
  rw [if_neg h1, if_neg h2, if_neg h3, if_neg h4, if_pos hk]
  simp only [findVolumeDependencies_eq, findEnvDependencies_eq,
    findServiceAccountDependencies_eq, hown, htemplate]

/-- Witness of C17: the Deployment `web` that mounts the ConfigMap `cfg` and reads it
through `envFrom` has the dependency list `[cfg, cfg]`. -/
theorem workload_rule_witness :
    findDependencies twiceConfiguredWeb [twiceConfiguredWeb] = some ["cfg", "cfg"] ∧
    findDependencies twiceConfiguredWeb [twiceConfiguredWeb] =
      some ((podVolumes twiceConfiguredWeb).flatMap volumeRefs ++
        (podContainers twiceConfiguredWeb).flatMap containerRefs ++
        podAccount twiceConfiguredWeb ++
        twiceConfiguredWeb.Annotations.flatMap (bankVaultsStep []) ++
        (podAnnotations twiceConfiguredWeb).flatMap (bankVaultsTemplateStep [])) :=
  ⟨by decide, workload_rule twiceConfiguredWeb [twiceConfiguredWeb] (Or.inl rfl)⟩

/-! ### The monitor, ingress and token loops -/

theorem serviceLabelsLoop_eq (labels : List (String × String))
    (selector : List (String × JVal)) :
    serviceLabelsLoop labels selector =
      selector.all (fun kv =>
        match labels.lookup kv.1 with
        | some labelValue => equalValue (JVal.str labelValue) kv.2
        | none => false) := by
  induction selector with
  | nil => rfl
  | cons kv rest ih =>
    obtain ⟨key, value⟩ := kv
    rw [serviceLabelsLoop, List.all_cons, ← ih]
    cases hl : labels.lookup key with
    | none => simp
    | some labelValue =>
      cases value <;> simp [equalValue]
      by_cases h : labelValue = ‹String› <;> simp [h]

theorem matchesServiceLabels_eq (resource : K8sResource)
    (matchLabels : List (String × JVal)) :
    matchesServiceLabels resource matchLabels = monitorSelects matchLabels resource := by
  unfold matchesServiceLabels monitorSelects
  by_cases hk : resource.Kind = "Service"
  · simp only [hk, ne_eq, not_true_eq_false, if_false, beq_self_eq_true, Bool.true_and]
    cases nestedStringMap resource.Object ["metadata", "labels"] with
    | none => rfl
    | some labels => exact serviceLabelsLoop_eq labels matchLabels
  · simp [hk]

theorem serviceMonitorStep_eq (matchLabels : List (String × JVal)) (acc : List String)
    (r : K8sResource) :
    serviceMonitorStep matchLabels acc r =
      acc ++ (if monitorSelects matchLabels r = true then [r.Name] else []) := by
  unfold serviceMonitorStep
  rw [matchesServiceLabels_eq]
  cases hm : monitorSelects matchLabels r with
  | true =>
    have hk : r.Kind = "Service" := by
      simp only [monitorSelects, Bool.and_eq_true, beq_iff_eq] at hm
      exact hm.1
    simp [hk]
  | false => simp

theorem nestedField_step (m : List (String × JVal)) (a b : String) (rest : List String) :
    nestedField m (a :: b :: rest) =
      match nestedMap m [a] with
      | some inner => nestedField inner (b :: rest)
      | none => none := by
  simp only [nestedMap, nestedField, nestedFieldFrom]
  cases hl : m.lookup a with
  | none => rfl
  | some v => cases v <;> simp [nestedFieldFrom]

theorem nestedString_step (m : List (String × JVal)) (a b : String) (rest : List String) :
    nestedString m (a :: b :: rest) =
      match nestedMap m [a] with
      | some inner => nestedString inner (b :: rest)
      | none => none := by
  unfold nestedString
  rw [nestedField_step]
  cases nestedMap m [a] <;> rfl

theorem nestedSlice_step (m : List (String × JVal)) (a b : String) (rest : List String) :
    nestedSlice m (a :: b :: rest) =
      match nestedMap m [a] with
      | some inner => nestedSlice inner (b :: rest)
      | none => none := by
  unfold nestedSlice
  rw [nestedField_step]
  cases nestedMap m [a] <;> rfl

theorem ingressPathStep_eq (acc : List String) (path : JVal) :
    ingressPathStep acc path = acc ++ pathBackend path := by
  cases path with
  | obj pathMap =>
    simp only [ingressPathStep, pathBackend, nestedString_step pathMap "backend"]
    cases nestedMap pathMap ["backend"] with
    | none => simp
    | some backend =>
      simp only [nestedString_step backend "service"]
      cases nestedMap backend ["service"] with
      | none => simp
      | some service =>
        simp only []
        cases nestedString service ["name"] <;> simp
  | _ => simp [ingressPathStep, pathBackend]

theorem ingressRuleStep_eq (acc : List String) (rule : JVal) :
    ingressRuleStep acc rule = acc ++ (rulePaths rule).flatMap pathBackend := by
  have hfold : ∀ paths : List JVal,
      paths.foldl ingressPathStep acc = acc ++ paths.flatMap pathBackend :=
    fun paths => foldl_append_flatMap ingressPathStep pathBackend ingressPathStep_eq paths acc
  cases rule with
  | obj ruleMap =>
    simp only [ingressRuleStep, rulePaths, nestedSlice_step ruleMap "http"]
    cases nestedMap ruleMap ["http"] with
    | none => simp
    | some http =>
      simp only []
      cases nestedSlice http ["paths"] with
      | none => simp
      | some paths => simp [hfold]
  | _ => simp [ingressRuleStep, rulePaths]

theorem splitChars_head (sep : Char) (cs : List Char) :
    (splitChars sep cs).head? = some (cs.takeWhile (fun c => c != sep)) := by
  induction cs with
  | nil => rfl
  | cons c cs ih =>
    rw [splitChars]
    by_cases h : c = sep
    · simp [h]
    · rw [if_neg h]
      cases hs : splitChars sep cs with
      | nil => rw [hs] at ih; simp at ih
      | cons p ps =>
        rw [hs] at ih
        simp only [List.head?_cons, Option.some.injEq] at ih
        simp [List.takeWhile_cons, h, ih]

theorem split_headD (s : String) (sep : Char) :
    (split s sep).headD "" = ⟨s.data.takeWhile (fun c => c != sep)⟩ ∧
      1 ≤ (split s sep).length := by
  have h := splitChars_head sep s.data
  unfold split
  cases hs : splitChars sep s.data with
  | nil => rw [hs] at h; simp at h
  | cons p ps =>
    rw [hs] at h
    simp only [List.head?_cons, Option.some.injEq] at h
    simp [h]

theorem tokenAuthMount_refs (dependencies : List String) (s : String) :
    tokenAuthMount dependencies s = dependencies ++ tokenAuthRefs s := by
  obtain ⟨hh, hl⟩ := split_headD s ':'
  unfold tokenAuthMount tokenAuthRefs containsChar beforeColon
  simp only [hh, ge_iff_le, hl, true_and]
  by_cases hc : ':' ∈ s.data
  · by_cases he : (⟨s.data.takeWhile (fun c => c != ':')⟩ : String) = ""
    · simp [hc, he]
    · simp [hc, he]
  · simp [hc]

/-- C21: for every ServiceMonitor record whose `spec.selector.matchLabels` is the map
`matchLabels` (empty or not), the dependency list is the names, in record order, of the
records of kind Service whose `metadata.labels`, a map of strings, contain every key of
`matchLabels` with an equal value; every record that contributes is a Service that has
such a label map, so records of another kind and Services without labels never
contribute. -/
theorem monitor_rule (resource : K8sResource) (allResources : List K8sResource)
    (selector matchLabels : List (String × JVal))
    (hk : resource.Kind = "ServiceMonitor")
    (hs : nestedMap resource.Object ["spec", "selector"] = some selector)
    (hm : nestedMap selector ["matchLabels"] = some matchLabels) :
    findDependencies resource allResources =
        some ((allResources.filter (monitorSelects matchLabels)).map (fun r => r.Name)) ∧
      ∀ r ∈ allResources.filter (monitorSelects matchLabels),
        r.Kind = "Service" ∧
          (nestedStringMap r.Object ["metadata", "labels"]).isSome = true := by
  constructor
  · unfold findDependencies
    have h1 : ¬ resource.Kind = "Service" := by rw [hk]; decide
    have h2 : ¬ resource.Kind = "Ingress" := by rw [hk]; decide
    have h3 : ¬ resource.Kind = "Route" := by rw [hk]; decide
    rw [if_neg h1, if_neg h2, if_neg h3, if_pos hk, hs]
    simp only [hm]
    rw [foldl_append_flatMap (serviceMonitorStep matchLabels)
      (fun r => if monitorSelects matchLabels r = true then [r.Name] else [])
      (serviceMonitorStep_eq matchLabels), List.nil_append, flatMap_ite_singleton]
  · intro r hr
    have hsel := (List.mem_filter.1 hr).2
    simp only [monitorSelects, Bool.and_eq_true, beq_iff_eq] at hsel
    refine ⟨hsel.1, ?_⟩
    cases hl : nestedStringMap r.Object ["metadata", "labels"] with
    | none => rw [hl] at hsel; simp at hsel
    | some labels => rfl

/-- Witness of C21: around the monitor of team `a`, the two Services of team `a` are
listed in record order; the Service without labels, the Service of team `b` and the
Deployment of team `a` are not. -/
theorem monitor_rule_witness :
    findDependencies teamMonitor teamRecords = some ["first", "second"] ∧
      (findDependencies teamMonitor teamRecords =
        some ((teamRecords.filter (monitorSelects [("team", JVal.str "a")])).map
          (fun r => r.Name)) ∧
       ∀ r ∈ teamRecords.filter (monitorSelects [("team", JVal.str "a")]),
        r.Kind = "Service" ∧
          (nestedStringMap r.Object ["metadata", "labels"]).isSome = true) :=
  ⟨by decide, monitor_rule teamMonitor teamRecords
    [("matchLabels", JVal.obj [("team", JVal.str "a")])] [("team", JVal.str "a")]
    (by decide) rfl rfl⟩

/-- C22: for every Ingress record whose `spec.rules` is the list `rules`, the
dependency list is the sequence of `backend.service.name` strings of the paths of the
rules, in rule order then path order; a rule or a path with a link of the chain absent
or of the wrong shape contributes the empty sequence, and the rules and paths after it
contribute as usual. -/
theorem ingress_rule (resource : K8sResource) (allResources : List K8sResource)
    (rules : List JVal) (hk : resource.Kind = "Ingress")
    (hr : nestedSlice resource.Object ["spec", "rules"] = some rules) :
    findDependencies resource allResources =
      some (rules.flatMap (fun rule => (rulePaths rule).flatMap pathBackend)) := by
  unfold findDependencies
  have h1 : ¬ resource.Kind = "Service" := by rw [hk]; decide
  rw [if_neg h1, if_pos hk, hr]
  simp only []
  rw [foldl_append_flatMap ingressRuleStep
    (fun rule => (rulePaths rule).flatMap pathBackend) ingressRuleStep_eq,
    List.nil_append]

/-- Witness of C22: the Ingress with a path without backend, a rule that is a string and
a rule without `http` lists the three backends that are there, in order. -/
theorem ingress_rule_witness :
    findDependencies brokenIngress [] = some ["a", "b", "c"] ∧
      findDependencies brokenIngress [] =
        some (brokenRules.flatMap (fun rule => (rulePaths rule).flatMap pathBackend)) :=
  ⟨by decide, ingress_rule brokenIngress [] brokenRules (by decide) rfl⟩

/-- C23: for the annotation `vault.security.banzaicloud.io/token-auth-mount` with value
`s`, on the resource or on its pod template, the loop step appends the text of `s`
before its first colon when `s` has a colon and that text is not empty, and appends
nothing otherwise: a value without a colon, or one that begins with a colon,
contributes nothing. -/
theorem token_auth_mount_rule (dependencies : List String) (s : String) :
    bankVaultsStep dependencies (tokenAuthKey, s) = dependencies ++ tokenAuthRefs s ∧
    bankVaultsTemplateStep dependencies (tokenAuthKey, s) =
      dependencies ++ tokenAuthRefs s ∧
    (':' ∉ s.data → tokenAuthRefs s = []) ∧
    (s.data.head? = some ':' → tokenAuthRefs s = []) ∧
    (∀ a b : List Char, a ≠ [] → ':' ∉ a → s.data = a ++ ':' :: b →
      tokenAuthRefs s = [String.mk a]) := by
  have hk1 : ¬ tokenAuthKey = "vault.security.banzaicloud.io/vault-tls-secret" := by decide
  have hk2 : ¬ tokenAuthKey = "vault.security.banzaicloud.io/vault-serviceaccount" := by
    decide
  have hk3 : ¬ tokenAuthKey = "vault.security.banzaicloud.io/vault-env-from-path" := by
    decide
  have hempty : s = "" → tokenAuthRefs s = [] := by
    intro h; subst h; decide
  refine ⟨?_, ?_, ?_, ?_, ?_⟩
  · unfold bankVaultsStep
    simp only []
    rw [if_neg (fun h => hk1 h.1), if_neg (fun h => hk2 h.1)]
    by_cases hs : s = ""
    · rw [if_neg (fun h => h.2 hs), hempty hs, List.append_nil]
    · rw [if_pos ⟨rfl, hs⟩, tokenAuthMount_refs]
  · unfold bankVaultsTemplateStep
    simp only []
    rw [if_neg (fun h => hk1 h.1), if_neg (fun h => hk2 h.1), if_neg (fun h => hk3 h.1)]
    by_cases hs : s = ""
    · rw [if_neg (fun h => h.2 hs), hempty hs, List.append_nil]
    · rw [if_pos ⟨rfl, hs⟩, tokenAuthMount_refs]
  · intro h
    unfold tokenAuthRefs
    rw [if_neg (fun hc => h hc.1)]
  · intro h
    unfold tokenAuthRefs beforeColon
    cases hd : s.data with
    | nil => rw [hd] at h; simp at h
    | cons c cs =>
      rw [hd] at h
      simp only [List.head?_cons, Option.some.injEq] at h
      subst h
      simp
  · intro a b ha hna hs
    have htw : s.data.takeWhile (fun c => c != ':') = a := by
      rw [hs]
      have : ∀ l : List Char, ':' ∉ l →
          (l ++ ':' :: b).takeWhile (fun c => c != ':') = l := by
        intro l
        induction l with
        | nil => intro _; simp
        | cons x xs ih =>
          intro hx
          simp only [List.mem_cons, not_or] at hx
          have hx1 : x ≠ ':' := fun h => hx.1 h.symm
          simp [List.takeWhile_cons, hx1, ih hx.2]
      exact this a hna
    unfold tokenAuthRefs beforeColon
    rw [htw]
    have hmem : ':' ∈ s.data := by rw [hs]; simp
    have hne : (String.mk a) ≠ "" := by
      intro h
      apply ha
      have := congrArg String.data h
      simpa using this
    rw [if_pos ⟨hmem, hne⟩]

/-! ### Kinds without a case -/

theorem findDependencies_unrecognized (resource : K8sResource)
    (allResources : List K8sResource) (hk : resource.Kind ∉ recognizedKinds) :
    findDependencies resource allResources = some [] := by
  simp only [recognizedKinds, List.mem_cons, List.mem_singleton, List.mem_nil_iff,
    or_false, not_or] at hk
  obtain ⟨h1, h2, h3, h4, h5, h6, h7, h8, h9, h10⟩ := hk
  unfold findDependencies
  rw [if_neg h1, if_neg h2, if_neg h3, if_neg h4, if_neg (by simp [h5, h6, h7]),
    if_neg (by simp [h8, h9]), if_neg h10]

theorem mem_keys_mapSet (m : List (String × List String)) (key : String)
    (value : List String) (k : String) (hk : k ∈ (mapSet m key value).map Prod.fst) :
    k ∈ m.map Prod.fst ∨ k = key := by
  unfold mapSet at hk
  split at hk
  · simp only [List.map_map, List.mem_map, Function.comp_apply] at hk
    obtain ⟨e, he, hek⟩ := hk
    by_cases h : (e.1 == key) = true
    · rw [if_pos h] at hek
      exact Or.inr hek.symm
    · rw [if_neg h] at hek
      exact Or.inl (List.mem_map.2 ⟨e, he, hek⟩)
  · simp only [List.map_append, List.map_cons, List.map_nil, List.mem_append,
      List.mem_singleton] at hk
    exact hk

theorem foldl_buildDependenciesStep_none (allResources rs : List K8sResource) :
    rs.foldl (buildDependenciesStep allResources) none = none := by
  induction rs with
  | nil => rfl
  | cons r rs ih => rw [List.foldl_cons]; exact ih

theorem keys_of_buildDependencies_loop (allResources : List K8sResource) :
    ∀ (rs : List K8sResource) (deps result : List (String × List String)),
      rs.foldl (buildDependenciesStep allResources) (some deps) = some result →
      ∀ key ∈ result.map Prod.fst,
        key ∈ deps.map Prod.fst ∨
          ∃ r ∈ rs, r.Kind ∈ recognizedKinds ∧ key = compositeKey r.Kind r.Name := by
  intro rs
  induction rs with
  | nil =>
    intro deps result h key hkey
    simp only [List.foldl_nil, Option.some.injEq] at h
    subst h
    exact Or.inl hkey
  | cons r rs ih =>
    intro deps result h key hkey
    rw [List.foldl_cons] at h
    cases hf : findDependencies r allResources with
    | none =>
      have hstep : buildDependenciesStep allResources (some deps) r = none := by
        simp [buildDependenciesStep, hf]
      rw [hstep, foldl_buildDependenciesStep_none] at h
      cases h
    | some ds =>
      by_cases hlen : ds.length > 0
      · have hstep : buildDependenciesStep allResources (some deps) r =
            some (mapSet deps (compositeKey r.Kind r.Name) ds) := by
          simp [buildDependenciesStep, hf, hlen]
        rw [hstep] at h
        have hrec : r.Kind ∈ recognizedKinds := by
          by_contra hn
          rw [findDependencies_unrecognized r allResources hn] at hf
          simp only [Option.some.injEq] at hf
          subst hf
          simp at hlen
        rcases ih _ result h key hkey with h1 | ⟨r2, hr2, hk2, he2⟩
        · rcases mem_keys_mapSet _ _ _ _ h1 with h3 | h3
          · exact Or.inl h3
          · exact Or.inr ⟨r, List.mem_cons_self _ _, hrec, h3⟩
        · exact Or.inr ⟨r2, List.mem_cons_of_mem _ hr2, hk2, he2⟩
      · have hstep : buildDependenciesStep allResources (some deps) r = some deps := by
          simp [buildDependenciesStep, hf, hlen]
        rw [hstep] at h
        rcases ih _ result h key hkey with h1 | ⟨r2, hr2, hk2, he2⟩
        · exact Or.inl h1
        · exact Or.inr ⟨r2, List.mem_cons_of_mem _ hr2, hk2, he2⟩

/-- C24: for every record whose kind is not one of Service, Ingress, Route,
ServiceMonitor, Deployment, StatefulSet, DaemonSet, RoleBinding, ClusterRoleBinding,
ServiceAccount, `findDependencies` returns the empty list whatever the record holds and
whatever the other records are, and the step of `buildDependencies` for that record
leaves the dependency map as it was; every key that a run of `buildDependencies` adds
to the map is the key of a record of one of the ten kinds. -/
theorem unrecognized_kinds (resource : K8sResource) (allResources : List K8sResource)
    (hk : resource.Kind ∉ recognizedKinds) :
    findDependencies resource allResources = some [] ∧
    (∀ deps, buildDependenciesStep allResources (some deps) resource = some deps) ∧
    (∀ collection result, buildDependencies collection = some result →
      ∀ key ∈ result.Dependencies.map Prod.fst,
        key ∈ collection.Dependencies.map Prod.fst ∨
          ∃ r ∈ collection.Resources,
            r.Kind ∈ recognizedKinds ∧ key = compositeKey r.Kind r.Name) := by
  refine ⟨findDependencies_unrecognized resource allResources hk, ?_, ?_⟩
  · intro deps
    simp [buildDependenciesStep, findDependencies_unrecognized resource allResources hk]
  · intro collection result h key hkey
    unfold buildDependencies at h
    cases hf : collection.Resources.foldl (buildDependenciesStep collection.Resources)
        (some collection.Dependencies) with
    | none => rw [hf] at h; cases h
    | some dependencies =>
      rw [hf] at h
      simp only [Option.some.injEq] at h
      subst h
      exact keys_of_buildDependencies_loop collection.Resources collection.Resources
        collection.Dependencies dependencies hf key hkey

/-- Witness of C24: a Job that mounts a ConfigMap and a Secret has no dependencies, and
a collection made of that Job and the two mounted records gets an empty dependency
map. -/
theorem unrecognized_kinds_witness :
    (buildDependencies { Resources := [mountingJob, bareRecord "ConfigMap" "settings",
        bareRecord "Secret" "credentials"], Dependencies := [] }).map
      (fun result => result.Dependencies) = some [] ∧
    findDependencies mountingJob [mountingJob, bareRecord "ConfigMap" "settings"] =
      some [] :=
  ⟨by decide, (unrecognized_kinds mountingJob
    [mountingJob, bareRecord "ConfigMap" "settings"] (by decide)).1⟩

/-! ### Placement of nodes -/

theorem placeNode_getElem? (d : Diagram) (i : Nat) (x y : Int) (j : Nat) :
    (placeNode d i x y).Nodes[j]? =
      if i = j then (d.Nodes[j]?).map (fun node => placed node x y) else d.Nodes[j]? := by
  simp only [placeNode, List.getElem?_modify]
  by_cases h : i = j
  · simp only [h, if_true]
    cases d.Nodes[j]? <;> rfl
  · simp only [h, if_false]
    cases d.Nodes[j]? <;> rfl

theorem placeNode_length (d : Diagram) (i : Nat) (x y : Int) :
    (placeNode d i x y).Nodes.length = d.Nodes.length := by
  simp [placeNode]

theorem placeSeq_frame (coords : Nat → Int × Int) (idxs : List Nat) :
    ∀ (d : Diagram) (s : Nat),
      (placeSeq coords d idxs s).Nodes.length = d.Nodes.length ∧
      (placeSeq coords d idxs s).Connections = d.Connections ∧
      (placeSeq coords d idxs s).Layout = d.Layout ∧
      (placeSeq coords d idxs s).Namespaces = d.Namespaces := by
  induction idxs with
  | nil => intro d s; exact ⟨rfl, rfl, rfl, rfl⟩
  | cons i rest ih =>
    intro d s
    rw [placeSeq]
    obtain ⟨h1, h2, h3, h4⟩ := ih (placeNode d i (coords s).1 (coords s).2) (s + 1)
    exact ⟨h1.trans (placeNode_length _ _ _ _), h2, h3, h4⟩

theorem placeSeq_of_not_mem (coords : Nat → Int × Int) (idxs : List Nat) (j : Nat)
    (hj : j ∉ idxs) :
    ∀ (d : Diagram) (s : Nat), (placeSeq coords d idxs s).Nodes[j]? = d.Nodes[j]? := by
  induction idxs with
  | nil => intro d s; rfl
  | cons i rest ih =>
    intro d s
    simp only [List.mem_cons, not_or] at hj
    rw [placeSeq, ih hj.2, placeNode_getElem?, if_neg (fun h => hj.1 h.symm)]

theorem placeSeq_getElem? (coords : Nat → Int × Int) (idxs : List Nat)
    (hnd : idxs.Nodup) :
    ∀ (d : Diagram) (s k i : Nat), idxs[k]? = some i →
      (placeSeq coords d idxs s).Nodes[i]? =
        (d.Nodes[i]?).map (fun node => placed node (coords (s + k)).1 (coords (s + k)).2) := by
  induction idxs with
  | nil => intro d s k i h; simp at h
  | cons i0 rest ih =>
    intro d s k i h
    rw [List.nodup_cons] at hnd
    rw [placeSeq]
    cases k with
    | zero =>
      simp only [List.getElem?_cons_zero, Option.some.injEq] at h
      subst h
      rw [placeSeq_of_not_mem coords rest i0 hnd.1, placeNode_getElem?, if_pos rfl]
      rfl
    | succ k =>
      simp only [List.getElem?_cons_succ] at h
      have hmem : i ∈ rest := List.mem_iff_getElem?.2 ⟨k, h⟩
      have hne : i0 ≠ i := fun e => hnd.1 (e ▸ hmem)
      rw [ih hnd.2 _ (s + 1) k i h, placeNode_getElem?, if_neg hne]
      have : s + 1 + k = s + (k + 1) := by omega
      rw [this]

theorem idAt_placeNode (d : Diagram) (i : Nat) (x y : Int) (j : Nat) :
    idAt (placeNode d i x y) j = idAt d j := by
  unfold idAt
  rw [placeNode_getElem?]
  by_cases h : i = j
  · rw [if_pos h]
    cases d.Nodes[j]? <;> rfl
  · rw [if_neg h]

theorem idAt_placeSeq (coords : Nat → Int × Int) (idxs : List Nat) (j : Nat) :
    ∀ (d : Diagram) (s : Nat), idAt (placeSeq coords d idxs s) j = idAt d j := by
  induction idxs with
  | nil => intro d s; rfl
  | cons i rest ih => intro d s; rw [placeSeq, ih, idAt_placeNode]

theorem getNodeIDs_eq (l : Layout) (idxs : List Nat) (d : Diagram) :
    getNodeIDs l idxs d = idxs.map (idAt d) := rfl

theorem heightAt_placeNode (d : Diagram) (i : Nat) (x y : Int) (hi : i < d.Nodes.length) :
    heightAt (placeNode d i x y) i = 80 := by
  unfold heightAt
  rw [placeNode_getElem?, if_pos rfl, List.getElem?_eq_getElem hi]
  rfl

/-! ### The loops over the nodes of a partition -/

theorem hierarchical_row (levelY c : Int) (idxs : List Nat) :
    ∀ (st : RowState) (s : Nat), st.levelX = c + 220 * s →
      (∀ i ∈ idxs, i < st.diagram.Nodes.length) → st.maxLevelHeight ≤ 80 →
      st.maxX ≤ st.levelX →
      (idxs.foldl (hierarchicalNodeStep levelY) st).diagram =
          placeSeq (fun k => (c + 220 * k, levelY)) st.diagram idxs s ∧
        (idxs.foldl (hierarchicalNodeStep levelY) st).levelX =
          st.levelX + 220 * idxs.length ∧
        (idxs ≠ [] → (idxs.foldl (hierarchicalNodeStep levelY) st).maxLevelHeight = 80) ∧
        (idxs.foldl (hierarchicalNodeStep levelY) st).maxLevelHeight ≤ 80 ∧
        (idxs ≠ [] →
          (idxs.foldl (hierarchicalNodeStep levelY) st).maxX =
            st.levelX + 220 * idxs.length) ∧
        (idxs.foldl (hierarchicalNodeStep levelY) st).maxX ≤
          (idxs.foldl (hierarchicalNodeStep levelY) st).levelX := by
  induction idxs with
  | nil =>
    intro st s _ _ hh hm
    simp [placeSeq, hh, hm]
  | cons i rest ih =>
    intro st s hx hr hh hm
    have hi : i < st.diagram.Nodes.length := hr i (List.mem_cons_self _ _)
    have hheight : heightAt (placeNode st.diagram i st.levelX levelY) i = 80 :=
      heightAt_placeNode _ _ _ _ hi
    have hstep : hierarchicalNodeStep levelY st i =
        { diagram := placeNode st.diagram i st.levelX levelY,
          levelX := st.levelX + 220,
          maxLevelHeight := if 80 > st.maxLevelHeight then 80 else st.maxLevelHeight,
          maxX := st.levelX + 220 } := by
      simp only [hierarchicalNodeStep, hheight]
      have : st.levelX + 220 > st.maxX := by omega
      rw [if_pos this]
    have hmh : (if 80 > st.maxLevelHeight then (80 : Int) else st.maxLevelHeight) = 80 := by
      split
      · rfl
      · omega
    rw [hmh] at hstep
    rw [List.foldl_cons, hstep]
    obtain ⟨h1, h2, h3, h4, h5, h6⟩ := ih
      { diagram := placeNode st.diagram i st.levelX levelY, levelX := st.levelX + 220,
        maxLevelHeight := 80, maxX := st.levelX + 220 } (s + 1)
      (by simp only [hx]; push_cast; ring)
      (by intro j hj; rw [placeNode_length]; exact hr j (List.mem_cons_of_mem _ hj))
      (le_refl _) (le_refl _)
    refine ⟨?_, ?_, ?_, h4, ?_, h6⟩
    · rw [h1, placeSeq, hx]
    · rw [h2]; simp only [List.length_cons]; push_cast; ring
    · intro _
      cases rest with
      | nil => rfl
      | cons j rest2 => exact h3 (by simp)
    · intro _
      cases rest with
      | nil => simp
      | cons j rest2 =>
        rw [h5 (by simp)]
        simp only [List.length_cons]; push_cast; ring

theorem vertical_column (nsX : Int) (idxs : List Nat) :
    ∀ (st : ColumnState) (s : Nat), st.nodeY = 160 + 160 * s → st.maxY ≤ st.nodeY →
      (idxs.foldl (verticalNodeStep nsX) st).diagram =
          placeSeq (fun k => (nsX + 80, 160 + 160 * k)) st.diagram idxs s ∧
        (idxs.foldl (verticalNodeStep nsX) st).nodeY = st.nodeY + 160 * idxs.length ∧
        (idxs ≠ [] →
          (idxs.foldl (verticalNodeStep nsX) st).maxY = st.nodeY + 160 * idxs.length) := by
  induction idxs with
  | nil => intro st s _ _; simp [placeSeq]
  | cons i rest ih =>
    intro st s hy hm
    have hstep : verticalNodeStep nsX st i =
        { diagram := placeNode st.diagram i (nsX + 80) st.nodeY,
          nodeY := st.nodeY + 160, maxY := st.nodeY + 160 } := by
      simp only [verticalNodeStep]
      have : st.nodeY + 160 > st.maxY := by omega
      rw [if_pos this]
    rw [List.foldl_cons, hstep]
    obtain ⟨h1, h2, h3⟩ := ih
      { diagram := placeNode st.diagram i (nsX + 80) st.nodeY, nodeY := st.nodeY + 160,
        maxY := st.nodeY + 160 } (s + 1)
      (by simp only [hy]; push_cast; ring) (le_refl _)
    refine ⟨?_, ?_, ?_⟩
    · rw [h1, placeSeq, hy]
    · rw [h2]; simp only [List.length_cons]; push_cast; ring
    · intro _
      cases rest with
      | nil => simp
      | cons j rest2 =>
        rw [h3 (by simp)]
        simp only [List.length_cons]; push_cast; ring

theorem hierarchicalPartitionStep_eq (l : Layout) (st : PartitionState)
    (entry : String × List Nat) (hne : entry.2 ≠ [])
    (hr : ∀ i ∈ entry.2, i < st.diagram.Nodes.length) :
    hierarchicalPartitionStep l st entry =
      boxedPartition hierarchicalCoords hierarchicalBox 390 st entry := by
  obtain ⟨ns, idxs⟩ := entry
  simp only at hne hr
  have hlen : idxs.length > 0 := List.length_pos.2 hne
  obtain ⟨h1, h2, h3, -, h5, -⟩ := hierarchical_row (st.current + 80) 160 idxs
    { diagram := st.diagram, levelX := 80 + 80, maxLevelHeight := 0, maxX := 80 } 0
    (by norm_num) hr (by norm_num) (by norm_num)
  simp only [hierarchicalPartitionStep, boxedPartition, topologicalSort, groupIntoLevels,
    hlen, if_true, List.nil_append, List.foldl_cons, List.foldl_nil, hierarchicalLevelStep,
    h1, h3 hne, h5 hne, getNodeIDs_eq]
  have hy : st.current + 80 + (80 + 80) > st.current := by omega
  rw [if_pos hy]
  have hids : idxs.map (idAt (placeSeq (fun k => (160 + 220 * (k : Int), st.current + 80))
      st.diagram idxs 0)) = idxs.map (idAt st.diagram) := by
    apply List.map_congr_left
    intro i _
    exact idAt_placeSeq _ _ _ _ _
  rw [hids]
  have hc : (fun k : Nat => (160 + 220 * (k : Int), st.current + 80)) =
      hierarchicalCoords st.current := rfl
  rw [hc]
  simp only [hierarchicalBox, PartitionState.mk.injEq]
  refine ⟨?_, by ring⟩
  congr 3
  · ring
  · ring

theorem verticalPartitionStep_eq (l : Layout) (st : PartitionState)
    (entry : String × List Nat) (hne : entry.2 ≠ []) :
    verticalPartitionStep l st entry =
      boxedPartition verticalCoords verticalBox 300 st entry := by
  obtain ⟨ns, idxs⟩ := entry
  simp only at hne
  obtain ⟨h1, -, h3⟩ := vertical_column st.current idxs
    { diagram := st.diagram, nodeY := 80 + 80, maxY := 80 } 0
    (by norm_num) (by norm_num)
  simp only [verticalPartitionStep, boxedPartition, h1, h3 hne, getNodeIDs_eq]
  have hids : idxs.map (idAt (placeSeq (fun k => (st.current + 80, 160 + 160 * (k : Int)))
      st.diagram idxs 0)) = idxs.map (idAt st.diagram) := by
    apply List.map_congr_left
    intro i _
    exact idAt_placeSeq _ _ _ _ _
  rw [hids]
  have hc : (fun k : Nat => (st.current + 80, 160 + 160 * (k : Int))) =
      verticalCoords st.current := rfl
  rw [hc]
  simp only [verticalBox, PartitionState.mk.injEq, and_true]
  congr 3
  ring

/-! ### The map of namespace groups -/

theorem lookup_append_any {β : Type} (k : String) (l₁ l₂ : List (String × β)) :
    (l₁ ++ l₂).lookup k =
      match l₁.lookup k with
      | some v => some v
      | none => l₂.lookup k := by
  induction l₁ with
  | nil => simp
  | cons p l ih =>
    obtain ⟨a, b⟩ := p
    simp only [List.cons_append, List.lookup_cons]
    cases k == a <;> simp [ih]

theorem lookup_eq_none_of_any {β : Type} (k : String) :
    ∀ m : List (String × β), ¬ m.any (fun e => e.1 == k) = true → m.lookup k = none := by
  intro m
  induction m with
  | nil => intro _; rfl
  | cons p l ih =>
    obtain ⟨a, b⟩ := p
    intro h
    simp only [List.any_cons, Bool.or_eq_true, beq_iff_eq, not_or] at h
    have hk : (k == a) = false := by simpa using (fun e : k = a => h.1 e.symm)
    simp only [List.lookup_cons, hk]
    exact ih (by simpa using h.2)

theorem lookup_map_put {β : Type} (key : String) (value : β) (k : String) :
    ∀ m : List (String × β),
      (m.map (fun e => if e.1 == key then (key, value) else e)).lookup k =
        if k = key then (if m.any (fun e => e.1 == key) then some value else none)
        else m.lookup k := by
  intro m
  induction m with
  | nil => simp
  | cons e rest ih =>
    obtain ⟨a, b⟩ := e
    have hany : ((a, b) :: rest).any (fun e => e.1 == key) =
        ((a == key) || rest.any (fun e => e.1 == key)) := rfl
    rw [List.map_cons, hany]
    show List.lookup k ((if (a == key) = true then (key, value) else (a, b)) :: _) = _
    by_cases ha : a = key
    · have ha2 : (a == key) = true := by simpa using ha
      rw [if_pos ha2, List.lookup_cons, ha2, Bool.true_or, if_pos rfl]
      by_cases hk : k = key
      · have hk2 : (k == key) = true := by simpa using hk
        rw [hk2, if_pos hk]
      · have hk2 : (k == key) = false := by simpa using hk
        have hk3 : (k == a) = false := by rw [ha]; exact hk2
        rw [hk2, if_neg hk, List.lookup_cons, hk3, ih, if_neg hk]
    · have ha2 : (a == key) = false := by simpa using ha
      rw [if_neg (by simp [ha2]), List.lookup_cons, ha2, Bool.false_or, ih, List.lookup_cons]
      by_cases hk : k = key
      · have hk3 : (k == a) = false := by
          simpa using (fun e : k = a => ha (e.symm.trans hk))
        simp only [hk3, if_pos hk]
      · rw [if_neg hk, if_neg hk]

theorem lookup_mapPut {β : Type} (m : List (String × β)) (key : String) (value : β)
    (k : String) :
    (mapPut m key value).lookup k = if k = key then some value else m.lookup k := by
  unfold mapPut
  by_cases h : m.any (fun e => e.1 == key) = true
  · rw [if_pos h, lookup_map_put, h]
    simp
  · rw [if_neg h, lookup_append_any]
    by_cases hk : k = key
    · subst hk
      rw [if_pos rfl, lookup_eq_none_of_any k m h]
      simp [List.lookup_cons]
    · rw [if_neg hk]
      have hk2 : (k == key) = false := by simpa using hk
      cases m.lookup k <;> simp [List.lookup_cons, hk2]

/-! ### The loops over the partitions -/

theorem boxedPartition_fold (coords : Int → Nat → Int × Int)
    (box : String → Int → Nat → List String → NamespaceGroup) (adv : Int) :
    ∀ (es : List (String × List Nat)) (st r : PartitionState),
      (∀ e ∈ es, e.2.Nodup) →
      es.Pairwise (fun a b => a.1 ≠ b.1 ∧ ∀ i ∈ a.2, i ∉ b.2) →
      r = es.foldl (boxedPartition coords box adv) st →
      r.current = st.current + adv * es.length ∧
      r.diagram.Nodes.length = st.diagram.Nodes.length ∧
      r.diagram.Connections = st.diagram.Connections ∧
      r.diagram.Layout = st.diagram.Layout ∧
      (∀ i, idAt r.diagram i = idAt st.diagram i) ∧
      (∀ i, (∀ e ∈ es, i ∉ e.2) → r.diagram.Nodes[i]? = st.diagram.Nodes[i]?) ∧
      (∀ (j : Nat) e, es[j]? = some e → ∀ k i, e.2[k]? = some i →
        r.diagram.Nodes[i]? = (st.diagram.Nodes[i]?).map (fun node =>
          placed node (coords (st.current + adv * (j : Int)) k).1
            (coords (st.current + adv * (j : Int)) k).2)) ∧
      (∀ (j : Nat) e, es[j]? = some e →
        r.diagram.Namespaces.lookup e.1 =
          some (box e.1 (st.current + adv * (j : Int)) e.2.length
            (e.2.map (idAt st.diagram)))) ∧
      (∀ ns, (∀ e ∈ es, e.1 ≠ ns) →
        r.diagram.Namespaces.lookup ns = st.diagram.Namespaces.lookup ns) := by
  intro es
  induction es with
  | nil =>
    intro st r _ _ hr
    simp only [List.foldl_nil] at hr
    subst hr
    simp
  | cons e0 rest ih =>
    intro st r hnd hpw hr
    rw [List.foldl_cons] at hr
    rw [List.pairwise_cons] at hpw
    obtain ⟨hhead, hrest⟩ := hpw
    obtain ⟨c1, c2, c3, c4, c5, c6, c7, c8, c9⟩ :=
      ih (boxedPartition coords box adv st e0) r
        (fun e he => hnd e (List.mem_cons_of_mem _ he)) hrest hr
    have hframe := placeSeq_frame (coords st.current) e0.2 st.diagram 0
    have hnodes : ∀ i : Nat, (boxedPartition coords box adv st e0).diagram.Nodes[i]? =
        (placeSeq (coords st.current) st.diagram e0.2 0).Nodes[i]? := fun _ => rfl
    have hid : ∀ i, idAt (boxedPartition coords box adv st e0).diagram i =
        idAt st.diagram i := by
      intro i
      exact idAt_placeSeq (coords st.current) e0.2 i st.diagram 0
    have hns : ∀ ns, (boxedPartition coords box adv st e0).diagram.Namespaces.lookup ns =
        if ns = e0.1 then
          some (box e0.1 st.current e0.2.length (e0.2.map (idAt st.diagram)))
        else st.diagram.Namespaces.lookup ns := by
      intro ns
      show (mapPut (placeSeq (coords st.current) st.diagram e0.2 0).Namespaces e0.1 _).lookup
        ns = _
      rw [lookup_mapPut, hframe.2.2.2]
    have hcur : (boxedPartition coords box adv st e0).current = st.current + adv := rfl
    refine ⟨?_, ?_, ?_, ?_, ?_, ?_, ?_, ?_, ?_⟩
    · rw [c1, hcur]; simp only [List.length_cons]; push_cast; ring
    · rw [c2]; exact hframe.1
    · rw [c3]; exact hframe.2.1
    · rw [c4]; exact hframe.2.2.1
    · intro i; rw [c5, hid]
    · intro i hi
      rw [c6 i (fun e he => hi e (List.mem_cons_of_mem _ he)), hnodes,
        placeSeq_of_not_mem _ _ _ (hi e0 (List.mem_cons_self _ _))]
    · intro j e hj k i hk
      cases j with
      | zero =>
        simp only [List.getElem?_cons_zero, Option.some.injEq] at hj
        subst hj
        have hmem : i ∈ e0.2 := List.mem_iff_getElem?.2 ⟨k, hk⟩
        rw [c6 i (fun e he => (hhead e he).2 i hmem), hnodes,
          placeSeq_getElem? _ _ (hnd e0 (List.mem_cons_self _ _)) _ 0 k i hk]
        simp
      | succ j =>
        simp only [List.getElem?_cons_succ] at hj
        have hmem : i ∈ e.2 := List.mem_iff_getElem?.2 ⟨k, hk⟩
        have he : e ∈ rest := List.mem_iff_getElem?.2 ⟨j, hj⟩
        have hnot : i ∉ e0.2 := fun h0 => (hhead e he).2 i h0 hmem
        rw [c7 j e hj k i hk, hnodes, placeSeq_of_not_mem _ _ _ hnot, hcur]
        have : st.current + adv + adv * (j : Int) = st.current + adv * ((j + 1 : Nat) : Int) := by
          push_cast; ring
        rw [this]
    · intro j e hj
      cases j with
      | zero =>
        simp only [List.getElem?_cons_zero, Option.some.injEq] at hj
        subst hj
        rw [c9 e0.1 (fun e he => fun h => (hhead e he).1 h.symm), hns, if_pos rfl]
        simp
      | succ j =>
        simp only [List.getElem?_cons_succ] at hj
        rw [c8 j e hj, hcur]
        have : st.current + adv + adv * (j : Int) = st.current + adv * ((j + 1 : Nat) : Int) := by
          push_cast; ring
        rw [this]
        have hids : e.2.map (idAt (boxedPartition coords box adv st e0).diagram) =
            e.2.map (idAt st.diagram) := List.map_congr_left (fun i _ => hid i)
        rw [hids]
    · intro ns hne
      rw [c9 ns (fun e he => hne e (List.mem_cons_of_mem _ he)), hns,
        if_neg (fun h => hne e0 (List.mem_cons_self _ _) h.symm)]

/-! ### The partitions -/

theorem keys_mapPut {β : Type} (m : List (String × β)) (key : String) (value : β) :
    (mapPut m key value).map Prod.fst =
      if m.any (fun e => e.1 == key) = true then m.map Prod.fst
      else m.map Prod.fst ++ [key] := by
  unfold mapPut
  by_cases h : m.any (fun e => e.1 == key) = true
  · rw [if_pos h, if_pos h, List.map_map]
    apply List.map_congr_left
    intro e _
    by_cases he : (e.1 == key) = true
    · simp only [Function.comp_apply, he, if_true]
      exact (beq_iff_eq.1 he).symm
    · simp only [Function.comp_apply, he]
      rfl
  · rw [if_neg h, if_neg h]
    simp

theorem nodup_keys_mapPut {β : Type} (m : List (String × β)) (key : String) (value : β)
    (h : (m.map Prod.fst).Nodup) : ((mapPut m key value).map Prod.fst).Nodup := by
  rw [keys_mapPut]
  by_cases ha : m.any (fun e => e.1 == key) = true
  · rw [if_pos ha]; exact h
  · rw [if_neg ha]
    apply List.Nodup.append h (List.nodup_singleton _)
    intro k hk hk2
    rw [List.mem_singleton] at hk2
    subst hk2
    apply ha
    obtain ⟨e, he, hek⟩ := List.mem_map.1 hk
    exact List.any_eq_true.2 ⟨e, he, by simp [hek]⟩

theorem lookup_ne_none_of_mem_keys {β : Type} (k : String) :
    ∀ m : List (String × β), k ∈ m.map Prod.fst → m.lookup k ≠ none := by
  intro m hk h
  obtain ⟨e, he, hek⟩ := List.mem_map.1 hk
  have hany : m.any (fun e => e.1 == k) = true :=
    List.any_eq_true.2 ⟨e, he, by simp [hek]⟩
  induction m with
  | nil => simp at he
  | cons p rest ih =>
    obtain ⟨a, b⟩ := p
    rw [List.lookup_cons] at h
    cases hka : k == a with
    | true => rw [hka] at h; cases h
    | false =>
      rw [hka] at h
      have hne : a ≠ k := fun e => by simp [e] at hka
      rcases List.mem_cons.1 he with h1 | h1
      · subst h1; exact hne hek
      · exact ih (List.mem_map.2 ⟨e, h1, hek⟩) h h1
          (List.any_eq_true.2 ⟨e, h1, by simp [hek]⟩)

theorem namespaceNodes_prefix (d : Diagram) :
    ∀ t, t ≤ d.Nodes.length →
      (((d.Nodes.take t).enum.foldl namespaceNodesStep []).map Prod.fst).Nodup ∧
      ∀ ns, ((d.Nodes.take t).enum.foldl namespaceNodesStep []).lookup ns =
        if (List.range t).filter (fun i =>
            match d.Nodes[i]? with
            | some node => partitionKey node == ns
            | none => false) = [] then none
        else some ((List.range t).filter (fun i =>
            match d.Nodes[i]? with
            | some node => partitionKey node == ns
            | none => false)) := by
  intro t
  induction t with
  | zero => intro _; simp
  | succ t ih =>
    intro ht
    have hlt : t < d.Nodes.length := by omega
    obtain ⟨ih1, ih2⟩ := ih (by omega)
    have htake : d.Nodes.take (t + 1) = d.Nodes.take t ++ [d.Nodes[t]] := by
      rw [List.take_succ, List.getElem?_eq_getElem hlt]; rfl
    have hlen : (d.Nodes.take t).length = t := by
      rw [List.length_take]; omega
    have hfold : (d.Nodes.take (t + 1)).enum.foldl namespaceNodesStep [] =
        namespaceNodesStep ((d.Nodes.take t).enum.foldl namespaceNodesStep [])
          (t, d.Nodes[t]) := by
      rw [htake, List.enum_append, List.foldl_append, hlen]
      rfl
    rw [hfold]
    constructor
    · exact nodup_keys_mapPut _ _ _ ih1
    · intro ns
      have hget : d.Nodes[t]? = some d.Nodes[t] := List.getElem?_eq_getElem hlt
      simp only [namespaceNodesStep, lookup_mapPut, List.range_succ, List.filter_append,
        List.filter_cons, List.filter_nil, hget]
      by_cases hns : ns = partitionKey d.Nodes[t]
      · subst hns
        rw [if_pos rfl, ih2]
        simp only [beq_self_eq_true, if_true]
        split <;> simp_all
      · rw [if_neg hns, ih2]
        have hb : (partitionKey d.Nodes[t] == ns) = false := by
          simpa using (fun e : partitionKey d.Nodes[t] = ns => hns e.symm)
        simp [hb]

theorem namespaceNodes_spec (d : Diagram) :
    ((namespaceNodes d).map Prod.fst).Nodup ∧
    ∀ ns, (namespaceNodes d).lookup ns =
      if indicesOf d ns = [] then none else some (indicesOf d ns) := by
  have h := namespaceNodes_prefix d d.Nodes.length (le_refl _)
  rw [List.take_length] at h
  exact h

theorem mem_indicesOf (d : Diagram) (ns : String) (i : Nat) :
    i ∈ indicesOf d ns ↔ ∃ node, d.Nodes[i]? = some node ∧ partitionKey node = ns := by
  unfold indicesOf
  rw [List.mem_filter, List.mem_range]
  constructor
  · rintro ⟨_, h⟩
    cases hn : d.Nodes[i]? with
    | none => rw [hn] at h; cases h
    | some node => rw [hn] at h; exact ⟨node, rfl, by simpa using h⟩
  · rintro ⟨node, hn, hk⟩
    refine ⟨?_, ?_⟩
    · exact (List.getElem?_eq_some_iff.1 hn).1
    · rw [hn]; simpa using hk

theorem indicesOf_nodup (d : Diagram) (ns : String) : (indicesOf d ns).Nodup :=
  List.Nodup.filter _ (List.nodup_range _)

theorem validOrder_spec (d : Diagram) (order : List String) (hv : ValidOrder d order) :
    order.Nodup ∧
    ∀ ns ∈ order, (namespaceNodes d).lookup ns = some (indicesOf d ns) ∧
      indicesOf d ns ≠ [] := by
  obtain ⟨hnd, hl⟩ := namespaceNodes_spec d
  refine ⟨(List.Perm.nodup_iff hv).2 hnd, ?_⟩
  intro ns hns
  have hmem : ns ∈ (namespaceNodes d).map Prod.fst := (List.Perm.mem_iff hv).1 hns
  have hne := lookup_ne_none_of_mem_keys ns _ hmem
  rw [hl ns] at hne ⊢
  by_cases he : indicesOf d ns = []
  · rw [if_pos he] at hne; exact absurd rfl hne
  · rw [if_neg he]; exact ⟨rfl, he⟩

theorem partition_loop_eq (step : PartitionState → String × List Nat → PartitionState)
    (groups : List (String × List Nat)) (f : String → List Nat) :
    ∀ (order : List String) (st : PartitionState),
      (∀ ns ∈ order, groups.lookup ns = some (f ns)) →
      order.foldl
          (fun st ns =>
            match groups.lookup ns with
            | some nodeIndices => step st (ns, nodeIndices)
            | none => st) st =
        (order.map (fun ns => (ns, f ns))).foldl step st := by
  intro order
  induction order with
  | nil => intro st _; rfl
  | cons ns rest ih =>
    intro st h
    rw [List.foldl_cons, List.map_cons, List.foldl_cons, h ns (List.mem_cons_self _ _)]
    exact ih _ (fun x hx => h x (List.mem_cons_of_mem _ hx))

theorem entries_pairwise (d : Diagram) (order : List String) (hnd : order.Nodup) :
    (order.map (fun ns => (ns, indicesOf d ns))).Pairwise
      (fun a b => a.1 ≠ b.1 ∧ ∀ i ∈ a.2, i ∉ b.2) := by
  rw [List.pairwise_map]
  refine List.Pairwise.imp ?_ hnd
  intro a b hab
  refine ⟨hab, ?_⟩
  intro i hia hib
  obtain ⟨n1, h1, k1⟩ := (mem_indicesOf d a i).1 hia
  obtain ⟨n2, h2, k2⟩ := (mem_indicesOf d b i).1 hib
  rw [h1] at h2
  simp only [Option.some.injEq] at h2
  subst h2
  exact hab (k1.symm.trans k2)

theorem hierarchical_fold_eq (l : Layout) :
    ∀ (es : List (String × List Nat)) (st : PartitionState),
      (∀ e ∈ es, e.2 ≠ [] ∧ ∀ i ∈ e.2, i < st.diagram.Nodes.length) →
      es.foldl (hierarchicalPartitionStep l) st =
        es.foldl (boxedPartition hierarchicalCoords hierarchicalBox 390) st := by
  intro es
  induction es with
  | nil => intro st _; rfl
  | cons e rest ih =>
    intro st h
    obtain ⟨hne, hr⟩ := h e (List.mem_cons_self _ _)
    rw [List.foldl_cons, List.foldl_cons, hierarchicalPartitionStep_eq l st e hne hr]
    apply ih
    intro e2 he2
    have hlen : (boxedPartition hierarchicalCoords hierarchicalBox 390 st e).diagram.Nodes.length =
        st.diagram.Nodes.length := (placeSeq_frame _ e.2 st.diagram 0).1
    rw [hlen]
    exact h e2 (List.mem_cons_of_mem _ he2)

theorem vertical_fold_eq (l : Layout) :
    ∀ (es : List (String × List Nat)) (st : PartitionState),
      (∀ e ∈ es, e.2 ≠ []) →
      es.foldl (verticalPartitionStep l) st =
        es.foldl (boxedPartition verticalCoords verticalBox 300) st := by
  intro es
  induction es with
  | nil => intro st _; rfl
  | cons e rest ih =>
    intro st h
    rw [List.foldl_cons, List.foldl_cons,
      verticalPartitionStep_eq l st e (h e (List.mem_cons_self _ _))]
    exact ih _ (fun e2 he2 => h e2 (List.mem_cons_of_mem _ he2))

theorem grouped_spec (coords : Int → Nat → Int × Int)
    (box : String → Int → Nat → List String → NamespaceGroup) (adv : Int)
    (d : Diagram) (order : List String) (hv : ValidOrder d order) (r : Diagram)
    (hr : r = ((order.map (fun ns => (ns, indicesOf d ns))).foldl
      (boxedPartition coords box adv) { diagram := d, current := 80 }).diagram) :
    r.Nodes.length = d.Nodes.length ∧ r.Connections = d.Connections ∧
    r.Layout = d.Layout ∧
    (∀ i, idAt r i = idAt d i) ∧
    (∀ (j : Nat) ns, order[j]? = some ns →
      r.Namespaces.lookup ns =
        some (box ns (80 + adv * (j : Int)) (indicesOf d ns).length
          ((indicesOf d ns).map (idAt d))) ∧
      ∀ k i, (indicesOf d ns)[k]? = some i →
        r.Nodes[i]? = (d.Nodes[i]?).map (fun node =>
          placed node (coords (80 + adv * (j : Int)) k).1
            (coords (80 + adv * (j : Int)) k).2)) ∧
    (∀ ns, ns ∉ order → r.Namespaces.lookup ns = d.Namespaces.lookup ns) := by
  obtain ⟨hnd, -⟩ := validOrder_spec d order hv
  obtain ⟨-, c2, c3, c4, c5, -, c7, c8, c9⟩ := boxedPartition_fold coords box adv
    (order.map (fun ns => (ns, indicesOf d ns))) { diagram := d, current := 80 } _
    (by
      intro e he
      obtain ⟨ns, -, rfl⟩ := List.mem_map.1 he
      exact indicesOf_nodup d ns)
    (entries_pairwise d order hnd) rfl
  subst hr
  refine ⟨c2, c3, c4, c5, ?_, ?_⟩
  · intro j ns hj
    have hj2 : (order.map (fun ns => (ns, indicesOf d ns)))[j]? = some (ns, indicesOf d ns) := by
      rw [List.getElem?_map, hj]; rfl
    exact ⟨c8 j _ hj2, fun k i hk => c7 j _ hj2 k i hk⟩
  · intro ns hns
    apply c9
    intro e he
    obtain ⟨ns2, h2, rfl⟩ := List.mem_map.1 he
    exact fun h => hns (h ▸ h2)

theorem applyHierarchicalLayout_grouped (l : Layout) (d : Diagram) (order : List String)
    (hl : l.noNamespaces = false) (hv : ValidOrder d order) :
    applyHierarchicalLayout l order d =
      ((order.map (fun ns => (ns, indicesOf d ns))).foldl
        (boxedPartition hierarchicalCoords hierarchicalBox 390)
        { diagram := d, current := 80 }).diagram := by
  obtain ⟨-, hlook⟩ := validOrder_spec d order hv
  unfold applyHierarchicalLayout
  rw [if_neg (by simp [hl])]
  simp only []
  refine congrArg PartitionState.diagram
    ((partition_loop_eq (hierarchicalPartitionStep l) (namespaceNodes d) (indicesOf d) order
      _ (fun ns hns => (hlook ns hns).1)).trans (hierarchical_fold_eq l _ _ ?_))
  intro e he
  obtain ⟨ns, hns, rfl⟩ := List.mem_map.1 he
  refine ⟨(hlook ns hns).2, ?_⟩
  intro i hi
  obtain ⟨node, hn, -⟩ := (mem_indicesOf d ns i).1 hi
  exact (List.getElem?_eq_some_iff.1 hn).1

theorem applyVerticalLayout_grouped (l : Layout) (d : Diagram) (order : List String)
    (hl : l.noNamespaces = false) (hv : ValidOrder d order) :
    applyVerticalLayout l order d =
      ((order.map (fun ns => (ns, indicesOf d ns))).foldl
        (boxedPartition verticalCoords verticalBox 300)
        { diagram := d, current := 80 }).diagram := by
  obtain ⟨-, hlook⟩ := validOrder_spec d order hv
  unfold applyVerticalLayout
  rw [if_neg (by simp [hl])]
  simp only []
  refine congrArg PartitionState.diagram
    ((partition_loop_eq (verticalPartitionStep l) (namespaceNodes d) (indicesOf d) order
      _ (fun ns hns => (hlook ns hns).1)).trans (vertical_fold_eq l _ _ ?_))
  intro e he
  obtain ⟨ns, hns, rfl⟩ := List.mem_map.1 he
  exact (hlook ns hns).2

/-! ### The flat loops and the grid -/

theorem flat_row (levelY c : Int) (idxs : List Nat) :
    ∀ (st : FlatRowState) (s : Nat), st.levelX = c + 220 * s →
      (idxs.foldl (flatNodeStep levelY) st).diagram =
        placeSeq (fun k => (c + 220 * k, levelY)) st.diagram idxs s := by
  induction idxs with
  | nil => intro st s _; rfl
  | cons i rest ih =>
    intro st s hx
    rw [List.foldl_cons, ih (flatNodeStep levelY st i) (s + 1)
      (by simp only [flatNodeStep, hx]; push_cast; ring), placeSeq]
    simp only [flatNodeStep, hx]

theorem flat_column (startX : Int) (idxs : List Nat) :
    ∀ (st : Diagram × Int) (s : Nat), st.2 = 80 + 160 * s →
      (idxs.foldl (flatVerticalStep startX) st).1 =
        placeSeq (fun k => (startX, 80 + 160 * k)) st.1 idxs s := by
  induction idxs with
  | nil => intro st s _; rfl
  | cons i rest ih =>
    intro st s hy
    rw [List.foldl_cons, ih (flatVerticalStep startX st i) (s + 1)
      (by simp only [flatVerticalStep, hy]; push_cast; ring), placeSeq]
    simp only [flatVerticalStep, hy]

theorem grid_loop (cols : Nat) :
    ∀ (len s : Nat) (d : Diagram),
      (List.range' s len).foldl (gridStep cols) d =
        placeSeq (fun k => (((k % cols : Nat) : Int) * 220 + 80,
          ((k / cols : Nat) : Int) * 150 + 80)) d (List.range' s len) s := by
  intro len
  induction len with
  | zero => intro s d; rfl
  | succ len ih =>
    intro s d
    rw [List.range'_succ, List.foldl_cons, ih, placeSeq]
    rfl

theorem range_getElem? (n i : Nat) (hi : i < n) : (List.range n)[i]? = some i := by
  rw [List.getElem?_eq_getElem (by simpa using hi)]
  simp

theorem applyFlatHierarchicalLayout_eq (l : Layout) (d : Diagram) :
    applyFlatHierarchicalLayout l d =
      placeSeq (fun k => (80 + 220 * (k : Int), 80)) d (List.range d.Nodes.length) 0 := by
  unfold applyFlatHierarchicalLayout
  by_cases hn : d.Nodes.length = 0
  · rw [if_pos hn, hn]; rfl
  · rw [if_neg hn]
    have hlen : (List.range d.Nodes.length).length > 0 := by
      rw [List.length_range]; omega
    simp only [topologicalSort, groupIntoLevels, hlen, if_true, List.nil_append,
      List.foldl_cons, List.foldl_nil, flatLevelStep]
    exact flat_row 80 80 _ _ 0 (by norm_num)

theorem applyFlatVerticalLayout_eq (l : Layout) (d : Diagram) :
    applyFlatVerticalLayout l d =
      placeSeq (fun k => (80, 80 + 160 * (k : Int))) d (List.range d.Nodes.length) 0 := by
  unfold applyFlatVerticalLayout
  by_cases hn : d.Nodes.length = 0
  · rw [if_pos hn, hn]; rfl
  · rw [if_neg hn]
    exact flat_column 80 _ (d, 80) 0 (by norm_num)

theorem applyGridLayout_eq (l : Layout) (d : Diagram) :
    applyGridLayout l d =
      placeSeq (fun k => (((k % ceilSqrt d.Nodes.length : Nat) : Int) * 220 + 80,
          ((k / ceilSqrt d.Nodes.length : Nat) : Int) * 150 + 80)) d
        (List.range d.Nodes.length) 0 := by
  unfold applyGridLayout
  simp only [List.range_eq_range']
  exact grid_loop _ _ 0 d

theorem placeSeq_range (coords : Nat → Int × Int) (d : Diagram) (i : Nat)
    (node : DiagramNode) (hi : d.Nodes[i]? = some node) :
    (placeSeq coords d (List.range d.Nodes.length) 0).Nodes[i]? =
      some (placed node (coords i).1 (coords i).2) := by
  have hlt : i < d.Nodes.length := (List.getElem?_eq_some_iff.1 hi).1
  rw [placeSeq_getElem? coords _ (List.nodup_range _) d 0 i i (range_getElem? _ _ hlt), hi]
  simp

theorem ceilSqrtFrom_spec (n : Nat) :
    ∀ (fuel c : Nat), n ≤ fuel + c → (∀ b, b < c → b * b < n) →
      n ≤ ceilSqrtFrom n fuel c * ceilSqrtFrom n fuel c ∧
      ∀ b, b < ceilSqrtFrom n fuel c → b * b < n := by
  intro fuel
  induction fuel with
  | zero =>
    intro c hc hb
    simp only [ceilSqrtFrom]
    refine ⟨?_, hb⟩
    have : c ≤ c * c := Nat.le_mul_self c
    omega
  | succ fuel ih =>
    intro c hc hb
    rw [ceilSqrtFrom]
    by_cases h : n ≤ c * c
    · rw [if_pos h]; exact ⟨h, hb⟩
    · rw [if_neg h]
      apply ih (c + 1) (by omega)
      intro b hb2
      by_cases hbc : b < c
      · exact hb b hbc
      · have : b = c := by omega
        subst this; omega

theorem ceilSqrt_spec (n : Nat) :
    n ≤ ceilSqrt n * ceilSqrt n ∧ ∀ c, n ≤ c * c → ceilSqrt n ≤ c := by
  obtain ⟨h1, h2⟩ := ceilSqrtFrom_spec n n 0 (by omega) (by intro b hb; omega)
  refine ⟨h1, ?_⟩
  intro c hc
  by_contra hlt
  have := h2 c (Nat.lt_of_not_le hlt)
  omega

/-- C25: under the grid strategy the column count is the least natural number whose
square is at least the number of nodes, the node sequence keeps its length, and node
`i` gets X = 220 * (i mod cols) + 80, Y = 150 * (i div cols) + 80, Width 140 and
Height 80, the rest of the node unchanged; every row index `i div cols` that is used is
less than the column count. -/
theorem grid_layout (l : Layout) (d : Diagram) :
    (d.Nodes.length ≤ ceilSqrt d.Nodes.length * ceilSqrt d.Nodes.length ∧
      ∀ c, d.Nodes.length ≤ c * c → ceilSqrt d.Nodes.length ≤ c) ∧
    (applyGridLayout l d).Nodes.length = d.Nodes.length ∧
    ∀ i node, d.Nodes[i]? = some node →
      (applyGridLayout l d).Nodes[i]? =
        some (placed node (220 * ((i % ceilSqrt d.Nodes.length : Nat) : Int) + 80)
          (150 * ((i / ceilSqrt d.Nodes.length : Nat) : Int) + 80)) ∧
      i / ceilSqrt d.Nodes.length < ceilSqrt d.Nodes.length := by
  refine ⟨ceilSqrt_spec _, ?_, ?_⟩
  · rw [applyGridLayout_eq]
    exact (placeSeq_frame _ _ _ _).1
  · intro i node hi
    have hlt : i < d.Nodes.length := (List.getElem?_eq_some_iff.1 hi).1
    constructor
    · rw [applyGridLayout_eq, placeSeq_range _ d i node hi]
      simp only [mul_comm]
    · apply Nat.div_lt_of_lt_mul
      exact Nat.lt_of_lt_of_le hlt (ceilSqrt_spec _).1

/-- C30: with namespace grouping disabled, the hierarchical strategy places node `i` at
(80 + 220 * i, 80) and the vertical strategy places node `i` at (80, 80 + 160 * i), each
140 by 80, whatever the namespaces of the nodes are and whatever the order argument is;
both leave the namespace-group index as it was, and so does the grid strategy in either
mode. -/
theorem flat_variants (l : Layout) (order : List String) (d : Diagram)
    (hl : l.noNamespaces = true) :
    (∀ (i : Nat) node, d.Nodes[i]? = some node →
      (applyHierarchicalLayout l order d).Nodes[i]? =
        some (placed node (80 + 220 * (i : Int)) 80)) ∧
    (∀ (i : Nat) node, d.Nodes[i]? = some node →
      (applyVerticalLayout l order d).Nodes[i]? =
        some (placed node 80 (80 + 160 * (i : Int)))) ∧
    (applyHierarchicalLayout l order d).Namespaces = d.Namespaces ∧
    (applyVerticalLayout l order d).Namespaces = d.Namespaces ∧
    ∀ other : Layout, (applyGridLayout other d).Namespaces = d.Namespaces := by
  have hh : applyHierarchicalLayout l order d = applyFlatHierarchicalLayout l d := by
    unfold applyHierarchicalLayout; rw [if_pos hl]
  have hvert : applyVerticalLayout l order d = applyFlatVerticalLayout l d := by
    unfold applyVerticalLayout; rw [if_pos hl]
  rw [hh, hvert, applyFlatHierarchicalLayout_eq, applyFlatVerticalLayout_eq]
  refine ⟨?_, ?_, ?_, ?_, ?_⟩
  · intro i node hi
    exact placeSeq_range _ d i node hi
  · intro i node hi
    exact placeSeq_range _ d i node hi
  · exact (placeSeq_frame _ _ _ _).2.2.2
  · exact (placeSeq_frame _ _ _ _).2.2.2
  · intro other
    rw [applyGridLayout_eq]
    exact (placeSeq_frame _ _ _ _).2.2.2

/-- Witness of C30: the five nodes of three namespaces are laid out in one row and in
one column, and the namespace group of the earlier run stays. -/
theorem flat_variants_witness :
    ((applyHierarchicalLayout (flatLayout "hierarchical") ["b", "a"] spacesDiagram).Nodes.map
        (fun node => (node.X, node.Y, node.Width, node.Height)) =
      [(80, 80, 140, 80), (300, 80, 140, 80), (520, 80, 140, 80), (740, 80, 140, 80),
       (960, 80, 140, 80)]) ∧
    ((∀ (i : Nat) node, spacesDiagram.Nodes[i]? = some node →
      (applyHierarchicalLayout (flatLayout "hierarchical") ["b", "a"] spacesDiagram).Nodes[i]? =
        some (placed node (80 + 220 * (i : Int)) 80)) ∧
    (∀ (i : Nat) node, spacesDiagram.Nodes[i]? = some node →
      (applyVerticalLayout (flatLayout "hierarchical") ["b", "a"] spacesDiagram).Nodes[i]? =
        some (placed node 80 (80 + 160 * (i : Int)))) ∧
    (applyHierarchicalLayout (flatLayout "hierarchical") ["b", "a"] spacesDiagram).Namespaces =
      spacesDiagram.Namespaces ∧
    (applyVerticalLayout (flatLayout "hierarchical") ["b", "a"] spacesDiagram).Namespaces =
      spacesDiagram.Namespaces ∧
    ∀ other : Layout, (applyGridLayout other spacesDiagram).Namespaces =
      spacesDiagram.Namespaces) :=
  ⟨by decide, flat_variants (flatLayout "hierarchical") ["b", "a"] spacesDiagram rfl⟩

theorem exists_position {α : Type} (xs : List α) (x : α) (h : x ∈ xs) :
    ∃ j : Nat, xs[j]? = some x :=
  List.mem_iff_getElem?.1 h

/-- C26: under the hierarchical strategy with namespace grouping, every partition gets
a bounding box with X = 80, and the nodes of the partition, taken in node-sequence
order, stand at X = 160 + 220 * k and Y = box Y + 80 with Width 140 and Height 80, the
rest of the node unchanged; two nodes that follow each other in a partition differ in X
by 220 and have the same Y. -/
theorem hierarchical_row_placement (l : Layout) (d : Diagram) (order : List String)
    (hl : l.noNamespaces = false) (hv : ValidOrder d order) :
    ∀ ns ∈ order, ∃ box,
      (applyHierarchicalLayout l order d).Namespaces.lookup ns = some box ∧ box.X = 80 ∧
      (∀ (k i : Nat) node, (indicesOf d ns)[k]? = some i → d.Nodes[i]? = some node →
        (applyHierarchicalLayout l order d).Nodes[i]? =
          some (placed node (160 + 220 * (k : Int)) (box.Y + 80))) ∧
      (∀ (k i i2 : Nat) a b,
        (indicesOf d ns)[k]? = some i → (indicesOf d ns)[k + 1]? = some i2 →
        (applyHierarchicalLayout l order d).Nodes[i]? = some a →
        (applyHierarchicalLayout l order d).Nodes[i2]? = some b →
        b.X = a.X + 220 ∧ b.Y = a.Y) := by
  intro ns hns
  obtain ⟨j, hj⟩ := exists_position order ns hns
  obtain ⟨-, -, -, -, hpart, -⟩ := grouped_spec hierarchicalCoords hierarchicalBox 390 d
    order hv _ (applyHierarchicalLayout_grouped l d order hl hv)
  obtain ⟨hbox, hnodes⟩ := hpart j ns hj
  refine ⟨_, hbox, rfl, ?_, ?_⟩
  · intro k i node hk hi
    rw [hnodes k i hk, hi]
    rfl
  · intro k i i2 a b hk hk2 ha hb
    obtain ⟨n1, hn1, -⟩ := (mem_indicesOf d ns i).1 (List.mem_iff_getElem?.2 ⟨k, hk⟩)
    obtain ⟨n2, hn2, -⟩ := (mem_indicesOf d ns i2).1 (List.mem_iff_getElem?.2 ⟨k + 1, hk2⟩)
    rw [hnodes k i hk, hn1] at ha
    rw [hnodes (k + 1) i2 hk2, hn2] at hb
    simp only [Option.map_some', Option.some.injEq] at ha hb
    subst ha
    subst hb
    simp only [placed, hierarchicalCoords]
    constructor
    · push_cast; ring
    · trivial

/-- Witness of C26: the partition `a` of the five-node diagram, visited second, has its
three nodes in one row. -/
theorem hierarchical_row_placement_witness :
    ((applyHierarchicalLayout (groupedLayout "hierarchical") ["b", "a", "default"]
        spacesDiagram).Nodes.map (fun node => (node.ID, node.X, node.Y)) =
      [("node-0", 160, 550), ("node-1", 160, 160), ("node-2", 380, 550),
       ("node-3", 160, 940), ("node-4", 600, 550)]) ∧
    ∀ ns ∈ ["b", "a", "default"], ∃ box,
      (applyHierarchicalLayout (groupedLayout "hierarchical") ["b", "a", "default"]
        spacesDiagram).Namespaces.lookup ns = some box ∧ box.X = 80 ∧
      (∀ (k i : Nat) node, (indicesOf spacesDiagram ns)[k]? = some i →
        spacesDiagram.Nodes[i]? = some node →
        (applyHierarchicalLayout (groupedLayout "hierarchical") ["b", "a", "default"]
          spacesDiagram).Nodes[i]? =
          some (placed node (160 + 220 * (k : Int)) (box.Y + 80))) ∧
      (∀ (k i i2 : Nat) a b,
        (indicesOf spacesDiagram ns)[k]? = some i →
        (indicesOf spacesDiagram ns)[k + 1]? = some i2 →
        (applyHierarchicalLayout (groupedLayout "hierarchical") ["b", "a", "default"]
          spacesDiagram).Nodes[i]? = some a →
        (applyHierarchicalLayout (groupedLayout "hierarchical") ["b", "a", "default"]
          spacesDiagram).Nodes[i2]? = some b →
        b.X = a.X + 220 ∧ b.Y = a.Y) :=
  ⟨by decide, hierarchical_row_placement (groupedLayout "hierarchical") spacesDiagram
    ["b", "a", "default"] rfl (show List.Perm _ _ by decide)⟩

/-- C27: under the hierarchical strategy with namespace grouping, the bounding box of a
partition of `m` nodes has Width 220 * m + 160 and Height 320, `m` is at least one, and
every node rectangle of the partition lies inside the box, 80 px or more away from each
of the four edges of the box. -/
theorem hierarchical_bounding_box (l : Layout) (d : Diagram) (order : List String)
    (hl : l.noNamespaces = false) (hv : ValidOrder d order) :
    ∀ ns ∈ order, ∃ box,
      (applyHierarchicalLayout l order d).Namespaces.lookup ns = some box ∧
      box.Width = 220 * ((indicesOf d ns).length : Int) + 160 ∧ box.Height = 320 ∧
      1 ≤ (indicesOf d ns).length ∧
      ∀ i ∈ indicesOf d ns, ∃ node,
        (applyHierarchicalLayout l order d).Nodes[i]? = some node ∧
          insideBox 80 node box := by
  intro ns hns
  obtain ⟨j, hj⟩ := exists_position order ns hns
  obtain ⟨-, -, -, -, hpart, -⟩ := grouped_spec hierarchicalCoords hierarchicalBox 390 d
    order hv _ (applyHierarchicalLayout_grouped l d order hl hv)
  obtain ⟨hbox, hnodes⟩ := hpart j ns hj
  have hne := ((validOrder_spec d order hv).2 ns hns).2
  refine ⟨_, hbox, rfl, rfl, List.length_pos.2 hne, ?_⟩
  intro i hi
  obtain ⟨k, hk⟩ := exists_position _ i hi
  obtain ⟨n1, hn1, -⟩ := (mem_indicesOf d ns i).1 hi
  have hlt : k < (indicesOf d ns).length := (List.getElem?_eq_some_iff.1 hk).1
  refine ⟨_, by rw [hnodes k i hk, hn1]; rfl, ?_⟩
  simp only [insideBox, placed, hierarchicalCoords, hierarchicalBox]
  refine ⟨?_, ?_, ?_, ?_⟩ <;> omega

/-- Witness of C27: the boxes of the five-node diagram are 380 and 820 wide and 320
high. -/
theorem hierarchical_bounding_box_witness :
    ((applyHierarchicalLayout (groupedLayout "hierarchical") ["a", "b", "default"]
        spacesDiagram).Namespaces.map
        (fun e => (e.1, e.2.X, e.2.Y, e.2.Width, e.2.Height)) =
      [("old", 1, 2, 3, 4), ("a", 80, 80, 820, 320), ("b", 80, 470, 380, 320),
       ("default", 80, 860, 380, 320)]) ∧
    ∀ ns ∈ ["a", "b", "default"], ∃ box,
      (applyHierarchicalLayout (groupedLayout "hierarchical") ["a", "b", "default"]
        spacesDiagram).Namespaces.lookup ns = some box ∧
      box.Width = 220 * ((indicesOf spacesDiagram ns).length : Int) + 160 ∧
      box.Height = 320 ∧ 1 ≤ (indicesOf spacesDiagram ns).length ∧
      ∀ i ∈ indicesOf spacesDiagram ns, ∃ node,
        (applyHierarchicalLayout (groupedLayout "hierarchical") ["a", "b", "default"]
          spacesDiagram).Nodes[i]? = some node ∧ insideBox 80 node box :=
  ⟨by decide, hierarchical_bounding_box (groupedLayout "hierarchical") spacesDiagram
    ["a", "b", "default"] rfl (show List.Perm _ _ by decide)⟩

/-- C28, as the code has it: under the hierarchical strategy with namespace grouping,
the bounding box of the partition visited next starts 70 px below the bottom edge of
the bounding box of the partition visited before it, whatever the sizes of the two
partitions; the distance is never 150 px. -/
theorem hierarchical_partition_gap (l : Layout) (d : Diagram) (order : List String)
    (hl : l.noNamespaces = false) (hv : ValidOrder d order) :
    ∀ (j : Nat) ns next, order[j]? = some ns → order[j + 1]? = some next →
      ∃ box later,
        (applyHierarchicalLayout l order d).Namespaces.lookup ns = some box ∧
        (applyHierarchicalLayout l order d).Namespaces.lookup next = some later ∧
        later.Y = box.Y + box.Height + 70 ∧ later.Y ≠ box.Y + box.Height + 150 := by
  intro j ns next hj hnext
  obtain ⟨-, -, -, -, hpart, -⟩ := grouped_spec hierarchicalCoords hierarchicalBox 390 d
    order hv _ (applyHierarchicalLayout_grouped l d order hl hv)
  refine ⟨_, _, (hpart j ns hj).1, (hpart (j + 1) next hnext).1, ?_, ?_⟩
  · simp only [hierarchicalBox]; push_cast; ring
  · simp only [hierarchicalBox]; push_cast; omega

/-- Witness of C28: in the five-node diagram the box of `b` ends at Y = 400 and the box
of `a`, visited next, starts at Y = 470. -/
theorem hierarchical_partition_gap_witness :
    ((applyHierarchicalLayout (groupedLayout "hierarchical") ["b", "a", "default"]
        spacesDiagram).Namespaces.map (fun e => (e.1, e.2.Y, e.2.Y + e.2.Height)) =
      [("old", 2, 6), ("b", 80, 400), ("a", 470, 790), ("default", 860, 1180)]) ∧
    ∀ (j : Nat) ns next, ["b", "a", "default"][j]? = some ns →
      ["b", "a", "default"][j + 1]? = some next →
      ∃ box later,
        (applyHierarchicalLayout (groupedLayout "hierarchical") ["b", "a", "default"]
          spacesDiagram).Namespaces.lookup ns = some box ∧
        (applyHierarchicalLayout (groupedLayout "hierarchical") ["b", "a", "default"]
          spacesDiagram).Namespaces.lookup next = some later ∧
        later.Y = box.Y + box.Height + 70 ∧ later.Y ≠ box.Y + box.Height + 150 :=
  ⟨by decide, hierarchical_partition_gap (groupedLayout "hierarchical") spacesDiagram
    ["b", "a", "default"] rfl (show List.Perm _ _ by decide)⟩

/-- Counterexample to C28 as stated: five nodes in the namespaces a, b, a, (none), a,
laid out by the hierarchical strategy with the partitions visited in the order b, a,
default. The box of `b` has Y = 80 and Height = 320, so its bottom edge is at 400; the
box of `a`, visited next, has Y = 470, which is 70 px and not 150 px below it. -/
theorem hierarchical_partition_gap_counterexample :
    ValidOrder spacesDiagram ["b", "a", "default"] ∧
    ((applyHierarchicalLayout (groupedLayout "hierarchical") ["b", "a", "default"]
        spacesDiagram).Namespaces.lookup "b").map (fun box => (box.Y, box.Height)) =
      some (80, 320) ∧
    ((applyHierarchicalLayout (groupedLayout "hierarchical") ["b", "a", "default"]
        spacesDiagram).Namespaces.lookup "a").map (fun box => box.Y) = some 470 ∧
    ¬ ∃ box later,
        (applyHierarchicalLayout (groupedLayout "hierarchical") ["b", "a", "default"]
          spacesDiagram).Namespaces.lookup "b" = some box ∧
        (applyHierarchicalLayout (groupedLayout "hierarchical") ["b", "a", "default"]
          spacesDiagram).Namespaces.lookup "a" = some later ∧
        later.Y = box.Y + box.Height + 150 := by
  refine ⟨show List.Perm _ _ by decide, by decide, by decide, ?_⟩
  rintro ⟨box, later, hb, ha, h⟩
  have h1 : ((applyHierarchicalLayout (groupedLayout "hierarchical") ["b", "a", "default"]
      spacesDiagram).Namespaces.lookup "b").map (fun box => (box.Y, box.Height)) =
      some (80, 320) := by decide
  have h2 : ((applyHierarchicalLayout (groupedLayout "hierarchical") ["b", "a", "default"]
      spacesDiagram).Namespaces.lookup "a").map (fun box => box.Y) = some 470 := by decide
  rw [hb] at h1
  rw [ha] at h2
  simp only [Option.map_some', Option.some.injEq, Prod.mk.injEq] at h1 h2
  omega

/-- C29: under the vertical strategy with namespace grouping, the partition visited at
position `j` (from zero) gets the bounding box X = 80 + 300 * j, Y = 80, Width 220,
Height 160 * m + 160 for its `m` nodes, and the node at place `k` of the partition, in
node-sequence order, stands at X = box X + 80, Y = 160 + 160 * k with Width 140 and
Height 80, the rest of the node unchanged; the node rectangle lies inside the box. -/
theorem vertical_layout (l : Layout) (d : Diagram) (order : List String)
    (hl : l.noNamespaces = false) (hv : ValidOrder d order) :
    ∀ (j : Nat) ns, order[j]? = some ns →
      (applyVerticalLayout l order d).Namespaces.lookup ns =
        some { Name := ns, X := 80 + 300 * (j : Int), Y := 80, Width := 220,
               Height := 160 * ((indicesOf d ns).length : Int) + 160,
               NodeIDs := (indicesOf d ns).map (idAt d) } ∧
      ∀ (k i : Nat) node, (indicesOf d ns)[k]? = some i → d.Nodes[i]? = some node →
        (applyVerticalLayout l order d).Nodes[i]? =
          some (placed node (80 + 300 * (j : Int) + 80) (160 + 160 * (k : Int))) ∧
        insideBox 0 (placed node (80 + 300 * (j : Int) + 80) (160 + 160 * (k : Int)))
          { Name := ns, X := 80 + 300 * (j : Int), Y := 80, Width := 220,
            Height := 160 * ((indicesOf d ns).length : Int) + 160,
            NodeIDs := (indicesOf d ns).map (idAt d) } := by
  intro j ns hj
  obtain ⟨-, -, -, -, hpart, -⟩ := grouped_spec verticalCoords verticalBox 300 d
    order hv _ (applyVerticalLayout_grouped l d order hl hv)
  obtain ⟨hbox, hnodes⟩ := hpart j ns hj
  refine ⟨hbox, ?_⟩
  intro k i node hk hi
  have hlt : k < (indicesOf d ns).length := (List.getElem?_eq_some_iff.1 hk).1
  refine ⟨by rw [hnodes k i hk, hi]; rfl, ?_⟩
  simp only [insideBox, placed]
  refine ⟨?_, ?_, ?_, ?_⟩ <;> omega

/-- Witness of C29: the five-node diagram in three columns. -/
theorem vertical_layout_witness :
    ((applyVerticalLayout (groupedLayout "vertical") ["b", "a", "default"]
        spacesDiagram).Nodes.map (fun node => (node.ID, node.X, node.Y)) =
      [("node-0", 460, 160), ("node-1", 160, 160), ("node-2", 460, 320),
       ("node-3", 760, 160), ("node-4", 460, 480)]) ∧
    ∀ (j : Nat) ns, ["b", "a", "default"][j]? = some ns →
      (applyVerticalLayout (groupedLayout "vertical") ["b", "a", "default"]
        spacesDiagram).Namespaces.lookup ns =
        some { Name := ns, X := 80 + 300 * (j : Int), Y := 80, Width := 220,
               Height := 160 * ((indicesOf spacesDiagram ns).length : Int) + 160,
               NodeIDs := (indicesOf spacesDiagram ns).map (idAt spacesDiagram) } ∧
      ∀ (k i : Nat) node, (indicesOf spacesDiagram ns)[k]? = some i →
        spacesDiagram.Nodes[i]? = some node →
        (applyVerticalLayout (groupedLayout "vertical") ["b", "a", "default"]
          spacesDiagram).Nodes[i]? =
          some (placed node (80 + 300 * (j : Int) + 80) (160 + 160 * (k : Int))) ∧
        insideBox 0 (placed node (80 + 300 * (j : Int) + 80) (160 + 160 * (k : Int)))
          { Name := ns, X := 80 + 300 * (j : Int), Y := 80, Width := 220,
            Height := 160 * ((indicesOf spacesDiagram ns).length : Int) + 160,
            NodeIDs := (indicesOf spacesDiagram ns).map (idAt spacesDiagram) } :=
  ⟨by decide, vertical_layout (groupedLayout "vertical") spacesDiagram
    ["b", "a", "default"] rfl (show List.Perm _ _ by decide)⟩

/-! ### Validation -/

theorem validateResource_eq (resource : K8sResource) :
    validateResource resource =
      if resource.Name = "" then some "resource name is required"
      else if resource.Kind = "" then some "resource kind is required"
      else none := by
  unfold validateResource validateService validateDeployment validateIngress validateRoute
    validateServiceMonitor
  repeat' split
  all_goals rfl

theorem validateResource_none_iff (resource : K8sResource) :
    validateResource resource = none ↔ wellNamed resource := by
  rw [validateResource_eq]
  unfold wellNamed
  by_cases h1 : resource.Name = "" <;> by_cases h2 : resource.Kind = "" <;> simp [h1, h2]

theorem validateLoop_none_iff (rs : List K8sResource) :
    validateLoop rs = none ↔ ∀ r ∈ rs, wellNamed r := by
  induction rs with
  | nil => simp [validateLoop]
  | cons r rest ih =>
    rw [validateLoop]
    cases h : validateResource r with
    | none =>
      have hw := (validateResource_none_iff r).1 h
      simp only [ih, List.mem_cons, forall_eq_or_imp, hw, true_and]
    | some err =>
      have hw : ¬ wellNamed r := fun hw => by
        rw [(validateResource_none_iff r).2 hw] at h; cases h
      simp [hw]

theorem validateLoop_first (pre : List K8sResource) (r : K8sResource)
    (post : List K8sResource) (hpre : ∀ p ∈ pre, wellNamed p) (hr : ¬ wellNamed r) :
    validateLoop (pre ++ r :: post) = some (validationError r) := by
  induction pre with
  | nil =>
    rw [List.nil_append, validateLoop, validateResource_eq]
    unfold validationError
    unfold wellNamed at hr
    by_cases h1 : r.Name = ""
    · simp [h1]
    · have h2 : r.Kind = "" := by
        by_contra h2; exact hr ⟨h1, h2⟩
      simp [h1, h2]
  | cons p pre ih =>
    rw [List.cons_append, validateLoop,
      (validateResource_none_iff p).2 (hpre p (List.mem_cons_self _ _))]
    exact ih (fun q hq => hpre q (List.mem_cons_of_mem _ hq))

theorem validateLoop_congr :
    ∀ (rs₁ rs₂ : List K8sResource),
      rs₁.map (fun r => (r.Kind, r.Name)) = rs₂.map (fun r => (r.Kind, r.Name)) →
      validateLoop rs₁ = validateLoop rs₂ := by
  intro rs₁
  induction rs₁ with
  | nil =>
    intro rs₂ h
    cases rs₂ with
    | nil => rfl
    | cons _ _ => simp at h
  | cons r rest ih =>
    intro rs₂ h
    cases rs₂ with
    | nil => simp at h
    | cons r2 rest2 =>
      simp only [List.map_cons, List.cons.injEq, Prod.mk.injEq] at h
      obtain ⟨⟨hk, hn⟩, hrest⟩ := h
      rw [validateLoop, validateLoop, validateResource_eq, validateResource_eq, hk, hn,
        ih rest2 hrest]

theorem validate_eq_loop (collection : ResourceCollection) :
    Validate collection = validateLoop collection.Resources := by
  unfold Validate validateDependencies
  cases validateLoop collection.Resources <;> rfl

/-- C34: `Validate` returns no error exactly when every resource of the collection has
a name and a kind that are not empty; when a resource without name or without kind is
there, the error is the one of the first such resource in collection order, and it
names the empty name when the name is empty, whatever the kind is; two collections
whose resources have the same kinds and names in the same order get the same answer,
so nothing else in a resource or in the dependency map can make validation fail. -/
theorem structural_validation (collection : ResourceCollection) :
    (Validate collection = none ↔ ∀ r ∈ collection.Resources, r.Name ≠ "" ∧ r.Kind ≠ "") ∧
    (∀ pre r post, collection.Resources = pre ++ r :: post →
      (∀ p ∈ pre, p.Name ≠ "" ∧ p.Kind ≠ "") → (r.Name = "" ∨ r.Kind = "") →
      Validate collection =
        some ("validation failed for " ++ r.Kind ++ "/" ++ r.Name ++ ": " ++
          (if r.Name = "" then "resource name is required"
           else "resource kind is required"))) ∧
    (∀ other : ResourceCollection,
      other.Resources.map (fun r => (r.Kind, r.Name)) =
        collection.Resources.map (fun r => (r.Kind, r.Name)) →
      Validate other = Validate collection) := by
  refine ⟨?_, ?_, ?_⟩
  · rw [validate_eq_loop]
    exact validateLoop_none_iff _
  · intro pre r post hres hpre hr
    rw [validate_eq_loop, hres]
    apply validateLoop_first pre r post hpre
    intro hw
    rcases hr with h | h
    · exact hw.1 h
    · exact hw.2 h
  · intro other h
    rw [validate_eq_loop, validate_eq_loop]
    exact validateLoop_congr _ _ h

/-! ### Escaping -/

theorem EscapeXML_data (s : String) : (EscapeXML s).data = s.data.flatMap escapeChar := by
  simp only [EscapeXML, replaceAllWith, List.flatMap_assoc]
  apply List.flatMap_congr
  intro c _
  by_cases h1 : c = '&'
  · subst h1; decide
  · by_cases h2 : c = '<'
    · subst h2; decide
    · by_cases h3 : c = '>'
      · subst h3; decide
      · by_cases h4 : c = Char.ofNat 34
        · subst h4; decide
        · by_cases h5 : c = Char.ofNat 39
          · subst h5; decide
          · simp [escapeChar, h1, h2, h3, h4, h5]

theorem entityAt_of_ne (c : Char) (rest : List Char) (h : c ≠ '&') :
    entityAt (c :: rest) = none := by
  have hb : ('&' == c) = false := by simpa using (fun e : '&' = c => h e.symm)
  simp [entityAt, List.isPrefixOf, hb]

theorem escapeChar_cases (c : Char) :
    (c ≠ '&' ∧ c ≠ '<' ∧ c ≠ '>' ∧ c ≠ Char.ofNat 34 ∧ c ≠ Char.ofNat 39 ∧
      escapeChar c = [c]) ∨
    (∃ tail, escapeChar c = '&' :: tail ∧ '&' ∉ tail ∧ escapeChar c ∈ xmlEntities ∧
      (∀ x ∈ escapeChar c, x ≠ '<' ∧ x ≠ '>' ∧ x ≠ Char.ofNat 34 ∧ x ≠ Char.ofNat 39) ∧
      ∀ rest, entityAt (escapeChar c ++ rest) = some (c, rest)) := by
  by_cases h1 : c = '&'
  · subst h1
    exact Or.inr ⟨"amp;".data, by decide, by decide, by decide, by decide, fun rest => by simp [escapeChar, entityAt, List.isPrefixOf]⟩
  · by_cases h2 : c = '<'
    · subst h2
      exact Or.inr ⟨"lt;".data, by decide, by decide, by decide, by decide, fun rest => by simp [escapeChar, entityAt, List.isPrefixOf]⟩
    · by_cases h3 : c = '>'
      · subst h3
        exact Or.inr ⟨"gt;".data, by decide, by decide, by decide, by decide, fun rest => by simp [escapeChar, entityAt, List.isPrefixOf]⟩
      · by_cases h4 : c = Char.ofNat 34
        · subst h4
          exact Or.inr ⟨"quot;".data, by decide, by decide, by decide, by decide,
            fun rest => by simp [escapeChar, entityAt, List.isPrefixOf]⟩
        · by_cases h5 : c = Char.ofNat 39
          · subst h5
            exact Or.inr ⟨"#39;".data, by decide, by decide, by decide, by decide,
              fun rest => by simp [escapeChar, entityAt, List.isPrefixOf]⟩
          · exact Or.inl ⟨h1, h2, h3, h4, h5, by simp [escapeChar, h1, h2, h3, h4, h5]⟩

theorem unescapeFuel_escape :
    ∀ (s : List Char) (fuel : Nat), (s.flatMap escapeChar).length ≤ fuel →
      unescapeFuel fuel (s.flatMap escapeChar) = s := by
  intro s
  induction s with
  | nil => intro fuel _; cases fuel <;> rfl
  | cons c s ih =>
    intro fuel hf
    rw [List.flatMap_cons] at hf ⊢
    rcases escapeChar_cases c with ⟨h1, -, -, -, -, he⟩ | ⟨tail, he, -, -, -, hent⟩
    · rw [he] at hf ⊢
      cases fuel with
      | zero => simp at hf
      | succ fuel =>
        simp only [List.singleton_append, List.length_cons] at hf ⊢
        rw [unescapeFuel, entityAt_of_ne c _ h1, ih fuel (by omega)]
    · have hent2 := hent (s.flatMap escapeChar)
      rw [he] at hf hent2 ⊢
      cases fuel with
      | zero => simp at hf
      | succ fuel =>
        simp only [List.cons_append, List.length_cons, List.length_append] at hf hent2 ⊢
        rw [unescapeFuel, hent2]
        simp only []
        rw [ih fuel (by omega)]

theorem split_after_plain (l : List Char) (hl : '&' ∉ l) :
    ∀ (rest pre post : List Char), l ++ rest = pre ++ '&' :: post →
      ∃ mid, pre = l ++ mid ∧ rest = mid ++ '&' :: post := by
  induction l with
  | nil => intro rest pre post h; exact ⟨pre, rfl, h⟩
  | cons x l ih =>
    intro rest pre post h
    simp only [List.mem_cons, not_or] at hl
    cases pre with
    | nil =>
      simp only [List.cons_append, List.nil_append, List.cons.injEq] at h
      exact absurd h.1.symm hl.1
    | cons y pre =>
      simp only [List.cons_append, List.cons.injEq] at h
      obtain ⟨mid, h1, h2⟩ := ih hl.2 rest pre post h.2
      exact ⟨mid, by rw [h.1, h1]; rfl, h2⟩

theorem ampersand_starts_entity :
    ∀ (s pre post : List Char), s.flatMap escapeChar = pre ++ '&' :: post →
      ∃ e ∈ xmlEntities, e <+: '&' :: post := by
  intro s
  induction s with
  | nil => intro pre post h; simp at h
  | cons c s ih =>
    intro pre post h
    rw [List.flatMap_cons] at h
    rcases escapeChar_cases c with ⟨h1, -, -, -, -, he⟩ | ⟨tail, he, htail, hmem, -, -⟩
    · rw [he] at h
      have hc : '&' ∉ [c] := by simpa using (fun e : '&' = c => h1 e.symm)
      obtain ⟨mid, -, h2⟩ := split_after_plain [c] hc _ pre post h
      exact ih mid post h2
    · cases pre with
      | nil =>
        refine ⟨escapeChar c, hmem, ?_⟩
        rw [List.nil_append] at h
        rw [← h]
        exact List.prefix_append _ _
      | cons y pre =>
        rw [he] at h
        simp only [List.cons_append, List.cons.injEq] at h
        obtain ⟨mid, -, h2⟩ := split_after_plain tail htail _ pre post h.2
        exact ih mid post h2

theorem escaped_chars_safe (s : List Char) :
    ∀ x ∈ s.flatMap escapeChar,
      x ≠ '<' ∧ x ≠ '>' ∧ x ≠ Char.ofNat 34 ∧ x ≠ Char.ofNat 39 := by
  intro x hx
  obtain ⟨c, -, hxc⟩ := List.mem_flatMap.1 hx
  rcases escapeChar_cases c with ⟨-, h2, h3, h4, h5, he⟩ | ⟨tail, -, -, -, hsafe, -⟩
  · rw [he, List.mem_singleton] at hxc
    subst hxc
    exact ⟨h2, h3, h4, h5⟩
  · exact hsafe x hxc

/-- C40: for every string `s`, the output of `EscapeXML` holds none of the characters
`<`, `>`, double quote and single quote; every `&` in it is the first character of one
of the five entities; replacing the entities by their characters, left to right, gives
`s` back, so two strings with the same output are the same string. -/
theorem escape_xml_attribute_safe (s : String) :
    (∀ x ∈ (EscapeXML s).data,
      x ≠ '<' ∧ x ≠ '>' ∧ x ≠ Char.ofNat 34 ∧ x ≠ Char.ofNat 39) ∧
    (∀ pre post, (EscapeXML s).data = pre ++ '&' :: post →
      ∃ e ∈ xmlEntities, e <+: '&' :: post) ∧
    unescapeXML (EscapeXML s).data = s.data ∧
    (∀ t : String, EscapeXML s = EscapeXML t → s = t) := by
  have hround : ∀ u : String, unescapeXML (EscapeXML u).data = u.data := by
    intro u
    rw [EscapeXML_data]
    exact unescapeFuel_escape u.data _ (le_refl _)
  refine ⟨?_, ?_, hround s, ?_⟩
  · rw [EscapeXML_data]; exact escaped_chars_safe s.data
  · intro pre post h
    rw [EscapeXML_data] at h
    exact ampersand_starts_entity s.data pre post h
  · intro t h
    have h1 := hround s
    rw [h, hround t] at h1
    exact String.ext h1.symm

/-! ### Partitions and shapes -/

theorem mem_keys_of_lookup {β : Type} (k : String) (v : β) :
    ∀ m : List (String × β), m.lookup k = some v → k ∈ m.map Prod.fst := by
  intro m
  induction m with
  | nil => intro h; simp at h
  | cons p rest ih =>
    obtain ⟨a, b⟩ := p
    intro h
    rw [List.lookup_cons] at h
    cases hka : k == a with
    | true =>
      have : k = a := by simpa using hka
      simp [this]
    | false =>
      rw [hka] at h
      exact List.mem_cons_of_mem _ (ih h)

theorem mem_keys_namespaceNodes (d : Diagram) (ns : String) :
    ns ∈ (namespaceNodes d).map Prod.fst ↔ indicesOf d ns ≠ [] := by
  obtain ⟨-, hl⟩ := namespaceNodes_spec d
  constructor
  · intro h he
    have := lookup_ne_none_of_mem_keys ns _ h
    rw [hl ns, if_pos he] at this
    exact this rfl
  · intro h
    have := hl ns
    rw [if_neg h] at this
    exact mem_keys_of_lookup ns _ _ this

theorem partition_cover (d : Diagram) (order : List String) (hv : ValidOrder d order)
    (i : Nat) (node : DiagramNode) (hi : d.Nodes[i]? = some node) :
    ∃ j k : Nat, order[j]? = some (partitionKey node) ∧
      (indicesOf d (partitionKey node))[k]? = some i := by
  have hmem : i ∈ indicesOf d (partitionKey node) :=
    (mem_indicesOf d _ i).2 ⟨node, hi, rfl⟩
  have hne : indicesOf d (partitionKey node) ≠ [] := List.ne_nil_of_mem hmem
  have hkey : partitionKey node ∈ order :=
    (List.Perm.mem_iff hv).2 ((mem_keys_namespaceNodes d _).2 hne)
  obtain ⟨j, hj⟩ := List.mem_iff_getElem?.1 hkey
  obtain ⟨k, hk⟩ := List.mem_iff_getElem?.1 hmem
  exact ⟨j, k, hj, hk⟩

theorem placed_placed (node : DiagramNode) (a b x y : Int) :
    placed (placed node a b) x y = placed node x y := rfl

theorem partitionKey_placed (node : DiagramNode) (x y : Int) :
    partitionKey (placed node x y) = partitionKey node := rfl

theorem shape_getElem? (d other : Diagram) (h : sameUpToGeometry d other) (i : Nat)
    (x y : Int) :
    (other.Nodes[i]?).map (fun node => placed node x y) =
      (d.Nodes[i]?).map (fun node => placed node x y) := by
  have h2 := congrArg (fun l : List DiagramNode => l[i]?) h
  simp only [List.getElem?_map] at h2
  have h3 := congrArg (Option.map (fun node => placed node x y)) h2
  simpa [Option.map_map, Function.comp_def, placed_placed] using h3

theorem shape_length (d other : Diagram) (h : sameUpToGeometry d other) :
    other.Nodes.length = d.Nodes.length := by
  have := congrArg List.length h
  simpa using this

theorem shape_key (d other : Diagram) (h : sameUpToGeometry d other) (i : Nat) :
    (other.Nodes[i]?).map partitionKey = (d.Nodes[i]?).map partitionKey := by
  have h3 := congrArg (Option.map partitionKey) (shape_getElem? d other h i 0 0)
  simpa [Option.map_map, Function.comp_def, partitionKey_placed] using h3

theorem shape_idAt (d other : Diagram) (h : sameUpToGeometry d other) (i : Nat) :
    idAt other i = idAt d i := by
  have h3 := congrArg (Option.map (fun n : DiagramNode => n.ID))
    (shape_getElem? d other h i 0 0)
  simp only [Option.map_map, Function.comp_def, placed] at h3
  unfold idAt
  cases h1 : other.Nodes[i]? <;> cases h2 : d.Nodes[i]? <;> simp_all

theorem shape_indicesOf (d other : Diagram) (h : sameUpToGeometry d other) (ns : String) :
    indicesOf other ns = indicesOf d ns := by
  unfold indicesOf
  rw [shape_length d other h]
  apply List.filter_congr
  intro i _
  have hk := shape_key d other h i
  cases h1 : other.Nodes[i]? <;> cases h2 : d.Nodes[i]? <;> simp_all

theorem shape_validOrder (d other : Diagram) (h : sameUpToGeometry d other)
    (order : List String) (hv : ValidOrder d order) : ValidOrder other order := by
  unfold ValidOrder at hv ⊢
  refine hv.trans ?_
  rw [List.perm_ext_iff_of_nodup (namespaceNodes_spec d).1 (namespaceNodes_spec other).1]
  intro ns
  rw [mem_keys_namespaceNodes, mem_keys_namespaceNodes, shape_indicesOf d other h]

/-! ### The two forms of a layout -/

theorem placeSeq_range_all (coords : Nat → Int × Int) (d : Diagram) (i : Nat) :
    (placeSeq coords d (List.range d.Nodes.length) 0).Nodes[i]? =
      (d.Nodes[i]?).map (fun node => placed node (coords i).1 (coords i).2) := by
  cases h : d.Nodes[i]? with
  | some node => rw [placeSeq_range coords d i node h]; rfl
  | none =>
    have hlen : d.Nodes.length ≤ i := List.getElem?_eq_none_iff.1 h
    have hnot : i ∉ List.range d.Nodes.length := by
      rw [List.mem_range]; omega
    rw [placeSeq_of_not_mem coords _ i hnot, h]
    rfl

theorem layout_form (l : Layout) :
    (∃ coords : Nat → Nat → Int × Int, ∀ (order : List String) (d : Diagram),
      ApplyLayout l order d =
        placeSeq (coords d.Nodes.length) d (List.range d.Nodes.length) 0) ∨
    (l.noNamespaces = false ∧
      ∃ (coords : Int → Nat → Int × Int)
        (box : String → Int → Nat → List String → NamespaceGroup) (adv : Int),
        ∀ (order : List String) (d : Diagram), ValidOrder d order →
          ApplyLayout l order d =
            ((order.map (fun ns => (ns, indicesOf d ns))).foldl
              (boxedPartition coords box adv) { diagram := d, current := 80 }).diagram) := by
  have hflatH : l.noNamespaces = true → ∀ (order : List String) (d : Diagram),
      applyHierarchicalLayout l order d =
        placeSeq (fun k => (80 + 220 * (k : Int), 80)) d (List.range d.Nodes.length) 0 := by
    intro hn order d
    unfold applyHierarchicalLayout
    rw [if_pos hn, applyFlatHierarchicalLayout_eq]
  have hflatV : l.noNamespaces = true → ∀ (order : List String) (d : Diagram),
      applyVerticalLayout l order d =
        placeSeq (fun k => (80, 80 + 160 * (k : Int))) d (List.range d.Nodes.length) 0 := by
    intro hn order d
    unfold applyVerticalLayout
    rw [if_pos hn, applyFlatVerticalLayout_eq]
  have hhier : (∃ coords : Nat → Nat → Int × Int, ∀ (order : List String) (d : Diagram),
      applyHierarchicalLayout l order d =
        placeSeq (coords d.Nodes.length) d (List.range d.Nodes.length) 0) ∨
    (l.noNamespaces = false ∧
      ∃ (coords : Int → Nat → Int × Int)
        (box : String → Int → Nat → List String → NamespaceGroup) (adv : Int),
        ∀ (order : List String) (d : Diagram), ValidOrder d order →
          applyHierarchicalLayout l order d =
            ((order.map (fun ns => (ns, indicesOf d ns))).foldl
              (boxedPartition coords box adv) { diagram := d, current := 80 }).diagram) := by
    cases hn : l.noNamespaces with
    | true => exact Or.inl ⟨fun _ k => (80 + 220 * (k : Int), 80), hflatH hn⟩
    | false =>
      exact Or.inr ⟨rfl, hierarchicalCoords, hierarchicalBox, 390,
        fun order d hv => applyHierarchicalLayout_grouped l d order hn hv⟩
  unfold ApplyLayout
  by_cases h1 : l.algorithm = "hierarchical"
  · simp only [h1, if_true]; exact hhier
  · by_cases h2 : l.algorithm = "grid"
    · simp only [h2, if_true]
      refine Or.inl ⟨fun n k => (((k % ceilSqrt n : Nat) : Int) * 220 + 80,
          ((k / ceilSqrt n : Nat) : Int) * 150 + 80), ?_⟩
      intro order d
      rw [if_neg (by decide)]
      exact applyGridLayout_eq l d
    · by_cases h3 : l.algorithm = "vertical"
      · have e1 : ¬ ("vertical" = "hierarchical") := by decide
        have e2 : ¬ ("vertical" = "grid") := by decide
        simp only [h3, e1, e2, if_true, if_false]
        cases hn : l.noNamespaces with
        | true => exact Or.inl ⟨fun _ k => (80, 80 + 160 * (k : Int)), hflatV hn⟩
        | false =>
          exact Or.inr ⟨rfl, verticalCoords, verticalBox, 300,
            fun order d hv => applyVerticalLayout_grouped l d order hn hv⟩
      · simp only [h1, h2, h3, if_false]; exact hhier

theorem seq_shape (coords : Nat → Int × Int) (d other : Diagram)
    (h : sameUpToGeometry d other) :
    (placeSeq coords other (List.range other.Nodes.length) 0).Nodes =
      (placeSeq coords d (List.range d.Nodes.length) 0).Nodes := by
  apply List.ext_getElem?
  intro i
  rw [placeSeq_range_all, placeSeq_range_all]
  exact shape_getElem? d other h i _ _

theorem boxed_nodes_all (coords : Int → Nat → Int × Int)
    (box : String → Int → Nat → List String → NamespaceGroup) (adv : Int)
    (d : Diagram) (order : List String) (hv : ValidOrder d order) (i : Nat) :
    ∃ x y, ∀ other, sameUpToGeometry d other →
      (((order.map (fun ns => (ns, indicesOf other ns))).foldl
        (boxedPartition coords box adv) { diagram := other, current := 80 }).diagram).Nodes[i]? =
        (other.Nodes[i]?).map (fun node => placed node x y) := by
  cases hi : d.Nodes[i]? with
  | none =>
    refine ⟨0, 0, ?_⟩
    intro other hs
    have hlen : d.Nodes.length ≤ i := List.getElem?_eq_none_iff.1 hi
    obtain ⟨c1, -⟩ := grouped_spec coords box adv other order
      (shape_validOrder d other hs order hv) _ rfl
    have hlen2 : other.Nodes.length ≤ i := by rw [shape_length d other hs]; exact hlen
    rw [List.getElem?_eq_none_iff.2 (by rw [c1]; exact hlen2),
      List.getElem?_eq_none_iff.2 hlen2]
    rfl
  | some node =>
    obtain ⟨j, k, hj, hk⟩ := partition_cover d order hv i node hi
    refine ⟨(coords (80 + adv * (j : Int)) k).1, (coords (80 + adv * (j : Int)) k).2, ?_⟩
    intro other hs
    obtain ⟨-, -, -, -, hpart, -⟩ := grouped_spec coords box adv other order
      (shape_validOrder d other hs order hv) _ rfl
    exact (hpart j _ hj).2 k i (by rw [shape_indicesOf d other hs]; exact hk)

theorem sameUpToGeometry_refl (d : Diagram) : sameUpToGeometry d d := rfl

theorem shape_of_nodes (d r : Diagram)
    (h : ∀ i : Nat, ∃ x y, r.Nodes[i]? = (d.Nodes[i]?).map (fun node => placed node x y)) :
    sameUpToGeometry d r := by
  unfold sameUpToGeometry
  apply List.ext_getElem?
  intro i
  obtain ⟨x, y, hxy⟩ := h i
  rw [List.getElem?_map, List.getElem?_map, hxy]
  cases d.Nodes[i]? <;> rfl

theorem layout_nodes_all (l : Layout) (order : List String) (d : Diagram)
    (hv : ValidOrder d order) (i : Nat) :
    ∃ x y, ∀ other, sameUpToGeometry d other →
      (ApplyLayout l order other).Nodes[i]? =
        (other.Nodes[i]?).map (fun node => placed node x y) := by
  rcases layout_form l with ⟨coords, hc⟩ | ⟨-, coords, box, adv, hc⟩
  · refine ⟨(coords d.Nodes.length i).1, (coords d.Nodes.length i).2, ?_⟩
    intro other hs
    rw [hc, placeSeq_range_all, shape_length d other hs]
  · obtain ⟨x, y, hxy⟩ := boxed_nodes_all coords box adv d order hv i
    refine ⟨x, y, ?_⟩
    intro other hs
    rw [hc order other (shape_validOrder d other hs order hv)]
    exact hxy other hs

theorem layout_rest (l : Layout) (order : List String) (d : Diagram)
    (hv : ValidOrder d order) :
    (ApplyLayout l order d).Nodes.length = d.Nodes.length ∧
    (ApplyLayout l order d).Connections = d.Connections ∧
    (ApplyLayout l order d).Layout = d.Layout := by
  rcases layout_form l with ⟨coords, hc⟩ | ⟨-, coords, box, adv, hc⟩
  · rw [hc]
    obtain ⟨h1, h2, h3, -⟩ := placeSeq_frame (coords d.Nodes.length)
      (List.range d.Nodes.length) d 0
    exact ⟨h1, h2, h3⟩
  · rw [hc order d hv]
    obtain ⟨h1, h2, h3, -⟩ := grouped_spec coords box adv d order hv _ rfl
    exact ⟨h1, h2, h3⟩

theorem layout_shape (l : Layout) (order : List String) (d : Diagram)
    (hv : ValidOrder d order) : sameUpToGeometry d (ApplyLayout l order d) := by
  apply shape_of_nodes
  intro i
  obtain ⟨x, y, hxy⟩ := layout_nodes_all l order d hv i
  exact ⟨x, y, hxy d (sameUpToGeometry_refl d)⟩

theorem layout_nodes_shape (l : Layout) (order : List String) (d other : Diagram)
    (hv : ValidOrder d order) (hs : sameUpToGeometry d other) :
    (ApplyLayout l order other).Nodes = (ApplyLayout l order d).Nodes := by
  apply List.ext_getElem?
  intro i
  obtain ⟨x, y, hxy⟩ := layout_nodes_all l order d hv i
  rw [hxy other hs, hxy d (sameUpToGeometry_refl d)]
  exact shape_getElem? d other hs i x y

theorem layout_groups_shape (l : Layout) (order : List String) (d other : Diagram)
    (hv : ValidOrder d order) (hs : sameUpToGeometry d other) (ns : String) :
    (ApplyLayout l order other).Namespaces.lookup ns =
        (ApplyLayout l order d).Namespaces.lookup ns ∨
      ((ApplyLayout l order other).Namespaces.lookup ns = other.Namespaces.lookup ns ∧
       (ApplyLayout l order d).Namespaces.lookup ns = d.Namespaces.lookup ns) := by
  rcases layout_form l with ⟨coords, hc⟩ | ⟨-, coords, box, adv, hc⟩
  · right
    rw [hc, hc, (placeSeq_frame _ _ _ _).2.2.2, (placeSeq_frame _ _ _ _).2.2.2]
    exact ⟨rfl, rfl⟩
  · have hv2 := shape_validOrder d other hs order hv
    rw [hc order d hv, hc order other hv2]
    obtain ⟨-, -, -, -, hp1, hn1⟩ := grouped_spec coords box adv d order hv _ rfl
    obtain ⟨-, -, -, -, hp2, hn2⟩ := grouped_spec coords box adv other order hv2 _ rfl
    by_cases hmem : ns ∈ order
    · left
      obtain ⟨j, hj⟩ := List.mem_iff_getElem?.1 hmem
      rw [(hp1 j ns hj).1, (hp2 j ns hj).1, shape_indicesOf d other hs]
      have hids : (indicesOf d ns).map (idAt other) = (indicesOf d ns).map (idAt d) :=
        List.map_congr_left (fun i _ => shape_idAt d other hs i)
      rw [hids]
    · right
      exact ⟨hn2 ns hmem, hn1 ns hmem⟩

/-- C35: for every strategy and grouping mode and every order that visits each partition
once, `ApplyLayout` keeps the number and order of the nodes, the ID, Label, Kind,
Namespace, Style and Connections of each node, the connection sequence and the Layout
name of the diagram; each node has Width 140 and Height 80 afterwards. -/
theorem layout_frame (l : Layout) (order : List String) (d : Diagram)
    (hv : ValidOrder d order) :
    (ApplyLayout l order d).Nodes.length = d.Nodes.length ∧
    (ApplyLayout l order d).Connections = d.Connections ∧
    (ApplyLayout l order d).Layout = d.Layout ∧
    ∀ (i : Nat) node, d.Nodes[i]? = some node →
      ∃ after, (ApplyLayout l order d).Nodes[i]? = some after ∧
        after.ID = node.ID ∧ after.Label = node.Label ∧ after.Kind = node.Kind ∧
        after.Namespace = node.Namespace ∧ after.Style = node.Style ∧
        after.Connections = node.Connections ∧ after.Width = 140 ∧ after.Height = 80 := by
  obtain ⟨h1, h2, h3⟩ := layout_rest l order d hv
  refine ⟨h1, h2, h3, ?_⟩
  intro i node hi
  obtain ⟨x, y, hxy⟩ := layout_nodes_all l order d hv i
  refine ⟨placed node x y, ?_, rfl, rfl, rfl, rfl, rfl, rfl, rfl, rfl⟩
  rw [hxy d (sameUpToGeometry_refl d), hi]
  rfl

/-- Witness of C35: the five-node diagram under the vertical strategy with grouping. -/
theorem layout_frame_witness :
    ((ApplyLayout (groupedLayout "vertical") ["b", "a", "default"] spacesDiagram).Nodes.map
        (fun node => (node.ID, node.Namespace, node.Width, node.Height)) =
      [("node-0", "a", 140, 80), ("node-1", "b", 140, 80), ("node-2", "a", 140, 80),
       ("node-3", "", 140, 80), ("node-4", "a", 140, 80)]) ∧
    ((ApplyLayout (groupedLayout "vertical") ["b", "a", "default"]
        spacesDiagram).Nodes.length = spacesDiagram.Nodes.length ∧
    (ApplyLayout (groupedLayout "vertical") ["b", "a", "default"]
        spacesDiagram).Connections = spacesDiagram.Connections ∧
    (ApplyLayout (groupedLayout "vertical") ["b", "a", "default"]
        spacesDiagram).Layout = spacesDiagram.Layout ∧
    ∀ (i : Nat) node, spacesDiagram.Nodes[i]? = some node →
      ∃ after, (ApplyLayout (groupedLayout "vertical") ["b", "a", "default"]
          spacesDiagram).Nodes[i]? = some after ∧
        after.ID = node.ID ∧ after.Label = node.Label ∧ after.Kind = node.Kind ∧
        after.Namespace = node.Namespace ∧ after.Style = node.Style ∧
        after.Connections = node.Connections ∧ after.Width = 140 ∧ after.Height = 80) :=
  ⟨by decide, layout_frame (groupedLayout "vertical") ["b", "a", "default"] spacesDiagram
    (show List.Perm _ _ by decide)⟩

/-- C33: for every strategy and grouping mode, every diagram and every order that
visits each partition once, the same order can be used again on the laid-out diagram,
and a second `ApplyLayout` changes nothing: the node sequence (so every X, Y, Width and
Height), the connections, the Layout name and every namespace group are the same after
one and after two applications.  The result does not depend on the geometry the nodes
had before: a diagram with the same nodes up to geometry and the same namespace-group
index gets the same nodes and the same groups. -/
theorem layout_idempotence (l : Layout) (order : List String) (d : Diagram)
    (hv : ValidOrder d order) :
    ValidOrder (ApplyLayout l order d) order ∧
    (ApplyLayout l order (ApplyLayout l order d)).Nodes = (ApplyLayout l order d).Nodes ∧
    (ApplyLayout l order (ApplyLayout l order d)).Connections =
      (ApplyLayout l order d).Connections ∧
    (ApplyLayout l order (ApplyLayout l order d)).Layout = (ApplyLayout l order d).Layout ∧
    (∀ ns, (ApplyLayout l order (ApplyLayout l order d)).Namespaces.lookup ns =
      (ApplyLayout l order d).Namespaces.lookup ns) ∧
    (∀ other, sameUpToGeometry d other → other.Namespaces = d.Namespaces →
      (ApplyLayout l order other).Nodes = (ApplyLayout l order d).Nodes ∧
      ∀ ns, (ApplyLayout l order other).Namespaces.lookup ns =
        (ApplyLayout l order d).Namespaces.lookup ns) := by
  have hs := layout_shape l order d hv
  have hv2 := shape_validOrder d _ hs order hv
  obtain ⟨-, h2, h3⟩ := layout_rest l order _ hv2
  refine ⟨hv2, layout_nodes_shape l order d _ hv hs, h2, h3, ?_, ?_⟩
  · intro ns
    rcases layout_groups_shape l order d _ hv hs ns with h | ⟨h, -⟩
    · exact h
    · exact h
  · intro other ho hns
    refine ⟨layout_nodes_shape l order d other hv ho, ?_⟩
    intro ns
    rcases layout_groups_shape l order d other hv ho ns with h | ⟨h1, h2⟩
    · exact h
    · rw [h1, h2, hns]

/-- Witness of C33: the five-node diagram under the hierarchical strategy with
grouping, laid out once and twice. -/
theorem layout_idempotence_witness :
    ((ApplyLayout (groupedLayout "hierarchical") ["b", "a", "default"]
        (ApplyLayout (groupedLayout "hierarchical") ["b", "a", "default"]
          spacesDiagram)).Nodes.map (fun node => (node.X, node.Y)) =
      [(160, 550), (160, 160), (380, 550), (160, 940), (600, 550)]) ∧
    (ValidOrder (ApplyLayout (groupedLayout "hierarchical") ["b", "a", "default"]
        spacesDiagram) ["b", "a", "default"] ∧
    (ApplyLayout (groupedLayout "hierarchical") ["b", "a", "default"]
        (ApplyLayout (groupedLayout "hierarchical") ["b", "a", "default"]
          spacesDiagram)).Nodes =
      (ApplyLayout (groupedLayout "hierarchical") ["b", "a", "default"] spacesDiagram).Nodes ∧
    (ApplyLayout (groupedLayout "hierarchical") ["b", "a", "default"]
        (ApplyLayout (groupedLayout "hierarchical") ["b", "a", "default"]
          spacesDiagram)).Connections =
      (ApplyLayout (groupedLayout "hierarchical") ["b", "a", "default"]
        spacesDiagram).Connections ∧
    (ApplyLayout (groupedLayout "hierarchical") ["b", "a", "default"]
        (ApplyLayout (groupedLayout "hierarchical") ["b", "a", "default"]
          spacesDiagram)).Layout =
      (ApplyLayout (groupedLayout "hierarchical") ["b", "a", "default"]
        spacesDiagram).Layout ∧
    (∀ ns, (ApplyLayout (groupedLayout "hierarchical") ["b", "a", "default"]
        (ApplyLayout (groupedLayout "hierarchical") ["b", "a", "default"]
          spacesDiagram)).Namespaces.lookup ns =
      (ApplyLayout (groupedLayout "hierarchical") ["b", "a", "default"]
        spacesDiagram).Namespaces.lookup ns) ∧
    (∀ other, sameUpToGeometry spacesDiagram other →
      other.Namespaces = spacesDiagram.Namespaces →
      (ApplyLayout (groupedLayout "hierarchical") ["b", "a", "default"] other).Nodes =
        (ApplyLayout (groupedLayout "hierarchical") ["b", "a", "default"]
          spacesDiagram).Nodes ∧
      ∀ ns, (ApplyLayout (groupedLayout "hierarchical") ["b", "a", "default"]
          other).Namespaces.lookup ns =
        (ApplyLayout (groupedLayout "hierarchical") ["b", "a", "default"]
          spacesDiagram).Namespaces.lookup ns)) :=
  ⟨by decide, layout_idempotence (groupedLayout "hierarchical") ["b", "a", "default"]
    spacesDiagram (show List.Perm _ _ by decide)⟩

theorem perm_short_eq {α : Type} (keys o₁ o₂ : List α) (hlen : keys.length ≤ 1)
    (h₁ : o₁.Perm keys) (h₂ : o₂.Perm keys) : o₁ = o₂ := by
  cases keys with
  | nil => rw [List.perm_nil.1 h₁, List.perm_nil.1 h₂]
  | cons a rest =>
    cases rest with
    | nil => rw [List.perm_singleton.1 h₁, List.perm_singleton.1 h₂]
    | cons b rest => simp at hlen

/-- C32, as the code has it: the grid strategy and the two flat variants give the same
diagram for every traversal order, and so do the hierarchical and vertical strategies
with grouping when the nodes lie in at most one partition; with grouping, the partition
visited at position `j` gets the slot `j` (box Y = 80 + 390 * j under the hierarchical
strategy, box X = 80 + 300 * j under the vertical strategy), so with two partitions or
more the result follows the traversal order. -/
theorem layout_order_dependence (l : Layout) (d : Diagram) :
    (∀ o₁ o₂ : List String, l.algorithm = "grid" ∨ l.noNamespaces = true →
      ApplyLayout l o₁ d = ApplyLayout l o₂ d) ∧
    (∀ o₁ o₂ : List String, ValidOrder d o₁ → ValidOrder d o₂ →
      (namespaceNodes d).length ≤ 1 → ApplyLayout l o₁ d = ApplyLayout l o₂ d) ∧
    (∀ (order : List String) (j : Nat) ns, l.noNamespaces = false → ValidOrder d order →
      order[j]? = some ns →
      ∃ box, (applyHierarchicalLayout l order d).Namespaces.lookup ns = some box ∧
        box.Y = 80 + 390 * (j : Int)) ∧
    (∀ (order : List String) (j : Nat) ns, l.noNamespaces = false → ValidOrder d order →
      order[j]? = some ns →
      ∃ box, (applyVerticalLayout l order d).Namespaces.lookup ns = some box ∧
        box.X = 80 + 300 * (j : Int)) := by
  refine ⟨?_, ?_, ?_, ?_⟩
  · intro o₁ o₂ h
    rcases h with h | h
    · have e1 : ¬ ("grid" = "hierarchical") := by decide
      simp only [ApplyLayout, h, e1, if_true, if_false]
    · simp only [ApplyLayout, applyHierarchicalLayout, applyVerticalLayout, h, if_true]
  · intro o₁ o₂ h₁ h₂ hlen
    rw [perm_short_eq ((namespaceNodes d).map Prod.fst) o₁ o₂ (by simpa using hlen) h₁ h₂]
  · intro order j ns hl hv hj
    obtain ⟨-, -, -, -, hpart, -⟩ := grouped_spec hierarchicalCoords hierarchicalBox 390 d
      order hv _ (applyHierarchicalLayout_grouped l d order hl hv)
    exact ⟨_, (hpart j ns hj).1, rfl⟩
  · intro order j ns hl hv hj
    obtain ⟨-, -, -, -, hpart, -⟩ := grouped_spec verticalCoords verticalBox 300 d
      order hv _ (applyVerticalLayout_grouped l d order hl hv)
    exact ⟨_, (hpart j ns hj).1, rfl⟩

/-- Counterexample to C32 as stated: two traversal orders of the three partitions of the
five-node diagram give different node coordinates under the hierarchical strategy and
under the vertical strategy. -/
theorem layout_order_counterexample :
    ValidOrder spacesDiagram ["a", "b", "default"] ∧
    ValidOrder spacesDiagram ["b", "a", "default"] ∧
    (ApplyLayout (groupedLayout "hierarchical") ["a", "b", "default"] spacesDiagram).Nodes.map
        (fun node => (node.X, node.Y)) =
      [(160, 160), (160, 550), (380, 160), (160, 940), (600, 160)] ∧
    (ApplyLayout (groupedLayout "hierarchical") ["b", "a", "default"] spacesDiagram).Nodes.map
        (fun node => (node.X, node.Y)) =
      [(160, 550), (160, 160), (380, 550), (160, 940), (600, 550)] ∧
    (ApplyLayout (groupedLayout "vertical") ["a", "b", "default"] spacesDiagram).Nodes ≠
      (ApplyLayout (groupedLayout "vertical") ["b", "a", "default"] spacesDiagram).Nodes :=
  ⟨show List.Perm _ _ by decide, show List.Perm _ _ by decide, by decide, by decide,
    by decide⟩

/-- C36: under the hierarchical and the vertical strategy with grouping, for every
order that visits each partition once, the boxes of two distinct partitions do not
overlap: hierarchical boxes lie one above the other, vertical boxes lie side by side;
a node rectangle of one partition does not lie inside the box of another partition;
and when the namespace-group index was empty before, every group of the index is the
box of a partition. -/
theorem boxes_never_overlap (l : Layout) (d : Diagram) (order : List String)
    (hl : l.noNamespaces = false) (hv : ValidOrder d order) :
    (∀ ns other, ns ∈ order → other ∈ order → ns ≠ other →
      ∃ box far,
        (applyHierarchicalLayout l order d).Namespaces.lookup ns = some box ∧
        (applyHierarchicalLayout l order d).Namespaces.lookup other = some far ∧
        verticallyApart box far ∧
        ∀ i ∈ indicesOf d ns, ∃ node,
          (applyHierarchicalLayout l order d).Nodes[i]? = some node ∧
            insideBox 0 node box ∧ ¬ insideBox 0 node far) ∧
    (∀ ns other, ns ∈ order → other ∈ order → ns ≠ other →
      ∃ box far,
        (applyVerticalLayout l order d).Namespaces.lookup ns = some box ∧
        (applyVerticalLayout l order d).Namespaces.lookup other = some far ∧
        horizontallyApart box far ∧
        ∀ i ∈ indicesOf d ns, ∃ node,
          (applyVerticalLayout l order d).Nodes[i]? = some node ∧
            insideBox 0 node box ∧ ¬ insideBox 0 node far) ∧
    (d.Namespaces = [] →
      ∀ ns, (((applyHierarchicalLayout l order d).Namespaces.lookup ns).isSome = true →
          ns ∈ order) ∧
        (((applyVerticalLayout l order d).Namespaces.lookup ns).isSome = true →
          ns ∈ order)) := by
  obtain ⟨-, -, -, -, hpartH, hrestH⟩ := grouped_spec hierarchicalCoords hierarchicalBox 390
    d order hv _ (applyHierarchicalLayout_grouped l d order hl hv)
  obtain ⟨-, -, -, -, hpartV, hrestV⟩ := grouped_spec verticalCoords verticalBox 300
    d order hv _ (applyVerticalLayout_grouped l d order hl hv)
  have hpos : ∀ ns other, ns ∈ order → other ∈ order → ns ≠ other →
      ∃ j j2 : Nat, order[j]? = some ns ∧ order[j2]? = some other ∧ j ≠ j2 := by
    intro ns other h1 h2 hne
    obtain ⟨j, hj⟩ := List.mem_iff_getElem?.1 h1
    obtain ⟨j2, hj2⟩ := List.mem_iff_getElem?.1 h2
    refine ⟨j, j2, hj, hj2, ?_⟩
    intro e
    rw [e, hj2] at hj
    exact hne (Option.some.inj hj).symm
  refine ⟨?_, ?_, ?_⟩
  · intro ns other h1 h2 hne
    obtain ⟨j, j2, hj, hj2, hjne⟩ := hpos ns other h1 h2 hne
    refine ⟨_, _, (hpartH j ns hj).1, (hpartH j2 other hj2).1, ?_, ?_⟩
    · simp only [verticallyApart, hierarchicalBox]
      omega
    · intro i hi
      obtain ⟨k, hk⟩ := List.mem_iff_getElem?.1 hi
      obtain ⟨n1, hn1, -⟩ := (mem_indicesOf d ns i).1 hi
      have hlt : k < (indicesOf d ns).length := (List.getElem?_eq_some_iff.1 hk).1
      refine ⟨_, by rw [(hpartH j ns hj).2 k i hk, hn1]; rfl, ?_, ?_⟩
      · simp only [insideBox, placed, hierarchicalCoords, hierarchicalBox]
        refine ⟨?_, ?_, ?_, ?_⟩ <;> omega
      · simp only [insideBox, placed, hierarchicalCoords, hierarchicalBox]
        omega
  · intro ns other h1 h2 hne
    obtain ⟨j, j2, hj, hj2, hjne⟩ := hpos ns other h1 h2 hne
    refine ⟨_, _, (hpartV j ns hj).1, (hpartV j2 other hj2).1, ?_, ?_⟩
    · simp only [horizontallyApart, verticalBox]
      omega
    · intro i hi
      obtain ⟨k, hk⟩ := List.mem_iff_getElem?.1 hi
      obtain ⟨n1, hn1, -⟩ := (mem_indicesOf d ns i).1 hi
      have hlt : k < (indicesOf d ns).length := (List.getElem?_eq_some_iff.1 hk).1
      refine ⟨_, by rw [(hpartV j ns hj).2 k i hk, hn1]; rfl, ?_, ?_⟩
      · simp only [insideBox, placed, verticalCoords, verticalBox]
        refine ⟨?_, ?_, ?_, ?_⟩ <;> omega
      · simp only [insideBox, placed, verticalCoords, verticalBox]
        omega
  · intro hempty ns
    constructor
    · intro h
      by_contra hmem
      rw [hrestH ns hmem, hempty] at h
      simp at h
    · intro h
      by_contra hmem
      rw [hrestV ns hmem, hempty] at h
      simp at h

/-- Witness of C36: the three boxes of the five-node diagram. -/
theorem boxes_never_overlap_witness :
    ((applyVerticalLayout (groupedLayout "vertical") ["b", "a", "default"]
        spacesDiagram).Namespaces.map (fun e => (e.1, e.2.X, e.2.X + e.2.Width)) =
      [("old", 1, 4), ("b", 80, 300), ("a", 380, 600), ("default", 680, 900)]) ∧
    ∀ ns other, ns ∈ ["b", "a", "default"] → other ∈ ["b", "a", "default"] → ns ≠ other →
      ∃ box far,
        (applyHierarchicalLayout (groupedLayout "vertical") ["b", "a", "default"]
          spacesDiagram).Namespaces.lookup ns = some box ∧
        (applyHierarchicalLayout (groupedLayout "vertical") ["b", "a", "default"]
          spacesDiagram).Namespaces.lookup other = some far ∧
        verticallyApart box far ∧
        ∀ i ∈ indicesOf spacesDiagram ns, ∃ node,
          (applyHierarchicalLayout (groupedLayout "vertical") ["b", "a", "default"]
            spacesDiagram).Nodes[i]? = some node ∧
            insideBox 0 node box ∧ ¬ insideBox 0 node far :=
  ⟨by decide, (boxes_never_overlap (groupedLayout "vertical") spacesDiagram
    ["b", "a", "default"] rfl (show List.Perm _ _ by decide)).1⟩

/-! ### The grid -/

theorem gridChecked_loop (cols : Nat) (hc : cols ≠ 0) (idxs : List Nat) :
    ∀ d : Diagram, idxs.foldl (gridStepChecked cols) (some d) =
      some (idxs.foldl (gridStep cols) d) := by
  induction idxs with
  | nil => intro d; rfl
  | cons i rest ih =>
    intro d
    rw [List.foldl_cons, List.foldl_cons]
    have : gridStepChecked cols (some d) i = some (gridStep cols d i) := by
      simp [gridStepChecked, hc]
    rw [this, ih]

theorem ceilSqrt_pos (n : Nat) (hn : 1 ≤ n) : 1 ≤ ceilSqrt n := by
  have h := (ceilSqrt_spec n).1
  by_contra hlt
  have h0 : ceilSqrt n = 0 := by omega
  rw [h0] at h
  omega

/-- C37: `applyGridLayout` never divides by zero: the run with the division panic made
explicit ends without panic and gives the same diagram; for an empty node sequence the
column count is 0 and the diagram is returned as it is, for a non-empty one the column
count is at least 1; two different nodes never get the same position (X, Y). -/
theorem grid_total_collision_free (l : Layout) (d : Diagram) :
    applyGridLayoutChecked l d = some (applyGridLayout l d) ∧
    (d.Nodes.length = 0 → ceilSqrt d.Nodes.length = 0 ∧ applyGridLayout l d = d) ∧
    (1 ≤ d.Nodes.length → 1 ≤ ceilSqrt d.Nodes.length) ∧
    ∀ (i j : Nat) a b, (applyGridLayout l d).Nodes[i]? = some a →
      (applyGridLayout l d).Nodes[j]? = some b → i ≠ j → (a.X, a.Y) ≠ (b.X, b.Y) := by
  refine ⟨?_, ?_, ceilSqrt_pos _, ?_⟩
  · unfold applyGridLayoutChecked applyGridLayout
    simp only []
    rcases Nat.eq_zero_or_pos d.Nodes.length with h0 | hpos
    · rw [h0]; rfl
    · exact gridChecked_loop _ (by have := ceilSqrt_pos _ hpos; omega) _ d
  · intro h0
    refine ⟨by rw [h0]; rfl, ?_⟩
    unfold applyGridLayout
    rw [h0]
    rfl
  · intro i j a b ha hb hij
    rw [applyGridLayout_eq, placeSeq_range_all] at ha hb
    cases hi : d.Nodes[i]? with
    | none => rw [hi] at ha; cases ha
    | some ni =>
      cases hj : d.Nodes[j]? with
      | none => rw [hj] at hb; cases hb
      | some nj =>
        rw [hi] at ha
        rw [hj] at hb
        simp only [Option.map_some', Option.some.injEq] at ha hb
        subst ha
        subst hb
        simp only [placed, ne_eq, Prod.mk.injEq, not_and]
        intro hx hy
        apply hij
        have h1 := Nat.div_add_mod i (ceilSqrt d.Nodes.length)
        have h2 := Nat.div_add_mod j (ceilSqrt d.Nodes.length)
        have hx2 : i % ceilSqrt d.Nodes.length = j % ceilSqrt d.Nodes.length := by omega
        have hy2 : i / ceilSqrt d.Nodes.length = j / ceilSqrt d.Nodes.length := by omega
        rw [← h1, ← h2, hx2, hy2]

/-! ### The groups of a grouped layout -/

theorem boxed_keys (coords : Int → Nat → Int × Int)
    (box : String → Int → Nat → List String → NamespaceGroup) (adv : Int) :
    ∀ (es : List (String × List Nat)) (st : PartitionState),
      (st.diagram.Namespaces.map Prod.fst ++ es.map Prod.fst).Nodup →
      (es.foldl (boxedPartition coords box adv) st).diagram.Namespaces.map Prod.fst =
        st.diagram.Namespaces.map Prod.fst ++ es.map Prod.fst := by
  intro es
  induction es with
  | nil => intro st _; simp
  | cons e rest ih =>
    intro st hnd
    have hstep : (boxedPartition coords box adv st e).diagram.Namespaces.map Prod.fst =
        st.diagram.Namespaces.map Prod.fst ++ [e.1] := by
      show (mapPut (placeSeq (coords st.current) st.diagram e.2 0).Namespaces e.1 _).map
        Prod.fst = _
      rw [keys_mapPut, (placeSeq_frame _ _ _ _).2.2.2]
      have hnot : ¬ st.diagram.Namespaces.any (fun x => x.1 == e.1) = true := by
        intro hany
        obtain ⟨x, hx, hxe⟩ := List.any_eq_true.1 hany
        have hmem : e.1 ∈ st.diagram.Namespaces.map Prod.fst :=
          List.mem_map.2 ⟨x, hx, by simpa using hxe⟩
        rw [List.nodup_append] at hnd
        exact hnd.2.2 hmem (by simp)
      rw [if_neg hnot]
    rw [List.foldl_cons, ih _ (by rw [hstep]; simpa using hnd), hstep]
    simp

theorem grouped_groups (coords : Int → Nat → Int × Int)
    (box : String → Int → Nat → List String → NamespaceGroup) (adv : Int)
    (hname : ∀ ns cur m ids, (box ns cur m ids).Name = ns ∧ (box ns cur m ids).NodeIDs = ids)
    (d : Diagram) (order : List String) (hv : ValidOrder d order)
    (hempty : d.Namespaces = []) (r : Diagram)
    (hr : r = ((order.map (fun ns => (ns, indicesOf d ns))).foldl
      (boxedPartition coords box adv) { diagram := d, current := 80 }).diagram) :
    r.Namespaces.map Prod.fst = order ∧
    (∀ ns ∈ order, ∃ group, r.Namespaces.lookup ns = some group ∧ group.Name = ns ∧
      group.NodeIDs = (indicesOf d ns).map (idAt d)) ∧
    (∀ (i : Nat) node, d.Nodes[i]? = some node →
      ∃ group, r.Namespaces.lookup (partitionKey node) = some group ∧
        node.ID ∈ group.NodeIDs ∧
        ((d.Nodes.map (fun n => n.ID)).Nodup →
          ∀ ns other, r.Namespaces.lookup ns = some other → node.ID ∈ other.NodeIDs →
            ns = partitionKey node)) := by
  obtain ⟨hnd, -⟩ := validOrder_spec d order hv
  obtain ⟨-, -, -, -, hpart, hrest⟩ := grouped_spec coords box adv d order hv r hr
  have hgroup : ∀ ns ∈ order, ∃ group, r.Namespaces.lookup ns = some group ∧
      group.Name = ns ∧ group.NodeIDs = (indicesOf d ns).map (idAt d) := by
    intro ns hns
    obtain ⟨j, hj⟩ := List.mem_iff_getElem?.1 hns
    exact ⟨_, (hpart j ns hj).1, (hname _ _ _ _).1, (hname _ _ _ _).2⟩
  refine ⟨?_, hgroup, ?_⟩
  · have hk := boxed_keys coords box adv (order.map (fun ns => (ns, indicesOf d ns)))
      { diagram := d, current := 80 } (by simpa [hempty, Function.comp_def] using hnd)
    rw [hr, hk, hempty]
    simp [Function.comp_def]
  · intro i node hi
    obtain ⟨j, k, hj, hk⟩ := partition_cover d order hv i node hi
    have hmem : partitionKey node ∈ order := List.mem_iff_getElem?.2 ⟨j, hj⟩
    obtain ⟨group, hg, -, hids⟩ := hgroup _ hmem
    have hidAt : idAt d i = node.ID := by unfold idAt; rw [hi]
    refine ⟨group, hg, ?_, ?_⟩
    · rw [hids]
      exact List.mem_map.2 ⟨i, List.mem_iff_getElem?.2 ⟨k, hk⟩, hidAt⟩
    · intro hnodup ns other hother hin
      have hns : ns ∈ order := by
        by_contra hno
        rw [hrest ns hno, hempty] at hother
        simp at hother
      obtain ⟨group2, hg2, -, hids2⟩ := hgroup ns hns
      rw [hg2] at hother
      cases hother
      rw [hids2] at hin
      obtain ⟨i2, hi2, hid2⟩ := List.mem_map.1 hin
      obtain ⟨node2, hn2, hkey2⟩ := (mem_indicesOf d ns i2).1 hi2
      have hidAt2 : idAt d i2 = node2.ID := by unfold idAt; rw [hn2]
      have hlt : i < (d.Nodes.map (fun n => n.ID)).length := by
        rw [List.length_map]; exact (List.getElem?_eq_some_iff.1 hi).1
      have heq : (d.Nodes.map (fun n => n.ID))[i]? = (d.Nodes.map (fun n => n.ID))[i2]? := by
        rw [List.getElem?_map, List.getElem?_map, hi, hn2]
        simp only [Option.map_some', Option.some.injEq]
        rw [← hidAt2, hid2]
      have hii : i = i2 := List.getElem?_inj hlt hnodup heq
      subst hii
      rw [hi] at hn2
      cases hn2
      exact hkey2.symm

theorem buildNodes_ids_nodup (collection : ResourceCollection) (o : VaultOrder) :
    ((buildNodes collection o).map (fun n => n.ID)).Nodup := by
  rw [List.nodup_iff_getElem?_ne_getElem?]
  intro i j hij hj
  rw [List.length_map] at hj
  have hi : i < (buildNodes collection o).length := by omega
  rw [List.getElem?_map, List.getElem?_map, List.getElem?_eq_getElem hi,
    List.getElem?_eq_getElem hj]
  simp only [Option.map_some', ne_eq, Option.some.injEq]
  rw [buildNodes_ID collection o i _ (List.getElem?_eq_getElem hi),
    buildNodes_ID collection o j _ (List.getElem?_eq_getElem hj)]
  intro h
  have := nodeID_injective h
  omega

theorem mem_order_iff (d : Diagram) (order : List String) (hv : ValidOrder d order)
    (ns : String) : ns ∈ order ↔ ∃ node ∈ d.Nodes, partitionKey node = ns := by
  rw [List.Perm.mem_iff hv, mem_keys_namespaceNodes]
  constructor
  · intro h
    obtain ⟨i, hi⟩ := List.exists_mem_of_ne_nil _ h
    obtain ⟨node, hn, hk⟩ := (mem_indicesOf d ns i).1 hi
    exact ⟨node, List.mem_iff_getElem?.2 ⟨i, hn⟩, hk⟩
  · rintro ⟨node, hn, hk⟩
    obtain ⟨i, hi⟩ := List.mem_iff_getElem?.1 hn
    exact List.ne_nil_of_mem ((mem_indicesOf d ns i).2 ⟨node, hi, hk⟩)

/-- C31: after the hierarchical or the vertical strategy with grouping has run on a
diagram whose namespace-group index was empty, with an order that visits each partition
once, the keys of the index are the partition keys of the nodes (the namespace, or
`default` for the empty namespace), each once; the group of a key has that key as Name
and, as NodeIDs, the IDs of the nodes of the partition in node-sequence order; the ID of
every node is in the group of its partition key and, the node IDs being distinct, in no
other group.  A diagram made by `convertToDiagram` has an empty index and distinct node
IDs, and each of its virtual nodes (the nodes after those of the records) has kind
VaultSecret and the partition key `vaultstore`. -/
theorem namespace_groups_partition (l : Layout) (d : Diagram) (order : List String)
    (hl : l.noNamespaces = false) (hv : ValidOrder d order) (hempty : d.Namespaces = []) :
    (∀ r, r = applyHierarchicalLayout l order d ∨ r = applyVerticalLayout l order d →
      r.Namespaces.map Prod.fst = order ∧ order.Nodup ∧
      (∀ ns, ns ∈ order ↔ ∃ node ∈ d.Nodes, partitionKey node = ns) ∧
      (∀ ns ∈ order, ∃ group, r.Namespaces.lookup ns = some group ∧ group.Name = ns ∧
        group.NodeIDs = (indicesOf d ns).map (idAt d)) ∧
      (∀ (i : Nat) node, d.Nodes[i]? = some node →
        ∃ group, r.Namespaces.lookup (partitionKey node) = some group ∧
          node.ID ∈ group.NodeIDs ∧
          ((d.Nodes.map (fun n => n.ID)).Nodup →
            ∀ ns other, r.Namespaces.lookup ns = some other → node.ID ∈ other.NodeIDs →
              ns = partitionKey node))) ∧
    (∀ (c : Converter) (collection : ResourceCollection) (o : VaultOrder),
      (convertToDiagram c collection o).Namespaces = [] ∧
      ((convertToDiagram c collection o).Nodes.map (fun n => n.ID)).Nodup ∧
      ∀ (i : Nat) node, (materialized collection).length ≤ i →
        (convertToDiagram c collection o).Nodes[i]? = some node →
        node.Kind = "VaultSecret" ∧ partitionKey node = "vaultstore") := by
  constructor
  · intro r hr
    have hnd := (validOrder_spec d order hv).1
    rcases hr with hr | hr
    · obtain ⟨h1, h2, h3⟩ := grouped_groups hierarchicalCoords hierarchicalBox 390
        (fun _ _ _ _ => ⟨rfl, rfl⟩) d order hv hempty r
        (hr.trans (applyHierarchicalLayout_grouped l d order hl hv))
      exact ⟨h1, hnd, mem_order_iff d order hv, h2, h3⟩
    · obtain ⟨h1, h2, h3⟩ := grouped_groups verticalCoords verticalBox 300
        (fun _ _ _ _ => ⟨rfl, rfl⟩) d order hv hempty r
        (hr.trans (applyVerticalLayout_grouped l d order hl hv))
      exact ⟨h1, hnd, mem_order_iff d order hv, h2, h3⟩
  · intro c collection o
    refine ⟨rfl, buildNodes_ids_nodup collection o, ?_⟩
    intro i node hi hn
    have hn2 : (buildNodes collection o)[i]? = some node := hn
    rw [buildNodes_getElem?_vault collection o i hi] at hn2
    cases hv2 : o.create[i - (materialized collection).length]? with
    | none => rw [hv2] at hn2; cases hn2
    | some v =>
      rw [hv2] at hn2
      simp only [Option.map_some', Option.some.injEq] at hn2
      subst hn2
      refine ⟨rfl, ?_⟩
      have hne : ¬ ("vaultstore" = "") := by decide
      simp only [partitionKey, vaultNode, hne, if_false]

/-- Witness of C31: the diagram of two Deployments and their two virtual secrets has
the groups `default` and `vaultstore`, and the two virtual nodes are in the second. -/
theorem namespace_groups_partition_witness :
    ((applyHierarchicalLayout (groupedLayout "hierarchical") ["vaultstore", "default"]
        (convertToDiagram exampleConverter twoSecretCollection secretAFirst)).Namespaces.map
        (fun e => (e.1, e.2.Name, e.2.NodeIDs)) =
      [("vaultstore", "vaultstore", ["node-2", "node-3"]),
       ("default", "default", ["node-0", "node-1"])]) ∧
    ∀ r, r = applyHierarchicalLayout (groupedLayout "hierarchical") ["vaultstore", "default"]
          (convertToDiagram exampleConverter twoSecretCollection secretAFirst) ∨
        r = applyVerticalLayout (groupedLayout "hierarchical") ["vaultstore", "default"]
          (convertToDiagram exampleConverter twoSecretCollection secretAFirst) →
      r.Namespaces.map Prod.fst = ["vaultstore", "default"] ∧
      ["vaultstore", "default"].Nodup ∧
      (∀ ns, ns ∈ ["vaultstore", "default"] ↔
        ∃ node ∈ (convertToDiagram exampleConverter twoSecretCollection secretAFirst).Nodes,
          partitionKey node = ns) ∧
      (∀ ns ∈ ["vaultstore", "default"], ∃ group,
        r.Namespaces.lookup ns = some group ∧ group.Name = ns ∧
        group.NodeIDs =
          (indicesOf (convertToDiagram exampleConverter twoSecretCollection secretAFirst)
            ns).map (idAt (convertToDiagram exampleConverter twoSecretCollection
              secretAFirst))) ∧
      (∀ (i : Nat) node,
        (convertToDiagram exampleConverter twoSecretCollection secretAFirst).Nodes[i]? =
          some node →
        ∃ group, r.Namespaces.lookup (partitionKey node) = some group ∧
          node.ID ∈ group.NodeIDs ∧
          (((convertToDiagram exampleConverter twoSecretCollection secretAFirst).Nodes.map
              (fun n => n.ID)).Nodup →
            ∀ ns other, r.Namespaces.lookup ns = some other → node.ID ∈ other.NodeIDs →
              ns = partitionKey node)) :=
  ⟨by decide, (namespace_groups_partition (groupedLayout "hierarchical")
    (convertToDiagram exampleConverter twoSecretCollection secretAFirst)
    ["vaultstore", "default"] rfl (show List.Perm _ _ by decide) rfl).1⟩

/-! ### Shadowing by a virtual secret -/

theorem edge_of_plain_name (c : Converter) (collection : ResourceCollection) (o : VaultOrder)
    (entry : String × List String) (he : entry ∈ collection.Dependencies) (n t s : String)
    (hn : n ∈ entry.2)
    (ht : (buildIndex collection o).resourceMap.lookup entry.1 = some t)
    (hs : serviceLookup (buildIndex collection o).resourceMap entry.1 n = none)
    (hl : (buildIndex collection o).nodeMap.lookup n = some s) (hne : s ≠ t) :
    ({ SourceID := t, TargetID := s, Label := "uses", Style := "default" } : Connection) ∈
      (convertToDiagram c collection o).Connections := by
  rw [mem_connections]
  refine ⟨entry, he, t, ht, n, hn, s, ?_, hne, rfl⟩
  simp [resolveDependency, hs, hl]

/-- C38, as the code has it: for every name `n` with the marker `vault-secret-` in a
dependency list, whether or not a record is named `n`, a VaultSecret node is created
for `n` after the nodes of the records, and the plain-name index binds `n` to the id of
a virtual slot, never to the id of a record's node; every dependency on `n` that is
resolved by plain name gives an edge to that id.  When the two traversals of the
identifier set agree, that id is the id of the node created for `n`; when they do not,
it can be the id of another virtual node: with the ConfigMap `vault-secret-a` and the
secrets `a` and `b` created in the order `a, b` and indexed in the order `b, a`, the
edge of `web-a` ends at `node-4`, the node labelled `secret/b`. -/
theorem virtual_marker_shadows :
    (∀ (c : Converter) (collection : ResourceCollection) (o : VaultOrder),
      o.Valid collection → ∀ n ∈ markerNames collection.Dependencies,
      (∃ j, o.create[j]? = some n ∧
        (convertToDiagram c collection o).Nodes[(materialized collection).length + j]? =
          some (vaultNode ((materialized collection).length + j) n)) ∧
      ∃ j, o.index[j]? = some n ∧
        (buildIndex collection o).nodeMap.lookup n =
          some (nodeID ((materialized collection).length + j)) ∧
        (∀ i r, (materialized collection)[i]? = some r →
          nodeID i ≠ nodeID ((materialized collection).length + j)) ∧
        (∀ entry ∈ collection.Dependencies, n ∈ entry.2 →
          ∀ t, (buildIndex collection o).resourceMap.lookup entry.1 = some t →
            serviceLookup (buildIndex collection o).resourceMap entry.1 n = none →
            t ≠ nodeID ((materialized collection).length + j) →
            ({ SourceID := t, TargetID := nodeID ((materialized collection).length + j),
               Label := "uses", Style := "default" } : Connection) ∈
              (convertToDiagram c collection o).Connections) ∧
        (o.create = o.index →
          (convertToDiagram c collection o).Nodes[(materialized collection).length + j]? =
            some (vaultNode ((materialized collection).length + j) n))) ∧
    (buildDependencies { Resources := shadowRecords, Dependencies := [] }).map
        (fun col => col.Dependencies) = some shadowCollection.Dependencies ∧
    secretsSwapped.Valid shadowCollection ∧
    (buildIndex shadowCollection secretsSwapped).nodeMap.lookup "vault-secret-a" =
      some "node-4" ∧
    (convertToDiagram exampleConverter shadowCollection secretsSwapped).Nodes.map
        (fun n => (n.ID, n.Kind, n.Label)) =
      [("node-0", "ConfigMap", "vault-secret-a"), ("node-1", "Deployment", "web-a"),
       ("node-2", "Deployment", "web-b"), ("node-3", "VaultSecret", "secret/a"),
       ("node-4", "VaultSecret", "secret/b")] ∧
    (convertToDiagram exampleConverter shadowCollection secretsSwapped).Connections =
      [{ SourceID := "node-1", TargetID := "node-4", Label := "uses", Style := "default" },
       { SourceID := "node-2", TargetID := "node-3", Label := "uses", Style := "default" }] ∧
    (convertToDiagram exampleConverter shadowCollection secretAFirst).Connections =
      [{ SourceID := "node-1", TargetID := "node-3", Label := "uses", Style := "default" },
       { SourceID := "node-2", TargetID := "node-4", Label := "uses", Style := "default" }] := by
  refine ⟨?_, by decide, ?_, by decide, by decide, by decide, by decide⟩
  · intro c collection o hv n hn
    have hcreate : n ∈ o.create := ((valid_create collection o hv).2.2 n).2 hn
    have hindex : n ∈ o.index := ((valid_index collection o hv).2.2 n).2 hn
    constructor
    · obtain ⟨j, hj⟩ := List.mem_iff_getElem?.1 hcreate
      exact ⟨j, hj, vault_node_at collection o j n hj⟩
    · obtain ⟨j, hj, hlook⟩ := nodeMap_lookup_vault collection o n hindex
      refine ⟨j, hj, hlook, ?_, ?_, ?_⟩
      · intro i r hi h
        have hlt := getElem?_lt_length hi
        have := nodeID_injective h
        omega
      · intro entry he hmem t ht hs hne
        exact edge_of_plain_name c collection o entry he n t _ hmem ht hs hlook
          (fun e => hne e.symm)
      · intro hsame
        exact vault_node_at collection o j n (by rw [hsame]; exact hj)
  · have hset : virtualVaultSecrets shadowCollection.Dependencies =
        ["vault-secret-a", "vault-secret-b"] := by decide
    constructor
    · show List.Perm _ (virtualVaultSecrets shadowCollection.Dependencies)
      rw [hset]; exact List.Perm.refl _
    · show List.Perm _ (virtualVaultSecrets shadowCollection.Dependencies)
      rw [hset]; exact List.Perm.swap _ _ _

/-! ### Records that share a kind/name key -/

theorem lookup_enum_last {α : Type} (f : α → String) (k0 : Nat) (key : String) :
    ∀ (xs : List α) (i : Nat) (x : α), xs[i]? = some x → f x = key →
      (∀ i2 x2, i < i2 → xs[i2]? = some x2 → f x2 ≠ key) →
      (((xs.enumFrom k0).map (fun p => (f p.2, nodeID p.1))).reverse).lookup key =
        some (nodeID (k0 + i)) := by
  intro xs
  induction xs using List.reverseRecOn with
  | nil => intro i x h; simp at h
  | append_singleton ys y ih =>
    intro i x hi hx hlast
    have henum : (ys ++ [y]).enumFrom k0 = ys.enumFrom k0 ++ [(k0 + ys.length, y)] := by
      rw [List.enumFrom_append]; rfl
    rw [henum, List.map_append, List.reverse_append]
    simp only [List.map_cons, List.map_nil, List.reverse_cons, List.reverse_nil,
      List.nil_append, List.singleton_append, List.lookup_cons]
    rcases Nat.lt_or_ge i ys.length with hlt | hge
    · have hy : f y ≠ key :=
        hlast ys.length y hlt (by simp)
      have hb : (key == f y) = false := by simpa using (fun e : key = f y => hy e.symm)
      rw [hb]
      apply ih i x (by rw [List.getElem?_append_left hlt] at hi; exact hi) hx
      intro i2 x2 h2 hx2
      have hlt2 : i2 < ys.length := getElem?_lt_length hx2
      exact hlast i2 x2 h2 (by rw [List.getElem?_append_left hlt2]; exact hx2)
    · have hlen := getElem?_lt_length hi
      simp only [List.length_append, List.length_singleton] at hlen
      have hieq : i = ys.length := by omega
      subst hieq
      simp only [List.getElem?_concat_length, Option.some.injEq] at hi
      subst hi
      have hb : (key == f y) = true := by simpa using hx.symm
      rw [hb]

theorem resourceMap_lookup_last (collection : ResourceCollection) (o : VaultOrder)
    (k : String) (hvault : ∀ v ∈ o.index, compositeKey "VaultSecret" v ≠ k)
    (i : Nat) (r : K8sResource) (hi : (materialized collection)[i]? = some r)
    (hk : compositeKey r.Kind r.Name = k)
    (hlast : ∀ i2 r2, i < i2 → (materialized collection)[i2]? = some r2 →
      compositeKey r2.Kind r2.Name ≠ k) :
    (buildIndex collection o).resourceMap.lookup k = some (nodeID i) := by
  rw [buildIndex_resourceMap, lookup_append_eq,
    lookup_enum_none (fun x : String => compositeKey "VaultSecret" x) _ o.index k hvault,
    realIndex_resourceMap]
  have := lookup_enum_last (fun r : K8sResource => compositeKey r.Kind r.Name) 0 k
    (materialized collection) i r hi hk hlast
  simpa using this

theorem recognized_no_slash (kind : String) (h : kind ∈ recognizedKinds) :
    '/' ∉ kind.data ∧ kind ≠ "VaultSecret" := by
  simp only [recognizedKinds, List.mem_cons, List.mem_singleton, List.mem_nil_iff,
    or_false] at h
  rcases h with h | h | h | h | h | h | h | h | h | h <;> subst h <;> decide

theorem lookup_mapSet (m : List (String × List String)) (key : String) (value : List String)
    (k : String) :
    (mapSet m key value).lookup k = if k = key then some value else m.lookup k :=
  lookup_mapPut m key value k

theorem nodup_keys_mapSet (m : List (String × List String)) (key : String)
    (value : List String) (h : (m.map Prod.fst).Nodup) :
    ((mapSet m key value).map Prod.fst).Nodup :=
  nodup_keys_mapPut m key value h

theorem buildDependencies_loop_nodup (allResources : List K8sResource) :
    ∀ (rs : List K8sResource) (deps result : List (String × List String)),
      (deps.map Prod.fst).Nodup →
      rs.foldl (buildDependenciesStep allResources) (some deps) = some result →
      (result.map Prod.fst).Nodup := by
  intro rs
  induction rs with
  | nil =>
    intro deps result hnd h
    simp only [List.foldl_nil, Option.some.injEq] at h
    subst h; exact hnd
  | cons r rs ih =>
    intro deps result hnd h
    rw [List.foldl_cons] at h
    cases hf : findDependencies r allResources with
    | none =>
      have hstep : buildDependenciesStep allResources (some deps) r = none := by
        simp [buildDependenciesStep, hf]
      rw [hstep, foldl_buildDependenciesStep_none] at h
      cases h
    | some ds =>
      by_cases hlen : ds.length > 0
      · have hstep : buildDependenciesStep allResources (some deps) r =
            some (mapSet deps (compositeKey r.Kind r.Name) ds) := by
          simp [buildDependenciesStep, hf, hlen]
        rw [hstep] at h
        exact ih _ result (nodup_keys_mapSet _ _ _ hnd) h
      · have hstep : buildDependenciesStep allResources (some deps) r = some deps := by
          simp [buildDependenciesStep, hf, hlen]
        rw [hstep] at h
        exact ih _ result hnd h

theorem buildDependencies_loop_keep (allResources : List K8sResource) (k : String) :
    ∀ (rs : List K8sResource) (deps result : List (String × List String)),
      (∀ r ∈ rs, compositeKey r.Kind r.Name = k →
        findDependencies r allResources = some []) →
      rs.foldl (buildDependenciesStep allResources) (some deps) = some result →
      result.lookup k = deps.lookup k := by
  intro rs
  induction rs with
  | nil =>
    intro deps result _ h
    simp only [List.foldl_nil, Option.some.injEq] at h
    subst h; rfl
  | cons r rs ih =>
    intro deps result hkeep h
    rw [List.foldl_cons] at h
    have hrest : ∀ r2 ∈ rs, compositeKey r2.Kind r2.Name = k →
        findDependencies r2 allResources = some [] :=
      fun r2 h2 => hkeep r2 (List.mem_cons_of_mem _ h2)
    cases hf : findDependencies r allResources with
    | none =>
      have hstep : buildDependenciesStep allResources (some deps) r = none := by
        simp [buildDependenciesStep, hf]
      rw [hstep, foldl_buildDependenciesStep_none] at h
      cases h
    | some ds =>
      by_cases hlen : ds.length > 0
      · have hstep : buildDependenciesStep allResources (some deps) r =
            some (mapSet deps (compositeKey r.Kind r.Name) ds) := by
          simp [buildDependenciesStep, hf, hlen]
        rw [hstep] at h
        rw [ih _ result hrest h, lookup_mapSet]
        have hne : k ≠ compositeKey r.Kind r.Name := by
          intro e
          have := hkeep r (List.mem_cons_self _ _) e.symm
          rw [hf] at this
          simp only [Option.some.injEq] at this
          subst this
          simp at hlen
        rw [if_neg hne]
      · have hstep : buildDependenciesStep allResources (some deps) r = some deps := by
          simp [buildDependenciesStep, hf, hlen]
        rw [hstep] at h
        exact ih _ result hrest h

theorem buildDependencies_loop_last (allResources : List K8sResource) :
    ∀ (pre : List K8sResource) (r : K8sResource) (post : List K8sResource)
      (deps result : List (String × List String)) (ds : List String),
      findDependencies r allResources = some ds → ds ≠ [] →
      (∀ r2 ∈ post, compositeKey r2.Kind r2.Name = compositeKey r.Kind r.Name →
        findDependencies r2 allResources = some []) →
      (pre ++ r :: post).foldl (buildDependenciesStep allResources) (some deps) =
        some result →
      result.lookup (compositeKey r.Kind r.Name) = some ds := by
  intro pre r post deps result ds hf hne hpost h
  rw [List.foldl_append, List.foldl_cons] at h
  cases hpre : pre.foldl (buildDependenciesStep allResources) (some deps) with
  | none =>
    rw [hpre] at h
    have : buildDependenciesStep allResources none r = none := rfl
    rw [this, foldl_buildDependenciesStep_none] at h
    cases h
  | some mid =>
    rw [hpre] at h
    have hlen : ds.length > 0 := List.length_pos.2 hne
    have hstep : buildDependenciesStep allResources (some mid) r =
        some (mapSet mid (compositeKey r.Kind r.Name) ds) := by
      simp [buildDependenciesStep, hf, hlen]
    rw [hstep] at h
    rw [buildDependencies_loop_keep allResources _ post _ result hpost h, lookup_mapSet,
      if_pos rfl]

theorem buildDependencies_some (c result : ResourceCollection)
    (hb : buildDependencies c = some result) :
    result.Resources = c.Resources ∧
    c.Resources.foldl (buildDependenciesStep c.Resources) (some c.Dependencies) =
      some result.Dependencies := by
  unfold buildDependencies at hb
  cases hf : c.Resources.foldl (buildDependenciesStep c.Resources) (some c.Dependencies) with
  | none => rw [hf] at hb; cases hb
  | some deps =>
    rw [hf] at hb
    simp only [Option.some.injEq] at hb
    subst hb
    exact ⟨rfl, rfl⟩

theorem built_key_not_vault (c result : ResourceCollection)
    (hb : buildDependencies c = some result) (hd : c.Dependencies = [])
    (entry : String × List String) (he : entry ∈ result.Dependencies) (v : String) :
    compositeKey "VaultSecret" v ≠ entry.1 := by
  obtain ⟨-, hfold⟩ := buildDependencies_some c result hb
  have hkey : entry.1 ∈ result.Dependencies.map Prod.fst := List.mem_map.2 ⟨entry, he, rfl⟩
  rcases keys_of_buildDependencies_loop c.Resources c.Resources c.Dependencies
      result.Dependencies hfold entry.1 hkey with h | ⟨r, -, hrec, hk⟩
  · rw [hd] at h; simp at h
  · intro e
    obtain ⟨hslash, hne⟩ := recognized_no_slash r.Kind hrec
    rw [hk] at e
    exact hne (compositeKey_kind_unique _ _ _ _ (by decide) hslash e).symm

/-- C39: the namespace is not part of the kind/name key.  After `buildDependencies`, the
dependency map has one entry per key, and the entry of a key is the list of the last
record with that key whose list is not empty.  When two records that get a node have
the same key (as two records of the same kind and name in different namespaces have),
each has its own node; every edge made from an entry with that key has as SourceID the
node of the last record with the key, and the node of the earlier record is the source
of no edge. -/
theorem namespace_ignored_by_key (cv : Converter) (c result : ResourceCollection)
    (o : VaultOrder) (hb : buildDependencies c = some result) (hd : c.Dependencies = []) :
    (result.Dependencies.map Prod.fst).Nodup ∧
    (∀ pre r post ds, c.Resources = pre ++ r :: post →
      findDependencies r c.Resources = some ds → ds ≠ [] →
      (∀ r2 ∈ post, compositeKey r2.Kind r2.Name = compositeKey r.Kind r.Name →
        findDependencies r2 c.Resources = some []) →
      result.Dependencies.lookup (compositeKey r.Kind r.Name) = some ds) ∧
    (∀ (e i : Nat) re ri, e < i → (materialized result)[e]? = some re →
      (materialized result)[i]? = some ri →
      compositeKey re.Kind re.Name = compositeKey ri.Kind ri.Name →
      (∀ i2 r2, i < i2 → (materialized result)[i2]? = some r2 →
        compositeKey r2.Kind r2.Name ≠ compositeKey ri.Kind ri.Name) →
      (∃ ne ni, (convertToDiagram cv result o).Nodes[e]? = some ne ∧ ne.ID = nodeID e ∧
        ne.Namespace = re.Namespace ∧
        (convertToDiagram cv result o).Nodes[i]? = some ni ∧ ni.ID = nodeID i ∧
        ni.Namespace = ri.Namespace ∧ ne.ID ≠ ni.ID) ∧
      (∀ entry ∈ result.Dependencies, entry.1 = compositeKey ri.Kind ri.Name →
        ∀ conn ∈ edgesOfEntry (buildIndex result o).nodeMap (buildIndex result o).resourceMap
            entry, conn.SourceID = nodeID i) ∧
      (∀ conn ∈ (convertToDiagram cv result o).Connections, conn.SourceID ≠ nodeID e)) := by
  obtain ⟨-, hfold⟩ := buildDependencies_some c result hb
  refine ⟨?_, ?_, ?_⟩
  · exact buildDependencies_loop_nodup c.Resources c.Resources c.Dependencies
      result.Dependencies (by rw [hd]; exact List.nodup_nil) hfold
  · intro pre r post ds hres hf hne hpost
    have h3 : (pre ++ r :: post).foldl (buildDependenciesStep c.Resources)
        (some c.Dependencies) = some result.Dependencies := by rw [← hres]; exact hfold
    exact buildDependencies_loop_last c.Resources pre r post _ _ ds hf hne hpost h3
  · intro e i re ri hei hre hri hkey hlast
    have hlookup : ∀ entry ∈ result.Dependencies, entry.1 = compositeKey ri.Kind ri.Name →
        (buildIndex result o).resourceMap.lookup entry.1 = some (nodeID i) := by
      intro entry he hk
      apply resourceMap_lookup_last result o entry.1
        (fun v _ => built_key_not_vault c result hb hd entry he v) i ri hri hk.symm
      intro i2 r2 h2 hr2
      rw [hk]
      exact hlast i2 r2 h2 hr2
    refine ⟨?_, ?_, ?_⟩
    · refine ⟨resourceNode e re, resourceNode i ri,
        buildNodes_getElem?_real result o e re hre, rfl, rfl,
        buildNodes_getElem?_real result o i ri hri, rfl, rfl, ?_⟩
      intro h
      have := nodeID_injective h
      omega
    · intro entry he hk conn hconn
      obtain ⟨t, ht, d, _, s, _, _, hc⟩ := (mem_edgesOfEntry _ _ _ _).1 hconn
      rw [hlookup entry he hk] at ht
      cases ht
      rw [hc]
    · intro conn hconn hsrc
      obtain ⟨entry, he, t, ht, d, _, s, _, _, hc⟩ := (mem_connections cv result o conn).1 hconn
      have hte : t = nodeID e := by rw [← hsrc, hc]
      obtain ⟨i0, hi0, hcase⟩ := resourceMap_lookup_some result o entry.1 t ht
      have hie : i0 = e := nodeID_injective (hi0.symm.trans hte)
      subst hie
      rcases hcase with ⟨r0, hr0, hk0⟩ | ⟨hle, -⟩
      · rw [hre] at hr0
        cases hr0
        have hk : entry.1 = compositeKey ri.Kind ri.Name := by rw [← hk0, hkey]
        rw [hlookup entry he hk] at ht
        have hti : nodeID i = nodeID i0 := (Option.some.inj ht).trans hte
        have := nodeID_injective hti
        omega
      · have := getElem?_lt_length hre
        omega

/-- Witness of C39: two Deployments `web` in the namespaces `a` and `b`; the dependency
map has the one entry `Deployment/web` with the list of the second, and the only edge
starts at `node-1`, the node of the second. -/
theorem namespace_ignored_by_key_witness :
    ((buildDependencies { Resources := twinRecords, Dependencies := [] }).map
        (fun col => col.Dependencies) = some [("Deployment/web", ["cm-b"])] ∧
     (convertToDiagram exampleConverter twinCollection noVaultOrder).Nodes.map
        (fun n => (n.ID, n.Label, n.Namespace)) =
      [("node-0", "web", "a"), ("node-1", "web", "b"), ("node-2", "cm-a", ""),
       ("node-3", "cm-b", "")] ∧
     (convertToDiagram exampleConverter twinCollection noVaultOrder).Connections =
      [{ SourceID := "node-1", TargetID := "node-3", Label := "uses", Style := "default" }]) ∧
    (twinCollection.Dependencies.map Prod.fst).Nodup :=
  ⟨by decide, (namespace_ignored_by_key exampleConverter
    { Resources := twinRecords, Dependencies := [] } twinCollection noVaultOrder rfl rfl).1⟩

/-! ### The order of a `range` over a map -/

theorem foldl_enumFrom_snd {α β : Type} (f : β → α → β) (xs : List α) :
    ∀ (n : Nat) (init : β),
      (xs.enumFrom n).foldl (fun acc e => f acc e.2) init = xs.foldl f init := by
  induction xs with
  | nil => intro n init; rfl
  | cons x xs ih => intro n init; simp only [List.enumFrom, List.foldl_cons]; exact ih _ _

theorem findDependenciesUnder_listOrder (i : Nat) (resource : K8sResource)
    (allResources : List K8sResource) :
    findDependenciesUnder listOrder i resource allResources =
      findDependencies resource allResources := by
  unfold findDependenciesUnder findDependencies findBankVaultsDependencies
    findBankVaultsTemplateAnnotations
  simp only [listOrder, List.enum]
  simp only [foldl_enumFrom_snd (serviceStep _), foldl_enumFrom_snd (serviceMonitorStep _)]

theorem buildDependenciesUnder_listOrder (collection : ResourceCollection) :
    buildDependenciesUnder listOrder collection = buildDependencies collection := by
  unfold buildDependenciesUnder buildDependencies
  have h : ∀ (all rs : List K8sResource) (n : Nat) (init : Option (List (String × List String))),
      (rs.enumFrom n).foldl (buildDependenciesStepUnder listOrder all) init =
        rs.foldl (buildDependenciesStep all) init := by
    intro all rs
    induction rs with
    | nil => intro n init; rfl
    | cons r rs ih =>
      intro n init
      simp only [List.enumFrom, List.foldl_cons]
      rw [ih]
      congr 1
      unfold buildDependenciesStepUnder buildDependenciesStep
      simp only [findDependenciesUnder_listOrder]
  rw [List.enum, h]

theorem listOrder_valid : listOrder.Valid :=
  ⟨fun _ _ _ => List.Perm.refl _, fun _ _ _ => List.Perm.refl _,
    fun _ _ => List.Perm.refl _, fun _ _ => List.Perm.refl _⟩

theorem reverseOrder_valid : reverseOrder.Valid :=
  ⟨fun _ _ m => List.reverse_perm m, fun _ _ m => List.reverse_perm m,
    fun _ m => List.reverse_perm m, fun _ m => List.reverse_perm m⟩

/-- The loop of `matchesSelector` returns `true` exactly when every selector entry has
a label that compares equal without a panic. -/
theorem selectorLoop_true_iff (labels : List (String × JVal)) :
    ∀ selector : List (String × JVal),
      selectorLoop labels selector = some true ↔
        ∀ e ∈ selector, ∃ lv, labels.lookup e.1 = some lv ∧ ifaceNe lv e.2 = some false := by
  intro selector
  induction selector with
  | nil => simp [selectorLoop]
  | cons e rest ih =>
    obtain ⟨key, value⟩ := e
    simp only [selectorLoop, List.mem_cons, forall_eq_or_imp]
    cases hl : labels.lookup key with
    | none => simp
    | some lv =>
      cases hn : ifaceNe lv value with
      | none => simp [hn]
      | some b =>
        cases b with
        | true => simp [hn]
        | false => simp [hn, ih]

/-- When the loop returns `false`, an entry has no label or a label that differs. -/
theorem selectorLoop_false (labels : List (String × JVal)) :
    ∀ selector : List (String × JVal), selectorLoop labels selector = some false →
      ∃ e ∈ selector, ¬ ∃ lv, labels.lookup e.1 = some lv ∧ ifaceNe lv e.2 = some false := by
  intro selector
  induction selector with
  | nil => simp [selectorLoop]
  | cons e rest ih =>
    obtain ⟨key, value⟩ := e
    intro h
    simp only [selectorLoop] at h
    cases hl : labels.lookup key with
    | none => exact ⟨(key, value), List.mem_cons_self _ _, by simp [hl]⟩
    | some lv =>
      cases hn : ifaceNe lv value with
      | none => simp [hl, hn] at h
      | some b =>
        cases b with
        | true => exact ⟨(key, value), List.mem_cons_self _ _, by simp [hl, hn]⟩
        | false =>
          simp only [hl, hn] at h
          obtain ⟨e, he, hne⟩ := ih h
          exact ⟨e, List.mem_cons_of_mem _ he, hne⟩

/-- Two visits of the same selector that both end without a panic give the same
answer. -/
theorem selectorLoop_perm (labels : List (String × JVal))
    {selector selector' : List (String × JVal)} (hp : selector'.Perm selector) {b b' : Bool}
    (h : selectorLoop labels selector = some b)
    (h' : selectorLoop labels selector' = some b') : b = b' := by
  cases b with
  | true =>
    cases b' with
    | true => rfl
    | false =>
      obtain ⟨e, he, hne⟩ := selectorLoop_false labels selector' h'
      exact absurd ((selectorLoop_true_iff labels selector).1 h e (hp.mem_iff.1 he)) hne
  | false =>
    cases b' with
    | false => rfl
    | true =>
      obtain ⟨e, he, hne⟩ := selectorLoop_false labels selector h
      exact absurd ((selectorLoop_true_iff labels selector').1 h' e (hp.mem_iff.2 he)) hne

theorem matchesSelector_perm (resource : K8sResource)
    {selector selector' : List (String × JVal)} (hp : selector'.Perm selector) {b b' : Bool}
    (h : matchesSelector resource selector = some b)
    (h' : matchesSelector resource selector' = some b') : b = b' := by
  unfold matchesSelector at h h'
  split at h
  · rw [if_pos (by assumption)] at h'
    exact Option.some.inj (h.symm.trans h')
  · rw [if_neg (by assumption)] at h'
    cases hl : nestedMap resource.Object ["spec", "template", "metadata", "labels"] with
    | none =>
      simp only [hl] at h h'
      exact Option.some.inj (h.symm.trans h')
    | some labels =>
      simp only [hl] at h h'
      exact selectorLoop_perm labels hp h h'

theorem foldl_serviceStep_none {ι : Type} (sel : ι → List (String × JVal))
    (rs : List (ι × K8sResource)) :
    rs.foldl (fun dependencies other => serviceStep (sel other.1) dependencies other.2) none =
      none := by
  induction rs with
  | nil => rfl
  | cons r rs ih => simp only [List.foldl_cons, serviceStep]; exact ih

/-- The loop of the `Service` case: two runs that visit the selector in their own
orders, call by call, and both end without a panic give the same names. -/
theorem foldl_serviceStep_perm {ι : Type} (sel sel' : ι → List (String × JVal))
    (hp : ∀ j, (sel' j).Perm (sel j)) (rs : List (ι × K8sResource)) :
    ∀ (acc out out' : List String),
      rs.foldl (fun dependencies other => serviceStep (sel other.1) dependencies other.2)
        (some acc) = some out →
      rs.foldl (fun dependencies other => serviceStep (sel' other.1) dependencies other.2)
        (some acc) = some out' →
      out = out' := by
  induction rs with
  | nil =>
    intro acc out out' h h'
    simp only [List.foldl_nil, Option.some.injEq] at h h'
    rw [← h, ← h']
  | cons r rs ih =>
    intro acc out out' h h'
    simp only [List.foldl_cons] at h h'
    cases hm : matchesSelector r.2 (sel r.1) with
    | none =>
      have hs : serviceStep (sel r.1) (some acc) r.2 = none := by simp [serviceStep, hm]
      rw [hs, foldl_serviceStep_none] at h
      cases h
    | some b =>
      cases hm' : matchesSelector r.2 (sel' r.1) with
      | none =>
        have hs : serviceStep (sel' r.1) (some acc) r.2 = none := by simp [serviceStep, hm']
        rw [hs, foldl_serviceStep_none] at h'
        cases h'
      | some b' =>
        have hb : b = b' := matchesSelector_perm r.2 (hp r.1) hm hm'
        subst hb
        have hs : serviceStep (sel r.1) (some acc) r.2 =
            serviceStep (sel' r.1) (some acc) r.2 := by
          simp only [serviceStep, hm, hm']
        rw [hs] at h
        cases hstep : serviceStep (sel' r.1) (some acc) r.2 with
        | none =>
          rw [hstep, foldl_serviceStep_none] at h
          cases h
        | some acc' =>
          rw [hstep] at h h'
          exact ih acc' out out' h h'

theorem monitorSelects_perm {matchLabels matchLabels' : List (String × JVal)}
    (hp : matchLabels'.Perm matchLabels) (resource : K8sResource) :
    monitorSelects matchLabels' resource = monitorSelects matchLabels resource := by
  unfold monitorSelects
  cases nestedStringMap resource.Object ["metadata", "labels"] with
  | none => rfl
  | some labels =>
    simp only []
    congr 1
    rw [Bool.eq_iff_iff, List.all_eq_true, List.all_eq_true]
    exact ⟨fun h e he => h e (hp.mem_iff.2 he), fun h e he => h e (hp.mem_iff.1 he)⟩

theorem serviceMonitorStep_perm {matchLabels matchLabels' : List (String × JVal)}
    (hp : matchLabels'.Perm matchLabels) (acc : List String) (resource : K8sResource) :
    serviceMonitorStep matchLabels' acc resource =
      serviceMonitorStep matchLabels acc resource := by
  rw [serviceMonitorStep_eq, serviceMonitorStep_eq, monitorSelects_perm hp]

theorem foldl_bankVaultsStep_perm {annotations annotations' : List (String × String)}
    (hp : annotations'.Perm annotations) :
    (annotations'.foldl bankVaultsStep []).Perm (annotations.foldl bankVaultsStep []) := by
  rw [foldl_append_flatMap bankVaultsStep _ bankVaultsStep_eq,
    foldl_append_flatMap bankVaultsStep _ bankVaultsStep_eq]
  exact hp.flatMap_right _

theorem foldl_bankVaultsTemplateStep_perm {annotations annotations' : List (String × String)}
    (hp : annotations'.Perm annotations) :
    (annotations'.foldl bankVaultsTemplateStep []).Perm
      (annotations.foldl bankVaultsTemplateStep []) := by
  rw [foldl_append_flatMap bankVaultsTemplateStep _ bankVaultsTemplateStep_eq,
    foldl_append_flatMap bankVaultsTemplateStep _ bankVaultsTemplateStep_eq]
  exact hp.flatMap_right _

/-- One call of `findDependencies`: two runs that range over the maps in their own
orders and both end without a panic give the same names, up to their order. -/
theorem findDependenciesUnder_perm (ranges ranges' : RangeOrder) (hr : ranges.Valid)
    (hr' : ranges'.Valid) (i : Nat) (resource : K8sResource)
    (allResources : List K8sResource) {ds ds' : List String}
    (h : findDependenciesUnder ranges i resource allResources = some ds)
    (h' : findDependenciesUnder ranges' i resource allResources = some ds') :
    ds.Perm ds' := by
  obtain ⟨hs, hm, ha, ht⟩ := hr
  obtain ⟨hs', hm', ha', ht'⟩ := hr'
  unfold findDependenciesUnder at h h'
  by_cases h1 : resource.Kind = "Service"
  · rw [if_pos h1] at h h'
    cases hsel : nestedMap resource.Object ["spec", "selector"] with
    | none =>
      simp only [hsel, Option.some.injEq] at h h'
      rw [← h, ← h']
    | some selector =>
      simp only [hsel] at h h'
      have e := foldl_serviceStep_perm (fun j => ranges.selector i j selector)
        (fun j => ranges'.selector i j selector)
        (fun j => (hs' i j selector).trans (hs i j selector).symm) allResources.enum
        [] ds ds' h h'
      rw [e]
  · rw [if_neg h1] at h h'
    by_cases h2 : resource.Kind = "Ingress"
    · rw [if_pos h2] at h h'
      exact List.Perm.of_eq (Option.some.inj (h.symm.trans h'))
    · rw [if_neg h2] at h h'
      by_cases h3 : resource.Kind = "Route"
      · rw [if_pos h3] at h h'
        exact List.Perm.of_eq (Option.some.inj (h.symm.trans h'))
      · rw [if_neg h3] at h h'
        by_cases h4 : resource.Kind = "ServiceMonitor"
        · rw [if_pos h4] at h h'
          cases hsel : nestedMap resource.Object ["spec", "selector"] with
          | none =>
            simp only [hsel, Option.some.injEq] at h h'
            rw [← h, ← h']
          | some selector =>
            cases hml : nestedMap selector ["matchLabels"] with
            | none =>
              simp only [hsel, hml, Option.some.injEq] at h h'
              rw [← h, ← h']
            | some matchLabels =>
              simp only [hsel, hml, Option.some.injEq] at h h'
              rw [← h, ← h']
              simp only [serviceMonitorStep_perm (hm i _ matchLabels),
                serviceMonitorStep_perm (hm' i _ matchLabels)]
              exact List.Perm.refl _
        · rw [if_neg h4] at h h'
          by_cases h5 : resource.Kind = "Deployment" ∨ resource.Kind = "StatefulSet" ∨
              resource.Kind = "DaemonSet"
          · rw [if_pos h5] at h h'
            simp only [Option.some.injEq] at h h'
            rw [← h, ← h']
            refine List.Perm.append (List.Perm.append (List.Perm.refl _) ?_) ?_
            · exact (foldl_bankVaultsStep_perm (ha i _)).trans
                (foldl_bankVaultsStep_perm (ha' i _)).symm
            · cases nestedStringMap resource.Object
                  ["spec", "template", "metadata", "annotations"] with
              | none => exact List.Perm.refl _
              | some annotations =>
                exact (foldl_bankVaultsTemplateStep_perm (ht i _)).trans
                  (foldl_bankVaultsTemplateStep_perm (ht' i _)).symm
          · rw [if_neg h5] at h h'
            exact List.Perm.of_eq (Option.some.inj (h.symm.trans h'))

theorem mapSet_forall₂ {a b : List (String × List String)}
    (h : List.Forall₂ (fun e e' : String × List String => e.1 = e'.1 ∧ e.2.Perm e'.2) a b)
    (key : String) {ds ds' : List String} (hp : ds.Perm ds') :
    List.Forall₂ (fun e e' : String × List String => e.1 = e'.1 ∧ e.2.Perm e'.2)
      (mapSet a key ds) (mapSet b key ds') := by
  have hany : a.any (fun e => e.1 == key) = b.any (fun e => e.1 == key) := by
    induction h with
    | nil => rfl
    | cons hxy _ ih => simp only [List.any_cons, ih, hxy.1]
  unfold mapSet
  rw [hany]
  split
  · rw [List.forall₂_map_left_iff, List.forall₂_map_right_iff]
    refine h.imp ?_
    intro e e' hee
    rw [hee.1]
    split
    · exact ⟨rfl, hp⟩
    · exact ⟨hee.1, hee.2⟩
  · exact List.rel_append h (List.Forall₂.cons ⟨rfl, hp⟩ List.Forall₂.nil)

theorem foldl_buildDependenciesStepUnder_none (ranges : RangeOrder)
    (all : List K8sResource) (rs : List (Nat × K8sResource)) :
    rs.foldl (buildDependenciesStepUnder ranges all) none = none := by
  induction rs with
  | nil => rfl
  | cons r rs ih => simp only [List.foldl_cons, buildDependenciesStepUnder]; exact ih

/-- The loop of `buildDependencies`: two runs that range over the maps in their own
orders and both end without a panic write the same keys in the same order, each with
the same names up to their order. -/
theorem foldl_buildDependenciesStepUnder_perm (ranges ranges' : RangeOrder)
    (hr : ranges.Valid) (hr' : ranges'.Valid) (all : List K8sResource)
    (rs : List (Nat × K8sResource)) :
    ∀ (a b out out' : List (String × List String)),
      List.Forall₂ (fun e e' : String × List String => e.1 = e'.1 ∧ e.2.Perm e'.2) a b →
      rs.foldl (buildDependenciesStepUnder ranges all) (some a) = some out →
      rs.foldl (buildDependenciesStepUnder ranges' all) (some b) = some out' →
      List.Forall₂ (fun e e' : String × List String => e.1 = e'.1 ∧ e.2.Perm e'.2)
        out out' := by
  induction rs with
  | nil =>
    intro a b out out' hab h h'
    simp only [List.foldl_nil, Option.some.injEq] at h h'
    rw [← h, ← h']
    exact hab
  | cons r rs ih =>
    intro a b out out' hab h h'
    simp only [List.foldl_cons] at h h'
    cases hf : findDependenciesUnder ranges r.1 r.2 all with
    | none =>
      have hs : buildDependenciesStepUnder ranges all (some a) r = none := by
        simp [buildDependenciesStepUnder, hf]
      rw [hs, foldl_buildDependenciesStepUnder_none] at h
      cases h
    | some ds =>
      cases hf' : findDependenciesUnder ranges' r.1 r.2 all with
      | none =>
        have hs : buildDependenciesStepUnder ranges' all (some b) r = none := by
          simp [buildDependenciesStepUnder, hf']
        rw [hs, foldl_buildDependenciesStepUnder_none] at h'
        cases h'
      | some ds' =>
        have hp : ds.Perm ds' := findDependenciesUnder_perm ranges ranges' hr hr' r.1 r.2 all
          hf hf'
        by_cases hlen : ds.length > 0
        · have hlen' : ds'.length > 0 := by rw [← hp.length_eq]; exact hlen
          have hs : buildDependenciesStepUnder ranges all (some a) r =
              some (mapSet a (compositeKey r.2.Kind r.2.Name) ds) := by
            simp only [buildDependenciesStepUnder, hf, if_pos hlen]
          have hs' : buildDependenciesStepUnder ranges' all (some b) r =
              some (mapSet b (compositeKey r.2.Kind r.2.Name) ds') := by
            simp only [buildDependenciesStepUnder, hf', if_pos hlen']
          rw [hs] at h
          rw [hs'] at h'
          exact ih _ _ out out' (mapSet_forall₂ hab _ hp) h h'
        · have hlen' : ¬ ds'.length > 0 := by rw [← hp.length_eq]; exact hlen
          have hs : buildDependenciesStepUnder ranges all (some a) r = some a := by
            simp only [buildDependenciesStepUnder, hf, if_neg hlen]
          have hs' : buildDependenciesStepUnder ranges' all (some b) r = some b := by
            simp only [buildDependenciesStepUnder, hf', if_neg hlen']
          rw [hs] at h
          rw [hs'] at h'
          exact ih _ _ out out' hab h h'

theorem samePairs_of_forall₂ {a b : List (String × List String)}
    (h : List.Forall₂ (fun e e' : String × List String => e.1 = e'.1 ∧ e.2.Perm e'.2) a b) :
    SamePairs a b := by
  intro K d
  induction h with
  | nil => simp
  | cons hxy _ ih =>
    rename_i x y xs ys _
    obtain ⟨k, ds⟩ := x
    obtain ⟨k', ds'⟩ := y
    obtain ⟨hk, hp⟩ := hxy
    simp only at hk hp
    subst hk
    constructor
    · rintro ⟨ds0, hmem, hd⟩
      rcases List.mem_cons.1 hmem with he | he
      · cases he
        exact ⟨ds', List.mem_cons_self _ _, hp.mem_iff.1 hd⟩
      · obtain ⟨ds1, h1, h2⟩ := ih.1 ⟨ds0, he, hd⟩
        exact ⟨ds1, List.mem_cons_of_mem _ h1, h2⟩
    · rintro ⟨ds0, hmem, hd⟩
      rcases List.mem_cons.1 hmem with he | he
      · cases he
        exact ⟨ds, List.mem_cons_self _ _, hp.mem_iff.2 hd⟩
      · obtain ⟨ds1, h1, h2⟩ := ih.2 ⟨ds0, he, hd⟩
        exact ⟨ds1, List.mem_cons_of_mem _ h1, h2⟩

theorem samePairs_of_perm {deps deps' : List (String × List String)}
    (hperm : deps'.Perm deps) : SamePairs deps deps' := by
  intro K d
  constructor
  · rintro ⟨ds, he, hd⟩; exact ⟨ds, hperm.mem_iff.2 he, hd⟩
  · rintro ⟨ds, he, hd⟩; exact ⟨ds, hperm.mem_iff.1 he, hd⟩

/-- Two runs of `buildDependencies` on the same records that both end without a panic
give dependency maps with the same (key, name) pairs, and so does any order in which
these maps are ranged over afterwards. -/
theorem buildDependenciesUnder_samePairs (records : List K8sResource)
    (ranges ranges' : RangeOrder) (built built' : ResourceCollection)
    (deps deps' : List (String × List String)) (hr : ranges.Valid) (hr' : ranges'.Valid)
    (hb : buildDependenciesUnder ranges { Resources := records, Dependencies := [] } =
      some built)
    (hb' : buildDependenciesUnder ranges' { Resources := records, Dependencies := [] } =
      some built')
    (hd : deps.Perm built.Dependencies) (hd' : deps'.Perm built'.Dependencies) :
    SamePairs deps deps' := by
  unfold buildDependenciesUnder at hb hb'
  simp only at hb hb'
  cases h : records.enum.foldl (buildDependenciesStepUnder ranges records) (some []) with
  | none => rw [h] at hb; cases hb
  | some out =>
    cases h' : records.enum.foldl (buildDependenciesStepUnder ranges' records) (some []) with
    | none => rw [h'] at hb'; cases hb'
    | some out' =>
      rw [h] at hb
      rw [h'] at hb'
      simp only [Option.some.injEq] at hb hb'
      subst hb
      subst hb'
      have hrel := foldl_buildDependenciesStepUnder_perm ranges ranges' hr hr' records
        records.enum [] [] out out' List.Forall₂.nil h h'
      have h1 := samePairs_of_forall₂ hrel
      have h2 : SamePairs deps out := fun K d => ((samePairs_of_perm hd) K d).symm
      have h3 : SamePairs out' deps' := samePairs_of_perm hd'
      exact fun K d => ((h2 K d).trans (h1 K d)).trans (h3 K d)

theorem valid_unique (collection : ResourceCollection) (o₁ o₂ : VaultOrder)
    (hlen : (markerNames collection.Dependencies).dedup.length ≤ 1)
    (hv₁ : o₁.Valid collection) (hv₂ : o₂.Valid collection) : o₁ = o₂ := by
  have hset : (virtualVaultSecrets collection.Dependencies).length ≤ 1 := by
    rw [(virtualVaultSecrets_perm _).length_eq]; exact hlen
  have hfix : ∀ l : List String, l.Perm (virtualVaultSecrets collection.Dependencies) →
      l = virtualVaultSecrets collection.Dependencies := by
    intro l hl
    cases hs : virtualVaultSecrets collection.Dependencies with
    | nil => rw [hs] at hl; exact List.perm_nil.1 hl
    | cons x xs =>
      cases xs with
      | nil => rw [hs] at hl; exact List.perm_singleton.1 hl
      | cons y ys => rw [hs] at hset; simp at hset
  cases o₁ with
  | mk c₁ i₁ =>
    cases o₂ with
    | mk c₂ i₂ =>
      have e1 : c₁ = c₂ := (hfix c₁ hv₁.1).trans (hfix c₂ hv₂.1).symm
      have e2 : i₁ = i₂ := (hfix i₁ hv₁.2).trans (hfix i₂ hv₂.2).symm
      rw [e1, e2]

theorem samePairs_valid (resources : List K8sResource)
    (deps deps' : List (String × List String)) (o : VaultOrder) (h : SamePairs deps deps') :
    o.Valid { Resources := resources, Dependencies := deps } ↔
      o.Valid { Resources := resources, Dependencies := deps' } := by
  have hperm := samePairs_vaultSet deps deps' h
  constructor
  · rintro ⟨h1, h2⟩; exact ⟨h1.trans hperm, h2.trans hperm⟩
  · rintro ⟨h1, h2⟩; exact ⟨h1.trans hperm.symm, h2.trans hperm.symm⟩

theorem foldl_serviceStep_some {ι : Type} (sel : ι → List (String × JVal))
    (hs : ∀ j, ∀ kv ∈ sel j, isScalar kv.2 = true) (rs : List (ι × K8sResource)) :
    ∀ acc : List String, ∃ out,
      rs.foldl (fun dependencies other => serviceStep (sel other.1) dependencies other.2)
        (some acc) = some out := by
  induction rs with
  | nil => intro acc; exact ⟨acc, rfl⟩
  | cons r rs ih =>
    intro acc
    simp only [List.foldl_cons, serviceStep, matchesSelector_scalar r.2 (sel r.1) (hs r.1)]
    cases selectedBy (sel r.1) r.2 with
    | true => exact ih _
    | false => exact ih _

/-- One call of `findDependencies` ends without a panic, whatever the order of each
`range`, when the record is not a Service with a list or a map as a selector value. -/
theorem findDependenciesUnder_some (ranges : RangeOrder) (hr : ranges.Valid) (i : Nat)
    (resource : K8sResource) (allResources : List K8sResource)
    (hs : scalarSelectors [resource] = true) :
    ∃ ds, findDependenciesUnder ranges i resource allResources = some ds := by
  unfold findDependenciesUnder
  by_cases h1 : resource.Kind = "Service"
  · rw [if_pos h1]
    cases hsel : nestedMap resource.Object ["spec", "selector"] with
    | none => exact ⟨_, rfl⟩
    | some selector =>
      simp only [scalarSelectors, List.all_cons, List.all_nil, Bool.and_true, h1, hsel,
        bne_self_eq_false, Bool.false_or, List.all_eq_true] at hs
      exact foldl_serviceStep_some (fun j => ranges.selector i j selector)
        (fun j kv hkv => hs kv ((hr.1 i j selector).mem_iff.1 hkv)) allResources.enum []
  · rw [if_neg h1]
    repeat' split
    all_goals exact ⟨_, rfl⟩

/-- The loop of `buildDependencies` ends without a panic under the same condition. -/
theorem foldl_buildDependenciesStepUnder_some (ranges : RangeOrder) (hr : ranges.Valid)
    (all : List K8sResource) (rs : List (Nat × K8sResource))
    (hs : scalarSelectors (rs.map Prod.snd) = true) :
    ∀ a : List (String × List String), ∃ out,
      rs.foldl (buildDependenciesStepUnder ranges all) (some a) = some out := by
  induction rs with
  | nil => intro a; exact ⟨a, rfl⟩
  | cons r rs ih =>
    intro a
    simp only [scalarSelectors, List.map_cons, List.all_cons, Bool.and_eq_true] at hs
    obtain ⟨ds, hds⟩ := findDependenciesUnder_some ranges hr r.1 r.2 all
      (by simp only [scalarSelectors, List.all_cons, List.all_nil, Bool.and_true]; exact hs.1)
    simp only [List.foldl_cons, buildDependenciesStepUnder, hds]
    split
    · exact ih hs.2 _
    · exact ih hs.2 _

theorem buildDependenciesUnder_some (ranges : RangeOrder) (hr : ranges.Valid)
    (records : List K8sResource) (hs : scalarSelectors records = true) :
    ∃ built,
      buildDependenciesUnder ranges { Resources := records, Dependencies := [] } =
        some built := by
  have hmap : records.enum.map Prod.snd = records := by
    simp [List.enum, List.enumFrom_map_snd]
  obtain ⟨out, hout⟩ := foldl_buildDependenciesStepUnder_some ranges hr records records.enum
    (by rw [hmap]; exact hs) []
  unfold buildDependenciesUnder
  simp only [hout]
  exact ⟨_, rfl⟩

/-- C16, as amended: for a fixed record sequence, take two runs of `buildDependencies`
followed by `convertToDiagram` in which every `range` over a map follows an order of its
own: the selector at each call of `matchesSelector`, the match labels at each call of
`matchesServiceLabels`, the annotations of each record and of each pod template
(`ranges`, `ranges'`), and the dependency map (`deps`, `deps'`).  Both runs of
`buildDependencies` end without a panic when no Service has a list or a map as a
selector value.  Whenever both end without a panic, the two diagrams have, for the same
traversal order of the set of virtual identifiers (valid for the one run exactly when it
is for the other), the same node sequence and the same set of edges; and with at most
one virtual identifier they have them for any two valid traversal orders of the
identifier set.  Nothing is said of a run that panics, nor of two or more identifiers
traversed in different orders. -/
theorem resolver_builder_determinism (c : Converter) (records : List K8sResource)
    (ranges ranges' : RangeOrder) (hr : ranges.Valid) (hr' : ranges'.Valid) :
    (scalarSelectors records = true →
      ∃ built built',
        buildDependenciesUnder ranges { Resources := records, Dependencies := [] } =
          some built ∧
        buildDependenciesUnder ranges' { Resources := records, Dependencies := [] } =
          some built') ∧
    ∀ (built built' : ResourceCollection) (deps deps' : List (String × List String)),
      buildDependenciesUnder ranges { Resources := records, Dependencies := [] } =
        some built →
      buildDependenciesUnder ranges' { Resources := records, Dependencies := [] } =
        some built' →
      deps.Perm built.Dependencies → deps'.Perm built'.Dependencies →
      (∀ o : VaultOrder,
        (o.Valid { Resources := records, Dependencies := deps } ↔
          o.Valid { Resources := records, Dependencies := deps' }) ∧
        (convertToDiagram c { Resources := records, Dependencies := deps } o).Nodes =
          (convertToDiagram c { Resources := records, Dependencies := deps' } o).Nodes ∧
        ∀ conn,
          conn ∈ (convertToDiagram c
            { Resources := records, Dependencies := deps } o).Connections ↔
          conn ∈ (convertToDiagram c
            { Resources := records, Dependencies := deps' } o).Connections) ∧
      ((markerNames deps).dedup.length ≤ 1 →
        ∀ o₁ o₂ : VaultOrder,
          o₁.Valid { Resources := records, Dependencies := deps } →
          o₂.Valid { Resources := records, Dependencies := deps' } →
          (convertToDiagram c { Resources := records, Dependencies := deps } o₁).Nodes =
            (convertToDiagram c { Resources := records, Dependencies := deps' } o₂).Nodes ∧
          ∀ conn,
            conn ∈ (convertToDiagram c
              { Resources := records, Dependencies := deps } o₁).Connections ↔
            conn ∈ (convertToDiagram c
              { Resources := records, Dependencies := deps' } o₂).Connections) := by
  refine ⟨fun hs => ?_, ?_⟩
  · obtain ⟨built, hb⟩ := buildDependenciesUnder_some ranges hr records hs
    obtain ⟨built', hb'⟩ := buildDependenciesUnder_some ranges' hr' records hs
    exact ⟨built, built', hb, hb'⟩
  intro built built' deps deps' hb hb' hd hd'
  have hsp : SamePairs deps deps' :=
    buildDependenciesUnder_samePairs records ranges ranges' built built' deps deps' hr hr'
      hb hb' hd hd'
  have hsp' : SamePairs deps' deps := fun K d => (hsp K d).symm
  have main : ∀ o : VaultOrder,
      (o.Valid { Resources := records, Dependencies := deps } ↔
        o.Valid { Resources := records, Dependencies := deps' }) ∧
      (convertToDiagram c { Resources := records, Dependencies := deps } o).Nodes =
        (convertToDiagram c { Resources := records, Dependencies := deps' } o).Nodes ∧
      ∀ conn,
        conn ∈ (convertToDiagram c
          { Resources := records, Dependencies := deps } o).Connections ↔
        conn ∈ (convertToDiagram c
          { Resources := records, Dependencies := deps' } o).Connections :=
    fun o => ⟨samePairs_valid records deps deps' o hsp, rfl,
      fun conn => ⟨samePairs_mem_connections c records deps deps' o hsp conn,
        samePairs_mem_connections c records deps' deps o hsp' conn⟩⟩
  refine ⟨main, ?_⟩
  intro hlen o₁ o₂ hv₁ hv₂
  have hv₂' := ((main o₂).1).2 hv₂
  have ho : o₁ = o₂ :=
    valid_unique { Resources := records, Dependencies := deps } o₁ o₂ hlen hv₁ hv₂'
  subst ho
  exact (main o₁).2

/-- Witness of C16: the five records `annotatedRecords`, once with every `range` in list
order and once with every `range` reversed and the dependency map ranged over backwards.
Both runs end; the dependency lists and the edge sequences come out in different orders,
and the nodes and the set of edges are the same. -/
theorem resolver_builder_determinism_witness :
    listOrder.Valid ∧ reverseOrder.Valid ∧ scalarSelectors annotatedRecords = true ∧
    buildDependenciesUnder listOrder { Resources := annotatedRecords, Dependencies := [] } =
      some annotatedListed ∧
    buildDependenciesUnder reverseOrder { Resources := annotatedRecords, Dependencies := [] } =
      some annotatedReversed ∧
    secretAOnly.Valid
      { Resources := annotatedRecords, Dependencies := annotatedListed.Dependencies } ∧
    (convertToDiagram exampleConverter
        { Resources := annotatedRecords, Dependencies := annotatedListed.Dependencies }
        secretAOnly).Connections.map (fun e => (e.SourceID, e.TargetID)) =
      [("node-0", "node-1"), ("node-1", "node-2"), ("node-1", "node-4"),
       ("node-1", "node-3"), ("node-1", "node-5")] ∧
    (convertToDiagram exampleConverter
        { Resources := annotatedRecords,
          Dependencies := annotatedReversed.Dependencies.reverse }
        secretAOnly).Connections.map (fun e => (e.SourceID, e.TargetID)) =
      [("node-1", "node-4"), ("node-1", "node-2"), ("node-1", "node-5"),
       ("node-1", "node-3"), ("node-0", "node-1")] ∧
    (∃ built built',
      buildDependenciesUnder listOrder { Resources := annotatedRecords, Dependencies := [] } =
        some built ∧
      buildDependenciesUnder reverseOrder
        { Resources := annotatedRecords, Dependencies := [] } = some built') ∧
    (∀ o : VaultOrder,
      (o.Valid { Resources := annotatedRecords,
                 Dependencies := annotatedListed.Dependencies } ↔
        o.Valid { Resources := annotatedRecords,
                  Dependencies := annotatedReversed.Dependencies.reverse }) ∧
      (convertToDiagram exampleConverter
          { Resources := annotatedRecords, Dependencies := annotatedListed.Dependencies }
          o).Nodes =
        (convertToDiagram exampleConverter
          { Resources := annotatedRecords,
            Dependencies := annotatedReversed.Dependencies.reverse } o).Nodes ∧
      ∀ conn,
        conn ∈ (convertToDiagram exampleConverter
          { Resources := annotatedRecords, Dependencies := annotatedListed.Dependencies }
          o).Connections ↔
        conn ∈ (convertToDiagram exampleConverter
          { Resources := annotatedRecords,
            Dependencies := annotatedReversed.Dependencies.reverse } o).Connections) ∧
    ((markerNames annotatedListed.Dependencies).dedup.length ≤ 1 →
      ∀ o₁ o₂ : VaultOrder,
        o₁.Valid { Resources := annotatedRecords,
                   Dependencies := annotatedListed.Dependencies } →
        o₂.Valid { Resources := annotatedRecords,
                   Dependencies := annotatedReversed.Dependencies.reverse } →
        (convertToDiagram exampleConverter
            { Resources := annotatedRecords, Dependencies := annotatedListed.Dependencies }
            o₁).Nodes =
          (convertToDiagram exampleConverter
            { Resources := annotatedRecords,
              Dependencies := annotatedReversed.Dependencies.reverse } o₂).Nodes ∧
        ∀ conn,
          conn ∈ (convertToDiagram exampleConverter
            { Resources := annotatedRecords, Dependencies := annotatedListed.Dependencies }
            o₁).Connections ↔
          conn ∈ (convertToDiagram exampleConverter
            { Resources := annotatedRecords,
              Dependencies := annotatedReversed.Dependencies.reverse } o₂).Connections) :=
  ⟨listOrder_valid, reverseOrder_valid, by decide, rfl, rfl,
    ⟨show List.Perm _ _ by decide, show List.Perm _ _ by decide⟩, by decide, by decide,
    (resolver_builder_determinism exampleConverter annotatedRecords listOrder reverseOrder
      listOrder_valid reverseOrder_valid).1 (by decide),
    (resolver_builder_determinism exampleConverter annotatedRecords listOrder reverseOrder
      listOrder_valid reverseOrder_valid).2 annotatedListed annotatedReversed
      annotatedListed.Dependencies annotatedReversed.Dependencies.reverse rfl rfl
      (List.Perm.refl _) (List.reverse_perm _)⟩

/-- Counterexample to C16 as stated.  For the two Deployments with the paths `secret/a`
and `secret/b`, whose dependency map has the two identifiers `vault-secret-a` and
`vault-secret-b`, a run that traverses the identifier set with `vault-secret-a` first has
the node `(node-2, secret/a)` and the edge `node-0 -> node-2`, and a run that traverses
it with `vault-secret-b` first has neither.  And for the Service and the Deployment of
`clashRecords`, a run that visits the selector entry `app` first panics, while a run that
visits `tier` first ends with an empty dependency map. -/
theorem resolver_builder_determinism_counterexample :
    (buildDependencies { Resources := twoSecretRecords, Dependencies := [] }).map
        (fun col => col.Dependencies) = some twoSecretCollection.Dependencies ∧
    secretAFirst.Valid twoSecretCollection ∧ secretBFirst.Valid twoSecretCollection ∧
    ("node-2", "secret/a", "VaultSecret", "vaultstore") ∈
      (convertToDiagram exampleConverter twoSecretCollection secretAFirst).Nodes.map
        (fun n => (n.ID, n.Label, n.Kind, n.Namespace)) ∧
    ("node-2", "secret/a", "VaultSecret", "vaultstore") ∉
      (convertToDiagram exampleConverter twoSecretCollection secretBFirst).Nodes.map
        (fun n => (n.ID, n.Label, n.Kind, n.Namespace)) ∧
    ({ SourceID := "node-0", TargetID := "node-2", Label := "uses", Style := "default" } :
        Connection) ∈
      (convertToDiagram exampleConverter twoSecretCollection secretAFirst).Connections ∧
    ({ SourceID := "node-0", TargetID := "node-2", Label := "uses", Style := "default" } :
        Connection) ∉
      (convertToDiagram exampleConverter twoSecretCollection secretBFirst).Connections ∧
    listOrder.Valid ∧ reverseOrder.Valid ∧
    (buildDependenciesUnder listOrder
        { Resources := clashRecords, Dependencies := [] }).map
      (fun col => col.Dependencies) = none ∧
    (buildDependenciesUnder reverseOrder
        { Resources := clashRecords, Dependencies := [] }).map
      (fun col => col.Dependencies) = some [] :=
  ⟨by decide, secretAFirst_valid, secretBFirst_valid, by decide, by decide, by decide,
    by decide, listOrder_valid, reverseOrder_valid, by decide, by decide⟩

end K8sToDrawio
